import Mathlib

/-!
# ticat: flow description, breakpoints, command execution, session files

A shallow embedding of `pkg/cli/display/flow.go` (the flow description
recursion `DumpFlowEx` / `dumpFlow` / `dumpFlowCmd`), of
`pkg/cli/execute/interactive.go` (the breakpoint checks before a step, after a
step and at the end of a run), of `pkg/cli/core/cmd.go` (`Cmd.Execute` and
`executeFile`), of `pkg/cli/core/proto.go` (the session environment file) and
of `saveFlow` in `pkg/builtin/flow.go`, with the data model of `pkg/cli/core`
they work on.

Conventions of the embedding:

* Go objects that are mutated through pointers (the environment, the written
  key set, the screen, the breakpoint registry, standard input) are threaded
  as explicit state.
* Go maps are association lists; a map used as a set is a list of its keys.
* A Go `panic` is an outcome of its own, never a missing result.
* Functions of the repository that the embedded files call but that are not
  part of the embedded sources, and the case table of the Go library, are
  fields of `Collab`; every theorem holds for all values of these fields.
-/

set_option autoImplicit false

namespace Ticat

/-! ## Data model of `pkg/cli/core` -/

/-- The separator strings a command tree carries (`cmd.Strs`, `cc.Cmds.Strs`). -/
structure CmdTreeStrs where
  PathSep : String
  EnvOpSep : String
  EnvValDelAllMark : String
  EnvKeyValSep : String
  ProtoSep : String
  AbbrsSep : String
  deriving Repr, DecidableEq, Inhabited

/-- The Go type `CmdType` is a string type (cmd.go:14). -/
abbrev CmdType := String

def CmdTypeNormal : CmdType := "normal"
def CmdTypePower : CmdType := "power"
def CmdTypeFile : CmdType := "file"
def CmdTypeEmptyDir : CmdType := "empty"
def CmdTypeDirWithCmd : CmdType := "dir"
def CmdTypeFlow : CmdType := "flow"

/-- The struct `Depend` (cmd.go:387). -/
structure Depend where
  OsCmd : String
  Reason : String
  deriving Repr, DecidableEq, Inhabited

/-- Declared arguments of a command: names in declaration order, default
values and abbreviations (what `Args.Names`, `Args.DefVal`, `Args.Abbrs` return). -/
structure Args where
  names : List String
  defVals : List (String × String)
  abbrs : List (String × List String)
  deriving Repr, DecidableEq, Inhabited

/-- The struct `Cmd` (cmd.go:46): the data fields. The owner pointer is
replaced by the `CmdTree` that holds the command. -/
structure Cmd where
  help : String
  ty : CmdType
  quiet : Bool
  priority : Bool
  args : Args
  cmdLine : String
  flow : List String
  source : String
  depends : List Depend
  metaFile : String
  deriving Repr, DecidableEq, Inhabited

/-- A node of the command tree, as far as the embedded code reads it:
`Name()`, `Path()`, `Cmd()`, `Trivial()`, `Source()` and `Strs`. -/
structure CmdTree where
  name : String
  path : List String
  cmd : Option Cmd
  trivial : Int
  source : String
  Strs : CmdTreeStrs
  deriving Repr, DecidableEq, Inhabited

/-- One argument value (`ArgVal`): the raw text and whether it was provided. -/
structure ArgVal where
  Raw : String
  Provided : Bool
  deriving Repr, DecidableEq, Inhabited

/-- The Go map `ArgVals` (argument name to value). -/
abbrev ArgVals := List (String × ArgVal)

/-- One entry of a parsed environment: the value, whether it is an
argument-style binding, and the path it maps onto. -/
structure ParsedEnvVal where
  Val : String
  IsArg : Bool
  MatchedPath : List String
  deriving Repr, DecidableEq, Inhabited

/-- The Go map `ParsedEnv` (key to `ParsedEnvVal`). -/
abbrev ParsedEnv := List (String × ParsedEnvVal)

structure MatchedCmd where
  Name : String
  Cmd : Option CmdTree
  deriving Repr, DecidableEq, Inhabited

structure ParsedCmdSeg where
  Env : ParsedEnv
  Matched : MatchedCmd
  deriving Repr, DecidableEq, Inhabited

/-- The captured parse outcome of one command: the raw input tokens and the
error, if any. -/
structure ParseResult where
  Input : List String
  Error : Option String
  deriving Repr, DecidableEq, Inhabited

structure ParsedCmd where
  Segments : List ParsedCmdSeg
  ParseResult : ParseResult
  TrivialLvl : Int
  deriving Repr, DecidableEq, Inhabited

structure ParsedCmds where
  GlobalEnv : ParsedEnv
  Cmds : List ParsedCmd
  GlobalCmdIdx : Int
  deriving Repr, DecidableEq, Inhabited

/-- Modelled from the spec: `ParsedCmd.Last`, the last path segment of an
invocation (an invocation without segments has an empty last segment). -/
def ParsedCmd.Last (self : ParsedCmd) : ParsedCmdSeg :=
  self.Segments.getLast?.getD ⟨[], ⟨"", none⟩⟩

/-- Modelled from the spec: `ParsedCmd.LastCmdNode`, the command tree node the
last segment resolved to. -/
def ParsedCmd.LastCmdNode (self : ParsedCmd) : Option CmdTree :=
  self.Last.Matched.Cmd

/-- Modelled from the spec: `ParsedCmd.LastCmd`, the command of the last segment. -/
def ParsedCmd.LastCmd (self : ParsedCmd) : Option Cmd :=
  self.LastCmdNode.bind CmdTree.cmd

/-- Modelled from the spec: `ParsedCmd.IsEmpty`, an invocation without segments. -/
def ParsedCmd.IsEmpty (self : ParsedCmd) : Bool :=
  self.Segments.isEmpty

/-- Modelled from the spec: `ParsedCmd.Path`, the names of the path segments:
the resolved node name where a segment resolved, the matched text otherwise
(the same rule `saveFlow` applies at builtin/flow.go:362). -/
def ParsedCmd.Path (self : ParsedCmd) : List String :=
  self.Segments.map fun seg =>
    match seg.Matched.Cmd with
    | some node => node.name
    | none => seg.Matched.Name

/-- Modelled from the spec: `ParsedCmds.FirstErr`, the parse outcome of the
first command that carries a parse error. -/
def ParsedCmds.FirstErr (self : ParsedCmds) : Option ParseResult :=
  (self.Cmds.find? fun c => c.ParseResult.Error.isSome).map fun c => c.ParseResult

/-- The Go expression `strings.Join(xs, sep)`. -/
def strJoin (xs : List String) (sep : String) : String :=
  sep.intercalate xs

/-- The Go expression `strings.HasPrefix(s, p)`. -/
def startsWith (s p : String) : Bool := p.data.isPrefixOf s.data

/-- The order of Go strings, byte by byte; the order of the code points of two
texts is the order of their UTF-8 bytes. -/
def strLt : List Char → List Char → Bool
  | _, [] => false
  | [], _ :: _ => true
  | a :: as, b :: bs => a.toNat < b.toNat || (a.toNat == b.toNat && strLt as bs)

def insertSorted (k : String) : List String → List String
  | [] => [k]
  | x :: xs => if strLt x.data k.data then x :: insertSorted k xs else k :: x :: xs

/-- The Go call `sort.Strings(keys)`. -/
def sortStrings (keys : List String) : List String := keys.foldr insertSorted []

/-- White space as `unicode.IsSpace` of the Go library defines it, which
`strings.TrimSpace` and `strings.Fields` go by: in Latin-1 the tab, the
newline, the vertical tab, the form feed, the carriage return, the blank,
U+0085 and U+00A0; above Latin-1 the characters with the property White_Space,
U+1680, U+2000 to U+200A, U+2028, U+2029, U+202F, U+205F and U+3000. -/
def isGoSpace (c : Char) : Bool :=
  c == ' ' || c == '\t' || c == '\n' || c == '\r' || c.toNat == 11 || c.toNat == 12 ||
    c.toNat == 0x85 || c.toNat == 0xA0 || c.toNat == 0x1680 ||
    (decide (0x2000 ≤ c.toNat) && decide (c.toNat ≤ 0x200A)) || c.toNat == 0x2028 ||
    c.toNat == 0x2029 || c.toNat == 0x202F || c.toNat == 0x205F || c.toNat == 0x3000

/-- The Go expression `strings.TrimSpace(s)`. -/
def TrimSpace (s : String) : String :=
  ⟨((s.data.dropWhile isGoSpace).reverse.dropWhile isGoSpace).reverse⟩

/-- Lower-casing of one ASCII character (`unicode.ToLower` below U+0080). -/
def lowerChar (c : Char) : Char :=
  if 65 ≤ c.toNat ∧ c.toNat ≤ 90 then Char.ofNat (c.toNat + 32) else c

/-- The Go expression `strings.ToLower(s)`: every character is mapped by
`unicode.ToLower`. Below U+0080 that is `lowerChar`; from U+0080 on it is the
case table of the Go library, which is the parameter `lowerRune`. -/
def ToLower (lowerRune : Char → Char) (s : String) : String :=
  ⟨s.data.map fun c => if c.toNat < 128 then lowerChar c else lowerRune c⟩

/-- A run of decimal digits as a number. -/
def parseDigits : List Char → Nat → Option Nat
  | [], acc => some acc
  | c :: cs, acc =>
    if 48 ≤ c.toNat ∧ c.toNat ≤ 57 then parseDigits cs (acc * 10 + (c.toNat - 48)) else none

/-- Modelled from the spec: the text of an integer value, `none` when malformed. -/
def StrToInt (s : String) : Option Int :=
  match s.data with
  | [] => none
  | '-' :: cs => if cs.isEmpty then none else (parseDigits cs 0).map fun n => -(n : Int)
  | cs => (parseDigits cs 0).map fun n => (n : Int)

/-! ## The layered environment -/

/-- Modelled from the spec: one named layer of the environment, a key to value
store (core/env.go is not among the embedded sources). -/
structure EnvLayer where
  ty : String
  pairs : List (String × String)
  deriving Repr, DecidableEq, Inhabited

/-- Modelled from the spec: the layered environment. An `Env` value is a layer
handle: the layer it points to (`top`) with the less specific layers below it
(`parents`, most specific first). -/
structure Env where
  top : EnvLayer
  parents : List EnvLayer
  deriving Repr, DecidableEq, Inhabited

def EnvLayerDefault : String := "default"
def EnvLayerSession : String := "session"
def EnvLayerCmd : String := "command"

/-- Modelled from the spec: a fresh environment (`NewEnv`): one empty layer. -/
def NewEnv : Env := ⟨⟨EnvLayerDefault, []⟩, []⟩

/-- All layers of a handle, most specific first. -/
def Env.layers (e : Env) : List EnvLayer := e.top :: e.parents

/-- Writing one key of one layer: the key is kept once. -/
def setPair (k v : String) (ps : List (String × String)) : List (String × String) :=
  (k, v) :: ps.filter fun p => p.1 != k

/-- Removing one key of one layer. -/
def delPair (k : String) (ps : List (String × String)) : List (String × String) :=
  ps.filter fun p => p.1 != k

/-- Modelled from the spec: merged read, scanning the layers from the most
specific to the least specific one; `none` when no layer defines the key. -/
def Env.GetEx (e : Env) (k : String) : Option String :=
  e.layers.findSome? fun l => l.pairs.lookup k

/-- Modelled from the spec: `GetRaw`, the merged read with the empty string
for an absent key. -/
def Env.GetRaw (e : Env) (k : String) : String := (e.GetEx k).getD ""

/-- Modelled from the spec: the text of a boolean value. -/
def StrToBool (s : String) : Bool :=
  s == "true" || s == "True" || s == "TRUE" || s == "1" || s == "on" || s == "yes"

/-- Modelled from the spec: `GetBool`, false on absence or on a malformed value. -/
def Env.GetBool (e : Env) (k : String) : Bool := StrToBool (e.GetRaw k)

/-- Modelled from the spec: `GetInt`, zero on absence or on a malformed value. -/
def Env.GetInt (e : Env) (k : String) : Int := (StrToInt (e.GetRaw k)).getD 0

/-- Modelled from the spec: `Set` on a handle writes the layer the handle points to. -/
def Env.Set (e : Env) (k v : String) : Env :=
  { e with top := { e.top with pairs := setPair k v e.top.pairs } }

/-- Modelled from the spec: `Delete` on a handle removes the key from the layer
the handle points to. -/
def Env.Delete (e : Env) (k : String) : Env :=
  { e with top := { e.top with pairs := delPair k e.top.pairs } }

/-- Modelled from the spec: `NewLayer`, a new empty layer on top of a handle. -/
def Env.NewLayer (e : Env) (ty : String) : Env := ⟨⟨ty, []⟩, e.layers⟩

/-- The handle one layer below (the Go field `parent`); the least specific
layer is its own parent here. -/
def Env.Parent (e : Env) : Env :=
  match e.parents with
  | [] => e
  | p :: ps => ⟨p, ps⟩

/-- A new layer with given contents on top of a handle. -/
def Env.Push (e : Env) (l : EnvLayer) : Env := ⟨l, e.layers⟩

/-- Applying a change to the first layer of the given name, if there is one. -/
def mapLayer (ty : String) (f : List (String × String) → List (String × String)) :
    List EnvLayer → List EnvLayer
  | [] => []
  | l :: ls => if l.ty = ty then { l with pairs := f l.pairs } :: ls else l :: mapLayer ty f ls

/-- Applying a change to the layer `GetLayer(ty)` returns. -/
def Env.onLayer (e : Env) (ty : String) (f : List (String × String) → List (String × String)) : Env :=
  if e.top.ty = ty then { e with top := { e.top with pairs := f e.top.pairs } }
  else { e with parents := mapLayer ty f e.parents }

/-- Modelled from the spec: the contents of the layer `GetLayer(ty)` returns
(layer-targeted read, no merging); empty when there is no such layer. -/
def Env.layerPairs (e : Env) (ty : String) : List (String × String) :=
  ((e.layers.find? fun l => l.ty = ty).map EnvLayer.pairs).getD []

/-- The Go expression `env.GetLayer(ty).Set(k, v)`. -/
def Env.LayerSet (e : Env) (ty k v : String) : Env := e.onLayer ty (setPair k v)

/-- The Go expression `env.GetLayer(ty).SetBool(k, b)`. -/
def Env.LayerSetBool (e : Env) (ty k : String) (b : Bool) : Env :=
  e.LayerSet ty k (if b then "true" else "false")

/-- The Go expression `env.GetLayer(ty).Delete(k)`. -/
def Env.LayerDelete (e : Env) (ty k : String) : Env := e.onLayer ty (delPair k)

/-- Modelled from the spec: `ParsedEnv.WriteNotArgTo`: every entry that is not
an argument-style binding is written into the environment; argument-style
bindings are skipped. -/
def ParsedEnv.WriteNotArgTo (self : ParsedEnv) (env : Env) (_valDelAllMark : String) : Env :=
  self.foldl (fun e kv => if kv.2.IsArg then e else e.Set kv.1 kv.2.Val) env

/-- Modelled from the spec: `Flatten`: the key to value mapping of a handle,
merged across its layers (the most specific layer wins) or, when
`innermostOnly` is set or merging is off, of the innermost layer alone, without
the keys that start with an excluded text. -/
def Env.Flatten (e : Env) (mergeAcrossLayers : Bool) (excludes : List String)
    (innermostOnly : Bool) : List (String × String) :=
  let ls := if innermostOnly || !mergeAcrossLayers then [e.top] else e.layers
  let all := ls.foldr (fun l acc => l.pairs.foldr (fun kv acc2 => setPair kv.1 kv.2 acc2) acc) []
  all.filter fun kv => !(excludes.any fun p => startsWith kv.1 p)

/-! ## Records of an executed flow -/

/-- The struct `ExecutedCmd`: the record of one executed invocation; `SubFlow`
is the record of the sub-run of a flow command (`ExecutedFlow.Cmds`). -/
inductive ExecutedCmd where
  | mk (Cmd : String) (Succeeded : Bool) (Unexecuted : Bool) (Err : List String)
      (SubFlow : Option (List ExecutedCmd))

/-- The struct `ExecutedFlow`, given by its field `Cmds`. -/
abbrev ExecutedFlow := List ExecutedCmd

def ExecutedCmd.Cmd : ExecutedCmd → String
  | .mk c _ _ _ _ => c

def ExecutedCmd.Succeeded : ExecutedCmd → Bool
  | .mk _ s _ _ _ => s

def ExecutedCmd.Unexecuted : ExecutedCmd → Bool
  | .mk _ _ u _ _ => u

def ExecutedCmd.Err : ExecutedCmd → List String
  | .mk _ _ _ e _ => e

def ExecutedCmd.SubFlow : ExecutedCmd → Option ExecutedFlow
  | .mk _ _ _ _ f => f

/-! ## Collaborators -/

/-- The colouring helpers of `pkg/cli/display` (`ColorCmd`, `ColorProp`, ...). -/
inductive ColorKind where
  | Cmd | CmdDelay | CmdDone | Prop | Symbol | Error | Explain | Help | Flowing
  | Arg | Key | Flow | Tip | Warn | Disabled
  deriving Repr, DecidableEq

/-- Functions and constants of the repository, and the case table of the Go
library, that the embedded files use and that are not part of the embedded
sources. They are parameters: every theorem holds for all of them.

* `Parse` is `cc.Parser.Parse(cc.Cmds, cc.EnvAbbrs, tokens...)`.
* `ApplyMappingGenEnvAndArgv` returns the contents of the new command layer
  that is put on top of the given environment, and the argument values.
* `TryExeEnvOpCmds` receives the command environment (the command layer on top
  of the described environment, which it may write through) and returns it as
  it is after the call; it closes over the `envOpCmds` list.
* `Flow` and `RenderedFlowStrs` are the methods of `Cmd` called at
  flow.go:252, 315 and 358, with the rendered flag they return.
* `InteractiveMode` is `builtin.InteractiveMode`: given the environment and
  what the coming reads of standard input return, it returns the environment,
  the number of reads it made and what it printed.
* `UnicodeToLower` is `unicode.ToLower` of the Go library on the characters
  from U+0080 on: the case table of the library is not reproduced. -/
structure Collab where
  Parse : List String → ParsedCmds
  CmdTypeFileNFlow : CmdType
  Color : ColorKind → String → Env → String
  autoPadNewLine : String → String → String
  mayQuoteStr : String → String
  PrintTipTitle : Env → String → List String
  DisplayPath : ParsedCmd → String → Bool → String
  ApplyMappingGenEnvAndArgv : ParsedCmd → Env → String → String → EnvLayer × ArgVals
  GenCmdEnv : ParsedCmd → Env → String → Env
  SysArgvIsDelay : Env → List String → String → Bool
  SysArgvDelayStr : Env → List String → String → String
  DumpEffectedArgs : Env → Cmd → ArgVals → List String → List String
  Flow : Cmd → ArgVals → Env → Bool → List String × Bool
  RenderedFlowStrs : Cmd → ArgVals → Env → Bool → List String × Bool
  RenderedEnvKeys : Cmd → ArgVals → Env → Bool → List String × List String
  dumpEnvOps : Cmd → String → String → String
  dumpIsAutoTimerKey : Env → Cmd → String → String
  Val2Env : Cmd → List (String × String)
  Arg2EnvKey : Cmd → String → Option String
  TryExeEnvOpCmds : ArgVals → Env → ParsedCmds → Nat → Env
  HasSubFlow : Cmd → Bool
  InteractiveMode : Env → List String → Env × Nat × List String
  UnicodeToLower : Char → Char

/-- The root of the command tree as far as the description reads it
(`cc.Cmds.Strs`). -/
structure Cli where
  Cmds : CmdTree

/-! ## `pkg/cli/display/flow.go` -/

/-- The struct `DumpFlowArgs` (flow.go:460). -/
structure DumpFlowArgs where
  Simple : Bool
  Skeleton : Bool
  IndentSize : Int
  MaxDepth : Int
  MaxTrivial : Int
  deriving Repr, DecidableEq

/-- `NewDumpFlowArgs` (flow.go:468). -/
def NewDumpFlowArgs : DumpFlowArgs := ⟨false, false, 4, 32, 1⟩

def DumpFlowArgs.SetSimple (self : DumpFlowArgs) : DumpFlowArgs := { self with Simple := true }

def DumpFlowArgs.SetMaxDepth (self : DumpFlowArgs) (val : Int) : DumpFlowArgs :=
  { self with MaxDepth := val }

def DumpFlowArgs.SetMaxTrivial (self : DumpFlowArgs) (val : Int) : DumpFlowArgs :=
  { self with MaxTrivial := val }

def DumpFlowArgs.SetSkeleton (self : DumpFlowArgs) : DumpFlowArgs :=
  { self with Simple := true, Skeleton := true }

/-- What a description run did, beyond the text it printed: the steps whose
head line was printed (flow.go:164, 178), the steps that took the folding
branch (flow.go:247), the calls of `cic.Flow` with what they returned
(flow.go:252, 358) and the calls of the parser (flow.go:254, 364). Each event
carries the `indentAdjust` of the call of `dumpFlowCmd` that made it, which is
twice the nesting level of the step. -/
inductive Event where
  | shown (indentAdjust : Int) (cmdId : String)
  | folded (indentAdjust : Int) (cmdId : String)
  | render (indentAdjust : Int) (cmdId : String) (subFlow : List String) (rendered : Bool)
  | parse (indentAdjust : Int) (tokens : List String)
  deriving Repr, DecidableEq

/-- The `indentAdjust` an event carries. -/
def Event.indent : Event → Int
  | .shown i _ => i
  | .folded i _ => i
  | .render i _ _ _ => i
  | .parse i _ => i

/-- The objects a description run mutates: the (cloned) environment, the
written key set `FlowWrittenKeys`, the screen, and the record of events. -/
structure DumpState where
  env : Env
  writtenKeys : List String
  screen : List String
  trace : List Event
  deriving Repr, DecidableEq

/-- How a call ends: it returns a boolean, it panics, or the recursion budget of
the embedding ran out before it returned. -/
inductive Outcome where
  | done (ok : Bool)
  | panic (err : String)
  | outOfFuel
  deriving Repr, DecidableEq

/-- The state a call leaves and how it ended. -/
structure Run where
  st : DumpState
  out : Outcome
  deriving Repr, DecidableEq

/-- A recursive call `dumpFlow(cc, env, envOpCmds, parsedFlow, 0, args,
executedFlow, running, writtenKeys, maxDepth, maxTrivial, indentAdjust)`:
state, flow, executed record, depth budget, trivial budget, indent. -/
abbrev RecCall := DumpState → ParsedCmds → Option ExecutedFlow → Int → Int → Int → Run

def DumpState.print (st : DumpState) (s : String) : DumpState :=
  { st with screen := st.screen ++ [s] }

def DumpState.log (st : DumpState) (e : Event) : DumpState :=
  { st with trace := st.trace ++ [e] }

/-- Modelled from the spec: the display helper `rpt`, a text repeated. -/
def rpt (s : String) (n : Int) : String := String.join (List.replicate n.toNat s)

/-- The closure `prt` of `dumpFlowCmd` (flow.go:120). -/
def prt (lib : Collab) (args : DumpFlowArgs) (indentAdjust : Int) (st : DumpState)
    (indentLvl : Int) (msg : String) : DumpState :=
  let padding := rpt " " (args.IndentSize * (indentLvl + indentAdjust))
  st.print (padding ++ lib.autoPadNewLine padding msg ++ "\n")

/-- A loop `for _, line := range lines { prt(lvl, f(line)) }`. -/
def prtAll (lib : Collab) (args : DumpFlowArgs) (indentAdjust : Int) (st : DumpState)
    (indentLvl : Int) (lines : List String) : DumpState :=
  lines.foldl (fun s l => prt lib args indentAdjust s indentLvl l) st

/-- The condition `executedCmd == nil || executedCmd.Succeeded`. -/
def execOk (executedCmd : Option ExecutedCmd) : Bool :=
  match executedCmd with
  | none => true
  | some e => e.Succeeded

/-- The condition `executedCmd != nil && !executedCmd.Succeeded`. -/
def execFailed (executedCmd : Option ExecutedCmd) : Bool :=
  match executedCmd with
  | none => false
  | some e => !e.Succeeded

/-- The struct `flowEnvVal` (flow.go:403). -/
structure flowEnvVal where
  Val : String
  Source : String
  deriving Repr, DecidableEq, Inhabited

/-- Writing one key of the map `kvs` of `dumpFlowEnv`. -/
def setKv (k : String) (v : flowEnvVal) (kvs : List (String × flowEnvVal)) :
    List (String × flowEnvVal) :=
  (k, v) :: kvs.filter fun p => p.1 != k

/-- The function `dumpFlowEnv` (flow.go:408): the keys, sorted, and the map. -/
def dumpFlowEnv (lib : Collab) (cc : Cli) (env : Env) (parsedGlobalEnv : ParsedEnv)
    (parsedCmd : ParsedCmd) (cmd : CmdTree) (argv : ArgVals) (writtenKeys : List String) :
    List String × List (String × flowEnvVal) :=
  match cmd.cmd with
  | none => ([], [])
  | some cic =>
    let tempEnv := parsedGlobalEnv.WriteNotArgTo NewEnv cc.Cmds.Strs.EnvValDelAllMark
    let cmdEssEnv := lib.GenCmdEnv parsedCmd tempEnv cc.Cmds.Strs.EnvValDelAllMark
    let kvs1 := (lib.Val2Env cic).foldl
      (fun kvs kv => setKv kv.1 ⟨kv.2, lib.Color .Symbol "<- mod" env⟩ kvs) []
    let kvs2 := (cmdEssEnv.Flatten true [] true).foldl
      (fun kvs kv => setKv kv.1 ⟨kv.2, lib.Color .Symbol "<- flow" env⟩ kvs) kvs1
    let kvs3 := argv.foldl (fun kvs nv =>
      if !nv.2.Provided && nv.2.Raw.length == 0 then kvs
      else match lib.Arg2EnvKey cic nv.1 with
        | none => kvs
        | some key =>
          if !nv.2.Provided && (env.GetEx key).isSome then kvs
          else if writtenKeys.contains key then kvs
          else setKv key ⟨nv.2.Raw, lib.Color .Symbol "<- arg" env ++
            lib.Color .Arg (" '" ++ nv.1 ++ "'") env⟩ kvs) kvs2
    (sortStrings (kvs3.map Prod.fst), kvs3)

/-- The method `FlowWrittenKeys.AddCmd` (flow.go:495). -/
def FlowWrittenKeys.AddCmd (lib : Collab) (self : List String) (argv : ArgVals) (env : Env)
    (cic : Cmd) : List String :=
  (lib.RenderedEnvKeys cic argv env false).1.foldl
    (fun ks k => if ks.contains k then ks else ks ++ [k]) self

/-- The head of `dumpFlowCmd` (flow.go:137-208): the step's head line, its
help and, with an executed record, its errors. The second component is the
value of an early `return` (flow.go:165, 190). -/
def dumpFlowCmdHead (lib : Collab) (args : DumpFlowArgs) (parsedCmd : ParsedCmd)
    (cmd : CmdTree) (cic : Cmd) (cmdEnv : Env) (trivialMark : String) (trivialDelta : Int)
    (executedCmd : Option ExecutedCmd) (running : Bool)
    (maxDepth maxTrivial indentAdjust : Int) (st : DumpState) : DumpState × Option Bool :=
  if execFailed executedCmd || (decide (maxTrivial > 0) && decide (maxDepth > 0)) then
    let env := st.env
    let sep := cmd.Strs.PathSep
    let cmdId := strJoin parsedCmd.Path sep
    let isDelay := lib.SysArgvIsDelay cmdEnv cmd.path sep
    let name0 := if args.Skeleton then cmdId else lib.DisplayPath parsedCmd sep true
    let name1 :=
      if isDelay then lib.Color .CmdDelay ("[" ++ name0 ++ "]") env
      else lib.Color .Cmd ("[" ++ name0 ++ "]") env
    let name2 :=
      if execOk executedCmd && decide (maxTrivial = 1) && decide (trivialDelta > 0) &&
          (cic.ty == CmdTypeFlow || cic.ty == lib.CmdTypeFileNFlow) then
        name1 ++ lib.Color .Prop trivialMark env
      else name1
    let name3 :=
      if isDelay then
        name2 ++ lib.Color .CmdDelay " (schedule in " env ++
          lib.SysArgvDelayStr cmdEnv cmd.path sep ++ lib.Color .CmdDelay ")" env
      else name2
    match executedCmd with
    | none =>
      let st1 := (prt lib args indentAdjust st 0 name3).log (.shown indentAdjust cmdId)
      let st2 :=
        if cic.help.length != 0 then
          if !args.Skeleton then
            prt lib args indentAdjust st1 1 (" " ++ lib.Color .Help ("'" ++ cic.help ++ "'") env)
          else prt lib args indentAdjust st1 1 (lib.Color .Help ("'" ++ cic.help ++ "'") env)
        else st1
      (st2, none)
    | some e =>
      if e.Cmd != cmdId then
        let name4 := name3 ++ lib.Color .Symbol " - " env ++
          lib.Color .Error "flow not matched, origin cmd: " env ++
          lib.Color .Cmd ("[" ++ e.Cmd ++ "]") env
        ((prt lib args indentAdjust st 0 name4).log (.shown indentAdjust cmdId), some false)
      else
        let name4 :=
          if e.Unexecuted then name3 ++ lib.Color .Symbol " - " env ++ lib.Color .Explain "un-run" env
          else if e.Succeeded then name3 ++ lib.Color .Symbol " - " env ++ lib.Color .CmdDone "OK" env
          else if running then name3 ++ lib.Color .Symbol " - " env ++ lib.Color .Error "not-done" env
          else name3 ++ lib.Color .Symbol " - " env ++ lib.Color .Error "ERR" env
        let st1 := (prt lib args indentAdjust st 0 name4).log (.shown indentAdjust cmdId)
        let st2 :=
          if cic.help.length != 0 then
            if !args.Skeleton then
              prt lib args indentAdjust st1 1 (" " ++ lib.Color .Help ("'" ++ cic.help ++ "'") env)
            else prt lib args indentAdjust st1 1 (lib.Color .Help ("'" ++ cic.help ++ "'") env)
          else st1
        if e.Unexecuted then (st2, some true)
        else if !args.Skeleton then
          let st3 :=
            if e.Err.length != 0 then prt lib args indentAdjust st2 1 (lib.Color .Error "- error:" env)
            else st2
          (prtAll lib args indentAdjust st3 2 (e.Err.map fun line => lib.Color .Error line env), none)
        else
          let st3 :=
            if e.Err.length != 0 then
              prt lib args indentAdjust st2 0 ("  " ++ lib.Color .Error " - error:" env)
            else st2
          (prtAll lib args indentAdjust st3 1 (e.Err.map fun line => " " ++ lib.Color .Error line env),
            none)
  else (st, none)

/-- The argument lines of `dumpFlowCmd` (flow.go:213-240). -/
def dumpFlowCmdArgs (lib : Collab) (args : DumpFlowArgs) (cic : Cmd) (originEnv : Env)
    (argv : ArgVals) (executedCmd : Option ExecutedCmd)
    (maxDepth maxTrivial indentAdjust : Int) (st : DumpState) : DumpState :=
  if execFailed executedCmd || (decide (maxTrivial > 0) && decide (maxDepth > 0)) then
    if !args.Skeleton then
      let argLines := lib.DumpEffectedArgs originEnv cic argv st.writtenKeys
      let st1 :=
        if argLines.length != 0 then prt lib args indentAdjust st 1 (lib.Color .Prop "- args:" st.env)
        else st
      prtAll lib args indentAdjust st1 2 argLines
    else
      prtAll lib args indentAdjust st 1
        ((argv.filter fun nv => nv.2.Provided).map fun nv =>
          " " ++ lib.Color .Arg nv.1 st.env ++ lib.Color .Symbol " = " st.env ++ nv.2.Raw)
  else st

/-- The folding branch of `dumpFlowCmd` (flow.go:247-267): the sub-flow is
rendered and parsed for checking, its global environment is written back, and
the recursion goes on with the reduced budgets. -/
def dumpFlowCmdFolded (dumpFlowRec : RecCall) (lib : Collab) (cc : Cli) (flow : ParsedCmds)
    (currCmdIdx : Nat) (parsedCmd : ParsedCmd) (cmd : CmdTree) (cic : Cmd) (cmdLayer : EnvLayer)
    (argv : ArgVals) (executedCmd : Option ExecutedCmd)
    (maxDepth trivial indentAdjust : Int) (st : DumpState) : Run :=
  let cmdId := strJoin parsedCmd.Path cmd.Strs.PathSep
  let st0 := st.log (.folded indentAdjust cmdId)
  let cmdEnv := lib.TryExeEnvOpCmds argv (st0.env.Push cmdLayer) flow currCmdIdx
  let st1 := { st0 with env := cmdEnv.Parent }
  let rendering := lib.Flow cic argv cmdEnv true
  let st2 := st1.log (.render indentAdjust cmdId rendering.1 rendering.2)
  if rendering.2 then
    let parsedFlow := lib.Parse rendering.1
    let st3 := st2.log (.parse indentAdjust rendering.1)
    match parsedFlow.FirstErr with
    | some err => ⟨st3, .panic (err.Error.getD "")⟩
    | none =>
      let st4 := { st3 with
        env := parsedFlow.GlobalEnv.WriteNotArgTo st3.env cc.Cmds.Strs.EnvValDelAllMark }
      dumpFlowRec st4 parsedFlow (executedCmd.bind ExecutedCmd.SubFlow)
        (maxDepth - 1) trivial (indentAdjust + 2)
  else ⟨st2, .done (execOk executedCmd)⟩

/-- The lines of `dumpFlowCmd` about the step itself in the expanding branch
(flow.go:270-309): environment values, written keys, environment operations,
command type and origin. -/
def dumpFlowCmdBody (lib : Collab) (cc : Cli) (args : DumpFlowArgs) (flow : ParsedCmds)
    (parsedCmd : ParsedCmd) (cmd : CmdTree) (cic : Cmd) (originEnv : Env) (cmdLayer : EnvLayer)
    (argv : ArgVals) (indentAdjust : Int) (st : DumpState) : DumpState :=
  let env := st.env
  let cmdEnv := env.Push cmdLayer
  let envOpSep := " " ++ cmd.Strs.EnvOpSep ++ " "
  let st1 :=
    if !args.Skeleton then
      let kk := dumpFlowEnv lib cc originEnv flow.GlobalEnv parsedCmd cmd argv st.writtenKeys
      let sa :=
        if kk.1.length != 0 then prt lib args indentAdjust st 1 (lib.Color .Prop "- env-values:" env)
        else st
      prtAll lib args indentAdjust sa 2 (kk.1.map fun k =>
        let v := (kk.2.lookup k).getD default
        lib.Color .Key k env ++ lib.Color .Symbol " = " env ++ lib.mayQuoteStr v.Val ++ " " ++
          v.Source ++ "")
    else st
  let st2 := { st1 with writtenKeys := FlowWrittenKeys.AddCmd lib st1.writtenKeys argv env cic }
  let st3 :=
    if !args.Skeleton then
      let ko := lib.RenderedEnvKeys cic argv cmdEnv false
      let sa :=
        if ko.1.length != 0 then prt lib args indentAdjust st2 1 (lib.Color .Prop "- env-ops:" env)
        else st2
      prtAll lib args indentAdjust sa 2 ((ko.1.zip ko.2).map fun ko =>
        lib.Color .Key ko.1 env ++ lib.Color .Symbol " = " env ++
          lib.dumpEnvOps cic ko.2 envOpSep ++ lib.dumpIsAutoTimerKey env cic ko.1)
    else st2
  if !args.Simple && !args.Skeleton then
    let line0 : String := cic.ty
    let line1 := if cic.quiet then line0 ++ " quiet" else line0
    let line2 := if cic.priority then line1 ++ " priority" else line1
    let sa := prt lib args indentAdjust st3 1 (lib.Color .Prop "- cmd-type:" env)
    let sb := prt lib args indentAdjust sa 2 line2
    if cmd.source.length != 0 && !(startsWith cic.cmdLine cmd.source) then
      prt lib args indentAdjust (prt lib args indentAdjust sb 1 (lib.Color .Prop "- from:" env))
        2 cmd.source
    else sb
  else st3

/-- Whether the step is a flow command with text (flow.go:311-314 and 357). -/
def isFlowTy (lib : Collab) (cic : Cmd) : Bool :=
  cic.ty == CmdTypeFlow || cic.ty == lib.CmdTypeFileNFlow

/-- The lines of `dumpFlowCmd` about the sub-flow text (flow.go:313-355), with
the duplicate check against `metFlows`. Returns the state, the new `metFlows`
and the local `metFlow`. -/
def dumpFlowCmdFlowLines (lib : Collab) (args : DumpFlowArgs) (cic : Cmd) (cmdLayer : EnvLayer)
    (argv : ArgVals) (executedCmd : Option ExecutedCmd) (maxDepth indentAdjust : Int)
    (metFlows : List String) (st : DumpState) : DumpState × List String × Bool :=
  let env := st.env
  let cmdEnv := env.Push cmdLayer
  if isFlowTy lib cic then
    let flowStrs := (lib.RenderedFlowStrs cic argv cmdEnv true).1
    let flowStr := strJoin flowStrs " "
    let metFlow := metFlows.contains flowStr
    let marked : DumpState × List String :=
      if execOk executedCmd && metFlow then
        if !args.Skeleton then
          (prt lib args indentAdjust st 1 (lib.Color .Prop "- flow (duplicated):" env), metFlows)
        else (prt lib args indentAdjust st 1 (lib.Color .Prop "(duplicated sub flow)" env), metFlows)
      else
        let met := if metFlow then metFlows else metFlows ++ [flowStr]
        if execOk executedCmd && decide (maxDepth ≤ 1) then
          if !args.Skeleton then
            (prt lib args indentAdjust st 1 (lib.Color .Prop "- flow (folded):" env), met)
          else (prt lib args indentAdjust st 1 (lib.Color .Prop "(folded flow)" env), met)
        else if !args.Skeleton then
          (prt lib args indentAdjust st 1 (lib.Color .Prop "- flow:" env), met)
        else (st, met)
    let st2 :=
      if !args.Skeleton then
        prtAll lib args indentAdjust marked.1 2 (flowStrs.map fun s => lib.Color .Flow s env)
      else marked.1
    (st2, marked.2, metFlow)
  else if !args.Simple && !args.Skeleton then
    let sa :=
      if cic.ty == CmdTypeEmptyDir then
        prt lib args indentAdjust (prt lib args indentAdjust st 1 (lib.Color .Prop "- dir:" env))
          2 cic.cmdLine
      else
        prt lib args indentAdjust
          (prt lib args indentAdjust st 1 (lib.Color .Prop "- executable:" env)) 2 cic.cmdLine
    let sb :=
      if cic.metaFile.length != 0 then
        prt lib args indentAdjust (prt lib args indentAdjust sa 1 (lib.Color .Prop "- meta:" env))
          2 cic.metaFile
      else sa
    (sb, metFlows, false)
  else (st, metFlows, false)

/-- The end of `dumpFlowCmd` (flow.go:398-400): the environment operations of
the step are applied and the step reports whether it succeeded. -/
def dumpFlowCmdEnd (lib : Collab) (flow : ParsedCmds) (currCmdIdx : Nat) (cmdLayer : EnvLayer)
    (argv : ArgVals) (executedCmd : Option ExecutedCmd) (st : DumpState) : Run :=
  let cmdEnv := lib.TryExeEnvOpCmds argv (st.env.Push cmdLayer) flow currCmdIdx
  ⟨{ st with env := cmdEnv.Parent }, .done (execOk executedCmd)⟩

/-- The recursion of the expanding branch of `dumpFlowCmd` (flow.go:357-395):
the sub-flow is rendered; unless it is empty or a duplicate it is parsed, its
global environment is written back and it is described with the new budgets. -/
def dumpFlowCmdSub (dumpFlowRec : RecCall) (lib : Collab) (cc : Cli) (args : DumpFlowArgs)
    (flow : ParsedCmds) (currCmdIdx : Nat) (parsedCmd : ParsedCmd) (cmd : CmdTree) (cic : Cmd)
    (cmdLayer : EnvLayer) (argv : ArgVals) (executedCmd : Option ExecutedCmd)
    (maxDepth trivial indentAdjust : Int) (metFlow : Bool) (st : DumpState) : Run :=
  if isFlowTy lib cic then
    let cmdId := strJoin parsedCmd.Path cmd.Strs.PathSep
    let rendering := lib.Flow cic argv (st.env.Push cmdLayer) true
    let st1 := st.log (.render indentAdjust cmdId rendering.1 rendering.2)
    if rendering.2 && rendering.1.length != 0 then
      if !(metFlow && execOk executedCmd) then
        let st2 :=
          if execFailed executedCmd || decide (maxDepth > 1) then
            prt lib args indentAdjust st1 2 (lib.Color .Flowing "--->>>" st1.env)
          else st1
        let parsedFlow := lib.Parse rendering.1
        let st3 := st2.log (.parse indentAdjust rendering.1)
        match parsedFlow.FirstErr with
        | some err => ⟨st3, .panic (err.Error.getD "")⟩
        | none =>
          let st4 := { st3 with
            env := parsedFlow.GlobalEnv.WriteNotArgTo st3.env cc.Cmds.Strs.EnvValDelAllMark }
          let newMaxDepth := if execOk executedCmd then maxDepth - 1 else maxDepth
          let sub := dumpFlowRec st4 parsedFlow (executedCmd.bind ExecutedCmd.SubFlow)
            newMaxDepth trivial (indentAdjust + 2)
          match sub.out with
          | .done true =>
            let exeMark := if cic.ty == lib.CmdTypeFileNFlow then lib.Color .Cmd " +" sub.st.env else ""
            let st5 :=
              if execOk executedCmd && decide (maxDepth > 1) then
                prt lib args indentAdjust sub.st 2 (lib.Color .Flowing "<<<---" sub.st.env ++ exeMark)
              else sub.st
            dumpFlowCmdEnd lib flow currCmdIdx cmdLayer argv executedCmd st5
          | .done false => ⟨sub.st, .done false⟩
          | other => ⟨sub.st, other⟩
      else dumpFlowCmdEnd lib flow currCmdIdx cmdLayer argv executedCmd st1
    else dumpFlowCmdEnd lib flow currCmdIdx cmdLayer argv executedCmd st1
  else dumpFlowCmdEnd lib flow currCmdIdx cmdLayer argv executedCmd st

/-- The expanding branch of `dumpFlowCmd` (flow.go:270-400). -/
def dumpFlowCmdExpanded (dumpFlowRec : RecCall) (lib : Collab) (cc : Cli) (args : DumpFlowArgs)
    (flow : ParsedCmds) (currCmdIdx : Nat) (parsedCmd : ParsedCmd) (cmd : CmdTree) (cic : Cmd)
    (originEnv : Env) (cmdLayer : EnvLayer) (argv : ArgVals) (executedCmd : Option ExecutedCmd)
    (maxDepth trivial indentAdjust : Int) (metFlows : List String) (st : DumpState) :
    Run × List String :=
  let st1 := dumpFlowCmdBody lib cc args flow parsedCmd cmd cic originEnv cmdLayer argv
    indentAdjust st
  if (cic.cmdLine.length != 0 || cic.flow.length != 0) &&
      cic.ty != CmdTypeNormal && cic.ty != CmdTypePower then
    let fl := dumpFlowCmdFlowLines lib args cic cmdLayer argv executedCmd maxDepth indentAdjust
      metFlows st1
    (dumpFlowCmdSub dumpFlowRec lib cc args flow currCmdIdx parsedCmd cmd cic cmdLayer argv
      executedCmd maxDepth trivial indentAdjust fl.2.2 fl.1, fl.2.1)
  else (dumpFlowCmdEnd lib flow currCmdIdx cmdLayer argv executedCmd st1, metFlows)

/-- The function `dumpFlowCmd` (flow.go:91): the description of one step.
`dumpFlowRec` stands for the recursive call of `dumpFlow`; the result is the
run of the step and the map `metFlows` as the step leaves it. -/
def dumpFlowCmd (dumpFlowRec : RecCall) (lib : Collab) (cc : Cli) (st : DumpState)
    (flow : ParsedCmds) (currCmdIdx : Nat) (args : DumpFlowArgs)
    (executedCmd : Option ExecutedCmd) (running : Bool)
    (maxDepth maxTrivial indentAdjust : Int) (metFlows : List String) : Run × List String :=
  let parsedCmd := flow.Cmds.getD currCmdIdx default
  match parsedCmd.Last.Matched.Cmd with
  | none => (⟨st, .done true⟩, metFlows)
  | some cmd =>
    let trivialMark := st.env.GetRaw "strs.trivial-mark"
    let sep := cmd.Strs.PathSep
    match cmd.cmd with
    | none => (⟨st, .done true⟩, metFlows)
    | some cic =>
      let trivialDelta := cmd.trivial + parsedCmd.TrivialLvl
      let gen := lib.ApplyMappingGenEnvAndArgv parsedCmd st.env cc.Cmds.Strs.EnvValDelAllMark sep
      let cmdLayer := gen.1
      let argv := gen.2
      let head := dumpFlowCmdHead lib args parsedCmd cmd cic (st.env.Push cmdLayer) trivialMark
        trivialDelta executedCmd running maxDepth maxTrivial indentAdjust st
      match head.2 with
      | some b => (⟨head.1, .done b⟩, metFlows)
      | none =>
        let originEnv := head.1.env
        let st1 := dumpFlowCmdArgs lib args cic originEnv argv executedCmd maxDepth maxTrivial
          indentAdjust head.1
        let trivial := maxTrivial - trivialDelta
        if execOk executedCmd && (decide (trivial ≤ 0) || decide (maxDepth ≤ 0)) then
          (dumpFlowCmdFolded dumpFlowRec lib cc flow currCmdIdx parsedCmd cmd cic cmdLayer argv
            executedCmd maxDepth trivial indentAdjust st1, metFlows)
        else
          dumpFlowCmdExpanded dumpFlowRec lib cc args flow currCmdIdx parsedCmd cmd cic originEnv
            cmdLayer argv executedCmd maxDepth trivial indentAdjust metFlows st1

/-- The loop of `dumpFlow` (flow.go:70-88) over the commands from `fromCmdIdx`
on; `i` is the loop index. -/
def dumpFlowLoop (dumpFlowRec : RecCall) (lib : Collab) (cc : Cli) (flow : ParsedCmds)
    (fromCmdIdx : Nat) (args : DumpFlowArgs) (executedFlow : Option ExecutedFlow)
    (running : Bool) (maxDepth maxTrivial indentAdjust : Int) :
    List ParsedCmd → Nat → DumpState → List String → Run × List String
  | [], _, st, metFlows => (⟨st, .done true⟩, metFlows)
  | cmd :: rest, i, st, metFlows =>
    if cmd.IsEmpty then
      dumpFlowLoop dumpFlowRec lib cc flow fromCmdIdx args executedFlow running maxDepth
        maxTrivial indentAdjust rest (i + 1) st metFlows
    else
      match executedFlow with
      | some ef =>
        if i < ef.length then
          let r := dumpFlowCmd dumpFlowRec lib cc st flow (fromCmdIdx + i) args (ef.get? i) running
            maxDepth maxTrivial indentAdjust metFlows
          match r.1.out with
          | .done true =>
            dumpFlowLoop dumpFlowRec lib cc flow fromCmdIdx args executedFlow running maxDepth
              maxTrivial indentAdjust rest (i + 1) r.1.st r.2
          | .done false => (⟨r.1.st, .done false⟩, r.2)
          | other => (⟨r.1.st, other⟩, r.2)
        else (⟨st, .done false⟩, metFlows)
      | none =>
        let r := dumpFlowCmd dumpFlowRec lib cc st flow (fromCmdIdx + i) args none running
          maxDepth maxTrivial indentAdjust metFlows
        match r.1.out with
        | .done true =>
          dumpFlowLoop dumpFlowRec lib cc flow fromCmdIdx args executedFlow running maxDepth
            maxTrivial indentAdjust rest (i + 1) r.1.st r.2
        | .done false => (⟨r.1.st, .done false⟩, r.2)
        | other => (⟨r.1.st, other⟩, r.2)

/-- The function `dumpFlow` (flow.go:55). The first argument bounds the depth
of the call stack: a call that would need a deeper stack ends `outOfFuel`. Each
call starts with an empty `metFlows` (flow.go:69). -/
def dumpFlow (lib : Collab) (cc : Cli) (args : DumpFlowArgs) (running : Bool) :
    Nat → DumpState → ParsedCmds → Nat → Option ExecutedFlow → Int → Int → Int → Run
  | 0, st, _, _, _, _, _, _ => ⟨st, .outOfFuel⟩
  | fuel + 1, st, flow, fromCmdIdx, executedFlow, maxDepth, maxTrivial, indentAdjust =>
    (dumpFlowLoop
      (fun st2 flow2 ef2 d2 t2 i2 => dumpFlow lib cc args running fuel st2 flow2 0 ef2 d2 t2 i2)
      lib cc flow fromCmdIdx args executedFlow running maxDepth maxTrivial indentAdjust
      (flow.Cmds.drop fromCmdIdx) 0 st []).1

/-- The environment objects of the program, addressed by position: an
environment pointer of the Go program is an index into the heap. -/
abbrev Heap := List Env

/-- What `DumpFlowEx` leaves: the environment objects, the screen, the record
of events, and how the description ended. -/
structure DumpResult where
  heap : Heap
  screen : List String
  trace : List Event
  out : Outcome
  deriving Repr, DecidableEq

/-- The function `DumpFlowEx` (flow.go:22). `env` points to the caller's
environment; `env.Clone()` allocates a new object holding a copy, and the
description works on that object. -/
def DumpFlowEx (lib : Collab) (cc : Cli) (fuel : Nat) (heap : Heap) (screen : List String)
    (env : Nat) (flow : ParsedCmds) (fromCmdIdx : Nat) (args : DumpFlowArgs)
    (executedFlow : Option ExecutedFlow) (running : Bool) : DumpResult :=
  if flow.Cmds.length = 0 then ⟨heap, screen, [], .done true⟩
  else
    let clone := heap.length
    let heap1 := heap ++ [heap.getD env default]
    let st0 : DumpState := ⟨heap1.getD clone default, [], screen, []⟩
    let st1 :=
      match executedFlow with
      | some _ => st0
      | none =>
        (lib.PrintTipTitle st0.env "flow executing description:").foldl DumpState.print st0
    let st2 := st1.print (lib.Color .Flowing "--->>>" st1.env ++ "\n")
    let r := dumpFlow lib cc args running fuel st2 flow fromCmdIdx executedFlow
      args.MaxDepth args.MaxTrivial 0
    let st3 :=
      match r.out with
      | .done true => r.st.print (lib.Color .Flowing "<<<---" r.st.env ++ "\n")
      | _ => r.st
    ⟨heap1.set clone st3.env, st3.screen, st3.trace, r.out⟩

/-- The function `DumpFlow` (flow.go:10). -/
def DumpFlow (lib : Collab) (cc : Cli) (fuel : Nat) (heap : Heap) (screen : List String)
    (env : Nat) (flow : ParsedCmds) (fromCmdIdx : Nat) (args : DumpFlowArgs) : DumpResult :=
  DumpFlowEx lib cc fuel heap screen env flow fromCmdIdx args none false

/-! ## Concrete collaborators for the worked examples -/

def exStrs : CmdTreeStrs := ⟨".", ":", "--", "=", "\t", "|"⟩

def exCmd (ty : CmdType) (flow : List String) : Cmd :=
  ⟨"", ty, false, false, ⟨[], [], []⟩, "", flow, "", [], ""⟩

/-- A command tree node named `name` holding a flow command with the given text. -/
def exFlowNode (name : String) (flow : List String) : CmdTree :=
  ⟨name, [name], some (exCmd CmdTypeFlow flow), 0, "", exStrs⟩

/-- A command tree node named `name` holding a normal command. -/
def exNormalNode (name : String) : CmdTree :=
  ⟨name, [name], some (exCmd CmdTypeNormal []), 0, "", exStrs⟩

/-- The invocation of one resolved node. -/
def exInvoke (node : CmdTree) : ParsedCmd :=
  ⟨[⟨[], ⟨node.name, some node⟩⟩], ⟨[node.name], none⟩, 0⟩

/-- A parser for the examples: every token is the name of a command of the
table; a token that names none is a command with a parse error. -/
def exParse (table : List CmdTree) (tokens : List String) : ParsedCmds :=
  ⟨[], tokens.map fun t =>
    match table.find? fun n => n.name == t with
    | some n => exInvoke n
    | none => ⟨[⟨[], ⟨t, none⟩⟩], ⟨[t], some ("unknown command: " ++ t)⟩, 0⟩, -1⟩

/-- Collaborators for the examples: no colours, the flow text of a command is
rendered as it stands, no environment operations; of the case table, U+0130
lowers to `i` and the other characters above ASCII stay as they are. -/
def exLib (table : List CmdTree) : Collab where
  Parse := exParse table
  CmdTypeFileNFlow := "file+flow"
  Color := fun _ s _ => s
  autoPadNewLine := fun _ s => s
  mayQuoteStr := fun s => s
  PrintTipTitle := fun _ s => [s ++ "\n"]
  DisplayPath := fun c sep _ => strJoin c.Path sep
  ApplyMappingGenEnvAndArgv := fun _ _ _ _ => (⟨EnvLayerCmd, []⟩, [])
  GenCmdEnv := fun _ e _ => e.NewLayer EnvLayerCmd
  SysArgvIsDelay := fun _ _ _ => false
  SysArgvDelayStr := fun _ _ _ => ""
  DumpEffectedArgs := fun _ _ _ _ => []
  Flow := fun cic _ _ _ => (cic.flow, true)
  RenderedFlowStrs := fun cic _ _ _ => (cic.flow, true)
  RenderedEnvKeys := fun _ _ _ _ => ([], [])
  dumpEnvOps := fun _ _ _ => ""
  dumpIsAutoTimerKey := fun _ _ _ => ""
  Val2Env := fun _ => []
  Arg2EnvKey := fun _ _ => none
  TryExeEnvOpCmds := fun _ e _ _ => e
  HasSubFlow := fun cic => cic.ty == CmdTypeFlow
  InteractiveMode := fun e _ => (e, 0, [])
  UnicodeToLower := fun c => if c.toNat = 0x130 then 'i' else c

def exCli : Cli := ⟨⟨"", [], none, 0, "", exStrs⟩⟩

/-- An environment with a session layer above a default layer. -/
def exEnv : Env := ⟨⟨EnvLayerSession, []⟩, [⟨EnvLayerDefault, []⟩]⟩

def exState : DumpState := ⟨exEnv, [], [], []⟩

/-- A command whose flow invokes the command itself. -/
def selfTable : List CmdTree := [exFlowNode "a" ["a"]]

/-- A flow nested three levels deep: `l1` runs `l2`, `l2` runs `l3`, `l3` runs
the normal command `leaf`. -/
def nestTable : List CmdTree :=
  [exFlowNode "l1" ["l2"], exFlowNode "l2" ["l3"], exFlowNode "l3" ["leaf"], exNormalNode "leaf"]

/-- Two siblings with the same sub-flow text. -/
def dupTable : List CmdTree :=
  [exFlowNode "x" ["leaf"], exFlowNode "y" ["leaf"], exNormalNode "leaf"]

/-- The table of the write-back example: the flow command `x` runs `leaf`. -/
def wbTable : List CmdTree := [exFlowNode "x" ["leaf"], exNormalNode "leaf"]

/-- A parser for the write-back example: the flow `leaf` carries a global
environment with the entry `g`, not an argument binding, and the entry `a`, an
argument binding. -/
def exParseG (tokens : List String) : ParsedCmds :=
  { exParse wbTable tokens with
    GlobalEnv :=
      if tokens = ["leaf"] then [("g", ⟨"1", false, []⟩), ("a", ⟨"2", true, ["x"]⟩)] else [] }

/-- The collaborators of the write-back example. -/
def exLibG : Collab := { exLib wbTable with Parse := exParseG }

/-! ## `pkg/cli/execute/interactive.go` -/

/-- The Go type `BreakPointAction` is a string type (interactive.go:15). -/
abbrev BreakPointAction := String

def BPAStepOver : BreakPointAction := "step over, execute current, pause before next command"
def BPAStepIn : BreakPointAction := "step in subflow"
def BPAContinue : BreakPointAction := "continue"
def BPASkip : BreakPointAction := "skip current, pause before next command"
def BPAInteract : BreakPointAction := "interactive mode"
def BPAQuit : BreakPointAction := "quit executing"

/-- The Go map type `BPAs` (interactive.go:219). -/
abbrev BPAs := List (String × BreakPointAction)

/-- The function `getAllBPAs` (interactive.go:208). -/
def getAllBPAs : BPAs :=
  [("c", BPAContinue), ("s", BPASkip), ("q", BPAQuit), ("t", BPAStepIn), ("d", BPAStepOver),
    ("i", BPAInteract)]

/-- Modelled from the spec: the breakpoint registry `cc.BreakPoints`: the two
global one-shot flags and the command paths flagged break-before and break-after. -/
structure BreakPoints where
  AtBegin : Bool
  AtEnd : Bool
  Befores : List String
  Afters : List String
  deriving Repr, DecidableEq, Inhabited

def BreakPoints.BreakAtBegin (self : BreakPoints) : Bool := self.AtBegin

def BreakPoints.SetAtBegin (self : BreakPoints) (b : Bool) : BreakPoints := { self with AtBegin := b }

def BreakPoints.BreakBefore (self : BreakPoints) (name : String) : Bool := self.Befores.contains name

def BreakPoints.BreakAfter (self : BreakPoints) (name : String) : Bool := self.Afters.contains name

def BreakPoints.BreakAtEnd (self : BreakPoints) : Bool := self.AtEnd

/-- One call of `readUserBPAChoice`: its arguments and the environment and
registry at the moment of the call. -/
structure Pause where
  reason : String
  choices : List String
  actions : BPAs
  env : Env
  bps : BreakPoints
  deriving Repr, DecidableEq

/-- The objects the breakpoint controller works on: the live environment, the
breakpoint registry, the screen, standard input, and the record of the pauses
so far. Standard input is what its coming reads return, one element for each
read: a terminal hands over one line with its line end at a time, a pipe
whatever it holds, which may be several lines or a part of one. A read that
returns nothing, and any read when no element is left, is the end of the
input. Texts are valid UTF-8 and a read ends between two characters. -/
structure Session where
  env : Env
  bps : BreakPoints
  screen : List String
  stdin : List String
  pauses : List Pause
  deriving Repr, DecidableEq

/-- How a check ends: with an action for the engine, with the user abort
raised by `Quit`, or with another panic. -/
inductive Resolution where
  | action (bpa : BreakPointAction)
  | abortByUser
  | panic (err : String)
  deriving Repr, DecidableEq

def Session.print (st : Session) (s : String) : Session :=
  { st with screen := st.screen ++ [s] }

/-- The closure `showTitle` of `readUserBPAChoice` (interactive.go:164). -/
def showTitle (lib : Collab) (reason : String) (choices : List String) (actions : BPAs)
    (st : Session) : Session :=
  choices.foldl
    (fun s choice =>
      s.print (lib.Color .Warn choice s.env ++ ": " ++ (actions.lookup choice).getD "" ++ "\n"))
    (st.print (lib.Color .Tip "[actions]" st.env ++ " paused by '" ++ reason ++
      "', choose one and press enter:\n"))

/-- The text of a buffer up to and including its first newline, and the text
after it; `none` when the buffer holds no newline. -/
def splitLine : List Char → Option (List Char × List Char)
  | [] => none
  | c :: cs => if c = '\n' then some (['\n'], cs) else (splitLine cs).map fun p => (c :: p.1, p.2)

/-- One call `buf.ReadBytes('\n')` of a `bufio.Reader` on standard input:
`buffered` is what the reader has read and not handed out yet, `stdin` what the
coming reads of standard input return. The reader reads until it holds a
newline; at the end of the input the call fails. The result is the line with
its newline (`none` for the failure), what the reader keeps, and the reads
still to come. -/
def readBytesLine : List Char → List String → Option (List Char) × List Char × List String
  | buffered, [] =>
    match splitLine buffered with
    | some p => (some p.1, p.2, [])
    | none => (none, [], [])
  | buffered, chunk :: more =>
    match splitLine buffered with
    | some p => (some p.1, p.2, chunk :: more)
    | none =>
      if chunk.data.isEmpty then (none, [], more)
      else readBytesLine (buffered ++ chunk.data) more

/-- The loop of `readUserBPAChoice` (interactive.go:176-205); `buffered` is
what the reader `buf` of this call holds. Every turn takes a line off the
input, so the first argument, the number of turns allowed, is never used up
when it starts above the number of characters of the input. A failed read
panics. On return the reader is dropped with what it holds. -/
def readLoop (lib : Collab) (reason : String) (choices : List String) (actions : BPAs)
    (lowerInput : Bool) : Nat → List Char → Session → Session × Resolution
  | 0, _, st => (st, .panic "[readFromStdin] read from stdin failed")
  | fuel + 1, buffered, st =>
    let rd := readBytesLine buffered st.stdin
    let st1 := { st with stdin := rd.2.2 }
    match rd.1 with
    | none => (st1, .panic "[readFromStdin] read from stdin failed")
    | some lineBytes =>
      if lineBytes.length == 0 then
        readLoop lib reason choices actions lowerInput fuel rd.2.1 st1
      else
        let line :=
          if lowerInput then ToLower lib.UnicodeToLower (TrimSpace (String.mk lineBytes))
          else TrimSpace (String.mk lineBytes)
        match actions.lookup line with
        | some action =>
          if action == BPAQuit then (st1, .abortByUser)
          else if action == BPAInteract then
            let st2 := st1.print "\n"
            let im := lib.InteractiveMode st2.env st2.stdin
            let st3 := { st2 with
              env := im.1, stdin := st2.stdin.drop im.2.1, screen := st2.screen ++ im.2.2 }
            if st3.env.GetBool "sys.interact.leaving" then
              ({ st3 with env := st3.env.LayerDelete EnvLayerSession "sys.interact.leaving" },
                .action BPAContinue)
            else readLoop lib reason choices actions lowerInput fuel rd.2.1
              (showTitle lib reason choices actions (st3.print "\n"))
          else (st1, .action action)
        | none =>
          readLoop lib reason choices actions lowerInput fuel rd.2.1
            (st1.print (lib.Color .Explain ("(not valid input: " ++ line ++ ")\n") st1.env))

/-- The function `readUserBPAChoice` (interactive.go:161): the pause makes a
reader of its own on standard input (`bufio.NewReader(os.Stdin)`, 175). -/
def readUserBPAChoice (lib : Collab) (reason : String) (choices : List String) (actions : BPAs)
    (lowerInput : Bool) (st : Session) : Session × Resolution :=
  let st1 := { st with pauses := st.pauses ++ [⟨reason, choices, actions, st.env, st.bps⟩] }
  readLoop lib reason choices actions lowerInput ((st1.stdin.map String.length).sum + 1) []
    (showTitle lib reason choices actions st1)

/-- The condition `cmd.LastCmd() != nil && cmd.LastCmd().HasSubFlow()`. -/
def ownsSubFlow (lib : Collab) (cmd : ParsedCmd) : Bool :=
  match cmd.LastCmd with
  | some c => lib.HasSubFlow c
  | none => false

/-- The menu of `tryStepByStepAndBreakBefore` (interactive.go:61-91): the
first trigger that holds, in the order of the `if` chain, gives the reason and
the choices and consumes its own one-shot flag. Returns the session, the reason
and the choices before `i` and `q` are added. -/
def breakBeforeMenu (lib : Collab) (cc : Cli) (st : Session) (cmd : ParsedCmd)
    (breakByPrev : Bool) : Session × String × List String :=
  let atBegin := st.bps.BreakAtBegin
  let stepByStep := st.env.GetBool "sys.step-by-step"
  let stepIn := st.env.GetBool "sys.breakpoint.status.step-in"
  let stepOut := st.env.GetBool "sys.breakpoint.status.step-out"
  let name := strJoin cmd.Path cc.Cmds.Strs.PathSep
  let breakBefore := st.bps.BreakBefore name
  let choices0 : List String := if ownsSubFlow lib cmd && !stepByStep then ["t"] else []
  if atBegin then
    ({ st with bps := st.bps.SetAtBegin false },
      lib.Color .Tip "break-point: at begin" st.env, choices0 ++ ["s", "d", "c"])
  else if stepByStep then
    (st, lib.Color .Tip "step-by-step" st.env, choices0 ++ ["c"])
  else if breakBefore then
    (st, lib.Color .Tip "break-point: before command " st.env ++
      lib.Color .Cmd ("[" ++ name ++ "]") st.env, choices0 ++ ["s", "d", "c"])
  else if stepIn then
    ({ st with env := st.env.LayerDelete EnvLayerSession "sys.breakpoint.status.step-in" },
      lib.Color .Tip "just stepped in"
        (st.env.LayerDelete EnvLayerSession "sys.breakpoint.status.step-in"),
      choices0 ++ ["s", "d", "c"])
  else if stepOut then
    let env1 :=
      if st.env.GetBool "sys.breakpoint.status.step-out" then
        st.env.LayerDelete EnvLayerSession "sys.breakpoint.status.step-out"
      else st.env
    ({ st with env := env1 }, lib.Color .Tip "just stepped out" env1, choices0 ++ ["s", "d", "c"])
  else if breakByPrev then
    (st, lib.Color .Tip "previous choice" st.env, choices0 ++ ["s", "d", "c"])
  else (st, "", choices0)

/-- The function `tryStepByStepAndBreakBefore` (interactive.go:49). -/
def tryStepByStepAndBreakBefore (lib : Collab) (cc : Cli) (st : Session) (cmd : ParsedCmd)
    (breakByPrev : Bool) : Session × Resolution :=
  let atBegin := st.bps.BreakAtBegin
  let stepByStep := st.env.GetBool "sys.step-by-step"
  let stepIn := st.env.GetBool "sys.breakpoint.status.step-in"
  let stepOut := st.env.GetBool "sys.breakpoint.status.step-out"
  let name := strJoin cmd.Path cc.Cmds.Strs.PathSep
  let breakBefore := st.bps.BreakBefore name
  if !atBegin && !breakBefore && !stepByStep && !stepIn && !stepOut && !breakByPrev then
    (st, .action BPAContinue)
  else
    let menu := breakBeforeMenu lib cc st cmd breakByPrev
    let choices := menu.2.2 ++ ["i", "q"]
    let bpas : BPAs := choices.map fun k => (k, (getAllBPAs.lookup k).getD "")
    readUserBPAChoice lib menu.2.1 choices bpas true menu.1

/-- The function `tryDelay` (interactive.go:143): one mark per second of the
configured delay; the waiting itself is not modelled. -/
def tryDelay (st : Session) (delayKey : String) : Session :=
  let delaySec := st.env.GetInt delayKey
  if delaySec > 0 then
    ((List.replicate delaySec.toNat ".").foldl Session.print st).print "\n"
  else st

/-- The condition `cmd.LastCmdNode().IsQuiet()`. -/
def lastNodeIsQuiet (cmd : ParsedCmd) : Bool :=
  match cmd.LastCmd with
  | some c => c.quiet
  | none => false

/-- The function `tryDelayAndStepByStepAndBreakBefore` (interactive.go:26),
the check the engine runs before each step. -/
def tryDelayAndStepByStepAndBreakBefore (lib : Collab) (cc : Cli) (st : Session)
    (cmd : ParsedCmd) (breakByPrev lastCmdInFlow bootstrap : Bool) : Session × Resolution :=
  if st.env.GetBool "sys.interact.inside" then (st, .action BPAContinue)
  else
    let r := tryStepByStepAndBreakBefore lib cc st cmd breakByPrev
    match r.2 with
    | .action bpa =>
      if bpa == BPAContinue then
        if !bootstrap && !lastNodeIsQuiet cmd then (tryDelay r.1 "sys.execute-delay-sec", .action bpa)
        else (r.1, .action bpa)
      else if bpa == BPAStepIn then
        ({ r.1 with
            env := r.1.env.LayerSetBool EnvLayerSession "sys.breakpoint.status.step-in" true },
          .action BPAContinue)
      else if bpa == BPAStepOver || bpa == BPASkip then
        if lastCmdInFlow && (cmd.LastCmd.isNone || !ownsSubFlow lib cmd) then
          ({ r.1 with
              env := r.1.env.LayerSetBool EnvLayerSession "sys.breakpoint.status.step-out" true },
            .action bpa)
        else (r.1, .action bpa)
      else (r.1, .action bpa)
    | other => (r.1, other)

/-- The function `tryBreakAfter` (interactive.go:111): the menu shows `c`, `i`
and `q`; the actions handed to `readUserBPAChoice` are all of `getAllBPAs`. -/
def tryBreakAfter (lib : Collab) (cc : Cli) (st : Session) (cmd : ParsedCmd) :
    Session × Resolution :=
  let name := strJoin cmd.Path cc.Cmds.Strs.PathSep
  if !st.bps.BreakAfter name then (st, .action BPAContinue)
  else
    let reason := lib.Color .Tip "break-point: after command " st.env ++
      lib.Color .Cmd ("[" ++ name ++ "]") st.env
    readUserBPAChoice lib reason ["c", "i", "q"] getAllBPAs true st

/-- The function `tryDelayAndBreakAfter` (interactive.go:103), the check the
engine runs after each step. -/
def tryDelayAndBreakAfter (lib : Collab) (cc : Cli) (st : Session) (cmd : ParsedCmd)
    (bootstrap : Bool) : Session × Resolution :=
  let r := tryBreakAfter lib cc st cmd
  match r.2 with
  | .action bpa =>
    if bpa == BPAContinue && !bootstrap && !lastNodeIsQuiet cmd then
      (tryDelay r.1 "sys.execute-delay-sec.at-end", .action bpa)
    else (r.1, .action bpa)
  | other => (r.1, other)

/-- How a function without a result ends: it returns, or the user abort or
another panic unwinds it. -/
inductive Completion where
  | returned
  | abortByUser
  | panic (err : String)
  deriving Repr, DecidableEq

/-- The function `tryBreakAtEnd` (interactive.go:126), the check the engine
runs once at the end of the run. -/
def tryBreakAtEnd (lib : Collab) (st : Session) : Session × Completion :=
  if !st.bps.BreakAtEnd then (st, .returned)
  else
    let reason := lib.Color .Tip "break-point: at main-thread end" st.env
    let r := readUserBPAChoice lib reason ["c", "i", "q"] getAllBPAs true st
    match r.2 with
    | .action bpa =>
      if bpa != BPAContinue then (r.1, .panic "[tryBreakAtEnd] should never happen")
      else (r.1, .returned)
    | .abortByUser => (r.1, .abortByUser)
    | .panic err => (r.1, .panic err)

/-! ### Worked examples for the breakpoint controller -/

/-- The invocation of the command `x.y`, a normal command. -/
def exStep : ParsedCmd :=
  ⟨[⟨[], ⟨"x", none⟩⟩, ⟨[], ⟨"y", some (exNormalNode "y")⟩⟩], ⟨["x.y"], none⟩, 0⟩

/-- The invocation of a command that owns a sub-flow. -/
def exFlowStep : ParsedCmd := exInvoke (exFlowNode "f" ["x.y"])

/-- Standard input of a terminal on which the user types the given lines:
every read returns one line with its line end. -/
def typed (lines : List String) : List String := lines.map fun l => l ++ "\n"

/-- A session outside interactive mode, with break-before registered for
`x.y`, on a terminal where the user types the lines `stdin`. -/
def exSession (sessionPairs : List (String × String)) (stdin : List String) : Session :=
  ⟨⟨⟨EnvLayerSession, sessionPairs⟩, [⟨EnvLayerDefault, []⟩]⟩, ⟨false, false, ["x.y"], []⟩, [],
    typed stdin, []⟩

/-- The same session with standard input from a pipe: one read returns the
whole text. -/
def exPiped (sessionPairs : List (String × String)) (text : String) : Session :=
  ⟨⟨⟨EnvLayerSession, sessionPairs⟩, [⟨EnvLayerDefault, []⟩]⟩, ⟨false, false, ["x.y"], []⟩, [],
    [text], []⟩

/-- The six trigger conditions of the before-step check, as the specification
lists them: break-at-begin, break-before for the step's path, step-by-step
mode, step-in pending, step-out pending, a pause requested by the previous
step's resolution. -/
def beforeTrigger (cc : Cli) (st : Session) (cmd : ParsedCmd) (breakByPrev : Bool) : Bool :=
  st.bps.BreakAtBegin || st.bps.BreakBefore (strJoin cmd.Path cc.Cmds.Strs.PathSep) ||
    st.env.GetBool "sys.step-by-step" || st.env.GetBool "sys.breakpoint.status.step-in" ||
    st.env.GetBool "sys.breakpoint.status.step-out" || breakByPrev

/-- The actions a pause offers: the action shown next to each choice of its menu. -/
def Pause.offered (p : Pause) : List BreakPointAction :=
  p.choices.map fun k => (p.actions.lookup k).getD ""

/-- An input line as `readUserBPAChoice` looks it up: trimmed and lower-cased
(all callers pass `lowerInput = true`). -/
def normLine (lib : Collab) (line : String) : String :=
  ToLower lib.UnicodeToLower (TrimSpace line)

/-- The text of lines, each with its newline. -/
def linesText : List String → List Char
  | [] => []
  | l :: ls => l.data ++ '\n' :: linesText ls

/-- The text that reads of standard input deliver, one after the other. -/
def readsText : List String → List Char
  | [] => []
  | r :: rs => r.data ++ readsText rs

/-- The actions a before-step pause accepts: the map `bpas` that
`tryStepByStepAndBreakBefore` builds from its choices (interactive.go:95-99). -/
def beforeActions (lib : Collab) (cc : Cli) (st : Session) (cmd : ParsedCmd)
    (breakByPrev : Bool) : BPAs :=
  ((breakBeforeMenu lib cc st cmd breakByPrev).2.2 ++ ["i", "q"]).map
    fun k => (k, (getAllBPAs.lookup k).getD "")

/-- A session with the end-of-run breakpoint set, on a terminal where the user
types the lines `stdin`. -/
def exEndSession (stdin : List String) : Session :=
  ⟨⟨⟨EnvLayerSession, []⟩, [⟨EnvLayerDefault, []⟩]⟩, ⟨false, true, [], ["x.y"]⟩, [],
    typed stdin, []⟩

/-- A merged read of `k` is answered by the layer `ty`, if that layer defines
`k`: the layers have a layer `ty`, and no more specific layer defines `k`. -/
def readsFrom (ty k : String) : List EnvLayer → Bool
  | [] => false
  | l :: ls => if l.ty = ty then true else (l.pairs.lookup k).isNone && readsFrom ty k ls

/-! ## `pkg/cli/core/proto.go`

Go strings are byte strings. A Go string is written here as the Lean string of
the same text; searching and slicing (`strings.Index`, `text[i+1:]`) work on
characters, which is the byte arithmetic of the Go code whenever the separator
is ASCII. Sizes that Go counts in bytes are counted in bytes (`byteLen`). -/

/-- Modelled from the spec: `GetLayer(ty)`, the handle of the first layer named
`ty` from this handle downwards; `none` when there is no such layer. -/
def findLayer (ty : String) : List EnvLayer → Option Env
  | [] => none
  | l :: ls => if l.ty = ty then some ⟨l, ls⟩ else findLayer ty ls

def Env.GetLayer (e : Env) (ty : String) : Option Env := findLayer ty e.layers

/-- The Go expression `env.GetLayer(EnvLayerDefault).GetRaw(k)`. An environment
has a Default layer (the data model of the spec); without one no key has a
default here. -/
def defaultRaw (env : Env) (k : String) : String :=
  match env.GetLayer EnvLayerDefault with
  | some d => d.GetRaw k
  | none => ""

/-- An `io.Writer`: the text written so far. `okWrites` is the number of writes
that succeed before the device fails (`none`: it never fails); of the write
that fails, the first `partialLen` characters still reach the device. -/
structure Writer where
  text : String
  okWrites : Option Nat
  partialLen : Nat
  deriving Repr, DecidableEq

/-- One `fmt.Fprintf(writer, ...)` of the text `s`; the flag is the error. -/
def Writer.Fprint (w : Writer) (s : String) : Writer × Bool :=
  match w.okWrites with
  | none => ({ w with text := w.text ++ s }, false)
  | some 0 => ({ w with text := w.text ++ ⟨s.data.take w.partialLen⟩ }, true)
  | some (n + 1) => ({ w with text := w.text ++ s, okWrites := some n }, false)

/-- The key prefixes `EnvOutput` leaves out (proto.go:15-21). -/
def envOutputFiltered : List String :=
  ["session", "strs.", "display.height", "sys.stack", "sys.stack-depth"]

/-- The keys `EnvOutput` writes, in the order it writes them (proto.go:23-34):
the keys of the flattened environment whose value is not the raw value of the
Default layer, sorted. -/
def envOutputKeys (env : Env) : List String :=
  let flatten := env.Flatten true envOutputFiltered false
  sortStrings ((flatten.filter fun kv => !(defaultRaw env kv.1 == kv.2)).map Prod.fst)

/-- The writing loop of `EnvOutput` (proto.go:35-41). -/
def envOutputLoop (env : Env) (sep : String) : List String → Writer → Writer × Option String
  | [], w => (w, none)
  | k :: ks, w =>
    let r := w.Fprint (k ++ sep ++ env.GetRaw k ++ "\n")
    if r.2 then (r.1, some "write failed") else envOutputLoop env sep ks r.1

/-- The function `EnvOutput` (proto.go:13); the second component is the error. -/
def EnvOutput (env : Env) (writer : Writer) (sep : String) : Writer × Option String :=
  envOutputLoop env sep (envOutputKeys env) writer

/-- The Go constant `bufio.MaxScanTokenSize`. -/
def MaxScanTokenSize : Nat := 64 * 1024

/-- The length of a text in bytes. -/
def byteLen (cs : List Char) : Nat := (cs.map Char.utf8Size).sum

/-- The lines of a text: every run of characters up to a newline, flagged
`true`, and the run after the last newline, if it is not empty, flagged `false`. -/
def rawLines : List Char → List (List Char × Bool)
  | [] => []
  | c :: cs =>
    if c = '\n' then ([], true) :: rawLines cs
    else
      match rawLines cs with
      | [] => [([c], false)]
      | (l, t) :: more => (c :: l, t) :: more

/-- The helper `dropCR` of `bufio.ScanLines`. -/
def dropCR (l : List Char) : List Char :=
  if l.getLast? = some '\r' then l.dropLast else l

/-- The tokens a `bufio.Scanner` with `bufio.ScanLines` delivers: the lines
without their line ends (a carriage return before the newline belongs to the
line end). The scanner stops at the first line that does not fit its buffer, a
line of `MaxScanTokenSize` bytes or more; `EnvInput` does not look at the
scanner's error. -/
def scanTokens : List (List Char × Bool) → List (List Char)
  | [] => []
  | (l, _) :: more => if MaxScanTokenSize ≤ byteLen l then [] else dropCR l :: scanTokens more

/-- The Go call `strings.Index(text, sep)`; `none` stands for -1. -/
def strIndex (sep : List Char) : List Char → Option Nat
  | [] => if sep.isEmpty then some 0 else none
  | c :: cs => if sep.isPrefixOf (c :: cs) then some 0 else (strIndex sep cs).map (· + 1)

/-- How a function that returns an `error` ends. -/
inductive IOResult where
  | ok
  | error (msg : String)
  | panic (msg : String)
  deriving Repr, DecidableEq

/-- The loop of `EnvInput` (proto.go:48-61) over the tokens of the scanner. The
value is `text[i+1:]`, whatever the length of the separator. Positions count
characters: that is the slice of the Go code when the separator starts with an
ASCII character, which takes one byte. -/
def envInputLoop (sep : String) : List (List Char) → Env → Env × IOResult
  | [], env => (env, .ok)
  | token :: more, env =>
    let text := if token.getLast? = some '\n' then token.dropLast else token
    match strIndex sep.data text with
    | none =>
      (env, .error ("[EnvInput] bad format line '" ++ String.mk text ++ "', sep '" ++ sep ++ "'"))
    | some i =>
      if text.length < i + 1 then (env, .panic "slice bounds out of range")
      else envInputLoop sep more (env.Set (String.mk (text.take i)) (String.mk (text.drop (i + 1))))

/-- The function `EnvInput` (proto.go:45), reading the text `reader`. -/
def EnvInput (env : Env) (reader : String) (sep : String) : Env × IOResult :=
  envInputLoop sep (scanTokens (rawLines reader.data)) env

/-- The files of a file system: path to contents. -/
abbrev Files := List (String × String)

/-- What goes wrong in one save: opening the temporary file fails, a write
fails (see `Writer`), renaming fails. -/
structure Faults where
  openFails : Bool
  okWrites : Option Nat
  partialLen : Nat
  renameFails : Bool
  deriving Repr, DecidableEq

def noFaults : Faults := ⟨false, none, 0, false⟩

/-- The function `SaveEnvToFile` (proto.go:66) over the files `fs`; the second
component is the panic, if any. Opening creates or empties the temporary file,
the writes reach it as they happen, renaming replaces `path`. -/
def SaveEnvToFile (env : Env) (path sep : String) (fs : Files) (ft : Faults) :
    Files × Option String :=
  let tmp := path ++ ".tmp"
  if ft.openFails then (fs, some ("[SaveEnvToFile] open env file '" ++ tmp ++ "' failed"))
  else
    let out := EnvOutput env ⟨"", ft.okWrites, ft.partialLen⟩ sep
    let fs1 := setPair tmp out.1.text fs
    match out.2 with
    | some _ => (fs1, some ("[SaveEnvToFile] write env file '" ++ tmp ++ "' failed"))
    | none =>
      if ft.renameFails then
        (fs1, some ("[SaveEnvToFile] rename env file '" ++ tmp ++ "' to '" ++ path ++ "' failed"))
      else (setPair path out.1.text (delPair tmp fs1), none)

/-- The function `LoadEnvFromFile` (proto.go:87) over the files `fs`: a file
that does not exist leaves the environment as it is. -/
def LoadEnvFromFile (env : Env) (path sep : String) (fs : Files) : Env × Option String :=
  match fs.lookup path with
  | none => (env, none)
  | some text =>
    let r := EnvInput env text sep
    match r.2 with
    | .ok => (r.1, none)
    | .error _ => (r.1, some ("[LoadEnvFromFile] read local env file '" ++ path ++ "' failed"))
    | .panic msg => (r.1, some msg)

/-- The environment of the spec's round trip: `a.b` is `1` and `c` is `x y`
in the session layer, above an empty default layer. -/
def exSaved : Env :=
  ⟨⟨EnvLayerSession, [("a.b", "1"), ("c", "x y")]⟩, [⟨EnvLayerDefault, []⟩]⟩

/-- The text of the lines `key ++ sep ++ value ++ "\n"` of the given keys, the
value being the merged read. -/
def envLines (env : Env) (sep : String) : List String → String
  | [] => ""
  | k :: ks => (k ++ sep ++ env.GetRaw k ++ "\n") ++ envLines env sep ks

/-- The key starts with one of the prefixes `EnvOutput` leaves out. -/
def isFiltered (k : String) : Bool := envOutputFiltered.any fun p => startsWith k p

/-- The line `k ++ sep ++ v` of the one-character separator `c` reads back as
written: the key does not contain the separator, the line contains no newline,
does not end in a carriage return, and is shorter than the scanner's buffer. -/
def readsBack (c : Char) (k v : String) : Bool :=
  !k.data.contains c && !(k.data ++ c :: v.data).contains '\n' &&
    (k.data ++ c :: v.data).getLast? != some '\r' &&
    decide (byteLen (k.data ++ c :: v.data) < MaxScanTokenSize)

/-- An environment whose session layer holds the session directory. -/
def exWithSession : Env :=
  ⟨⟨EnvLayerSession, [("session", "/tmp/s1"), ("a.b", "1")]⟩, [⟨EnvLayerDefault, []⟩]⟩

/-! ## `pkg/cli/core/cmd.go`: executing a command -/

/-- The value a Go `panic` carries: an error made by `fmt.Errorf`, a
`*CmdError` (an error tagged with the command being executed), or a run-time
error of the Go runtime. -/
inductive PanicValue where
  | plain (msg : String)
  | cmdError (cmd : ParsedCmd) (msg : String)
  | runtime (msg : String)
  deriving Repr, DecidableEq

/-- What a command's execution works on besides the environment: the files,
the record of the processes spawned so far (program and argument vector), and
the screen. -/
structure World where
  fs : Files
  spawned : List (String × List String)
  screen : List String
  deriving Repr, DecidableEq

/-- How an execution ends: it returns the next index and the success flag, or
it panics. -/
inductive ExecResult where
  | returned (newCurrCmdIdx : Nat) (succeeded : Bool)
  | panic (err : PanicValue)
  deriving Repr, DecidableEq

/-- The operating system and the callbacks `Cmd.Execute` reaches, as
parameters.

* `LookPath` is `exec.LookPath`: the error, if the program is not found.
* `Run` is `exec.Command(bin, args...).Run()`: the files as the process leaves
  them and its error, if any.
* `Join` is `filepath.Join` of two elements.
* `normal` and `power` are the callbacks of the fields `normal` and `power`;
  `executor` is `cc.Executor.Execute`; `shellwords` is `shellwords.Parse`.
* `DisplayPath` is `owner.DisplayPath()`. -/
structure Sys where
  LookPath : String → Option String
  Run : String → List String → Files → Files × Option String
  Join : String → String → String
  normal : Cmd → ArgVals → Env → ParsedCmd → World → World × Env × Bool
  power : Cmd → ArgVals → Env → ParsedCmds → Nat → World → World × Env × Nat × Bool
  executor : List String → Env → World → World × Env × Bool
  shellwords : String → Option (List String)
  DisplayPath : CmdTree → String

/-- The scan of `filepath.Ext` over the reversed path: back to the last dot of
the last path element. -/
def extScan : List Char → List Char → List Char
  | [], _ => []
  | c :: cs, acc => if c = '/' then [] else if c = '.' then '.' :: acc else extScan cs (c :: acc)

/-- The Go call `filepath.Ext(path)`. -/
def Ext (path : String) : String := ⟨extScan path.data.reverse []⟩

/-- The scan of `strings.Fields`: the fields so far, and the field being read. -/
def fieldsScan : List Char → List Char → List String
  | [], cur => if cur.isEmpty then [] else [⟨cur.reverse⟩]
  | c :: cs, cur =>
    if isGoSpace c then
      if cur.isEmpty then fieldsScan cs [] else ⟨cur.reverse⟩ :: fieldsScan cs []
    else fieldsScan cs (c :: cur)

/-- The Go call `strings.Fields(s)`. -/
def Fields (s : String) : List String := fieldsScan s.data []

/-- The function `mayQuoteStr` (cmd.go:375). -/
def mayQuoteStr (origin : String) : String :=
  let trimed := TrimSpace origin
  if trimed.length == 0 || trimed.length != origin.length then "'" ++ origin ++ "'"
  else if (Fields origin).length != 1 then "'" ++ origin ++ "'"
  else origin

/-- The first dependency `exec.LookPath` does not find (cmd.go:302-308). -/
def missingDepend (sys : Sys) : List Depend → Option String
  | [] => none
  | dep :: more =>
    match sys.LookPath dep.OsCmd with
    | some err => some err
    | none => missingDepend sys more

/-- The interpreter of a command file (cmd.go:310-326): the program and the
first arguments. A configured value with exactly one field is taken as it
stands; with no field at all, `fields[0]` is a run-time error. -/
def resolveRunner (env : Env) (cmdLine : String) : Except PanicValue (String × List String) :=
  let runner := env.GetRaw ("sys.ext.exec" ++ Ext cmdLine)
  if runner.length != 0 then
    let fields := Fields runner
    if fields.length == 1 then .ok (runner, [])
    else
      match fields with
      | [] => .error (.runtime "index out of range [0] with length 0")
      | f :: more => .ok (f, more)
  else .ok ("bash", [])

/-- The Go expression `argv[k].Raw`; a missing key gives the zero value. -/
def ArgVals.Raw (argv : ArgVals) (k : String) : String :=
  ((argv.lookup k).map ArgVal.Raw).getD ""

/-- The lines `executeFile` prints when the process fails (cmd.go:354-367). -/
def failureLines (sys : Sys) (self : Cmd) (owner : CmdTree) (argv : ArgVals) (bin : String)
    (sessionPath err : String) : List String :=
  let indent1 := String.mk (List.replicate 4 ' ')
  let indent2 := String.mk (List.replicate 8 ' ')
  ["\n[" ++ sys.DisplayPath owner ++ "] failed:\n"] ++
    (if self.args.names.length != 0 then
      [indent1 ++ "- args:\n"] ++ self.args.names.map fun k =>
        indent2 ++ strJoin ((self.args.abbrs.lookup k).getD []) owner.Strs.AbbrsSep ++ " = " ++
          mayQuoteStr (argv.Raw k) ++ "\n"
    else []) ++
    [indent1 ++ "- bin:  " ++ bin ++ "\n", indent1 ++ "- file: " ++ self.cmdLine ++ "\n",
      indent1 ++ "- env:  " ++ sessionPath ++ "\n", indent1 ++ "- err:  " ++ err ++ "\n"]

/-- The method `Cmd.executeFile` (cmd.go:297). The session layer handle is
`env.GetLayer(EnvLayerSession)`; what `LoadEnvFromFile` reads goes into that
layer. `ft` says what goes wrong while the session file is saved. The result is
the success flag, or the panic. -/
def executeFile (sys : Sys) (self : Cmd) (owner : CmdTree) (argv : ArgVals) (cc : Cli)
    (env : Env) (w : World) (ft : Faults) : World × Env × Except PanicValue Bool :=
  if self.cmdLine.length == 0 then (w, env, .ok true)
  else
    match missingDepend sys self.depends with
    | some err => (w, env, .error (.plain ("[Cmd.executeFile] " ++ err)))
    | none =>
      match resolveRunner env self.cmdLine with
      | .error p => (w, env, .error p)
      | .ok (bin, args0) =>
        let sep := cc.Cmds.Strs.ProtoSep
        let sessionDir := env.GetRaw "session"
        if sessionDir.length == 0 then
          (w, env, .error (.plain "[Cmd.executeFile] session dir not found in env"))
        else
          let sessionFileName := env.GetRaw "strs.session-env-file"
          if sessionFileName.length == 0 then
            (w, env, .error (.plain "[Cmd.executeFile] session env file name not found in env"))
          else
            let sessionPath := sys.Join sessionDir sessionFileName
            let layer := (env.GetLayer EnvLayerSession).getD env
            let saved := SaveEnvToFile layer sessionPath sep w.fs ft
            match saved.2 with
            | some msg => ({ w with fs := saved.1 }, env, .error (.plain msg))
            | none =>
              let args := args0 ++ [self.cmdLine, sessionDir] ++ self.args.names.map argv.Raw
              let ran := sys.Run bin args saved.1
              let w1 : World := { w with fs := ran.1, spawned := w.spawned ++ [(bin, args)] }
              match ran.2 with
              | some err =>
                ({ w1 with
                    screen := w1.screen ++ failureLines sys self owner argv bin sessionPath err },
                  env, .ok false)
              | none =>
                let loaded := LoadEnvFromFile layer sessionPath sep w1.fs
                let env1 := env.onLayer EnvLayerSession fun _ => loaded.1.top.pairs
                match loaded.2 with
                | some msg => (w1, env1, .error (.plain msg))
                | none => (w1, env1, .ok true)

/-- The method `Cmd.Flow` of cmd.go (cmd.go:264): the flow text, joined and
split into words. -/
def Cmd.Flow (sys : Sys) (self : Cmd) : Except PanicValue (List String) :=
  match sys.shellwords (strJoin self.flow " ") with
  | none => .error (.plain ("[Cmd.executeFlow] parse '" ++ self.cmdLine ++ "' failed"))
  | some flow => .ok flow

/-- The method `Cmd.Execute` (cmd.go:93). -/
def Cmd.Execute (sys : Sys) (self : Cmd) (owner : CmdTree) (argv : ArgVals) (cc : Cli)
    (env : Env) (flow : ParsedCmds) (currCmdIdx : Nat) (w : World) (ft : Faults) :
    World × Env × ExecResult :=
  if self.ty = CmdTypePower then
    let r := sys.power self argv env flow currCmdIdx w
    (r.1, r.2.1, .returned r.2.2.1 r.2.2.2)
  else if self.ty = CmdTypeNormal then
    match flow.Cmds.get? currCmdIdx with
    | none => (w, env, .panic (.runtime "index out of range"))
    | some cmd =>
      let r := sys.normal self argv env cmd w
      (r.1, r.2.1, .returned currCmdIdx r.2.2)
  else if self.ty = CmdTypeFile ∨ self.ty = CmdTypeDirWithCmd then
    let r := executeFile sys self owner argv cc env w ft
    match r.2.2 with
    | .ok b => (r.1, r.2.1, .returned currCmdIdx b)
    | .error p => (r.1, r.2.1, .panic p)
  else if self.ty = CmdTypeEmptyDir then (w, env, .returned currCmdIdx true)
  else if self.ty = CmdTypeFlow then
    match self.Flow sys with
    | .error p => (w, env, .panic p)
    | .ok toks =>
      let r := sys.executor toks env w
      (r.1, r.2.1, .returned currCmdIdx r.2.2)
  else (w, env, .panic (.plain ("[Cmd.Execute] unknown cmd executable type: " ++ self.ty)))

/-- An operating system for the examples: only `bash` and `python3` are on the
search path, every process succeeds and leaves the files as they are. -/
def exSys : Sys where
  LookPath := fun name =>
    if name = "bash" ∨ name = "python3" then none
    else some ("exec: \"" ++ name ++ "\": executable file not found in $PATH")
  Run := fun _ _ fs => (fs, none)
  Join := fun a b => a ++ "/" ++ b
  normal := fun _ _ e _ w => (w, e, true)
  power := fun _ _ e _ i w => (w, e, i, true)
  executor := fun _ e w => (w, e, true)
  shellwords := fun s => some (Fields s)
  DisplayPath := fun t => strJoin t.path "."

/-- A file command with the given file and dependencies. -/
def exFileCmd (cmdLine : String) (depends : List Depend) : Cmd :=
  ⟨"", CmdTypeFile, false, false, ⟨[], [], []⟩, cmdLine, [], "", depends, ""⟩

/-- An environment with a session directory, a session file name and the
given other session entries. -/
def exRunEnv (more : List (String × String)) : Env :=
  ⟨⟨EnvLayerSession, [("session", "/tmp/s1"), ("strs.session-env-file", "env")] ++ more⟩,
    [⟨EnvLayerDefault, []⟩]⟩

def exWorld : World := ⟨[], [], []⟩

/-! ## Vocabulary of the statements about the description -/

/-- The list `l2` is `l` followed by events that all satisfy `P`. -/
def ListExt (P : Event → Prop) (l l2 : List Event) : Prop :=
  ∃ delta, l2 = l ++ delta ∧ ∀ ev ∈ delta, P ev

/-- The record of events of `s2` is that of `s` followed by events that all
satisfy `P`. -/
def Extends (P : Event → Prop) (s s2 : DumpState) : Prop :=
  ListExt P s.trace s2.trace

/-- A recursive callee keeps the record of events it is given and adds only
events of the indent it is called with, or deeper. The recursion of `dumpFlow`
is such a callee (`dumpFlow_traceGrows`). -/
def TraceGrows (dumpFlowRec : RecCall) : Prop :=
  ∀ s f e d t i, Extends (fun ev => i ≤ ev.indent) s (dumpFlowRec s f e d t i).st

/-- The state of a description step (no executed record) after its head line
and its argument lines (flow.go:137-240), where the folding decision is taken. -/
def descPre (lib : Collab) (cc : Cli) (args : DumpFlowArgs) (parsedCmd : ParsedCmd)
    (cmd : CmdTree) (cic : Cmd) (running : Bool) (maxDepth maxTrivial indentAdjust : Int)
    (st : DumpState) : DumpState :=
  let gen := lib.ApplyMappingGenEnvAndArgv parsedCmd st.env cc.Cmds.Strs.EnvValDelAllMark
    cmd.Strs.PathSep
  let head := dumpFlowCmdHead lib args parsedCmd cmd cic (st.env.Push gen.1)
    (st.env.GetRaw "strs.trivial-mark") (cmd.trivial + parsedCmd.TrivialLvl) none running
    maxDepth maxTrivial indentAdjust st
  dumpFlowCmdArgs lib args cic head.1.env gen.2 none maxDepth maxTrivial indentAdjust head.1

/-- The state the folding branch hands to the recursion (flow.go:248-259):
after the environment operations of the step, the events of the rendering and
the parsing, and the write-back of the sub-flow's global environment. -/
def foldEntry (lib : Collab) (cc : Cli) (flow : ParsedCmds) (idx : Nat) (parsedCmd : ParsedCmd)
    (cmd : CmdTree) (cic : Cmd) (cmdLayer : EnvLayer) (argv : ArgVals) (indentAdjust : Int)
    (st : DumpState) : DumpState :=
  let cmdId := strJoin parsedCmd.Path cmd.Strs.PathSep
  let cmdEnv := lib.TryExeEnvOpCmds argv (st.env.Push cmdLayer) flow idx
  let rendering := lib.Flow cic argv cmdEnv true
  { env := (lib.Parse rendering.1).GlobalEnv.WriteNotArgTo cmdEnv.Parent
      cc.Cmds.Strs.EnvValDelAllMark,
    writtenKeys := st.writtenKeys,
    screen := st.screen,
    trace := st.trace ++ [.folded indentAdjust cmdId,
      .render indentAdjust cmdId rendering.1 rendering.2, .parse indentAdjust rendering.1] }

/-- The state the expanding branch of a description step hands to the
recursion (flow.go:358-371): after the opening arrow, if the depth budget
allows one, the events of the rendering and the parsing, and the write-back of
the sub-flow's global environment. -/
def subEntry (lib : Collab) (cc : Cli) (args : DumpFlowArgs) (parsedCmd : ParsedCmd)
    (cmd : CmdTree) (cic : Cmd) (cmdLayer : EnvLayer) (argv : ArgVals)
    (maxDepth indentAdjust : Int) (st : DumpState) : DumpState :=
  let cmdId := strJoin parsedCmd.Path cmd.Strs.PathSep
  let rendering := lib.Flow cic argv (st.env.Push cmdLayer) true
  { env := (lib.Parse rendering.1).GlobalEnv.WriteNotArgTo st.env cc.Cmds.Strs.EnvValDelAllMark,
    writtenKeys := st.writtenKeys,
    screen :=
      if 1 < maxDepth then
        (prt lib args indentAdjust st 2 (lib.Color .Flowing "--->>>" st.env)).screen
      else st.screen,
    trace := st.trace ++ [.render indentAdjust cmdId rendering.1 rendering.2,
      .parse indentAdjust rendering.1] }

/-- What the expanding branch of a description step does with the run of the
recursion (flow.go:383-400): a failed or aborted sub-run ends the step; after a
successful one the closing arrow is printed, if the depth budget allows one,
and the environment operations of the step are applied. -/
def subFinish (lib : Collab) (args : DumpFlowArgs) (flow : ParsedCmds) (idx : Nat) (cic : Cmd)
    (cmdLayer : EnvLayer) (argv : ArgVals) (maxDepth indentAdjust : Int) (sub : Run) : Run :=
  match sub.out with
  | .done true =>
    dumpFlowCmdEnd lib flow idx cmdLayer argv none
      (if 1 < maxDepth then
        prt lib args indentAdjust sub.st 2 (lib.Color .Flowing "<<<---" sub.st.env ++
          (if cic.ty == lib.CmdTypeFileNFlow then lib.Color .Cmd " +" sub.st.env else ""))
      else sub.st)
  | .done false => ⟨sub.st, .done false⟩
  | other => ⟨sub.st, other⟩

/-- The nesting of a flow is bounded by `n`: whatever the arguments and the
environment, every sub-flow a command of the flow renders parses to a flow
whose nesting is bounded by `n - 1`. A flow whose commands render no sub-flow is
bounded by 1; a command whose sub-flow leads back to the command is bounded by
no number. -/
inductive Bounded (lib : Collab) : Nat → ParsedCmds → Prop where
  | intro (n : Nat) (flow : ParsedCmds)
      (h : ∀ pc ∈ flow.Cmds, ∀ node cic, pc.Last.Matched.Cmd = some node → node.cmd = some cic →
        ∀ argv env, (lib.Flow cic argv env true).2 = true →
          Bounded lib n (lib.Parse (lib.Flow cic argv env true).1)) :
      Bounded lib (n + 1) flow

/-- The state of a description step in the expanding branch after the lines
about the step and about its sub-flow text (flow.go:270-355), where the
recursion is decided. -/
def expandPre (lib : Collab) (cc : Cli) (args : DumpFlowArgs) (flow : ParsedCmds)
    (parsedCmd : ParsedCmd) (cmd : CmdTree) (cic : Cmd) (originEnv : Env) (cmdLayer : EnvLayer)
    (argv : ArgVals) (maxDepth indentAdjust : Int) (metFlows : List String) (st : DumpState) :
    DumpState :=
  (dumpFlowCmdFlowLines lib args cic cmdLayer argv none maxDepth indentAdjust metFlows
    (dumpFlowCmdBody lib cc args flow parsedCmd cmd cic originEnv cmdLayer argv indentAdjust
      st)).1

/-- The step is a flow command with text: the test of flow.go:311-314. -/
def hasFlowText (lib : Collab) (cic : Cmd) : Bool :=
  (cic.cmdLine.length != 0 || cic.flow.length != 0) &&
    cic.ty != CmdTypeNormal && cic.ty != CmdTypePower && isFlowTy lib cic

/-- No parser call recorded in `delta` returned a flow with a parse error. -/
def NoErr (lib : Collab) (delta : List Event) : Prop :=
  ∀ j toks, Event.parse j toks ∈ delta → (lib.Parse toks).FirstErr = none

/-- A parse error ends the run: when a parser call recorded in `delta`
returned a flow with a parse error, the run panicked with that error and the
call is the last event of `delta`. -/
def AbortsOn (lib : Collab) (delta : List Event) (out : Outcome) : Prop :=
  ∀ j toks err, Event.parse j toks ∈ delta → (lib.Parse toks).FirstErr = some err →
    out = .panic (err.Error.getD "") ∧ delta.getLast? = some (.parse j toks)

/-- The run `r`, started in state `s`, added the events `delta` to the record,
and a parse error among them ended it (`AbortsOn`). -/
def RunAborts (lib : Collab) (s : DumpState) (r : Run) : Prop :=
  ∃ delta, r.st.trace = s.trace ++ delta ∧ AbortsOn lib delta r.out

/-- Every description call of the recursive callee (no executed record)
satisfies `RunAborts`. The recursion of `dumpFlow` is such a callee
(`dumpFlow_aborts`). -/
def RecAborts (lib : Collab) (dumpFlowRec : RecCall) : Prop :=
  ∀ s f d t i, RunAborts lib s (dumpFlowRec s f none d t i)

/-- The command layer `dumpFlowCmd` puts on the environment for a step
(`cmdEnv`, flow.go:120-121). -/
def stepLayer (lib : Collab) (cc : Cli) (st : DumpState) (parsedCmd : ParsedCmd) (cmd : CmdTree) :
    EnvLayer :=
  (lib.ApplyMappingGenEnvAndArgv parsedCmd st.env cc.Cmds.Strs.EnvValDelAllMark
    cmd.Strs.PathSep).1

/-- The argument values of a step (`argv`, flow.go:120-121). -/
def stepArgv (lib : Collab) (cc : Cli) (st : DumpState) (parsedCmd : ParsedCmd) (cmd : CmdTree) :
    ArgVals :=
  (lib.ApplyMappingGenEnvAndArgv parsedCmd st.env cc.Cmds.Strs.EnvValDelAllMark
    cmd.Strs.PathSep).2

/-- The test of flow.go:245 in a description pass: the step is folded. -/
def foldCond (maxDepth maxTrivial : Int) (parsedCmd : ParsedCmd) (cmd : CmdTree) : Prop :=
  maxTrivial - (cmd.trivial + parsedCmd.TrivialLvl) ≤ 0 ∨ maxDepth ≤ 0

instance (maxDepth maxTrivial : Int) (parsedCmd : ParsedCmd) (cmd : CmdTree) :
    Decidable (foldCond maxDepth maxTrivial parsedCmd cmd) := by
  unfold foldCond
  exact inferInstance

/-- What `cic.Flow(argv, cmdEnv, true)` returns in the folding branch
(flow.go:252), after the environment operations of the step: the tokens of the
sub-flow and the flag `rendered`. -/
def foldRender (lib : Collab) (cc : Cli) (st : DumpState) (flow : ParsedCmds) (idx : Nat)
    (parsedCmd : ParsedCmd) (cmd : CmdTree) (cic : Cmd) : List String × Bool :=
  lib.Flow cic (stepArgv lib cc st parsedCmd cmd)
    (lib.TryExeEnvOpCmds (stepArgv lib cc st parsedCmd cmd)
      (st.env.Push (stepLayer lib cc st parsedCmd cmd)) flow idx) true

/-- What `cic.Flow(argv, cmdEnv, true)` returns in the expanding branch
(flow.go:358). -/
def subRender (lib : Collab) (cc : Cli) (st : DumpState) (parsedCmd : ParsedCmd) (cmd : CmdTree)
    (cic : Cmd) : List String × Bool :=
  lib.Flow cic (stepArgv lib cc st parsedCmd cmd) (st.env.Push (stepLayer lib cc st parsedCmd cmd))
    true

/-- The text of the sub-flow that the duplicate check compares (`flowStr`,
flow.go:315-316). -/
def subText (lib : Collab) (cc : Cli) (st : DumpState) (parsedCmd : ParsedCmd) (cmd : CmdTree)
    (cic : Cmd) : String :=
  strJoin (lib.RenderedFlowStrs cic (stepArgv lib cc st parsedCmd cmd)
    (st.env.Push (stepLayer lib cc st parsedCmd cmd)) true).1 " "

/-- The line a description step prints for a sub-flow whose text was met
before in the scope (flow.go:319-324). -/
def dupMark (lib : Collab) (args : DumpFlowArgs) (indentAdjust : Int) (env : Env) : String :=
  rpt " " (args.IndentSize * (1 + indentAdjust)) ++
    lib.autoPadNewLine (rpt " " (args.IndentSize * (1 + indentAdjust)))
      (lib.Color .Prop
        (if !args.Skeleton then "- flow (duplicated):" else "(duplicated sub flow)") env) ++ "\n"

/-- The run of the loop of `dumpFlow` over the first `n` commands of a scope
that starts at `fromCmdIdx` in the state `st`, with an empty `metFlows`: the
state and the `metFlows` in which the sibling at position `n` is described. -/
def scopeUpTo (dumpFlowRec : RecCall) (lib : Collab) (cc : Cli) (flow : ParsedCmds)
    (fromCmdIdx : Nat) (args : DumpFlowArgs) (running : Bool)
    (maxDepth maxTrivial indentAdjust : Int) (st : DumpState) (n : Nat) : Run × List String :=
  dumpFlowLoop dumpFlowRec lib cc flow fromCmdIdx args none running maxDepth maxTrivial
    indentAdjust ((flow.Cmds.drop fromCmdIdx).take n) 0 st []

/-! ## `pkg/cli/core/proto.go`: the session file of a command -/

/-- The function `saveEnvToSessionFile` (proto.go:105) over the files `fs`: the
session directory and the path of the session file, or the panic. Its two
checks panic with a `*CmdError` made from `parsedCmd`. -/
def saveEnvToSessionFile (sys : Sys) (cc : Cli) (env : Env) (parsedCmd : ParsedCmd)
    (fs : Files) (ft : Faults) : Files × Except PanicValue (String × String) :=
  let sep := cc.Cmds.Strs.EnvKeyValSep
  let sessionDir := env.GetRaw "session"
  if sessionDir.length == 0 then
    (fs, .error (.cmdError parsedCmd "[Cmd.executeFile] session dir not found in env"))
  else
    let sessionFileName := env.GetRaw "strs.session-env-file"
    if sessionFileName.length == 0 then
      (fs, .error (.cmdError parsedCmd
        "[Cmd.executeFile] session env file name not found in env"))
    else
      let sessionPath := sys.Join sessionDir sessionFileName
      let saved := SaveEnvToFile ((env.GetLayer EnvLayerSession).getD env) sessionPath sep fs ft
      match saved.2 with
      | some msg => (saved.1, .error (.plain msg))
      | none => (saved.1, .ok (sessionDir, sessionPath))

/-- An environment with a session directory and no name of the session file. -/
def exNoFileName : Env :=
  ⟨⟨EnvLayerSession, [("session", "/tmp/s1")]⟩, [⟨EnvLayerDefault, []⟩]⟩

/-- The panic value is a `*CmdError`. -/
def PanicValue.isCmdError : PanicValue → Bool
  | .cmdError _ _ => true
  | _ => false

/-! ## `pkg/builtin/flow.go`: saving a flow -/

/-- One `fmt.Fprint(w, s)` whose result is not looked at. -/
def Writer.put (w : Writer) (s : String) : Writer := (w.Fprint s).1

/-- The key of one entry as `saveFlowEnv` writes it (builtin/flow.go:401-403):
a key below the prefix is replaced by the rest of its matched path. The slice
`v.MatchedPath[len(prefixPath):]` is a run-time error when the matched path is
shorter than the prefix path. -/
def saveFlowEnvKey (prefixPath : List String) (pathSep pfx : String) (k : String)
    (v : ParsedEnvVal) : Except PanicValue String :=
  if startsWith k pfx && byteLen k.data != byteLen pfx.data then
    if v.MatchedPath.length < prefixPath.length then
      .error (.runtime "slice bounds out of range")
    else .ok (strJoin (v.MatchedPath.drop prefixPath.length) pathSep)
  else .ok k

/-- The loop of `saveFlowEnv` over the entries of the map (builtin/flow.go:400-405),
in the order the run time visits them: the texts `key sep value`. `quote` is
`quoteIfHasSpace`, which is not among the sources. -/
def saveFlowEnvKvs (quote : String → String) (prefixPath : List String)
    (pathSep envKeyValSep pfx : String) : ParsedEnv → Except PanicValue (List String)
  | [] => .ok []
  | kv :: more =>
    match saveFlowEnvKey prefixPath pathSep pfx kv.1 kv.2 with
    | .error p => .error p
    | .ok k =>
      match saveFlowEnvKvs quote prefixPath pathSep envKeyValSep pfx more with
      | .error p => .error p
      | .ok kvs => .ok ((k ++ envKeyValSep ++ quote kv.2.Val) :: kvs)

/-- The function `saveFlowEnv` (builtin/flow.go:376): the writer, and whether
an environment was written. -/
def saveFlowEnv (quote : String → String) (w : Writer) (env : ParsedEnv)
    (prefixPath : List String) (pathSep bracketLeft bracketRight envKeyValSep : String)
    (useArgsFmt : Bool) : Except PanicValue (Writer × Bool) :=
  if env.length == 0 then .ok (w, false)
  else
    let isAllArgs := env.all fun kv => kv.2.IsArg
    let pfx := strJoin prefixPath pathSep ++ pathSep
    match saveFlowEnvKvs quote prefixPath pathSep envKeyValSep pfx env with
    | .error p => .error p
    | .ok kvs =>
      if isAllArgs && useArgsFmt then .ok (w.put (" " ++ strJoin kvs " "), true)
      else .ok (w.put (bracketLeft ++ strJoin kvs " " ++ bracketRight), true)

/-- The loop of `saveFlow` over the segments of one command (builtin/flow.go:354-369);
`n` is `len(cmd.Segments)` and `j` the index of the segment. The call of
`saveFlowEnv` is the right operand of `||`: it is not made once `cmdHasEnv` is
set. -/
def saveFlowSegs (quote : String → String) (n : Nat)
    (cmdPathSep envPathSep bracketLeft bracketRight envKeyValSep : String) :
    List ParsedCmdSeg → Nat → List String → Bool → Bool → Writer → Except PanicValue Writer
  | [], _, _, _, _, w => .ok w
  | seg :: more, j, path, lastSegHasNoCmd, cmdHasEnv, w =>
    let w1 := if decide (n > 1) && j != 0 && !lastSegHasNoCmd then w.put cmdPathSep else w
    let w2 := w1.put seg.Matched.Name
    let path1 := path ++ [match seg.Matched.Cmd with
      | some node => node.name
      | none => seg.Matched.Name]
    let last1 := seg.Matched.Cmd.isNone
    if cmdHasEnv then
      saveFlowSegs quote n cmdPathSep envPathSep bracketLeft bracketRight envKeyValSep more
        (j + 1) path1 last1 true w2
    else
      match saveFlowEnv quote w2 seg.Env path1 envPathSep bracketLeft bracketRight envKeyValSep
          (!cmdHasEnv && decide ((j : Int) = (n : Int) - 1)) with
      | .error p => .error p
      | .ok r =>
        saveFlowSegs quote n cmdPathSep envPathSep bracketLeft bracketRight envKeyValSep more
          (j + 1) path1 last1 r.2 r.1

/-- The body of the loop of `saveFlow` for one command, after the separator
(builtin/flow.go:342-369). -/
def saveFlowCmd (quote : String → String) (cmd : ParsedCmd)
    (cmdPathSep trivialMark envPathSep bracketLeft bracketRight envKeyValSep : String)
    (w : Writer) : Except PanicValue Writer :=
  if cmd.ParseResult.Error.isSome then .ok (w.put (strJoin cmd.ParseResult.Input " "))
  else
    let w1 := (List.replicate cmd.TrivialLvl.toNat trivialMark).foldl Writer.put w
    saveFlowSegs quote cmd.Segments.length cmdPathSep envPathSep bracketLeft bracketRight
      envKeyValSep cmd.Segments 0 [] false false w1

/-- The loop of `saveFlow` over the commands (builtin/flow.go:332-371); `i` is
the index of the command. -/
def saveFlowLoop (quote : String → String) (flow : ParsedCmds)
    (cmdPathSep trivialMark envPathSep bracketLeft bracketRight envKeyValSep seqSep : String) :
    List ParsedCmd → Nat → Writer → Except PanicValue Writer
  | [], _, w => .ok w
  | cmd :: more, i, w =>
    let w1 :=
      if flow.Cmds.length > 1 then
        if i == 0 then
          if flow.GlobalCmdIdx < 0 then w.put (seqSep ++ " ") else w
        else w.put (" " ++ seqSep ++ " ")
      else w
    match saveFlowCmd quote cmd cmdPathSep trivialMark envPathSep bracketLeft bracketRight
        envKeyValSep w1 with
    | .error p => .error p
    | .ok w2 =>
      saveFlowLoop quote flow cmdPathSep trivialMark envPathSep bracketLeft bracketRight
        envKeyValSep seqSep more (i + 1) w2

/-- The function `saveFlow` (builtin/flow.go:321): the writer after the flow
was written, or the panic. -/
def saveFlow (quote : String → String) (w : Writer) (flow : ParsedCmds) (currCmdIdx : Nat)
    (cmdPathSep trivialMark : String) (env : Env) : Except PanicValue Writer :=
  let envPathSep := env.GetRaw "strs.env-path-sep"
  let bracketLeft := env.GetRaw "strs.env-bracket-left"
  let bracketRight := env.GetRaw "strs.env-bracket-right"
  let envKeyValSep := env.GetRaw "strs.env-kv-sep"
  let seqSep := env.GetRaw "strs.seq-sep"
  if envPathSep.length == 0 || bracketLeft.length == 0 || bracketRight.length == 0 ||
      envKeyValSep.length == 0 || seqSep.length == 0 then
    match flow.Cmds.get? currCmdIdx with
    | none => .error (.runtime "index out of range")
    | some cmd => .error (.cmdError cmd "some predefined strs not found")
  else
    saveFlowLoop quote flow cmdPathSep trivialMark envPathSep bracketLeft bracketRight
      envKeyValSep seqSep flow.Cmds 0 w

/-- The text a call has written when it returned; empty for a call that did not. -/
def writtenBy (r : Except PanicValue Writer) : String :=
  match r with
  | .ok w => w.text
  | .error _ => ""

/-- The text `saveFlow` writes for one command, on its own. -/
def savedCmdText (quote : String → String) (cmdPathSep trivialMark : String) (env : Env)
    (cmd : ParsedCmd) : String :=
  writtenBy (saveFlowCmd quote cmd cmdPathSep trivialMark (env.GetRaw "strs.env-path-sep")
    (env.GetRaw "strs.env-bracket-left") (env.GetRaw "strs.env-bracket-right")
    (env.GetRaw "strs.env-kv-sep") ⟨"", none, 0⟩)

/-- The matched path of every entry of every segment reaches the segment it
belongs to: the entries of the segment at the index `j` map onto a path of more
than `j` elements. -/
def segsInRange : List ParsedCmdSeg → Nat → Bool
  | [], _ => true
  | seg :: more, j =>
    (seg.Env.all fun kv => decide (j < kv.2.MatchedPath.length)) && segsInRange more (j + 1)

/-- The text of `n` copies of a mark. -/
def marks (n : Nat) (mark : String) : String :=
  match n with
  | 0 => ""
  | n + 1 => mark ++ marks n mark

/-- The predefined strings of the examples. -/
def exStrsEnv : Env :=
  ⟨⟨EnvLayerDefault, [("strs.env-path-sep", "."), ("strs.env-bracket-left", "\x7b"),
    ("strs.env-bracket-right", "\x7d"), ("strs.env-kv-sep", "="), ("strs.seq-sep", ":")]⟩, []⟩

/-- A parsed flow of three commands for the examples: the trivial command
`^a.b {x=1}`, a command with a parse error and raw input `no  such`, and `c`. -/
def exSavedFlow : ParsedCmds :=
  ⟨[], [⟨[⟨[], ⟨"a", some (exNormalNode "a")⟩⟩,
          ⟨[("a.b.x", ⟨"1", false, ["a", "b", "x"]⟩)], ⟨"b", some (exNormalNode "b")⟩⟩],
        ⟨["a.b", "\x7bx=1\x7d"], none⟩, 1⟩,
      ⟨[⟨[], ⟨"no", none⟩⟩], ⟨["no", "", "such"], some "unknown command"⟩, 0⟩,
      exInvoke (exNormalNode "c")], -1⟩

/-- The texts of a list, each after the separator. -/
def joinAfter (sep : String) : List String → String
  | [] => ""
  | x :: xs => sep ++ x ++ joinAfter sep xs

/-! ## The nesting of a flow -/

/-- The shape of a flow as a description pass meets it: its steps in order,
each a plain step or a step with a sub-flow, which has a shape of its own. -/
inductive FlowShape where
  | done
  | leaf (name : String) (rest : FlowShape)
  | sub (name : String) (inner rest : FlowShape)
  deriving Repr, DecidableEq

/-- The number of nesting levels of a flow: the steps of the flow itself are
its first level, the steps of their sub-flows the second, and so on. -/
def FlowShape.nesting : FlowShape → Nat
  | .done => 0
  | .leaf _ rest => max 1 rest.nesting
  | .sub _ inner rest => max (inner.nesting + 1) rest.nesting

/-- The steps of the first `k` nesting levels, in the order of the
description, each with the `indentAdjust` of its level. -/
def FlowShape.levels : FlowShape → Nat → Int → List (Int × String)
  | .done, _, _ => []
  | .leaf name rest, k, ind => (if 0 < k then [(ind, name)] else []) ++ rest.levels k ind
  | .sub name inner rest, k, ind =>
    (if 0 < k then [(ind, name)] else []) ++ inner.levels (k - 1) (ind + 2) ++ rest.levels k ind

/-- The steps whose sub-flow is rendered when the first `k` levels are shown:
every step with a sub-flow, and every plain step below the level `k`. -/
def FlowShape.renders : FlowShape → Nat → Int → List (Int × String)
  | .done, _, _ => []
  | .leaf name rest, k, ind => (if 0 < k then [] else [(ind, name)]) ++ rest.renders k ind
  | .sub name inner rest, k, ind =>
    (ind, name) :: inner.renders (k - 1) (ind + 2) ++ rest.renders k ind

/-- The steps whose head line a run printed, with their indent, in order. -/
def shownOf (tr : List Event) : List (Int × String) :=
  tr.filterMap fun ev =>
    match ev with
    | .shown i c => some (i, c)
    | _ => none

/-- The steps whose sub-flow a run rendered (the calls of `cic.Flow`), with
their indent, in order. -/
def rendersOf (tr : List Event) : List (Int × String) :=
  tr.filterMap fun ev =>
    match ev with
    | .render i c _ _ => some (i, c)
    | _ => none

/-- The commands `cmds` of a scope have the shape `shape`, for a description
without trivial marks and without duplicate sub-flows; `seen` holds the
sub-flow texts of the steps of the scope before `cmds`.

* A command that resolves to no command is no step.
* A plain step: its command is not a flow command with text, and rendering it
  gives no sub-flow (nothing rendered, or an empty token list that parses to
  the empty flow).
* A step with a sub-flow: its command is a flow command with text, it renders
  to the non-empty token list `toks` and to the text `text` whatever the
  arguments and the environment, the text is not among the texts of the
  earlier steps of the scope, and `toks` parses without error to commands that
  have the shape `inner`.

No step carries a trivial mark. -/
inductive Nested (lib : Collab) : List String → List ParsedCmd → FlowShape → Prop where
  | done (seen : List String) : Nested lib seen [] .done
  | skip (seen : List String) (pc : ParsedCmd) (rest : List ParsedCmd) (shape : FlowShape)
      (hnone : pc.LastCmd = none) (hrest : Nested lib seen rest shape) :
      Nested lib seen (pc :: rest) shape
  | leaf (seen : List String) (pc : ParsedCmd) (rest : List ParsedCmd) (shape : FlowShape)
      (node : CmdTree) (cic : Cmd)
      (hnode : pc.Last.Matched.Cmd = some node) (hcic : node.cmd = some cic)
      (htriv : node.trivial + pc.TrivialLvl = 0)
      (hplain : hasFlowText lib cic = false)
      (hflow : ∀ argv env, (lib.Flow cic argv env true).2 = false ∨
        ((lib.Flow cic argv env true).1 = [] ∧ (lib.Parse []).FirstErr = none ∧
          (lib.Parse []).Cmds = []))
      (hrest : Nested lib seen rest shape) :
      Nested lib seen (pc :: rest) (.leaf (strJoin pc.Path node.Strs.PathSep) shape)
  | sub (seen : List String) (pc : ParsedCmd) (rest : List ParsedCmd) (inner shape : FlowShape)
      (node : CmdTree) (cic : Cmd) (toks : List String) (text : String)
      (hnode : pc.Last.Matched.Cmd = some node) (hcic : node.cmd = some cic)
      (htriv : node.trivial + pc.TrivialLvl = 0)
      (hft : hasFlowText lib cic = true)
      (hflow : ∀ argv env, lib.Flow cic argv env true = (toks, true))
      (hne : toks ≠ [])
      (htext : ∀ argv env, strJoin (lib.RenderedFlowStrs cic argv env true).1 " " = text)
      (hnew : text ∉ seen)
      (herr : (lib.Parse toks).FirstErr = none)
      (hinner : Nested lib [] (lib.Parse toks).Cmds inner)
      (hrest : Nested lib (text :: seen) rest shape) :
      Nested lib seen (pc :: rest) (.sub (strJoin pc.Path node.Strs.PathSep) inner shape)

/-- The recursive call of `dumpFlow` with a call stack bounded by `fuel`. -/
def recCall (lib : Collab) (cc : Cli) (args : DumpFlowArgs) (running : Bool) (fuel : Nat) :
    RecCall :=
  fun s f e d t i => dumpFlow lib cc args running fuel s f 0 e d t i

/-- The run `r`, started in the state `s`, succeeded, printed the head lines of
the steps `shown` and rendered the sub-flows of the steps `renders`, and, when
`hidden` holds, printed nothing. -/
def Described (s : DumpState) (r : Run) (shown renders : List (Int × String))
    (hidden : Prop) : Prop :=
  r.out = .done true ∧ shownOf r.st.trace = shownOf s.trace ++ shown ∧
    rendersOf r.st.trace = rendersOf s.trace ++ renders ∧ (hidden → r.st.screen = s.screen)

/-- The shape of the flow `l2` of the three-level example: `l2` runs `l3`,
which runs the plain command `leaf`. -/
def nest3 : FlowShape := .sub "l2" (.sub "l3" (.leaf "leaf" .done) .done) .done

/-! # Properties -/

/-! ## Frame lemmas of the description -/

@[simp] theorem print_env (st : DumpState) (s : String) : (st.print s).env = st.env := rfl

@[simp] theorem print_trace (st : DumpState) (s : String) : (st.print s).trace = st.trace := rfl

@[simp] theorem print_writtenKeys (st : DumpState) (s : String) :
    (st.print s).writtenKeys = st.writtenKeys := rfl

@[simp] theorem log_env (st : DumpState) (e : Event) : (st.log e).env = st.env := rfl

@[simp] theorem log_trace (st : DumpState) (e : Event) : (st.log e).trace = st.trace ++ [e] := rfl

@[simp] theorem log_writtenKeys (st : DumpState) (e : Event) :
    (st.log e).writtenKeys = st.writtenKeys := rfl

@[simp] theorem log_screen (st : DumpState) (e : Event) : (st.log e).screen = st.screen := rfl

@[simp] theorem prt_env (lib : Collab) (args : DumpFlowArgs) (i : Int) (st : DumpState) (l : Int)
    (m : String) : (prt lib args i st l m).env = st.env := rfl

@[simp] theorem prt_trace (lib : Collab) (args : DumpFlowArgs) (i : Int) (st : DumpState) (l : Int)
    (m : String) : (prt lib args i st l m).trace = st.trace := rfl

@[simp] theorem prt_writtenKeys (lib : Collab) (args : DumpFlowArgs) (i : Int) (st : DumpState)
    (l : Int) (m : String) : (prt lib args i st l m).writtenKeys = st.writtenKeys := rfl

theorem prtAll_frame (lib : Collab) (args : DumpFlowArgs) (i : Int) (l : Int) (ms : List String)
    (st : DumpState) :
    (prtAll lib args i st l ms).env = st.env ∧ (prtAll lib args i st l ms).trace = st.trace ∧
      (prtAll lib args i st l ms).writtenKeys = st.writtenKeys := by
  unfold prtAll
  induction ms generalizing st with
  | nil => exact ⟨rfl, rfl, rfl⟩
  | cons m ms ih => simpa [List.foldl] using ih (prt lib args i st l m)

@[simp] theorem prtAll_env (lib : Collab) (args : DumpFlowArgs) (i : Int) (l : Int)
    (ms : List String) (st : DumpState) : (prtAll lib args i st l ms).env = st.env :=
  (prtAll_frame lib args i l ms st).1

@[simp] theorem prtAll_trace (lib : Collab) (args : DumpFlowArgs) (i : Int) (l : Int)
    (ms : List String) (st : DumpState) : (prtAll lib args i st l ms).trace = st.trace :=
  (prtAll_frame lib args i l ms st).2.1

@[simp] theorem prtAll_writtenKeys (lib : Collab) (args : DumpFlowArgs) (i : Int) (l : Int)
    (ms : List String) (st : DumpState) :
    (prtAll lib args i st l ms).writtenKeys = st.writtenKeys :=
  (prtAll_frame lib args i l ms st).2.2

theorem body_frame (lib : Collab) (cc : Cli) (args : DumpFlowArgs) (flow : ParsedCmds)
    (parsedCmd : ParsedCmd) (cmd : CmdTree) (cic : Cmd) (originEnv : Env) (cmdLayer : EnvLayer)
    (argv : ArgVals) (indentAdjust : Int) (st : DumpState) :
    (dumpFlowCmdBody lib cc args flow parsedCmd cmd cic originEnv cmdLayer argv indentAdjust
        st).env = st.env ∧
    (dumpFlowCmdBody lib cc args flow parsedCmd cmd cic originEnv cmdLayer argv indentAdjust
        st).trace = st.trace := by
  simp only [dumpFlowCmdBody, apply_ite DumpState.env, apply_ite DumpState.trace, prt_env,
    prt_trace, prtAll_env, prtAll_trace, ite_self, and_self]

theorem flowLines_frame (lib : Collab) (args : DumpFlowArgs) (cic : Cmd) (cmdLayer : EnvLayer)
    (argv : ArgVals) (executedCmd : Option ExecutedCmd) (maxDepth indentAdjust : Int)
    (metFlows : List String) (st : DumpState) :
    (dumpFlowCmdFlowLines lib args cic cmdLayer argv executedCmd maxDepth indentAdjust metFlows
        st).1.env = st.env ∧
    (dumpFlowCmdFlowLines lib args cic cmdLayer argv executedCmd maxDepth indentAdjust metFlows
        st).1.trace = st.trace ∧
    (dumpFlowCmdFlowLines lib args cic cmdLayer argv executedCmd maxDepth indentAdjust metFlows
        st).1.writtenKeys = st.writtenKeys := by
  simp only [dumpFlowCmdFlowLines, apply_ite Prod.fst, apply_ite DumpState.env,
    apply_ite DumpState.trace, apply_ite DumpState.writtenKeys, prt_env,
    prt_trace, prt_writtenKeys, prtAll_env, prtAll_trace, prtAll_writtenKeys, ite_self, and_self]

theorem args_frame (lib : Collab) (args : DumpFlowArgs) (cic : Cmd) (originEnv : Env)
    (argv : ArgVals) (executedCmd : Option ExecutedCmd) (maxDepth maxTrivial indentAdjust : Int)
    (st : DumpState) :
    (dumpFlowCmdArgs lib args cic originEnv argv executedCmd maxDepth maxTrivial indentAdjust
        st).env = st.env ∧
    (dumpFlowCmdArgs lib args cic originEnv argv executedCmd maxDepth maxTrivial indentAdjust
        st).trace = st.trace ∧
    (dumpFlowCmdArgs lib args cic originEnv argv executedCmd maxDepth maxTrivial indentAdjust
        st).writtenKeys = st.writtenKeys := by
  simp only [dumpFlowCmdArgs, apply_ite DumpState.env,
    apply_ite DumpState.trace, apply_ite DumpState.writtenKeys, prt_env,
    prt_trace, prt_writtenKeys, prtAll_env, prtAll_trace, prtAll_writtenKeys, ite_self, and_self]

/-- In a description pass the head of a step never returns early; it leaves
the environment and the written keys alone and records `shown` exactly when
both budgets are positive. -/
theorem head_none (lib : Collab) (args : DumpFlowArgs) (parsedCmd : ParsedCmd) (cmd : CmdTree)
    (cic : Cmd) (cmdEnv : Env) (mark : String) (delta : Int) (running : Bool)
    (maxDepth maxTrivial indentAdjust : Int) (st : DumpState) :
    (dumpFlowCmdHead lib args parsedCmd cmd cic cmdEnv mark delta none running maxDepth maxTrivial
        indentAdjust st).2 = none ∧
    (dumpFlowCmdHead lib args parsedCmd cmd cic cmdEnv mark delta none running maxDepth maxTrivial
        indentAdjust st).1.env = st.env ∧
    (dumpFlowCmdHead lib args parsedCmd cmd cic cmdEnv mark delta none running maxDepth maxTrivial
        indentAdjust st).1.writtenKeys = st.writtenKeys ∧
    (dumpFlowCmdHead lib args parsedCmd cmd cic cmdEnv mark delta none running maxDepth maxTrivial
        indentAdjust st).1.trace =
      st.trace ++ (if 0 < maxTrivial ∧ 0 < maxDepth then
        [Event.shown indentAdjust (strJoin parsedCmd.Path cmd.Strs.PathSep)] else []) := by
  by_cases h : 0 < maxTrivial ∧ 0 < maxDepth
  · simp only [dumpFlowCmdHead, execFailed, Bool.false_or, gt_iff_lt, h.1, h.2, decide_True,
      Bool.and_self, if_true, and_self, true_and,
      apply_ite DumpState.env, apply_ite DumpState.trace, apply_ite DumpState.writtenKeys, prt_env,
      prt_trace, prt_writtenKeys, log_env, log_trace, log_writtenKeys, ite_self]
  · have h2 : (decide (maxTrivial > 0) && decide (maxDepth > 0)) = false := by
      simpa using h
    simp [dumpFlowCmdHead, execFailed, h2, h]

/-! ## The structure of one description step -/

theorem ListExt.refl (P : Event → Prop) (l : List Event) : ListExt P l l :=
  ⟨[], by simp, by simp⟩

theorem ListExt.snoc {P : Event → Prop} {l l2 : List Event} (e : Event) (he : P e)
    (h : ListExt P l l2) : ListExt P l (l2 ++ [e]) := by
  obtain ⟨d, e1, p1⟩ := h
  refine ⟨d ++ [e], by rw [e1, List.append_assoc], ?_⟩
  intro ev hev
  rcases List.mem_append.mp hev with h | h
  · exact p1 ev h
  · simp at h; subst h; exact he

theorem ListExt.trans {P : Event → Prop} {a b c : List Event} (h1 : ListExt P a b)
    (h2 : ListExt P b c) : ListExt P a c := by
  obtain ⟨d1, e1, p1⟩ := h1
  obtain ⟨d2, e2, p2⟩ := h2
  refine ⟨d1 ++ d2, by rw [e2, e1, List.append_assoc], ?_⟩
  intro ev hev
  rcases List.mem_append.mp hev with h | h
  · exact p1 ev h
  · exact p2 ev h

theorem ListExt.mono {P Q : Event → Prop} {a b : List Event} (h : ListExt P a b)
    (hpq : ∀ ev, P ev → Q ev) : ListExt Q a b := by
  obtain ⟨d, e, p⟩ := h
  exact ⟨d, e, fun ev hev => hpq ev (p ev hev)⟩

theorem Extends.here (P : Event → Prop) (s : DumpState) : Extends P s s := ListExt.refl P _

theorem Extends.chain {P : Event → Prop} {a b c : DumpState} (h1 : Extends P a b)
    (h2 : Extends P b c) : Extends P a c := ListExt.trans h1 h2

theorem Extends.of_eq {P : Event → Prop} {a b : DumpState} (h : b.trace = a.trace) :
    Extends P a b := by
  unfold Extends
  rw [h]
  exact ListExt.refl P _

theorem Extends.weaken {P Q : Event → Prop} {a b : DumpState} (h : Extends P a b)
    (hpq : ∀ ev, P ev → Q ev) : Extends Q a b := ListExt.mono h hpq

/-- A description step with a command is the folding branch or the expanding
branch, run from `descPre`, by the test of flow.go:245. -/
theorem dumpFlowCmd_desc (dumpFlowRec : RecCall) (lib : Collab) (cc : Cli) (st : DumpState)
    (flow : ParsedCmds) (idx : Nat) (args : DumpFlowArgs) (running : Bool)
    (maxDepth maxTrivial indentAdjust : Int) (metFlows : List String) (cmd : CmdTree) (cic : Cmd)
    (hcmd : (flow.Cmds.getD idx default).Last.Matched.Cmd = some cmd) (hcic : cmd.cmd = some cic) :
    dumpFlowCmd dumpFlowRec lib cc st flow idx args none running maxDepth maxTrivial indentAdjust
        metFlows =
      if maxTrivial - (cmd.trivial + (flow.Cmds.getD idx default).TrivialLvl) ≤ 0 ∨ maxDepth ≤ 0 then
        (dumpFlowCmdFolded dumpFlowRec lib cc flow idx (flow.Cmds.getD idx default) cmd cic
          (lib.ApplyMappingGenEnvAndArgv (flow.Cmds.getD idx default) st.env
            cc.Cmds.Strs.EnvValDelAllMark cmd.Strs.PathSep).1
          (lib.ApplyMappingGenEnvAndArgv (flow.Cmds.getD idx default) st.env
            cc.Cmds.Strs.EnvValDelAllMark cmd.Strs.PathSep).2
          none maxDepth (maxTrivial - (cmd.trivial + (flow.Cmds.getD idx default).TrivialLvl))
          indentAdjust
          (descPre lib cc args (flow.Cmds.getD idx default) cmd cic running maxDepth maxTrivial
            indentAdjust st), metFlows)
      else
        dumpFlowCmdExpanded dumpFlowRec lib cc args flow idx (flow.Cmds.getD idx default) cmd cic
          st.env
          (lib.ApplyMappingGenEnvAndArgv (flow.Cmds.getD idx default) st.env
            cc.Cmds.Strs.EnvValDelAllMark cmd.Strs.PathSep).1
          (lib.ApplyMappingGenEnvAndArgv (flow.Cmds.getD idx default) st.env
            cc.Cmds.Strs.EnvValDelAllMark cmd.Strs.PathSep).2
          none maxDepth (maxTrivial - (cmd.trivial + (flow.Cmds.getD idx default).TrivialLvl))
          indentAdjust metFlows
          (descPre lib cc args (flow.Cmds.getD idx default) cmd cic running maxDepth maxTrivial
            indentAdjust st) := by
  have hh := head_none lib args (flow.Cmds.getD idx default) cmd cic
    (st.env.Push (lib.ApplyMappingGenEnvAndArgv (flow.Cmds.getD idx default) st.env
      cc.Cmds.Strs.EnvValDelAllMark cmd.Strs.PathSep).1)
    (st.env.GetRaw "strs.trivial-mark") (cmd.trivial + (flow.Cmds.getD idx default).TrivialLvl)
    running maxDepth maxTrivial indentAdjust st
  unfold dumpFlowCmd descPre
  simp only [hcmd, hcic, hh.1, hh.2.1, execOk, Bool.true_and, Bool.or_eq_true, decide_eq_true_eq]

theorem descPre_frame (lib : Collab) (cc : Cli) (args : DumpFlowArgs) (parsedCmd : ParsedCmd)
    (cmd : CmdTree) (cic : Cmd) (running : Bool) (maxDepth maxTrivial indentAdjust : Int)
    (st : DumpState) :
    (descPre lib cc args parsedCmd cmd cic running maxDepth maxTrivial indentAdjust st).env =
      st.env ∧
    (descPre lib cc args parsedCmd cmd cic running maxDepth maxTrivial indentAdjust
        st).writtenKeys = st.writtenKeys ∧
    (descPre lib cc args parsedCmd cmd cic running maxDepth maxTrivial indentAdjust st).trace =
      st.trace ++ (if 0 < maxTrivial ∧ 0 < maxDepth then
        [Event.shown indentAdjust (strJoin parsedCmd.Path cmd.Strs.PathSep)] else []) := by
  unfold descPre
  simp only []
  have hh := head_none lib args parsedCmd cmd cic
    (st.env.Push (lib.ApplyMappingGenEnvAndArgv parsedCmd st.env
      cc.Cmds.Strs.EnvValDelAllMark cmd.Strs.PathSep).1)
    (st.env.GetRaw "strs.trivial-mark") (cmd.trivial + parsedCmd.TrivialLvl)
    running maxDepth maxTrivial indentAdjust st
  refine ⟨?_, ?_, ?_⟩
  · rw [(args_frame _ _ _ _ _ _ _ _ _ _).1, hh.2.1]
  · rw [(args_frame _ _ _ _ _ _ _ _ _ _).2.2, hh.2.2.1]
  · rw [(args_frame _ _ _ _ _ _ _ _ _ _).2.1, hh.2.2.2]

theorem end_frame (lib : Collab) (flow : ParsedCmds) (idx : Nat) (cmdLayer : EnvLayer)
    (argv : ArgVals) (executedCmd : Option ExecutedCmd) (st : DumpState) :
    (dumpFlowCmdEnd lib flow idx cmdLayer argv executedCmd st).st.trace = st.trace ∧
    (dumpFlowCmdEnd lib flow idx cmdLayer argv executedCmd st).st.screen = st.screen ∧
    (dumpFlowCmdEnd lib flow idx cmdLayer argv executedCmd st).st.writtenKeys = st.writtenKeys ∧
    (dumpFlowCmdEnd lib flow idx cmdLayer argv executedCmd st).out = .done (execOk executedCmd) :=
  ⟨rfl, rfl, rfl, rfl⟩

/-- The events of the folding branch: `folded`, `render`, `parse`, then those
of the recursion. -/
theorem folded_extends (dumpFlowRec : RecCall) (lib : Collab) (cc : Cli) (flow : ParsedCmds)
    (idx : Nat) (parsedCmd : ParsedCmd) (cmd : CmdTree) (cic : Cmd) (cmdLayer : EnvLayer)
    (argv : ArgVals) (executedCmd : Option ExecutedCmd) (maxDepth trivial indentAdjust : Int)
    (st : DumpState) (hrec : TraceGrows dumpFlowRec) (P : Event → Prop)
    (hf : ∀ c, P (.folded indentAdjust c)) (hr : ∀ c toks rd, P (.render indentAdjust c toks rd))
    (hp : ∀ toks, P (.parse indentAdjust toks)) (hd : ∀ ev, indentAdjust + 2 ≤ ev.indent → P ev) :
    Extends P st (dumpFlowCmdFolded dumpFlowRec lib cc flow idx parsedCmd cmd cic cmdLayer argv
      executedCmd maxDepth trivial indentAdjust st).st := by
  unfold dumpFlowCmdFolded
  simp only []
  split
  · split
    · unfold Extends
      simp only [log_trace]
      exact ((ListExt.refl P _).snoc _ (hf _) |>.snoc _ (hr _ _ _) |>.snoc _ (hp _))
    · refine Extends.chain ?_ ((hrec _ _ _ _ _ _).weaken hd)
      unfold Extends
      simp only [log_trace]
      exact ((ListExt.refl P _).snoc _ (hf _) |>.snoc _ (hr _ _ _) |>.snoc _ (hp _))
  · unfold Extends
    simp only [log_trace]
    exact ((ListExt.refl P _).snoc _ (hf _) |>.snoc _ (hr _ _ _))

/-- The events of the recursion of the expanding branch: `render`, `parse`,
then those of the recursion. -/
theorem sub_extends (dumpFlowRec : RecCall) (lib : Collab) (cc : Cli) (args : DumpFlowArgs)
    (flow : ParsedCmds) (idx : Nat) (parsedCmd : ParsedCmd) (cmd : CmdTree) (cic : Cmd)
    (cmdLayer : EnvLayer) (argv : ArgVals) (executedCmd : Option ExecutedCmd)
    (maxDepth trivial indentAdjust : Int) (metFlow : Bool) (st : DumpState)
    (hrec : TraceGrows dumpFlowRec) (P : Event → Prop)
    (hr : ∀ c toks rd, P (.render indentAdjust c toks rd))
    (hp : ∀ toks, P (.parse indentAdjust toks)) (hd : ∀ ev, indentAdjust + 2 ≤ ev.indent → P ev) :
    Extends P st (dumpFlowCmdSub dumpFlowRec lib cc args flow idx parsedCmd cmd cic cmdLayer argv
      executedCmd maxDepth trivial indentAdjust metFlow st).st := by
  unfold dumpFlowCmdSub
  simp only []
  have e1 : ∀ x : DumpState, x.trace = st.trace →
      Extends P st ((x.log (.render indentAdjust (strJoin parsedCmd.Path cmd.Strs.PathSep)
        (lib.Flow cic argv (st.env.Push cmdLayer) true).1
        (lib.Flow cic argv (st.env.Push cmdLayer) true).2)).log
          (.parse indentAdjust (lib.Flow cic argv (st.env.Push cmdLayer) true).1)) := by
    intro x hx
    unfold Extends
    simp only [log_trace, hx]
    exact ((ListExt.refl P _).snoc _ (hr _ _ _) |>.snoc _ (hp _))
  have e0 : Extends P st (st.log (.render indentAdjust (strJoin parsedCmd.Path cmd.Strs.PathSep)
        (lib.Flow cic argv (st.env.Push cmdLayer) true).1
        (lib.Flow cic argv (st.env.Push cmdLayer) true).2)) := by
    unfold Extends
    simp only [log_trace]
    exact ((ListExt.refl P _).snoc _ (hr _ _ _))
  split
  · split
    · split
      · split
        · unfold Extends
          simp only [log_trace, apply_ite DumpState.trace, prt_trace, ite_self]
          exact ((ListExt.refl P _).snoc _ (hr _ _ _) |>.snoc _ (hp _))
        · have hsub := (hrec
            { (((if (execFailed executedCmd || decide (maxDepth > 1)) = true then
                    prt lib args indentAdjust
                      (st.log (.render indentAdjust (strJoin parsedCmd.Path cmd.Strs.PathSep)
                        (lib.Flow cic argv (st.env.Push cmdLayer) true).1
                        (lib.Flow cic argv (st.env.Push cmdLayer) true).2)) 2
                      (lib.Color .Flowing "--->>>" st.env)
                  else st.log (.render indentAdjust (strJoin parsedCmd.Path cmd.Strs.PathSep)
                        (lib.Flow cic argv (st.env.Push cmdLayer) true).1
                        (lib.Flow cic argv (st.env.Push cmdLayer) true).2)) : DumpState).log
                (.parse indentAdjust (lib.Flow cic argv (st.env.Push cmdLayer) true).1)) with
              env := (lib.Parse (lib.Flow cic argv (st.env.Push cmdLayer) true).1).GlobalEnv.WriteNotArgTo
                st.env cc.Cmds.Strs.EnvValDelAllMark }
            (lib.Parse (lib.Flow cic argv (st.env.Push cmdLayer) true).1)
            (executedCmd.bind ExecutedCmd.SubFlow)
            (if execOk executedCmd = true then maxDepth - 1 else maxDepth) trivial
            (indentAdjust + 2)).weaken hd
          have hpre : Extends P st
              { (((if (execFailed executedCmd || decide (maxDepth > 1)) = true then
                    prt lib args indentAdjust
                      (st.log (.render indentAdjust (strJoin parsedCmd.Path cmd.Strs.PathSep)
                        (lib.Flow cic argv (st.env.Push cmdLayer) true).1
                        (lib.Flow cic argv (st.env.Push cmdLayer) true).2)) 2
                      (lib.Color .Flowing "--->>>" st.env)
                  else st.log (.render indentAdjust (strJoin parsedCmd.Path cmd.Strs.PathSep)
                        (lib.Flow cic argv (st.env.Push cmdLayer) true).1
                        (lib.Flow cic argv (st.env.Push cmdLayer) true).2)) : DumpState).log
                (.parse indentAdjust (lib.Flow cic argv (st.env.Push cmdLayer) true).1)) with
              env := (lib.Parse (lib.Flow cic argv (st.env.Push cmdLayer) true).1).GlobalEnv.WriteNotArgTo
                st.env cc.Cmds.Strs.EnvValDelAllMark } := by
            unfold Extends
            simp only [log_trace, apply_ite DumpState.trace, prt_trace, ite_self]
            exact ((ListExt.refl P _).snoc _ (hr _ _ _) |>.snoc _ (hp _))
          have hall := hpre.chain hsub
          simp only [log_env, apply_ite DumpState.env, prt_env, ite_self] at hall ⊢
          split
          · unfold dumpFlowCmdEnd
            simp only []
            split
            · exact hall
            · exact hall
          · exact hall
          · exact hall
      · exact e0
    · exact e0
  · exact Extends.here P st

theorem expanded_extends (dumpFlowRec : RecCall) (lib : Collab) (cc : Cli) (args : DumpFlowArgs)
    (flow : ParsedCmds) (idx : Nat) (parsedCmd : ParsedCmd) (cmd : CmdTree) (cic : Cmd)
    (originEnv : Env) (cmdLayer : EnvLayer) (argv : ArgVals) (executedCmd : Option ExecutedCmd)
    (maxDepth trivial indentAdjust : Int) (metFlows : List String) (st : DumpState)
    (hrec : TraceGrows dumpFlowRec) (P : Event → Prop)
    (hr : ∀ c toks rd, P (.render indentAdjust c toks rd))
    (hp : ∀ toks, P (.parse indentAdjust toks)) (hd : ∀ ev, indentAdjust + 2 ≤ ev.indent → P ev) :
    Extends P st (dumpFlowCmdExpanded dumpFlowRec lib cc args flow idx parsedCmd cmd cic originEnv
      cmdLayer argv executedCmd maxDepth trivial indentAdjust metFlows st).1.st := by
  unfold dumpFlowCmdExpanded
  simp only []
  have hb : Extends P st (dumpFlowCmdBody lib cc args flow parsedCmd cmd cic originEnv cmdLayer
      argv indentAdjust st) := Extends.of_eq (body_frame _ _ _ _ _ _ _ _ _ _ _ _).2
  split
  · refine Extends.chain ?_ (sub_extends _ _ _ _ _ _ _ _ _ _ _ _ _ _ _ _ _ hrec P hr hp hd)
    exact hb.chain (Extends.of_eq (flowLines_frame _ _ _ _ _ _ _ _ _ _).2.1)
  · exact hb.chain (Extends.of_eq (end_frame _ _ _ _ _ _ _).1)

theorem head_trace (lib : Collab) (args : DumpFlowArgs) (parsedCmd : ParsedCmd) (cmd : CmdTree)
    (cic : Cmd) (cmdEnv : Env) (mark : String) (delta : Int) (executedCmd : Option ExecutedCmd)
    (running : Bool) (maxDepth maxTrivial indentAdjust : Int) (st : DumpState) (P : Event → Prop)
    (hs : ∀ c, P (.shown indentAdjust c)) :
    Extends P st (dumpFlowCmdHead lib args parsedCmd cmd cic cmdEnv mark delta executedCmd running
      maxDepth maxTrivial indentAdjust st).1 := by
  cases executedCmd with
  | none =>
    unfold Extends
    rw [(head_none lib args parsedCmd cmd cic cmdEnv mark delta running maxDepth maxTrivial
      indentAdjust st).2.2.2]
    split
    · exact (ListExt.refl P _).snoc _ (hs _)
    · simpa using ListExt.refl P _
  | some e =>
    unfold Extends
    by_cases hc : (execFailed (some e) || decide (maxTrivial > 0) && decide (maxDepth > 0)) = true
    · simp only [dumpFlowCmdHead, hc, if_true, apply_ite Prod.fst, apply_ite DumpState.trace,
        prt_trace, prtAll_trace, log_trace, ite_self]
      exact (ListExt.refl P _).snoc _ (hs _)
    · simp only [dumpFlowCmdHead, hc]
      exact ListExt.refl P _

/-- Every event a step records carries the indent of the step or a deeper one,
when the recursive callee does so. -/
theorem dumpFlowCmd_extends (dumpFlowRec : RecCall) (lib : Collab) (cc : Cli) (st : DumpState)
    (flow : ParsedCmds) (idx : Nat) (args : DumpFlowArgs) (executedCmd : Option ExecutedCmd)
    (running : Bool) (maxDepth maxTrivial indentAdjust : Int) (metFlows : List String)
    (hrec : TraceGrows dumpFlowRec) :
    Extends (fun ev => indentAdjust ≤ ev.indent) st
      (dumpFlowCmd dumpFlowRec lib cc st flow idx args executedCmd running maxDepth maxTrivial
        indentAdjust metFlows).1.st := by
  have hd : ∀ ev : Event, indentAdjust + 2 ≤ ev.indent → indentAdjust ≤ ev.indent := by
    intro ev h; omega
  unfold dumpFlowCmd
  simp only []
  split
  · exact Extends.here _ _
  · split
    · exact Extends.here _ _
    · have hh := head_trace lib args (flow.Cmds.getD idx default) ‹CmdTree› ‹Cmd›
        (st.env.Push (lib.ApplyMappingGenEnvAndArgv (flow.Cmds.getD idx default) st.env
          cc.Cmds.Strs.EnvValDelAllMark (‹CmdTree›).Strs.PathSep).1)
        (st.env.GetRaw "strs.trivial-mark")
        ((‹CmdTree›).trivial + (flow.Cmds.getD idx default).TrivialLvl) executedCmd running
        maxDepth maxTrivial indentAdjust st (fun ev => indentAdjust ≤ ev.indent)
        (fun c => le_refl _)
      split
      · exact hh
      · split
        · refine Extends.chain ?_ (folded_extends _ _ _ _ _ _ _ _ _ _ _ _ _ _ _ hrec _
            (fun c => le_refl _) (fun c toks rd => le_refl _) (fun toks => le_refl _) hd)
          refine hh.chain (Extends.of_eq ?_)
          exact (args_frame _ _ _ _ _ _ _ _ _ _).2.1
        · refine Extends.chain ?_ (expanded_extends _ _ _ _ _ _ _ _ _ _ _ _ _ _ _ _ _ _ hrec _
            (fun c toks rd => le_refl _) (fun toks => le_refl _) hd)
          refine hh.chain (Extends.of_eq ?_)
          exact (args_frame _ _ _ _ _ _ _ _ _ _).2.1

theorem dumpFlowLoop_extends (dumpFlowRec : RecCall) (lib : Collab) (cc : Cli) (flow : ParsedCmds)
    (fromCmdIdx : Nat) (args : DumpFlowArgs) (executedFlow : Option ExecutedFlow) (running : Bool)
    (maxDepth maxTrivial indentAdjust : Int) (hrec : TraceGrows dumpFlowRec)
    (cmds : List ParsedCmd) :
    ∀ (i : Nat) (st : DumpState) (metFlows : List String),
      Extends (fun ev => indentAdjust ≤ ev.indent) st
        (dumpFlowLoop dumpFlowRec lib cc flow fromCmdIdx args executedFlow running maxDepth
          maxTrivial indentAdjust cmds i st metFlows).1.st := by
  induction cmds with
  | nil => intro i st metFlows; exact Extends.here _ _
  | cons c rest ih =>
    intro i st metFlows
    unfold dumpFlowLoop
    split
    · exact ih _ _ _
    · split
      · split
        · have h1 := dumpFlowCmd_extends dumpFlowRec lib cc st flow (fromCmdIdx + i) args
            (List.get? ‹ExecutedFlow› i) running maxDepth maxTrivial indentAdjust metFlows hrec
          simp only []
          split
          · exact h1.chain (ih _ _ _)
          · exact h1
          · exact h1
        · exact Extends.here _ _
      · have h1 := dumpFlowCmd_extends dumpFlowRec lib cc st flow (fromCmdIdx + i) args
          none running maxDepth maxTrivial indentAdjust metFlows hrec
        simp only []
        split
        · exact h1.chain (ih _ _ _)
        · exact h1
        · exact h1

/-- The recursion of `dumpFlow` keeps the record of events it is given and adds
only events of its own indent or deeper. -/
theorem dumpFlow_traceGrows (lib : Collab) (cc : Cli) (args : DumpFlowArgs) (running : Bool)
    (fuel : Nat) :
    TraceGrows fun s f e d t i => dumpFlow lib cc args running fuel s f 0 e d t i := by
  induction fuel with
  | zero => intro s f e d t i; exact Extends.here _ _
  | succ n ih =>
    intro s f e d t i
    show Extends _ s (dumpFlow lib cc args running (n + 1) s f 0 e d t i).st
    unfold dumpFlow
    exact dumpFlowLoop_extends _ lib cc f 0 args e running d t i ih _ 0 s []

/-- The folding branch records `folded` before anything else. -/
theorem folded_first (dumpFlowRec : RecCall) (lib : Collab) (cc : Cli) (flow : ParsedCmds)
    (idx : Nat) (parsedCmd : ParsedCmd) (cmd : CmdTree) (cic : Cmd) (cmdLayer : EnvLayer)
    (argv : ArgVals) (executedCmd : Option ExecutedCmd) (maxDepth trivial indentAdjust : Int)
    (st : DumpState) (hrec : TraceGrows dumpFlowRec) :
    ListExt (fun _ => True)
      (st.trace ++ [Event.folded indentAdjust (strJoin parsedCmd.Path cmd.Strs.PathSep)])
      (dumpFlowCmdFolded dumpFlowRec lib cc flow idx parsedCmd cmd cic cmdLayer argv
        executedCmd maxDepth trivial indentAdjust st).st.trace := by
  unfold dumpFlowCmdFolded
  simp only []
  split
  · split
    · simp only [log_trace]
      exact ((ListExt.refl _ _).snoc _ True.intro |>.snoc _ True.intro)
    · refine ListExt.trans ?_ ((hrec _ _ _ _ _ _).weaken fun _ _ => True.intro)
      simp only [log_trace]
      exact ((ListExt.refl _ _).snoc _ True.intro |>.snoc _ True.intro)
  · simp only [log_trace]
    exact ((ListExt.refl _ _).snoc _ True.intro)

/-- C1: in a description pass, for every step that resolves to a command
(a flow command in particular), with `trivialDelta` the command's own
triviality plus the invocation's `TrivialLvl`: the step takes the folding
branch, recorded by the event `folded`, if and only if
`maxTrivial - trivialDelta ≤ 0` or `maxDepth ≤ 0`; and the step calls the
recursion only with the depth budget `maxDepth - 1` and the trivial budget
`maxTrivial - trivialDelta`: a callee that agrees with `dumpFlowRec` at these
two budgets gives the same step. -/
theorem C1_fold_rule (dumpFlowRec : RecCall) (lib : Collab) (cc : Cli) (st : DumpState)
    (flow : ParsedCmds) (idx : Nat) (args : DumpFlowArgs) (running : Bool)
    (maxDepth maxTrivial indentAdjust : Int) (metFlows : List String) (cmd : CmdTree) (cic : Cmd)
    (hcmd : (flow.Cmds.getD idx default).Last.Matched.Cmd = some cmd) (hcic : cmd.cmd = some cic)
    (hrec : TraceGrows dumpFlowRec) :
    (∃ delta,
      (dumpFlowCmd dumpFlowRec lib cc st flow idx args none running maxDepth maxTrivial
          indentAdjust metFlows).1.st.trace = st.trace ++ delta ∧
      (Event.folded indentAdjust (strJoin (flow.Cmds.getD idx default).Path cmd.Strs.PathSep) ∈ delta
        ↔ (maxTrivial - (cmd.trivial + (flow.Cmds.getD idx default).TrivialLvl) ≤ 0 ∨
            maxDepth ≤ 0))) ∧
    (∀ rec2 : RecCall,
      (∀ s f e j,
        rec2 s f e (maxDepth - 1)
            (maxTrivial - (cmd.trivial + (flow.Cmds.getD idx default).TrivialLvl)) j =
          dumpFlowRec s f e (maxDepth - 1)
            (maxTrivial - (cmd.trivial + (flow.Cmds.getD idx default).TrivialLvl)) j) →
      dumpFlowCmd rec2 lib cc st flow idx args none running maxDepth maxTrivial indentAdjust
          metFlows =
        dumpFlowCmd dumpFlowRec lib cc st flow idx args none running maxDepth maxTrivial
          indentAdjust metFlows) := by
  have hpre := descPre_frame lib cc args (flow.Cmds.getD idx default) cmd cic running maxDepth
    maxTrivial indentAdjust st
  refine ⟨?_, ?_⟩
  · rw [dumpFlowCmd_desc dumpFlowRec lib cc st flow idx args running maxDepth maxTrivial
      indentAdjust metFlows cmd cic hcmd hcic]
    by_cases hc : maxTrivial - (cmd.trivial + (flow.Cmds.getD idx default).TrivialLvl) ≤ 0 ∨
        maxDepth ≤ 0
    · simp only [hc, if_true, iff_true]
      obtain ⟨d, hd1, _⟩ := folded_first dumpFlowRec lib cc flow idx (flow.Cmds.getD idx default)
        cmd cic
        (lib.ApplyMappingGenEnvAndArgv (flow.Cmds.getD idx default) st.env
          cc.Cmds.Strs.EnvValDelAllMark cmd.Strs.PathSep).1
        (lib.ApplyMappingGenEnvAndArgv (flow.Cmds.getD idx default) st.env
          cc.Cmds.Strs.EnvValDelAllMark cmd.Strs.PathSep).2 none maxDepth
        (maxTrivial - (cmd.trivial + (flow.Cmds.getD idx default).TrivialLvl)) indentAdjust
        (descPre lib cc args (flow.Cmds.getD idx default) cmd cic running maxDepth maxTrivial
          indentAdjust st) hrec
      refine ⟨(if 0 < maxTrivial ∧ 0 < maxDepth then
          [Event.shown indentAdjust (strJoin (flow.Cmds.getD idx default).Path cmd.Strs.PathSep)]
          else []) ++
        ([Event.folded indentAdjust (strJoin (flow.Cmds.getD idx default).Path cmd.Strs.PathSep)]
          ++ d), ?_, ?_⟩
      · rw [hd1, hpre.2.2, List.append_assoc, List.append_assoc]
      · simp
    · simp only [hc, if_false, iff_false]
      obtain ⟨d, hd1, hd2⟩ := expanded_extends dumpFlowRec lib cc args flow idx
        (flow.Cmds.getD idx default) cmd cic st.env
        (lib.ApplyMappingGenEnvAndArgv (flow.Cmds.getD idx default) st.env
          cc.Cmds.Strs.EnvValDelAllMark cmd.Strs.PathSep).1
        (lib.ApplyMappingGenEnvAndArgv (flow.Cmds.getD idx default) st.env
          cc.Cmds.Strs.EnvValDelAllMark cmd.Strs.PathSep).2 none maxDepth
        (maxTrivial - (cmd.trivial + (flow.Cmds.getD idx default).TrivialLvl)) indentAdjust
        metFlows
        (descPre lib cc args (flow.Cmds.getD idx default) cmd cic running maxDepth maxTrivial
          indentAdjust st) hrec
        (fun ev => ev ≠ Event.folded indentAdjust
          (strJoin (flow.Cmds.getD idx default).Path cmd.Strs.PathSep))
        (fun c toks rd => by simp) (fun toks => by simp)
        (fun ev hev hq => by subst hq; simp [Event.indent] at hev)
      refine ⟨(if 0 < maxTrivial ∧ 0 < maxDepth then
          [Event.shown indentAdjust (strJoin (flow.Cmds.getD idx default).Path cmd.Strs.PathSep)]
          else []) ++ d, ?_, ?_⟩
      · rw [hd1, hpre.2.2, List.append_assoc]
      · intro hmem
        rcases List.mem_append.mp hmem with h | h
        · split at h <;> simp at h
        · exact hd2 _ h rfl
  · intro rec2 h
    rw [dumpFlowCmd_desc dumpFlowRec lib cc st flow idx args running maxDepth maxTrivial
      indentAdjust metFlows cmd cic hcmd hcic,
      dumpFlowCmd_desc rec2 lib cc st flow idx args running maxDepth maxTrivial
      indentAdjust metFlows cmd cic hcmd hcic]
    split
    · unfold dumpFlowCmdFolded
      simp only [h]
    · unfold dumpFlowCmdExpanded dumpFlowCmdSub
      simp only [execOk, if_true, h]

/-- C1 at a concrete input: the step `l1` of the three-level example, described
with depth budget 0 and trivial budget 1 by the real recursion, is folded. -/
theorem C1_witness :
    ∃ delta,
      (dumpFlowCmd
          (fun s f e d t i => dumpFlow (exLib nestTable) exCli NewDumpFlowArgs false 5 s f 0 e d t i)
          (exLib nestTable) exCli exState (exParse nestTable ["l1"]) 0 NewDumpFlowArgs none false
          0 1 0 []).1.st.trace = exState.trace ++ delta ∧
      (Event.folded 0 (strJoin ((exParse nestTable ["l1"]).Cmds.getD 0 default).Path
          (exFlowNode "l1" ["l2"]).Strs.PathSep) ∈ delta
        ↔ ((1 : Int) - ((exFlowNode "l1" ["l2"]).trivial +
              ((exParse nestTable ["l1"]).Cmds.getD 0 default).TrivialLvl) ≤ 0 ∨ (0 : Int) ≤ 0)) :=
  (C1_fold_rule
    (fun s f e d t i => dumpFlow (exLib nestTable) exCli NewDumpFlowArgs false 5 s f 0 e d t i)
    (exLib nestTable) exCli exState (exParse nestTable ["l1"]) 0 NewDumpFlowArgs false 0 1 0 []
    (exFlowNode "l1" ["l2"]) (exCmd CmdTypeFlow ["l2"]) (by decide) (by decide)
    (dumpFlow_traceGrows (exLib nestTable) exCli NewDumpFlowArgs false 5)).1

/-! ## When a description step recurses -/

/-- The folding branch, when the sub-flow renders and parses without error, is
the recursion from `foldEntry` with the budgets `maxDepth - 1` and `trivial`. -/
theorem folded_eq (dumpFlowRec : RecCall) (lib : Collab) (cc : Cli) (flow : ParsedCmds)
    (idx : Nat) (parsedCmd : ParsedCmd) (cmd : CmdTree) (cic : Cmd) (cmdLayer : EnvLayer)
    (argv : ArgVals) (executedCmd : Option ExecutedCmd) (maxDepth trivial indentAdjust : Int)
    (st : DumpState)
    (hr : (lib.Flow cic argv (lib.TryExeEnvOpCmds argv (st.env.Push cmdLayer) flow idx) true).2 =
      true)
    (he : (lib.Parse (lib.Flow cic argv (lib.TryExeEnvOpCmds argv (st.env.Push cmdLayer) flow idx)
      true).1).FirstErr = none) :
    dumpFlowCmdFolded dumpFlowRec lib cc flow idx parsedCmd cmd cic cmdLayer argv executedCmd
        maxDepth trivial indentAdjust st =
      dumpFlowRec (foldEntry lib cc flow idx parsedCmd cmd cic cmdLayer argv indentAdjust st)
        (lib.Parse (lib.Flow cic argv (lib.TryExeEnvOpCmds argv (st.env.Push cmdLayer) flow idx)
          true).1)
        (executedCmd.bind ExecutedCmd.SubFlow) (maxDepth - 1) trivial (indentAdjust + 2) := by
  unfold dumpFlowCmdFolded foldEntry
  simp only [log_env, hr, if_true, he, DumpState.log, List.append_assoc, List.singleton_append,
    List.cons_append, List.nil_append]

/-- The folding branch, when the sub-flow renders and the parse carries an
error, panics with that error. -/
theorem folded_panic (dumpFlowRec : RecCall) (lib : Collab) (cc : Cli) (flow : ParsedCmds)
    (idx : Nat) (parsedCmd : ParsedCmd) (cmd : CmdTree) (cic : Cmd) (cmdLayer : EnvLayer)
    (argv : ArgVals) (executedCmd : Option ExecutedCmd) (maxDepth trivial indentAdjust : Int)
    (st : DumpState) (err : ParseResult)
    (hr : (lib.Flow cic argv (lib.TryExeEnvOpCmds argv (st.env.Push cmdLayer) flow idx) true).2 =
      true)
    (he : (lib.Parse (lib.Flow cic argv (lib.TryExeEnvOpCmds argv (st.env.Push cmdLayer) flow idx)
      true).1).FirstErr = some err) :
    (dumpFlowCmdFolded dumpFlowRec lib cc flow idx parsedCmd cmd cic cmdLayer argv executedCmd
        maxDepth trivial indentAdjust st).out = .panic (err.Error.getD "") := by
  unfold dumpFlowCmdFolded
  simp only [log_env, hr, if_true, he]

/-- The recursion of the expanding branch of a description step, when the step
is a flow command whose sub-flow renders to a non-empty token list, is no
duplicate and parses without error: the recursion from `subEntry` with the
budgets `maxDepth - 1` and `trivial`, finished by `subFinish`. -/
theorem sub_eq (dumpFlowRec : RecCall) (lib : Collab) (cc : Cli) (args : DumpFlowArgs)
    (flow : ParsedCmds) (idx : Nat) (parsedCmd : ParsedCmd) (cmd : CmdTree) (cic : Cmd)
    (cmdLayer : EnvLayer) (argv : ArgVals) (maxDepth trivial indentAdjust : Int) (st : DumpState)
    (hty : isFlowTy lib cic = true)
    (hr : (lib.Flow cic argv (st.env.Push cmdLayer) true).2 = true)
    (hne : (lib.Flow cic argv (st.env.Push cmdLayer) true).1 ≠ [])
    (he : (lib.Parse (lib.Flow cic argv (st.env.Push cmdLayer) true).1).FirstErr = none) :
    dumpFlowCmdSub dumpFlowRec lib cc args flow idx parsedCmd cmd cic cmdLayer argv none maxDepth
        trivial indentAdjust false st =
      subFinish lib args flow idx cic cmdLayer argv maxDepth indentAdjust
        (dumpFlowRec (subEntry lib cc args parsedCmd cmd cic cmdLayer argv maxDepth indentAdjust st)
          (lib.Parse (lib.Flow cic argv (st.env.Push cmdLayer) true).1) none (maxDepth - 1) trivial
          (indentAdjust + 2)) := by
  have hlen : ((lib.Flow cic argv (st.env.Push cmdLayer) true).1.length != 0) = true := by
    simpa [List.length_eq_zero] using hne
  unfold dumpFlowCmdSub subFinish subEntry
  by_cases hd : 1 < maxDepth
  · simp [hty, hr, hlen, he, execOk, execFailed, hd, DumpState.log, prt, DumpState.print]
  · simp [hty, hr, hlen, he, execOk, execFailed, hd, DumpState.log, prt, DumpState.print]

/-! ## Termination -/

theorem folded_returns (dumpFlowRec : RecCall) (lib : Collab) (cc : Cli) (flow : ParsedCmds)
    (idx : Nat) (parsedCmd : ParsedCmd) (cmd : CmdTree) (cic : Cmd) (cmdLayer : EnvLayer)
    (argv : ArgVals) (executedCmd : Option ExecutedCmd) (maxDepth trivial indentAdjust : Int)
    (st : DumpState)
    (hrec : ∀ s argv env e d t i, (lib.Flow cic argv env true).2 = true →
      (dumpFlowRec s (lib.Parse (lib.Flow cic argv env true).1) e d t i).out ≠ .outOfFuel) :
    (dumpFlowCmdFolded dumpFlowRec lib cc flow idx parsedCmd cmd cic cmdLayer argv executedCmd
      maxDepth trivial indentAdjust st).out ≠ .outOfFuel := by
  unfold dumpFlowCmdFolded
  simp only []
  split
  · rename_i hr
    split
    · simp
    · exact hrec _ _ _ _ _ _ _ hr
  · simp

theorem sub_returns (dumpFlowRec : RecCall) (lib : Collab) (cc : Cli) (args : DumpFlowArgs)
    (flow : ParsedCmds) (idx : Nat) (parsedCmd : ParsedCmd) (cmd : CmdTree) (cic : Cmd)
    (cmdLayer : EnvLayer) (argv : ArgVals) (executedCmd : Option ExecutedCmd)
    (maxDepth trivial indentAdjust : Int) (metFlow : Bool) (st : DumpState)
    (hrec : ∀ s argv env e d t i, (lib.Flow cic argv env true).2 = true →
      (dumpFlowRec s (lib.Parse (lib.Flow cic argv env true).1) e d t i).out ≠ .outOfFuel) :
    (dumpFlowCmdSub dumpFlowRec lib cc args flow idx parsedCmd cmd cic cmdLayer argv executedCmd
      maxDepth trivial indentAdjust metFlow st).out ≠ .outOfFuel := by
  unfold dumpFlowCmdSub
  simp only []
  split
  · split
    · rename_i hr
      simp only [Bool.and_eq_true] at hr
      split
      · split
        · simp
        · split
          · simp [dumpFlowCmdEnd]
          · simp
          · rename_i hother _ _
            intro h
            simp only at h
            exact hrec _ _ _ _ _ _ _ hr.1 h
      · simp [dumpFlowCmdEnd]
    · simp [dumpFlowCmdEnd]
  · simp [dumpFlowCmdEnd]

theorem dumpFlowCmd_returns (dumpFlowRec : RecCall) (lib : Collab) (cc : Cli) (st : DumpState)
    (flow : ParsedCmds) (idx : Nat) (args : DumpFlowArgs) (executedCmd : Option ExecutedCmd)
    (running : Bool) (maxDepth maxTrivial indentAdjust : Int) (metFlows : List String)
    (hrec : ∀ node cic, (flow.Cmds.getD idx default).Last.Matched.Cmd = some node →
      node.cmd = some cic → ∀ s argv env e d t i, (lib.Flow cic argv env true).2 = true →
      (dumpFlowRec s (lib.Parse (lib.Flow cic argv env true).1) e d t i).out ≠ .outOfFuel) :
    (dumpFlowCmd dumpFlowRec lib cc st flow idx args executedCmd running maxDepth maxTrivial
      indentAdjust metFlows).1.out ≠ .outOfFuel := by
  unfold dumpFlowCmd
  simp only []
  split
  · simp
  · rename_i node hnode
    split
    · simp
    · rename_i cic hcic
      split
      · simp
      · split
        · exact folded_returns _ _ _ _ _ _ _ _ _ _ _ _ _ _ _ (hrec node cic hnode hcic)
        · unfold dumpFlowCmdExpanded
          simp only []
          split
          · exact sub_returns _ _ _ _ _ _ _ _ _ _ _ _ _ _ _ _ _ (hrec node cic hnode hcic)
          · simp [dumpFlowCmdEnd]

theorem getD_mem_or_default (cmds : List ParsedCmd) (idx : Nat) :
    cmds.getD idx default ∈ cmds ∨ cmds.getD idx default = default := by
  by_cases h : idx < cmds.length
  · left
    rw [List.getD_eq_getElem _ _ h]
    exact List.getElem_mem _
  · right
    exact List.getD_eq_default _ _ (by omega)

theorem dumpFlowLoop_returns (dumpFlowRec : RecCall) (lib : Collab) (cc : Cli) (flow : ParsedCmds)
    (fromCmdIdx : Nat) (args : DumpFlowArgs) (executedFlow : Option ExecutedFlow) (running : Bool)
    (maxDepth maxTrivial indentAdjust : Int)
    (hrec : ∀ pc ∈ flow.Cmds, ∀ node cic, pc.Last.Matched.Cmd = some node →
      node.cmd = some cic → ∀ s argv env e d t i, (lib.Flow cic argv env true).2 = true →
      (dumpFlowRec s (lib.Parse (lib.Flow cic argv env true).1) e d t i).out ≠ .outOfFuel)
    (cmds : List ParsedCmd) :
    ∀ (i : Nat) (st : DumpState) (metFlows : List String),
      (dumpFlowLoop dumpFlowRec lib cc flow fromCmdIdx args executedFlow running maxDepth
        maxTrivial indentAdjust cmds i st metFlows).1.out ≠ .outOfFuel := by
  have hstep : ∀ idx st2 met2 ex,
      (dumpFlowCmd dumpFlowRec lib cc st2 flow idx args ex running maxDepth maxTrivial
        indentAdjust met2).1.out ≠ .outOfFuel := by
    intro idx st2 met2 ex
    apply dumpFlowCmd_returns
    intro node cic hnode hcic
    rcases getD_mem_or_default flow.Cmds idx with hm | hd
    · exact hrec _ hm node cic hnode hcic
    · rw [hd] at hnode
      simp [ParsedCmd.Last, default, instInhabitedParsedCmd] at hnode
  induction cmds with
  | nil => intro i st metFlows; simp [dumpFlowLoop]
  | cons c rest ih =>
    intro i st metFlows
    unfold dumpFlowLoop
    split
    · exact ih _ _ _
    · split
      · split
        · simp only []
          split
          · exact ih _ _ _
          · simp
          · rename_i hother _ _
            intro h
            simp only at h
            exact hstep _ _ _ _ h
        · simp
      · simp only []
        split
        · exact ih _ _ _
        · simp
        · rename_i hother _ _
          intro h
          simp only at h
          exact hstep _ _ _ _ h

/-- C7 (as amended): for every flow whose nesting is bounded by some `n`, and
for every `maxDepth` and `maxTrivial`, with or without an executed record, the
description recursion returns: a call stack of depth `n` is enough, whatever
the budgets. The budgets play no part in it. -/
theorem C7_bounded_nesting_terminates (lib : Collab) (cc : Cli) (args : DumpFlowArgs)
    (running : Bool) (n : Nat) (flow : ParsedCmds) (hb : Bounded lib n flow) (st : DumpState)
    (fromCmdIdx : Nat) (executedFlow : Option ExecutedFlow)
    (maxDepth maxTrivial indentAdjust : Int) :
    (dumpFlow lib cc args running n st flow fromCmdIdx executedFlow maxDepth maxTrivial
      indentAdjust).out ≠ .outOfFuel := by
  induction hb generalizing st fromCmdIdx executedFlow maxDepth maxTrivial indentAdjust with
  | intro m fl h ih =>
    unfold dumpFlow
    apply dumpFlowLoop_returns
    intro pc hpc node cic hnode hcic s argv env e d t i hr
    exact ih pc hpc node cic hnode hcic argv env hr s 0 e d t i

/-! ## The expanding branch of a description step -/

theorem expandPre_frame (lib : Collab) (cc : Cli) (args : DumpFlowArgs) (flow : ParsedCmds)
    (parsedCmd : ParsedCmd) (cmd : CmdTree) (cic : Cmd) (originEnv : Env) (cmdLayer : EnvLayer)
    (argv : ArgVals) (maxDepth indentAdjust : Int) (metFlows : List String) (st : DumpState) :
    (expandPre lib cc args flow parsedCmd cmd cic originEnv cmdLayer argv maxDepth indentAdjust
      metFlows st).env = st.env ∧
    (expandPre lib cc args flow parsedCmd cmd cic originEnv cmdLayer argv maxDepth indentAdjust
      metFlows st).trace = st.trace := by
  unfold expandPre
  refine ⟨?_, ?_⟩
  · rw [(flowLines_frame _ _ _ _ _ _ _ _ _ _).1, (body_frame _ _ _ _ _ _ _ _ _ _ _ _).1]
  · rw [(flowLines_frame _ _ _ _ _ _ _ _ _ _).2.1, (body_frame _ _ _ _ _ _ _ _ _ _ _ _).2]

/-- The duplicate check of a description step (flow.go:315-325): the local
`metFlow` tells whether the rendered text is in `metFlows`, and the text is
added to `metFlows` when it is not. -/
theorem flowLines_met (lib : Collab) (args : DumpFlowArgs) (cic : Cmd) (cmdLayer : EnvLayer)
    (argv : ArgVals) (maxDepth indentAdjust : Int) (metFlows : List String) (st : DumpState)
    (hty : isFlowTy lib cic = true) :
    (dumpFlowCmdFlowLines lib args cic cmdLayer argv none maxDepth indentAdjust metFlows st).2 =
      (if metFlows.contains (strJoin (lib.RenderedFlowStrs cic argv (st.env.Push cmdLayer) true).1
          " ") then metFlows
        else metFlows ++ [strJoin (lib.RenderedFlowStrs cic argv (st.env.Push cmdLayer) true).1
          " "],
        metFlows.contains (strJoin (lib.RenderedFlowStrs cic argv (st.env.Push cmdLayer) true).1
          " ")) := by
  unfold dumpFlowCmdFlowLines
  simp only [hty, if_true, execOk, Bool.true_and]
  by_cases hm : metFlows.contains (strJoin (lib.RenderedFlowStrs cic argv (st.env.Push cmdLayer)
      true).1 " ") = true
  · simp only [hm, if_true, apply_ite Prod.snd, ite_self]
  · simp only [hm, if_false, apply_ite Prod.snd, ite_self, Bool.false_eq_true]

/-- The expanding branch of a description step whose command is a flow command
with text: the sub-flow lines, then the recursion part, with the duplicate flag
of `flowLines_met`. -/
theorem expanded_flow (dumpFlowRec : RecCall) (lib : Collab) (cc : Cli) (args : DumpFlowArgs)
    (flow : ParsedCmds) (idx : Nat) (parsedCmd : ParsedCmd) (cmd : CmdTree) (cic : Cmd)
    (originEnv : Env) (cmdLayer : EnvLayer) (argv : ArgVals)
    (maxDepth trivial indentAdjust : Int) (metFlows : List String) (st : DumpState)
    (hft : hasFlowText lib cic = true) :
    dumpFlowCmdExpanded dumpFlowRec lib cc args flow idx parsedCmd cmd cic originEnv cmdLayer argv
        none maxDepth trivial indentAdjust metFlows st =
      (dumpFlowCmdSub dumpFlowRec lib cc args flow idx parsedCmd cmd cic cmdLayer argv none
          maxDepth trivial indentAdjust
          (metFlows.contains (strJoin (lib.RenderedFlowStrs cic argv (st.env.Push cmdLayer) true).1
            " "))
          (expandPre lib cc args flow parsedCmd cmd cic originEnv cmdLayer argv maxDepth
            indentAdjust metFlows st),
        if metFlows.contains (strJoin (lib.RenderedFlowStrs cic argv (st.env.Push cmdLayer) true).1
            " ") then metFlows
        else metFlows ++ [strJoin (lib.RenderedFlowStrs cic argv (st.env.Push cmdLayer) true).1
          " "]) := by
  unfold hasFlowText at hft
  simp only [Bool.and_eq_true] at hft
  have hcond : ((cic.cmdLine.length != 0 || cic.flow.length != 0) &&
      cic.ty != CmdTypeNormal && cic.ty != CmdTypePower) = true := by
    simp only [Bool.and_eq_true]
    exact hft.1
  have hm := flowLines_met lib args cic cmdLayer argv maxDepth indentAdjust metFlows
    (dumpFlowCmdBody lib cc args flow parsedCmd cmd cic originEnv cmdLayer argv indentAdjust st)
    hft.2
  rw [(body_frame _ _ _ _ _ _ _ _ _ _ _ _).1] at hm
  unfold dumpFlowCmdExpanded expandPre
  simp only [hcond, if_true]
  rw [hm]

/-- A description step that is not folded, whose command is a flow command
with text, whose sub-flow text was not met in this scope, renders to a
non-empty token list and parses without error: the step adds the text to
`metFlows` and is the recursion from `subEntry`, finished by `subFinish`. -/
theorem expanded_recurses (dumpFlowRec : RecCall) (lib : Collab) (cc : Cli) (args : DumpFlowArgs)
    (flow : ParsedCmds) (idx : Nat) (parsedCmd : ParsedCmd) (cmd : CmdTree) (cic : Cmd)
    (originEnv : Env) (cmdLayer : EnvLayer) (argv : ArgVals)
    (maxDepth trivial indentAdjust : Int) (metFlows : List String) (st : DumpState)
    (hft : hasFlowText lib cic = true)
    (hnew : metFlows.contains (strJoin (lib.RenderedFlowStrs cic argv (st.env.Push cmdLayer)
      true).1 " ") = false)
    (hr : (lib.Flow cic argv (st.env.Push cmdLayer) true).2 = true)
    (hne : (lib.Flow cic argv (st.env.Push cmdLayer) true).1 ≠ [])
    (he : (lib.Parse (lib.Flow cic argv (st.env.Push cmdLayer) true).1).FirstErr = none) :
    dumpFlowCmdExpanded dumpFlowRec lib cc args flow idx parsedCmd cmd cic originEnv cmdLayer argv
        none maxDepth trivial indentAdjust metFlows st =
      (subFinish lib args flow idx cic cmdLayer argv maxDepth indentAdjust
          (dumpFlowRec
            (subEntry lib cc args parsedCmd cmd cic cmdLayer argv maxDepth indentAdjust
              (expandPre lib cc args flow parsedCmd cmd cic originEnv cmdLayer argv maxDepth
                indentAdjust metFlows st))
            (lib.Parse (lib.Flow cic argv (st.env.Push cmdLayer) true).1) none (maxDepth - 1)
            trivial (indentAdjust + 2)),
        metFlows ++ [strJoin (lib.RenderedFlowStrs cic argv (st.env.Push cmdLayer) true).1 " "]) := by
  have hty : isFlowTy lib cic = true := by
    unfold hasFlowText at hft
    simp only [Bool.and_eq_true] at hft
    exact hft.2
  have henv := (expandPre_frame lib cc args flow parsedCmd cmd cic originEnv cmdLayer argv maxDepth
    indentAdjust metFlows st).1
  rw [expanded_flow dumpFlowRec lib cc args flow idx parsedCmd cmd cic originEnv cmdLayer argv
    maxDepth trivial indentAdjust metFlows st hft, hnew]
  simp only [Bool.false_eq_true, if_false]
  rw [sub_eq dumpFlowRec lib cc args flow idx parsedCmd cmd cic cmdLayer argv maxDepth trivial
    indentAdjust _ hty (by rw [henv]; exact hr) (by rw [henv]; exact hne)
    (by rw [henv]; exact he), henv]

/-! ## The self-referential flow -/

theorem subFinish_outOfFuel (lib : Collab) (args : DumpFlowArgs) (flow : ParsedCmds) (idx : Nat)
    (cic : Cmd) (cmdLayer : EnvLayer) (argv : ArgVals) (maxDepth indentAdjust : Int) (sub : Run)
    (h : sub.out = .outOfFuel) :
    (subFinish lib args flow idx cic cmdLayer argv maxDepth indentAdjust sub).out = .outOfFuel := by
  unfold subFinish
  simp only [h]

theorem selfref_step (n : Nat) (st : DumpState) (d t i : Int)
    (ih : ∀ (st2 : DumpState) (d2 t2 i2 : Int),
      (dumpFlow (exLib selfTable) exCli NewDumpFlowArgs false n st2 (exParse selfTable ["a"]) 0 none
        d2 t2 i2).out = .outOfFuel) :
    (dumpFlowCmd
      (fun s f e d2 t2 i2 => dumpFlow (exLib selfTable) exCli NewDumpFlowArgs false n s f 0 e d2 t2 i2)
      (exLib selfTable) exCli st (exParse selfTable ["a"]) 0 NewDumpFlowArgs none false d t i
      []).1.out = .outOfFuel := by
  rw [dumpFlowCmd_desc _ _ _ _ _ _ _ _ _ _ _ _ (exFlowNode "a" ["a"]) (exCmd CmdTypeFlow ["a"])
    (by decide) (by decide)]
  split
  · rw [folded_eq _ _ _ _ _ _ _ _ _ _ _ _ _ _ _ rfl
      (show (exParse selfTable ["a"]).FirstErr = none by decide)]
    exact ih _ _ _ _
  · rw [expanded_recurses _ _ _ _ _ _ _ _ _ _ _ _ _ _ _ _ _ (by decide) (by rfl) (by rfl)
      (show (["a"] : List String) ≠ [] by decide)
      (show (exParse selfTable ["a"]).FirstErr = none by decide)]
    exact subFinish_outOfFuel _ _ _ _ _ _ _ _ _ _ (ih _ _ _ _)

/-- The description of the self-referential flow never returns, whatever the
budgets: every bound on the depth of the call stack is exceeded. -/
theorem selfref_diverges (fuel : Nat) :
    ∀ (st : DumpState) (d t i : Int),
      (dumpFlow (exLib selfTable) exCli NewDumpFlowArgs false fuel st (exParse selfTable ["a"]) 0
        none d t i).out = .outOfFuel := by
  induction fuel with
  | zero => intro st d t i; rfl
  | succ n ih =>
    intro st d t i
    have hs := selfref_step n st d t i ih
    unfold dumpFlow
    have hc : (exParse selfTable ["a"]).Cmds.drop 0 =
        [(exParse selfTable ["a"]).Cmds.getD 0 default] := by decide
    rw [hc]
    unfold dumpFlowLoop
    have he : ((exParse selfTable ["a"]).Cmds.getD 0 default).IsEmpty = false := by decide
    simp only [he, Bool.false_eq_true, if_false, Nat.add_zero, hs]

/-- C7, counterexample to the claim as stated: the command `a` whose flow
invokes `a`. With the default budgets (depth 32, trivial 1) no depth of the
call stack lets the description return: after the depth budget is used up the
folding branch still recurses into the rendered sub-flow. -/
theorem C7_counterexample :
    ¬ ∃ fuel : Nat,
      (DumpFlow (exLib selfTable) exCli fuel [exEnv] [] 0 (exParse selfTable ["a"]) 0
        NewDumpFlowArgs).out ≠ .outOfFuel := by
  rintro ⟨fuel, h⟩
  apply h
  unfold DumpFlow DumpFlowEx
  have hl : ¬ (exParse selfTable ["a"]).Cmds.length = 0 := by decide
  simp only [hl, if_false]
  exact selfref_diverges fuel _ _ _ _

/-- The flows of the example parser: a flow is bounded when the flows of the
commands its tokens name are. -/
theorem exParse_bounded (table : List CmdTree) (n : Nat) (toks : List String)
    (h : ∀ t ∈ toks, ∀ node, (table.find? fun x => x.name == t) = some node →
      ∀ cic, node.cmd = some cic → Bounded (exLib table) n (exParse table cic.flow)) :
    Bounded (exLib table) (n + 1) (exParse table toks) := by
  apply Bounded.intro
  intro pc hpc node cic hn hc argv env _
  unfold exParse at hpc
  simp only [List.mem_map] at hpc
  obtain ⟨t, ht, hpc⟩ := hpc
  cases hf : (table.find? fun x => x.name == t) with
  | none =>
    rw [hf] at hpc
    subst hpc
    simp [ParsedCmd.Last] at hn
  | some nd =>
    rw [hf] at hpc
    subst hpc
    simp only [ParsedCmd.Last, exInvoke, List.getLast?_singleton, Option.getD_some,
      Option.some.injEq] at hn
    subst hn
    exact h t ht nd hf cic hc

/-- C7 at a concrete input: the three-level flow `l1` has a nesting bounded by
5, and its description with depth budget 0 returns. -/
theorem C7_witness :
    (dumpFlow (exLib nestTable) exCli NewDumpFlowArgs false 5 exState (exParse nestTable ["l1"]) 0
      none 0 1 0).out ≠ .outOfFuel := by
  have h0 : Bounded (exLib nestTable) 1 (exParse nestTable []) :=
    exParse_bounded nestTable 0 [] (by simp)
  have h1 : Bounded (exLib nestTable) 2 (exParse nestTable ["leaf"]) :=
    exParse_bounded nestTable 1 ["leaf"] (by
      intro t ht node hnode cic hcic
      simp only [List.mem_singleton] at ht
      subst ht
      have hn : node = exNormalNode "leaf" := by
        have : (nestTable.find? fun x => x.name == "leaf") = some (exNormalNode "leaf") := by decide
        rw [this] at hnode
        exact (Option.some.inj hnode).symm
      subst hn
      have hcc : cic = exCmd CmdTypeNormal [] := (Option.some.inj hcic).symm
      subst hcc
      exact h0)
  have h2 : Bounded (exLib nestTable) 3 (exParse nestTable ["l3"]) :=
    exParse_bounded nestTable 2 ["l3"] (by
      intro t ht node hnode cic hcic
      simp only [List.mem_singleton] at ht
      subst ht
      have hn : node = exFlowNode "l3" ["leaf"] := by
        have : (nestTable.find? fun x => x.name == "l3") = some (exFlowNode "l3" ["leaf"]) := by
          decide
        rw [this] at hnode
        exact (Option.some.inj hnode).symm
      subst hn
      have hcc : cic = exCmd CmdTypeFlow ["leaf"] := (Option.some.inj hcic).symm
      subst hcc
      exact h1)
  have h3 : Bounded (exLib nestTable) 4 (exParse nestTable ["l2"]) :=
    exParse_bounded nestTable 3 ["l2"] (by
      intro t ht node hnode cic hcic
      simp only [List.mem_singleton] at ht
      subst ht
      have hn : node = exFlowNode "l2" ["l3"] := by
        have : (nestTable.find? fun x => x.name == "l2") = some (exFlowNode "l2" ["l3"]) := by
          decide
        rw [this] at hnode
        exact (Option.some.inj hnode).symm
      subst hn
      have hcc : cic = exCmd CmdTypeFlow ["l3"] := (Option.some.inj hcic).symm
      subst hcc
      exact h2)
  have h4 : Bounded (exLib nestTable) 5 (exParse nestTable ["l1"]) :=
    exParse_bounded nestTable 4 ["l1"] (by
      intro t ht node hnode cic hcic
      simp only [List.mem_singleton] at ht
      subst ht
      have hn : node = exFlowNode "l1" ["l2"] := by
        have : (nestTable.find? fun x => x.name == "l1") = some (exFlowNode "l1" ["l2"]) := by
          decide
        rw [this] at hnode
        exact (Option.some.inj hnode).symm
      subst hn
      have hcc : cic = exCmd CmdTypeFlow ["l2"] := (Option.some.inj hcic).symm
      subst hcc
      exact h3)
  exact C7_bounded_nesting_terminates (exLib nestTable) exCli NewDumpFlowArgs false 5
    (exParse nestTable ["l1"]) h4 exState 0 none 0 1 0

/-! ## The caller's environment -/

/-- C6: `DumpFlowEx` leaves every environment object that existed before the
call as it was, the caller's environment among them: the heap after the call,
cut to its size before the call, is the heap before the call. The description
writes only to the clone that `env.Clone()` allocated. -/
theorem C6_caller_env_unchanged (lib : Collab) (cc : Cli) (fuel : Nat) (heap : Heap)
    (screen : List String) (env : Nat) (flow : ParsedCmds) (fromCmdIdx : Nat)
    (args : DumpFlowArgs) (executedFlow : Option ExecutedFlow) (running : Bool) :
    (DumpFlowEx lib cc fuel heap screen env flow fromCmdIdx args executedFlow running).heap.take
      heap.length = heap := by
  unfold DumpFlowEx
  split
  · simp
  · simp only []
    rw [List.set_append_right _ _ (le_refl _), List.take_left]

/-! ## The breakpoint controller -/

theorem print_pauses (st : Session) (s : String) : (st.print s).pauses = st.pauses := rfl

theorem foldl_print_pauses (f : Session → String → String) (xs : List String) (st : Session) :
    (xs.foldl (fun s x => s.print (f s x)) st).pauses = st.pauses := by
  induction xs generalizing st with
  | nil => rfl
  | cons x xs ih => simp [List.foldl, ih, print_pauses]

theorem showTitle_pauses (lib : Collab) (reason : String) (choices : List String) (actions : BPAs)
    (st : Session) : (showTitle lib reason choices actions st).pauses = st.pauses := by
  unfold showTitle
  rw [foldl_print_pauses (fun s choice =>
    lib.Color .Warn choice s.env ++ ": " ++ (actions.lookup choice).getD "" ++ "\n")]
  rfl

theorem readLoop_pauses (lib : Collab) (reason : String) (choices : List String) (actions : BPAs)
    (lowerInput : Bool) (fuel : Nat) (buffered : List Char) (st : Session) :
    (readLoop lib reason choices actions lowerInput fuel buffered st).1.pauses = st.pauses := by
  induction fuel generalizing buffered st with
  | zero => rfl
  | succ n ih =>
    simp only [readLoop]
    repeat' split
    all_goals first
      | rfl
      | (rw [ih, showTitle_pauses]; rfl)
      | (rw [ih]; rfl)
      | (rw [ih])

theorem readUserBPAChoice_pauses (lib : Collab) (reason : String) (choices : List String)
    (actions : BPAs) (lowerInput : Bool) (st : Session) :
    (readUserBPAChoice lib reason choices actions lowerInput st).1.pauses =
      st.pauses ++ [⟨reason, choices, actions, st.env, st.bps⟩] := by
  unfold readUserBPAChoice
  simp only []
  rw [readLoop_pauses, showTitle_pauses]

theorem tryDelay_fields (st : Session) (k : String) :
    (tryDelay st k).pauses = st.pauses ∧ (tryDelay st k).stdin = st.stdin ∧
      (tryDelay st k).bps = st.bps ∧ (tryDelay st k).env = st.env := by
  have h : ∀ (xs : List String) (s : Session),
      (xs.foldl Session.print s).pauses = s.pauses ∧ (xs.foldl Session.print s).stdin = s.stdin ∧
        (xs.foldl Session.print s).bps = s.bps ∧ (xs.foldl Session.print s).env = s.env := by
    intro xs
    induction xs with
    | nil => intro s; exact ⟨rfl, rfl, rfl, rfl⟩
    | cons x xs ih => intro s; simpa [List.foldl, Session.print] using ih (s.print x)
  unfold tryDelay
  simp only []
  split
  · simpa [Session.print] using h _ st
  · exact ⟨rfl, rfl, rfl, rfl⟩

theorem tryStepByStep_quiet (lib : Collab) (cc : Cli) (st : Session) (cmd : ParsedCmd)
    (breakByPrev : Bool) (h : beforeTrigger cc st cmd breakByPrev = false) :
    tryStepByStepAndBreakBefore lib cc st cmd breakByPrev = (st, .action BPAContinue) := by
  unfold beforeTrigger at h
  simp only [Bool.or_eq_false_iff] at h
  obtain ⟨⟨⟨⟨⟨h1, h2⟩, h3⟩, h4⟩, h5⟩, h6⟩ := h
  unfold tryStepByStepAndBreakBefore
  simp [h1, h2, h3, h4, h5, h6]

theorem breakBeforeMenu_pauses (lib : Collab) (cc : Cli) (st : Session) (cmd : ParsedCmd)
    (breakByPrev : Bool) : (breakBeforeMenu lib cc st cmd breakByPrev).1.pauses = st.pauses := by
  unfold breakBeforeMenu
  simp only []
  repeat' split
  all_goals rfl

/-- The pause a before-step check with a trigger makes: the menu, with `i` and
`q` added, in the state the menu left. -/
theorem tryStepByStep_paused (lib : Collab) (cc : Cli) (st : Session) (cmd : ParsedCmd)
    (breakByPrev : Bool) (h : beforeTrigger cc st cmd breakByPrev = true) :
    (tryStepByStepAndBreakBefore lib cc st cmd breakByPrev).1.pauses = st.pauses ++
      [⟨(breakBeforeMenu lib cc st cmd breakByPrev).2.1,
        (breakBeforeMenu lib cc st cmd breakByPrev).2.2 ++ ["i", "q"],
        ((breakBeforeMenu lib cc st cmd breakByPrev).2.2 ++ ["i", "q"]).map
          fun k => (k, (getAllBPAs.lookup k).getD ""),
        (breakBeforeMenu lib cc st cmd breakByPrev).1.env,
        (breakBeforeMenu lib cc st cmd breakByPrev).1.bps⟩] := by
  unfold beforeTrigger at h
  unfold tryStepByStepAndBreakBefore
  simp only []
  split
  · rename_i hc
    simp only [Bool.and_eq_true, Bool.not_eq_true'] at hc
    obtain ⟨⟨⟨⟨⟨h1, h2⟩, h3⟩, h4⟩, h5⟩, h6⟩ := hc
    simp [h1, h2, h3, h4, h5, h6] at h
  · rw [readUserBPAChoice_pauses, breakBeforeMenu_pauses]

/-- C8 (as amended): the before-step check
`tryDelayAndStepByStepAndBreakBefore` pauses, that is calls `readUserBPAChoice`,
if and only if the session is not inside the nested interactive mode
(`sys.interact.inside` is false) and at least one of the six trigger conditions
holds. When no trigger holds, and whenever the session is inside interactive
mode, it resolves to Continue without reading input and without changing the
breakpoint registry or the environment. -/
theorem C8_before_step_pause_iff (lib : Collab) (cc : Cli) (st : Session) (cmd : ParsedCmd)
    (breakByPrev lastCmdInFlow bootstrap : Bool) :
    (((tryDelayAndStepByStepAndBreakBefore lib cc st cmd breakByPrev lastCmdInFlow
          bootstrap).1.pauses ≠ st.pauses) ↔
        (st.env.GetBool "sys.interact.inside" = false ∧
          beforeTrigger cc st cmd breakByPrev = true)) ∧
    ((st.env.GetBool "sys.interact.inside" = true ∨ beforeTrigger cc st cmd breakByPrev = false) →
      (tryDelayAndStepByStepAndBreakBefore lib cc st cmd breakByPrev lastCmdInFlow
          bootstrap).2 = .action BPAContinue ∧
      (tryDelayAndStepByStepAndBreakBefore lib cc st cmd breakByPrev lastCmdInFlow
          bootstrap).1.stdin = st.stdin ∧
      (tryDelayAndStepByStepAndBreakBefore lib cc st cmd breakByPrev lastCmdInFlow
          bootstrap).1.bps = st.bps ∧
      (tryDelayAndStepByStepAndBreakBefore lib cc st cmd breakByPrev lastCmdInFlow
          bootstrap).1.env = st.env) := by
  have hpa : ∀ x : Session × Resolution,
      tryStepByStepAndBreakBefore lib cc st cmd breakByPrev = x →
      (tryDelayAndStepByStepAndBreakBefore lib cc st cmd breakByPrev lastCmdInFlow
          bootstrap).1.pauses =
        if st.env.GetBool "sys.interact.inside" then st.pauses else x.1.pauses := by
    intro x hx
    unfold tryDelayAndStepByStepAndBreakBefore
    simp only [hx]
    repeat' split
    all_goals first
      | rfl
      | exact (tryDelay_fields _ _).1
  cases hin : st.env.GetBool "sys.interact.inside"
  · cases htr : beforeTrigger cc st cmd breakByPrev
    · have hq := tryStepByStep_quiet lib cc st cmd breakByPrev htr
      refine ⟨?_, ?_⟩
      · rw [hpa _ hq]; simp [hin]
      · intro _
        unfold tryDelayAndStepByStepAndBreakBefore
        simp only [hq, hin]
        have hd := tryDelay_fields st "sys.execute-delay-sec"
        by_cases hb : (!bootstrap && !lastNodeIsQuiet cmd) = true
        · simp only [hb, if_true, BPAContinue, beq_self_eq_true]
          exact ⟨rfl, hd.2.1, hd.2.2.1, hd.2.2.2⟩
        · simp only [hb, BPAContinue, beq_self_eq_true, if_true]
          exact ⟨rfl, rfl, rfl, rfl⟩
    · have hp := tryStepByStep_paused lib cc st cmd breakByPrev htr
      refine ⟨?_, ?_⟩
      · rw [hpa _ rfl]; simp [hin, hp]
      · intro h; simp at h
  · refine ⟨?_, ?_⟩
    · rw [hpa _ rfl]; simp [hin]
    · intro _
      unfold tryDelayAndStepByStepAndBreakBefore
      simp [hin]

/-- C8, counterexample to the claim as stated: break-before is registered for
the step `x.y`, so a trigger condition holds, yet inside the nested interactive
mode the check does not pause: it resolves to Continue and reads no input. -/
theorem C8_counterexample :
    beforeTrigger exCli (exSession [("sys.interact.inside", "true")] ["c"]) exStep false = true ∧
    tryDelayAndStepByStepAndBreakBefore (exLib []) exCli
        (exSession [("sys.interact.inside", "true")] ["c"]) exStep false false false =
      (exSession [("sys.interact.inside", "true")] ["c"], .action BPAContinue) := by
  decide

theorem delPair_lookup (k : String) (ps : List (String × String)) :
    (delPair k ps).lookup k = none := by
  induction ps with
  | nil => rfl
  | cons q qs ih =>
    unfold delPair at ih ⊢
    rw [List.filter_cons]
    by_cases hq : q.1 = k
    · simp [hq, ih]
    · have h1 : (q.1 != k) = true := by simpa using hq
      have hne : (k == q.1) = false := by simpa using fun h => hq h.symm
      obtain ⟨a, b⟩ := q
      simp only [h1, if_true, List.lookup, hne]
      exact ih

theorem mapLayer_find (ty : String) (f : List (String × String) → List (String × String))
    (ls : List EnvLayer) :
    ((mapLayer ty f ls).find? fun l => l.ty = ty).map EnvLayer.pairs =
      ((ls.find? fun l => l.ty = ty).map EnvLayer.pairs).map f := by
  induction ls with
  | nil => rfl
  | cons l ls ih =>
    unfold mapLayer
    by_cases hl : l.ty = ty
    · simp [hl, List.find?]
    · simp [hl, List.find?, ih]

/-- After `env.GetLayer(ty).Delete(k)` the layer `ty` does not hold `k`. -/
theorem layerDelete_lookup (e : Env) (ty k : String) :
    ((e.LayerDelete ty k).layerPairs ty).lookup k = none := by
  unfold Env.LayerDelete Env.onLayer Env.layerPairs Env.layers
  by_cases ht : e.top.ty = ty
  · simp [ht, List.find?, delPair_lookup]
  · simp only [ht, if_false, List.find?, decide_False]
    rw [mapLayer_find]
    cases h : (e.parents.find? fun l => l.ty = ty) with
    | none => simp
    | some l => simp [delPair_lookup]

/-- C9 (as amended): a one-shot trigger is consumed only when it is the
trigger the `if` chain of the check selects, in the order break-at-begin,
step-by-step, break-before, step-in, step-out. In the state in which the pause
is entered: break-at-begin, when it was set, is cleared; step-in-pending is
removed from the session layer when break-at-begin, step-by-step mode and
break-before do not hold; step-out-pending is removed when, in addition,
step-in was not pending; and when break-at-begin, step-by-step mode or
break-before holds the environment is left as it was, so a pending step-in or
step-out stays set. -/
theorem C9_one_shot_flags (lib : Collab) (cc : Cli) (st : Session) (cmd : ParsedCmd)
    (breakByPrev : Bool) (p : Pause)
    (hp : (tryStepByStepAndBreakBefore lib cc st cmd breakByPrev).1.pauses = st.pauses ++ [p]) :
    (st.bps.BreakAtBegin = true → p.bps.BreakAtBegin = false) ∧
    (st.bps.BreakAtBegin = false → st.env.GetBool "sys.step-by-step" = false →
      st.bps.BreakBefore (strJoin cmd.Path cc.Cmds.Strs.PathSep) = false →
      st.env.GetBool "sys.breakpoint.status.step-in" = true →
      (p.env.layerPairs EnvLayerSession).lookup "sys.breakpoint.status.step-in" = none) ∧
    (st.bps.BreakAtBegin = false → st.env.GetBool "sys.step-by-step" = false →
      st.bps.BreakBefore (strJoin cmd.Path cc.Cmds.Strs.PathSep) = false →
      st.env.GetBool "sys.breakpoint.status.step-in" = false →
      st.env.GetBool "sys.breakpoint.status.step-out" = true →
      (p.env.layerPairs EnvLayerSession).lookup "sys.breakpoint.status.step-out" = none) ∧
    ((st.bps.BreakAtBegin = true ∨ st.env.GetBool "sys.step-by-step" = true ∨
        st.bps.BreakBefore (strJoin cmd.Path cc.Cmds.Strs.PathSep) = true) →
      p.env = st.env) := by
  by_cases htr : beforeTrigger cc st cmd breakByPrev = true
  · rw [tryStepByStep_paused lib cc st cmd breakByPrev htr] at hp
    have hp2 := List.append_cancel_left hp
    injection hp2 with hp3 _
    subst hp3
    unfold breakBeforeMenu
    simp only []
    simp only [BreakPoints.BreakAtBegin, BreakPoints.SetAtBegin]
    refine ⟨?_, ?_, ?_, ?_⟩
    · intro h1
      simp [h1]
    · intro h1 h2 h3 h4
      simp [h1, h2, h3, h4, layerDelete_lookup]
    · intro h1 h2 h3 h4 h5
      simp [h1, h2, h3, h4, h5, layerDelete_lookup]
    · intro h
      by_cases h1 : st.bps.AtBegin = true
      · simp [h1]
      · by_cases h2 : st.env.GetBool "sys.step-by-step" = true
        · simp [h1, h2]
        · rcases h with h | h | h
          · exact absurd h h1
          · exact absurd h h2
          · simp [h1, h2, h]
  · have hq := tryStepByStep_quiet lib cc st cmd breakByPrev (by simpa using htr)
    rw [hq] at hp
    simp at hp

/-- C9, counterexample to the claim as stated: step-in is pending in the
session layer and break-before is registered for the step. The check pauses for
the breakpoint, the user continues, and step-in-pending is still set in the
session layer afterwards. -/
theorem C9_counterexample :
    (exSession [("sys.breakpoint.status.step-in", "true")] ["c"]).env.GetBool
        "sys.breakpoint.status.step-in" = true ∧
    (tryStepByStepAndBreakBefore (exLib []) exCli
        (exSession [("sys.breakpoint.status.step-in", "true")] ["c"]) exStep false).2 =
      .action BPAContinue ∧
    ((tryStepByStepAndBreakBefore (exLib []) exCli
        (exSession [("sys.breakpoint.status.step-in", "true")] ["c"]) exStep false).1.pauses.map
          Pause.reason) = ["break-point: before command [x.y]"] ∧
    ((tryStepByStepAndBreakBefore (exLib []) exCli
        (exSession [("sys.breakpoint.status.step-in", "true")] ["c"]) exStep
          false).1.env.layerPairs EnvLayerSession).lookup "sys.breakpoint.status.step-in" =
      some "true" := by
  decide

/-- C9, the amended statement at a concrete input: step-in is pending and no
other trigger holds; the pause is entered with step-in-pending removed. -/
theorem C9_witness :
    ((⟨"just stepped in", ["s", "d", "c", "i", "q"],
        [("s", BPASkip), ("d", BPAStepOver), ("c", BPAContinue), ("i", BPAInteract),
          ("q", BPAQuit)],
        ⟨⟨EnvLayerSession, []⟩, [⟨EnvLayerDefault, []⟩]⟩, ⟨false, false, [], []⟩⟩ :
          Pause).env.layerPairs EnvLayerSession).lookup "sys.breakpoint.status.step-in" = none :=
  (C9_one_shot_flags (exLib []) exCli
    ⟨⟨⟨EnvLayerSession, [("sys.breakpoint.status.step-in", "true")]⟩, [⟨EnvLayerDefault, []⟩]⟩,
      ⟨false, false, [], []⟩, [], ["c"], []⟩ exStep false _ (by decide)).2.1
    (by decide) (by decide) (by decide) (by decide)

/-- C10: at every before-step pause the menu has no duplicates, neither among
the choices nor among the actions they stand for; it always offers Continue,
Interact and Quit; and it offers StepIn if and only if the step's command owns
a sub-flow and step-by-step mode is off. -/
theorem C10_before_step_menu (lib : Collab) (cc : Cli) (st : Session) (cmd : ParsedCmd)
    (breakByPrev : Bool) (p : Pause)
    (hp : (tryStepByStepAndBreakBefore lib cc st cmd breakByPrev).1.pauses = st.pauses ++ [p]) :
    p.choices.Nodup ∧ p.offered.Nodup ∧
    BPAContinue ∈ p.offered ∧ BPAInteract ∈ p.offered ∧ BPAQuit ∈ p.offered ∧
    (BPAStepIn ∈ p.offered ↔
      (ownsSubFlow lib cmd = true ∧ st.env.GetBool "sys.step-by-step" = false)) := by
  by_cases htr : beforeTrigger cc st cmd breakByPrev = true
  · rw [tryStepByStep_paused lib cc st cmd breakByPrev htr] at hp
    have hp2 := List.append_cancel_left hp
    injection hp2 with hp3 _
    subst hp3
    unfold beforeTrigger at htr
    unfold Pause.offered breakBeforeMenu
    simp only []
    generalize st.bps.BreakAtBegin = a at htr ⊢
    generalize st.bps.BreakBefore (strJoin cmd.Path cc.Cmds.Strs.PathSep) = b at htr ⊢
    generalize st.env.GetBool "sys.step-by-step" = c at htr ⊢
    generalize st.env.GetBool "sys.breakpoint.status.step-in" = d at htr ⊢
    generalize st.env.GetBool "sys.breakpoint.status.step-out" = e at htr ⊢
    generalize ownsSubFlow lib cmd = o
    cases a <;> cases b <;> cases c <;> cases d <;> cases e <;> cases breakByPrev <;>
      cases o <;> first
        | (exfalso; revert htr; decide)
        | (simp only [Bool.false_eq_true, if_false, if_true, Bool.and_true, Bool.and_false,
            Bool.not_true, Bool.not_false, List.nil_append]; decide)
  · have hq := tryStepByStep_quiet lib cc st cmd breakByPrev (by simpa using htr)
    rw [hq] at hp
    simp at hp

/-- C10 at a concrete input: break-before is registered for `x.y`, the step
owns no sub-flow; the menu is s, d, c, i, q. -/
theorem C10_witness :
    (["s", "d", "c", "i", "q"] : List String).Nodup ∧
    BPAContinue ∈ [BPASkip, BPAStepOver, BPAContinue, BPAInteract, BPAQuit] :=
  have h := C10_before_step_menu (exLib []) exCli (exSession [] ["c"]) exStep false
    ⟨"break-point: before command [x.y]", ["s", "d", "c", "i", "q"],
      [("s", BPASkip), ("d", BPAStepOver), ("c", BPAContinue), ("i", BPAInteract),
        ("q", BPAQuit)], (exSession [] ["c"]).env, (exSession [] ["c"]).bps⟩ (by decide)
  ⟨h.1, h.2.2.1⟩

/-! ## The menus of the pauses -/

/-- C11 (as amended): at every before-step pause the menu offers Continue; it
offers Skip and StepOver exactly when the reason of the pause is not
step-by-step mode, that is when break-at-begin is set or step-by-step mode is
off. In step-by-step mode (break-at-begin not set) Continue is the only choice
the reason adds. -/
theorem C11_reason_choices (lib : Collab) (cc : Cli) (st : Session) (cmd : ParsedCmd)
    (breakByPrev : Bool) (p : Pause)
    (hp : (tryStepByStepAndBreakBefore lib cc st cmd breakByPrev).1.pauses = st.pauses ++ [p]) :
    BPAContinue ∈ p.offered ∧
    (BPASkip ∈ p.offered ↔
      (st.bps.BreakAtBegin = true ∨ st.env.GetBool "sys.step-by-step" = false)) ∧
    (BPAStepOver ∈ p.offered ↔
      (st.bps.BreakAtBegin = true ∨ st.env.GetBool "sys.step-by-step" = false)) := by
  by_cases htr : beforeTrigger cc st cmd breakByPrev = true
  · rw [tryStepByStep_paused lib cc st cmd breakByPrev htr] at hp
    have hp2 := List.append_cancel_left hp
    injection hp2 with hp3 _
    subst hp3
    unfold beforeTrigger at htr
    unfold Pause.offered breakBeforeMenu
    simp only []
    generalize st.bps.BreakAtBegin = a at htr ⊢
    generalize st.bps.BreakBefore (strJoin cmd.Path cc.Cmds.Strs.PathSep) = b at htr ⊢
    generalize st.env.GetBool "sys.step-by-step" = c at htr ⊢
    generalize st.env.GetBool "sys.breakpoint.status.step-in" = d at htr ⊢
    generalize st.env.GetBool "sys.breakpoint.status.step-out" = e at htr ⊢
    generalize ownsSubFlow lib cmd = o
    cases a <;> cases b <;> cases c <;> cases d <;> cases e <;> cases breakByPrev <;>
      cases o <;> first
        | (exfalso; revert htr; decide)
        | (simp only [Bool.false_eq_true, if_false, if_true, Bool.and_true, Bool.and_false,
            Bool.not_true, Bool.not_false, List.nil_append]; decide)
  · have hq := tryStepByStep_quiet lib cc st cmd breakByPrev (by simpa using htr)
    rw [hq] at hp
    simp at hp

/-- C11, counterexample to the claim as stated: step-by-step mode is on and the
step `x.y` is reached. The check pauses with the reason step-by-step and its
menu is c, i, q: neither Skip nor StepOver is offered. -/
theorem C11_counterexample :
    ((tryStepByStepAndBreakBefore (exLib []) exCli
        (exSession [("sys.step-by-step", "true")] ["c"]) exStep false).1.pauses.map
          fun p => (p.reason, p.choices, p.offered)) =
      [("step-by-step", ["c", "i", "q"], [BPAContinue, BPAInteract, BPAQuit])] ∧
    BPASkip ∉ [BPAContinue, BPAInteract, BPAQuit] ∧
    BPAStepOver ∉ [BPAContinue, BPAInteract, BPAQuit] := by
  decide

/-- C11 at a concrete input: break-before is registered for `x.y` and
step-by-step mode is off; the menu s, d, c, i, q offers Skip. -/
theorem C11_witness :
    BPASkip ∈ [BPASkip, BPAStepOver, BPAContinue, BPAInteract, BPAQuit] :=
  (C11_reason_choices (exLib []) exCli (exSession [] ["c"]) exStep false
    ⟨"break-point: before command [x.y]", ["s", "d", "c", "i", "q"],
      [("s", BPASkip), ("d", BPAStepOver), ("c", BPAContinue), ("i", BPAInteract),
        ("q", BPAQuit)], (exSession [] ["c"]).env, (exSession [] ["c"]).bps⟩
    (by decide)).2.1.mpr (Or.inr (by decide))

/-! ## What a resolution writes -/

theorem setPair_lookup (k v : String) (ps : List (String × String)) :
    (setPair k v ps).lookup k = some v := by
  simp [setPair, List.lookup]

/-- After `env.GetLayer(ty).Set(k, v)` the layer `ty`, when the environment
has one, holds `v` for `k`. -/
theorem layerSet_lookup (e : Env) (ty k v : String) (h : ∃ l ∈ e.layers, l.ty = ty) :
    ((e.LayerSet ty k v).layerPairs ty).lookup k = some v := by
  unfold Env.LayerSet Env.onLayer Env.layerPairs Env.layers
  by_cases ht : e.top.ty = ty
  · simp [ht, List.find?, setPair_lookup]
  · simp only [ht, if_false, List.find?, decide_False]
    rw [mapLayer_find]
    obtain ⟨l, hl, hty⟩ := h
    simp only [Env.layers, List.mem_cons] at hl
    rcases hl with hl | hl
    · subst hl; exact absurd hty ht
    · cases hf : (e.parents.find? fun l => l.ty = ty) with
      | none =>
        have := List.find?_eq_none.mp hf l hl
        simp [hty] at this
      | some l2 => simp [setPair_lookup]

/-- C12: when the before-step check pauses and the pause resolves to StepOver
or Skip, the check returns that action; it sets step-out-pending to true in the
session layer when the step is the last one of its flow level and its command
is absent or owns no sub-flow, and in every other case it writes nothing: the
session is the one the pause left. -/
theorem C12_step_over_or_skip (lib : Collab) (cc : Cli) (st : Session) (cmd : ParsedCmd)
    (breakByPrev lastCmdInFlow bootstrap : Bool) (bpa : BreakPointAction)
    (hin : st.env.GetBool "sys.interact.inside" = false)
    (hres : (tryStepByStepAndBreakBefore lib cc st cmd breakByPrev).2 = .action bpa)
    (hbpa : bpa = BPAStepOver ∨ bpa = BPASkip) :
    (tryDelayAndStepByStepAndBreakBefore lib cc st cmd breakByPrev lastCmdInFlow bootstrap).2 =
      .action bpa ∧
    ((lastCmdInFlow = true ∧ (cmd.LastCmd = none ∨ ownsSubFlow lib cmd = false)) →
      (tryDelayAndStepByStepAndBreakBefore lib cc st cmd breakByPrev lastCmdInFlow bootstrap).1 =
        { (tryStepByStepAndBreakBefore lib cc st cmd breakByPrev).1 with
          env := (tryStepByStepAndBreakBefore lib cc st cmd breakByPrev).1.env.LayerSetBool
            EnvLayerSession "sys.breakpoint.status.step-out" true } ∧
      ((∃ l ∈ (tryStepByStepAndBreakBefore lib cc st cmd breakByPrev).1.env.layers,
          l.ty = EnvLayerSession) →
        ((tryDelayAndStepByStepAndBreakBefore lib cc st cmd breakByPrev lastCmdInFlow
            bootstrap).1.env.layerPairs EnvLayerSession).lookup
          "sys.breakpoint.status.step-out" = some "true")) ∧
    (¬ (lastCmdInFlow = true ∧ (cmd.LastCmd = none ∨ ownsSubFlow lib cmd = false)) →
      (tryDelayAndStepByStepAndBreakBefore lib cc st cmd breakByPrev lastCmdInFlow bootstrap).1 =
        (tryStepByStepAndBreakBefore lib cc st cmd breakByPrev).1) := by
  have h1 : (bpa == BPAContinue) = false := by
    rcases hbpa with h | h <;> subst h <;> decide
  have h2 : (bpa == BPAStepIn) = false := by
    rcases hbpa with h | h <;> subst h <;> decide
  have h3 : (bpa == BPAStepOver || bpa == BPASkip) = true := by
    rcases hbpa with h | h <;> subst h <;> decide
  unfold tryDelayAndStepByStepAndBreakBefore
  simp only [hin, Bool.false_eq_true, if_false, hres, h1, h2, h3, if_true]
  by_cases hc : lastCmdInFlow = true ∧ (cmd.LastCmd = none ∨ ownsSubFlow lib cmd = false)
  · have hb : (lastCmdInFlow && (cmd.LastCmd.isNone || !ownsSubFlow lib cmd)) = true := by
      obtain ⟨hl, ho⟩ := hc
      rcases ho with ho | ho <;> simp [hl, ho]
    simp only [hb, if_true, true_and]
    refine ⟨fun _ hs => ?_, fun hn => absurd hc hn⟩
    exact layerSet_lookup _ _ _ _ hs
  · have hb : (lastCmdInFlow && (cmd.LastCmd.isNone || !ownsSubFlow lib cmd)) = false := by
      cases hl : lastCmdInFlow
      · rfl
      · cases ho : cmd.LastCmd with
        | none => exact absurd ⟨hl, Or.inl ho⟩ hc
        | some c =>
          cases ho2 : ownsSubFlow lib cmd
          · exact absurd ⟨hl, Or.inr ho2⟩ hc
          · simp
    simp only [hb, Bool.false_eq_true, if_false, true_and]
    exact ⟨fun h => absurd h hc, fun _ => trivial⟩

/-- C12 at a concrete input: break-before is registered for `x.y`, the last
step of its level, and the user chooses `d`: StepOver is returned and
step-out-pending is set in the session layer. -/
theorem C12_witness :
    (tryDelayAndStepByStepAndBreakBefore (exLib []) exCli (exSession [] ["d"]) exStep false true
        false).2 = .action BPAStepOver ∧
    ((tryDelayAndStepByStepAndBreakBefore (exLib []) exCli (exSession [] ["d"]) exStep false true
        false).1.env.layerPairs EnvLayerSession).lookup "sys.breakpoint.status.step-out" =
      some "true" :=
  have h := C12_step_over_or_skip (exLib []) exCli (exSession [] ["d"]) exStep false true false
    BPAStepOver (by decide) (by decide) (Or.inl rfl)
  ⟨h.1, (h.2.1 ⟨rfl, Or.inr (by decide)⟩).2 ⟨⟨EnvLayerSession, []⟩, by decide, rfl⟩⟩

/-! ## Stepping into a sub-flow -/

theorem lookup_map_self (f : String → String) (l : List String) (k : String) :
    (l.map fun x => (x, f x)).lookup k = if k ∈ l then some (f k) else none := by
  induction l with
  | nil => simp
  | cons x xs ih =>
    simp only [List.map_cons, List.lookup, List.mem_cons]
    by_cases hx : k = x
    · subst hx; simp
    · have : (k == x) = false := by simpa using hx
      simp only [this, ih, hx, false_or]

/-- An action the loop of `readUserBPAChoice` returns is Continue or one of
the actions of the map, and never Quit or Interact. -/
theorem readLoop_action (lib : Collab) (reason : String) (choices : List String) (actions : BPAs)
    (lowerInput : Bool) (fuel : Nat) (buffered : List Char) (st : Session) (a : BreakPointAction)
    (h : (readLoop lib reason choices actions lowerInput fuel buffered st).2 = .action a) :
    a = BPAContinue ∨ ((∃ k, actions.lookup k = some a) ∧ a ≠ BPAQuit ∧ a ≠ BPAInteract) := by
  induction fuel generalizing buffered st with
  | zero => simp [readLoop] at h
  | succ n ih =>
    simp only [readLoop] at h
    split at h
    · simp at h
    · split at h
      · exact ih _ _ h
      · split at h
        · rename_i action hlook
          split at h
          · simp at h
          · rename_i hq
            split at h
            · split at h
              · simp only [Resolution.action.injEq] at h
                exact Or.inl h.symm
              · exact ih _ _ h
            · rename_i hi
              simp only [Resolution.action.injEq] at h
              subst h
              refine Or.inr ⟨⟨_, hlook⟩, ?_, ?_⟩
              · simpa using hq
              · simpa using hi
        · exact ih _ _ h

theorem menu_choices (lib : Collab) (cc : Cli) (st : Session) (cmd : ParsedCmd)
    (breakByPrev : Bool) :
    ∀ k ∈ (breakBeforeMenu lib cc st cmd breakByPrev).2.2, k ∈ ["t", "s", "d", "c"] := by
  unfold breakBeforeMenu
  simp only []
  intro k hk
  repeat' split at hk
  all_goals try simp only [List.mem_append, List.mem_cons, List.mem_singleton, List.not_mem_nil,
    or_false, false_or] at hk ⊢
  all_goals tauto

/-- An action the before-step pause returns is Continue, StepIn, Skip or
StepOver. -/
theorem tryStepByStep_action (lib : Collab) (cc : Cli) (st : Session) (cmd : ParsedCmd)
    (breakByPrev : Bool) (a : BreakPointAction)
    (h : (tryStepByStepAndBreakBefore lib cc st cmd breakByPrev).2 = .action a) :
    a = BPAContinue ∨ a = BPAStepIn ∨ a = BPASkip ∨ a = BPAStepOver := by
  unfold tryStepByStepAndBreakBefore at h
  simp only [] at h
  split at h
  · simp only [Resolution.action.injEq] at h
    exact Or.inl h.symm
  · unfold readUserBPAChoice at h
    rcases readLoop_action _ _ _ _ _ _ _ _ _ h with h1 | ⟨⟨k, hk⟩, hq, hi⟩
    · exact Or.inl h1
    · rw [lookup_map_self] at hk
      split at hk
      · rename_i hmem
        simp only [Option.some.injEq] at hk
        rcases List.mem_append.mp hmem with hm | hm
        · have := menu_choices lib cc st cmd breakByPrev k hm
          simp only [List.mem_cons, List.mem_singleton, List.not_mem_nil, or_false] at this
          rcases this with e | e | e | e <;> subst e <;> subst hk
          · exact Or.inr (Or.inl (by decide))
          · exact Or.inr (Or.inr (Or.inl (by decide)))
          · exact Or.inr (Or.inr (Or.inr (by decide)))
          · exact Or.inl (by decide)
        · simp only [List.mem_cons, List.mem_singleton, List.not_mem_nil, or_false] at hm
          rcases hm with e | e <;> subst e <;> subst hk
          · exact absurd (by decide) hi
          · exact absurd (by decide) hq
      · simp at hk

theorem mapLayer_getEx (ty k v : String) (ls : List EnvLayer) (h : readsFrom ty k ls = true) :
    (mapLayer ty (setPair k v) ls).findSome? (fun l => l.pairs.lookup k) = some v := by
  induction ls with
  | nil => simp [readsFrom] at h
  | cons l ls ih =>
    unfold mapLayer
    unfold readsFrom at h
    by_cases hl : l.ty = ty
    · simp [hl, List.findSome?, setPair_lookup]
    · simp only [hl, if_false, Bool.and_eq_true, Option.isNone_iff_eq_none] at h
      simp only [hl, if_false, List.findSome?, h.1]
      exact ih h.2

/-- After `env.GetLayer(ty).Set(k, v)` a merged read of `k` gives `v`, when it
is the layer `ty` that answers the read. -/
theorem layerSet_getEx (e : Env) (ty k v : String) (h : readsFrom ty k e.layers = true) :
    (e.LayerSet ty k v).GetEx k = some v := by
  unfold Env.LayerSet Env.onLayer Env.GetEx
  unfold Env.layers readsFrom at h
  by_cases ht : e.top.ty = ty
  · simp [ht, Env.layers, List.findSome?, setPair_lookup]
  · simp only [ht, if_false, Bool.and_eq_true, Option.isNone_iff_eq_none] at h
    simp only [ht, if_false, Env.layers, List.findSome?, h.1]
    exact mapLayer_getEx ty k v e.parents h.2

/-- The pauses of the before-step check are those of
`tryStepByStepAndBreakBefore`, outside the nested interactive mode. -/
theorem tryDelayAndStep_pauses (lib : Collab) (cc : Cli) (st : Session) (cmd : ParsedCmd)
    (breakByPrev lastCmdInFlow bootstrap : Bool)
    (hin : st.env.GetBool "sys.interact.inside" = false) :
    (tryDelayAndStepByStepAndBreakBefore lib cc st cmd breakByPrev lastCmdInFlow
        bootstrap).1.pauses =
      (tryStepByStepAndBreakBefore lib cc st cmd breakByPrev).1.pauses := by
  unfold tryDelayAndStepByStepAndBreakBefore
  simp only [hin, Bool.false_eq_true, if_false]
  repeat' split
  all_goals first
    | rfl
    | exact (tryDelay_fields _ _).1

/-- C13: when the pause of a before-step check resolves to StepIn, the check
reports Continue and sets step-in-pending to true in the session layer, and a
merged read of the flag then gives true when the session layer answers it; a
before-step check returns no action other than Continue, StepOver and Skip;
and a before-step check that runs, outside the nested interactive mode, while
step-in is pending, with break-at-begin and step-by-step mode off and no
break-before registered for its step, pauses with the reason "just stepped in"
and enters the pause with step-in-pending removed from the session layer. -/
theorem C13_step_in (lib : Collab) (cc : Cli) (st : Session) (cmd : ParsedCmd)
    (breakByPrev lastCmdInFlow bootstrap : Bool)
    (hin : st.env.GetBool "sys.interact.inside" = false)
    (hres : (tryStepByStepAndBreakBefore lib cc st cmd breakByPrev).2 = .action BPAStepIn) :
    (tryDelayAndStepByStepAndBreakBefore lib cc st cmd breakByPrev lastCmdInFlow bootstrap).2 =
      .action BPAContinue ∧
    (tryDelayAndStepByStepAndBreakBefore lib cc st cmd breakByPrev lastCmdInFlow
        bootstrap).1.env =
      (tryStepByStepAndBreakBefore lib cc st cmd breakByPrev).1.env.LayerSetBool EnvLayerSession
        "sys.breakpoint.status.step-in" true ∧
    (readsFrom EnvLayerSession "sys.breakpoint.status.step-in"
        (tryStepByStepAndBreakBefore lib cc st cmd breakByPrev).1.env.layers = true →
      (tryDelayAndStepByStepAndBreakBefore lib cc st cmd breakByPrev lastCmdInFlow
        bootstrap).1.env.GetBool "sys.breakpoint.status.step-in" = true) ∧
    (∀ (st0 : Session) (cmd0 : ParsedCmd) (b0 l0 boot0 : Bool) (bpa : BreakPointAction),
      (tryDelayAndStepByStepAndBreakBefore lib cc st0 cmd0 b0 l0 boot0).2 = .action bpa →
      bpa = BPAContinue ∨ bpa = BPAStepOver ∨ bpa = BPASkip) ∧
    (∀ (st2 : Session) (cmd2 : ParsedCmd) (b2 l2 boot2 : Bool),
      st2.env.GetBool "sys.interact.inside" = false →
      st2.env.GetBool "sys.breakpoint.status.step-in" = true →
      st2.bps.BreakAtBegin = false → st2.env.GetBool "sys.step-by-step" = false →
      st2.bps.BreakBefore (strJoin cmd2.Path cc.Cmds.Strs.PathSep) = false →
      ∃ p, (tryDelayAndStepByStepAndBreakBefore lib cc st2 cmd2 b2 l2 boot2).1.pauses =
          st2.pauses ++ [p] ∧
        p.reason = lib.Color .Tip "just stepped in" p.env ∧
        p.env = st2.env.LayerDelete EnvLayerSession "sys.breakpoint.status.step-in" ∧
        (p.env.layerPairs EnvLayerSession).lookup "sys.breakpoint.status.step-in" = none) := by
  have hout : tryDelayAndStepByStepAndBreakBefore lib cc st cmd breakByPrev lastCmdInFlow
      bootstrap =
      ({ (tryStepByStepAndBreakBefore lib cc st cmd breakByPrev).1 with
          env := (tryStepByStepAndBreakBefore lib cc st cmd breakByPrev).1.env.LayerSetBool
            EnvLayerSession "sys.breakpoint.status.step-in" true }, .action BPAContinue) := by
    unfold tryDelayAndStepByStepAndBreakBefore
    have h1 : (BPAStepIn == BPAContinue) = false := by decide
    simp only [hin, Bool.false_eq_true, if_false, hres, h1, beq_self_eq_true, if_true]
  refine ⟨by rw [hout], by rw [hout], ?_, ?_, ?_⟩
  · intro hv
    rw [hout]
    simp only [Env.GetBool, Env.GetRaw, Env.LayerSetBool, if_true]
    rw [layerSet_getEx _ _ _ _ hv]
    decide
  · intro st0 cmd0 b0 l0 boot0 bpa h
    unfold tryDelayAndStepByStepAndBreakBefore at h
    split at h
    · simp only [Resolution.action.injEq] at h
      exact Or.inl h.symm
    · simp only [] at h
      split at h
      · rename_i a ha
        have hcases := tryStepByStep_action lib cc st0 cmd0 b0 a ha
        split at h
        · rename_i hc
          have : bpa = a := by
            split at h <;> simp only [Prod.mk.injEq, Resolution.action.injEq] at h <;>
              exact h.symm
          rw [this]
          exact Or.inl (by simpa using hc)
        · split at h
          · simp only [Resolution.action.injEq] at h
            exact Or.inl h.symm
          · rename_i hc hs
            have : bpa = a := by
              repeat' split at h
              all_goals (simp only [Resolution.action.injEq] at h; exact h.symm)
            rw [this]
            rcases hcases with e | e | e | e
            · exact Or.inl e
            · exact absurd (by simpa using e) hs
            · exact Or.inr (Or.inr e)
            · exact Or.inr (Or.inl e)
      · rename_i hother
        exact absurd h (hother bpa)
  · intro st2 cmd2 b2 l2 boot2 hin2 hsi hab hsbs hbb
    have htr : beforeTrigger cc st2 cmd2 b2 = true := by
      unfold beforeTrigger
      simp [hsi]
    rw [tryDelayAndStep_pauses lib cc st2 cmd2 b2 l2 boot2 hin2,
      tryStepByStep_paused lib cc st2 cmd2 b2 htr]
    refine ⟨_, rfl, ?_, ?_, ?_⟩
    all_goals unfold breakBeforeMenu
    all_goals simp only [hab, hsbs, hbb, hsi, Bool.false_eq_true, if_false, if_true]
    exact layerDelete_lookup _ _ _

/-- C13 at a concrete input: the step `f` owns a sub-flow, the previous step
asked for a pause, and the user chooses `t`: the check reports Continue and
step-in-pending then reads true. -/
theorem C13_witness :
    (tryDelayAndStepByStepAndBreakBefore (exLib []) exCli (exSession [] ["t"]) exFlowStep true
        false false).2 = .action BPAContinue ∧
    (tryDelayAndStepByStepAndBreakBefore (exLib []) exCli (exSession [] ["t"]) exFlowStep true
        false false).1.env.GetBool "sys.breakpoint.status.step-in" = true :=
  have h := C13_step_in (exLib []) exCli (exSession [] ["t"]) exFlowStep true false false
    (by decide) (by decide)
  ⟨h.1, h.2.2.1 (by decide)⟩

/-! ## Quit -/

theorem print_stdin (st : Session) (s : String) : (st.print s).stdin = st.stdin := rfl

theorem foldl_print_stdin (f : Session → String → String) (xs : List String) (st : Session) :
    (xs.foldl (fun s x => s.print (f s x)) st).stdin = st.stdin := by
  induction xs generalizing st with
  | nil => rfl
  | cons x xs ih => simp [List.foldl, ih, print_stdin]

theorem showTitle_stdin (lib : Collab) (reason : String) (choices : List String) (actions : BPAs)
    (st : Session) : (showTitle lib reason choices actions st).stdin = st.stdin := by
  unfold showTitle
  rw [foldl_print_stdin (fun s choice =>
    lib.Color .Warn choice s.env ++ ": " ++ (actions.lookup choice).getD "" ++ "\n")]
  rfl

theorem splitLine_none (l : List Char) (h : '\n' ∉ l) : splitLine l = none := by
  induction l with
  | nil => rfl
  | cons c cs ih =>
    simp only [List.mem_cons, not_or] at h
    have hc : ¬ c = '\n' := fun e => h.1 e.symm
    simp only [splitLine, hc, if_false, ih h.2, Option.map_none']

theorem splitLine_first (line tail : List Char) (h : '\n' ∉ line) :
    splitLine (line ++ '\n' :: tail) = some (line ++ ['\n'], tail) := by
  induction line with
  | nil => simp [splitLine]
  | cons c cs ih =>
    simp only [List.mem_cons, not_or] at h
    have hc : ¬ c = '\n' := fun e => h.1 e.symm
    show splitLine (c :: (cs ++ '\n' :: tail)) = _
    rw [splitLine]
    simp only [hc, if_false, ih h.2, Option.map_some', List.cons_append]

/-- The first newline of a text is where it is. -/
theorem first_newline (a b c d : List Char) (ha : '\n' ∉ a) (hc : '\n' ∉ c)
    (h : a ++ '\n' :: b = c ++ '\n' :: d) : a = c ∧ b = d := by
  induction a generalizing c with
  | nil =>
    cases c with
    | nil => simpa using h
    | cons x xs =>
      simp only [List.nil_append, List.cons_append, List.cons.injEq] at h
      exact absurd (by rw [← h.1]; exact List.mem_cons_self _ _) hc
  | cons y ys ih =>
    cases c with
    | nil =>
      simp only [List.nil_append, List.cons_append, List.cons.injEq] at h
      exact absurd (by rw [h.1]; exact List.mem_cons_self _ _) ha
    | cons x xs =>
      simp only [List.cons_append, List.cons.injEq] at h
      simp only [List.mem_cons, not_or] at ha hc
      obtain ⟨e1, e2⟩ := ih xs ha.2 hc.2 h.2
      exact ⟨by rw [h.1, e1], e2⟩

theorem exists_first_newline (l : List Char) (h : '\n' ∈ l) :
    ∃ a b, l = a ++ '\n' :: b ∧ '\n' ∉ a := by
  induction l with
  | nil => simp at h
  | cons c cs ih =>
    by_cases hc : c = '\n'
    · exact ⟨[], cs, by simp [hc], by simp⟩
    · have hm : '\n' ∈ cs := by
        rcases List.mem_cons.mp h with e | e
        · exact absurd e.symm hc
        · exact e
      obtain ⟨a, b, e, ha⟩ := ih hm
      refine ⟨c :: a, b, by simp [e], ?_⟩
      simp only [List.mem_cons, not_or]
      exact ⟨fun e2 => hc e2.symm, ha⟩

theorem readBytesLine_buffered (buffered : List Char) (stdin : List String)
    (p : List Char × List Char) (h : splitLine buffered = some p) :
    readBytesLine buffered stdin = (some p.1, p.2, stdin) := by
  cases stdin with
  | nil => simp only [readBytesLine, h]
  | cons c cs => simp only [readBytesLine, h]

/-- A reader whose buffer and coming reads hold a whole line hands that line
out, and what it holds with the reads it has not made is the text after the
line. -/
theorem readBytesLine_line (line tail : List Char) (hl : '\n' ∉ line) (post : List String) :
    ∀ (pre : List String) (buffered : List Char), (∀ c ∈ pre, c.data ≠ []) →
      buffered ++ readsText pre = line ++ '\n' :: tail →
      ∃ b2 pre2, readBytesLine buffered (pre ++ post) = (some (line ++ ['\n']), b2, pre2 ++ post) ∧
        b2 ++ readsText pre2 = tail ∧ (∀ c ∈ pre2, c.data ≠ []) := by
  intro pre
  induction pre with
  | nil =>
    intro buffered hne h
    simp only [readsText, List.append_nil] at h
    refine ⟨tail, [], ?_, by simp [readsText], by simp⟩
    rw [readBytesLine_buffered buffered _ (line ++ ['\n'], tail)
      (by rw [h]; exact splitLine_first _ _ hl)]
  | cons c pre1 ih =>
    intro buffered hne h
    by_cases hb : '\n' ∈ buffered
    · obtain ⟨a, b, e, ha⟩ := exists_first_newline buffered hb
      rw [e, List.append_assoc, List.cons_append] at h
      obtain ⟨e1, e2⟩ := first_newline a _ line tail ha hl h
      refine ⟨b, c :: pre1, ?_, e2, hne⟩
      rw [readBytesLine_buffered buffered _ (line ++ ['\n'], b)
        (by rw [e, e1]; exact splitLine_first _ _ hl)]
    · have hc : c.data.isEmpty = false := by
        have := hne c (List.mem_cons_self _ _)
        cases hd : c.data with
        | nil => exact absurd hd this
        | cons x xs => rfl
      obtain ⟨b2, pre2, h1, h2, h3⟩ := ih (buffered ++ c.data)
        (fun x hx => hne x (List.mem_cons_of_mem _ hx))
        (by rw [List.append_assoc]; exact h)
      refine ⟨b2, pre2, ?_, h2, h3⟩
      simp only [List.cons_append, readBytesLine, splitLine_none buffered hb, hc,
        Bool.false_eq_true, if_false]
      exact h1

theorem mk_line (x : String) : String.mk (x.data ++ ['\n']) = x ++ "\n" :=
  String.ext (by simp [String.data_append])

/-- The loop of `readUserBPAChoice` on lines the actions do not know followed
by a line that stands for Quit, however the reads of standard input deliver
them: the user abort. -/
theorem readLoop_quit (lib : Collab) (reason : String) (choices : List String) (actions : BPAs)
    (hq : actions.lookup "q" = some BPAQuit) (qline : String) (tail : List Char)
    (post : List String) (hqnl : '\n' ∉ qline.data) (hql : normLine lib (qline ++ "\n") = "q") :
    ∀ (invalid : List String), (∀ x ∈ invalid, '\n' ∉ x.data) →
      (∀ x ∈ invalid, actions.lookup (normLine lib (x ++ "\n")) = none) →
      ∀ (pre : List String) (buffered : List Char) (fuel : Nat) (st : Session),
        st.stdin = pre ++ post → (∀ c ∈ pre, c.data ≠ []) →
        buffered ++ readsText pre = linesText (invalid ++ [qline]) ++ tail →
        invalid.length < fuel →
        (readLoop lib reason choices actions true fuel buffered st).2 = .abortByUser := by
  intro invalid
  induction invalid with
  | nil =>
    intro _ _ pre buffered fuel st hst hne htext hfuel
    obtain ⟨n, rfl⟩ : ∃ n, fuel = n + 1 := ⟨fuel - 1, by omega⟩
    simp only [List.nil_append, linesText, List.append_assoc, List.cons_append] at htext
    obtain ⟨b2, pre2, h1, _, _⟩ := readBytesLine_line qline.data tail hqnl post pre buffered hne htext
    have hlen : ((qline.data ++ ['\n']).length == 0) = false := by simp
    unfold normLine at hql
    simp only [readLoop, hst, h1, hlen, Bool.false_eq_true, if_false, if_true, mk_line, hql, hq,
      beq_self_eq_true]
  | cons x xs ih =>
    intro hnl hinv pre buffered fuel st hst hne htext hfuel
    obtain ⟨n, rfl⟩ : ∃ n, fuel = n + 1 := ⟨fuel - 1, by simp at hfuel; omega⟩
    simp only [List.cons_append, linesText, List.append_assoc] at htext
    obtain ⟨b2, pre2, h1, h2, h3⟩ := readBytesLine_line x.data _
      (hnl x (List.mem_cons_self _ _)) post pre buffered hne htext
    have hlen : ((x.data ++ ['\n']).length == 0) = false := by simp
    have hx := hinv x (List.mem_cons_self _ _)
    unfold normLine at hx
    simp only [readLoop, hst, h1, hlen, Bool.false_eq_true, if_false, if_true, mk_line, hx]
    exact ih (fun y hy => hnl y (List.mem_cons_of_mem _ hy))
      (fun y hy => hinv y (List.mem_cons_of_mem _ hy)) pre2 b2 n _ rfl h3
      h2 (by simp at hfuel; omega)

theorem readsText_length (rs : List String) :
    (readsText rs).length = (rs.map String.length).sum := by
  induction rs with
  | nil => rfl
  | cons r rs ih => simp only [readsText, List.length_append, ih, List.map_cons, List.sum_cons,
      String.length]

theorem linesText_length (ls : List String) : ls.length ≤ (linesText ls).length := by
  induction ls with
  | nil => simp
  | cons l ls ih => simp only [linesText, List.length_append, List.length_cons]; omega

theorem readUserBPAChoice_quit (lib : Collab) (reason : String) (choices : List String)
    (actions : BPAs) (hq : actions.lookup "q" = some BPAQuit) (invalid : List String)
    (qline : String) (pre post : List String) (tail : List Char)
    (hnl : ∀ x ∈ invalid ++ [qline], '\n' ∉ x.data)
    (hinv : ∀ x ∈ invalid, actions.lookup (normLine lib (x ++ "\n")) = none)
    (hql : normLine lib (qline ++ "\n") = "q")
    (st : Session) (hst : st.stdin = pre ++ post) (hne : ∀ c ∈ pre, c.data ≠ [])
    (htext : readsText pre = linesText (invalid ++ [qline]) ++ tail) :
    (readUserBPAChoice lib reason choices actions true st).2 = .abortByUser := by
  unfold readUserBPAChoice
  simp only []
  apply readLoop_quit lib reason choices actions hq qline tail post
    (hnl qline (by simp)) hql invalid (fun x hx => hnl x (by simp [hx])) hinv pre
  · rw [showTitle_stdin]; exact hst
  · exact hne
  · simpa using htext
  · have h1 := linesText_length (invalid ++ [qline])
    have h2 := congrArg List.length htext
    rw [readsText_length] at h2
    simp only [List.length_append, List.length_cons, List.length_nil] at h1 h2
    rw [hst]
    simp only [List.map_append, List.sum_append]
    omega

theorem beforeActions_quit (lib : Collab) (cc : Cli) (st : Session) (cmd : ParsedCmd)
    (breakByPrev : Bool) : (beforeActions lib cc st cmd breakByPrev).lookup "q" = some BPAQuit := by
  unfold beforeActions
  rw [lookup_map_self]
  simp only [List.mem_append, List.mem_cons, List.mem_singleton, true_or, or_true, if_true]
  decide

theorem dropWhile_spaces (ws rest : List Char) (h : ∀ c ∈ ws, isGoSpace c = true) :
    (ws ++ rest).dropWhile isGoSpace = rest.dropWhile isGoSpace := by
  induction ws with
  | nil => rfl
  | cons c cs ih =>
    simp only [List.cons_append, List.dropWhile, h c (List.mem_cons_self _ _)]
    exact ih fun x hx => h x (List.mem_cons_of_mem _ hx)

/-- A line that is the letter `q`, small or capital, between white space is
looked up as `q`. -/
theorem normLine_quit (lib : Collab) (ws1 ws2 : List Char) (c : Char)
    (h1 : ∀ x ∈ ws1, isGoSpace x = true) (h2 : ∀ x ∈ ws2, isGoSpace x = true)
    (hc : c = 'q' ∨ c = 'Q') : normLine lib ⟨ws1 ++ c :: ws2⟩ = "q" := by
  have hsp : isGoSpace c = false := by rcases hc with e | e <;> rw [e] <;> decide
  have hlow : (if c.toNat < 128 then lowerChar c else lib.UnicodeToLower c) = 'q' := by
    rcases hc with e | e <;> rw [e] <;> rw [if_pos (by decide)] <;> decide
  have hr : ∀ x ∈ ws2.reverse, isGoSpace x = true := fun x hx => h2 x (List.mem_reverse.mp hx)
  simp only [normLine, TrimSpace, ToLower, dropWhile_spaces ws1 _ h1, List.dropWhile, hsp,
    List.reverse_cons, dropWhile_spaces ws2.reverse _ hr, List.reverse_nil, List.nil_append,
    List.reverse_cons, List.map_cons, List.map_nil, hlow]

/-- C14: at each of the three pauses, the one before a step (outside the
nested interactive mode, with a trigger), the one after a step (break-after
registered for the step) and the one at the end of the run (break-at-end set),
and for every sequence of input lines, however the reads of standard input
deliver them (a line at a time, several lines at once, or a line in parts):
when the reads `pre` deliver the lines `invalid`, which the pause does not
accept, then the line `qline`, which is looked up as `q`, and whatever text
after it, the check ends with the user abort and with no action. A line that
is `q` or `Q` between any white space is looked up as `q`, whatever the case
table of the library. -/
theorem C14_quit_aborts (lib : Collab) (cc : Cli) (st : Session) (cmd : ParsedCmd)
    (breakByPrev lastCmdInFlow bootstrap : Bool) (invalid : List String) (qline : String)
    (pre post : List String) (tail : List Char)
    (hst : st.stdin = pre ++ post) (hne : ∀ c ∈ pre, c.data ≠ [])
    (htext : readsText pre = linesText (invalid ++ [qline]) ++ tail)
    (hnl : ∀ x ∈ invalid ++ [qline], '\n' ∉ x.data)
    (hql : normLine lib (qline ++ "\n") = "q") :
    (st.env.GetBool "sys.interact.inside" = false → beforeTrigger cc st cmd breakByPrev = true →
      (∀ x ∈ invalid,
        (beforeActions lib cc st cmd breakByPrev).lookup (normLine lib (x ++ "\n")) = none) →
      (tryDelayAndStepByStepAndBreakBefore lib cc st cmd breakByPrev lastCmdInFlow
          bootstrap).2 = .abortByUser) ∧
    (st.bps.BreakAfter (strJoin cmd.Path cc.Cmds.Strs.PathSep) = true →
      (∀ x ∈ invalid, getAllBPAs.lookup (normLine lib (x ++ "\n")) = none) →
      (tryDelayAndBreakAfter lib cc st cmd bootstrap).2 = .abortByUser) ∧
    (st.bps.BreakAtEnd = true →
      (∀ x ∈ invalid, getAllBPAs.lookup (normLine lib (x ++ "\n")) = none) →
      (tryBreakAtEnd lib st).2 = .abortByUser) ∧
    (∀ (ws1 ws2 : List Char), (∀ x ∈ ws1, isGoSpace x = true) → (∀ x ∈ ws2, isGoSpace x = true) →
      normLine lib ⟨ws1 ++ 'q' :: ws2⟩ = "q" ∧ normLine lib ⟨ws1 ++ 'Q' :: ws2⟩ = "q") := by
  refine ⟨?_, ?_, ?_, fun ws1 ws2 h1 h2 =>
    ⟨normLine_quit lib ws1 ws2 'q' h1 h2 (Or.inl rfl),
      normLine_quit lib ws1 ws2 'Q' h1 h2 (Or.inr rfl)⟩⟩
  · intro hin htr hinv
    have hb : (!st.bps.BreakAtBegin && !st.bps.BreakBefore (strJoin cmd.Path cc.Cmds.Strs.PathSep)
        && !st.env.GetBool "sys.step-by-step" && !st.env.GetBool "sys.breakpoint.status.step-in"
        && !st.env.GetBool "sys.breakpoint.status.step-out" && !breakByPrev) = false := by
      unfold beforeTrigger at htr
      revert htr
      generalize st.bps.BreakAtBegin = a
      generalize st.bps.BreakBefore (strJoin cmd.Path cc.Cmds.Strs.PathSep) = b
      generalize st.env.GetBool "sys.step-by-step" = c
      generalize st.env.GetBool "sys.breakpoint.status.step-in" = d
      generalize st.env.GetBool "sys.breakpoint.status.step-out" = e
      cases a <;> cases b <;> cases c <;> cases d <;> cases e <;> cases breakByPrev <;> decide
    have hms : (breakBeforeMenu lib cc st cmd breakByPrev).1.stdin = st.stdin := by
      unfold breakBeforeMenu
      simp only []
      repeat' split
      all_goals rfl
    have hr := readUserBPAChoice_quit lib (breakBeforeMenu lib cc st cmd breakByPrev).2.1
      ((breakBeforeMenu lib cc st cmd breakByPrev).2.2 ++ ["i", "q"])
      (beforeActions lib cc st cmd breakByPrev) (beforeActions_quit lib cc st cmd breakByPrev)
      invalid qline pre post tail hnl hinv hql (breakBeforeMenu lib cc st cmd breakByPrev).1
      (by rw [hms]; exact hst) hne htext
    have hi : tryStepByStepAndBreakBefore lib cc st cmd breakByPrev =
        readUserBPAChoice lib (breakBeforeMenu lib cc st cmd breakByPrev).2.1
          ((breakBeforeMenu lib cc st cmd breakByPrev).2.2 ++ ["i", "q"])
          (beforeActions lib cc st cmd breakByPrev) true
          (breakBeforeMenu lib cc st cmd breakByPrev).1 := by
      unfold tryStepByStepAndBreakBefore beforeActions
      simp only [hb, Bool.false_eq_true, if_false]
    unfold tryDelayAndStepByStepAndBreakBefore
    simp only [hin, Bool.false_eq_true, if_false, hi, hr]
  · intro hba hinv
    have hr := readUserBPAChoice_quit lib
      (lib.Color .Tip "break-point: after command " st.env ++
        lib.Color .Cmd ("[" ++ strJoin cmd.Path cc.Cmds.Strs.PathSep ++ "]") st.env)
      ["c", "i", "q"] getAllBPAs (by decide) invalid qline pre post tail hnl hinv hql st hst hne
      htext
    unfold tryDelayAndBreakAfter tryBreakAfter
    simp only [hba, Bool.not_true, Bool.false_eq_true, if_false, hr]
  · intro hae hinv
    have hr := readUserBPAChoice_quit lib (lib.Color .Tip "break-point: at main-thread end" st.env)
      ["c", "i", "q"] getAllBPAs (by decide) invalid qline pre post tail hnl hinv hql st hst hne
      htext
    unfold tryBreakAtEnd
    simp only [hae, Bool.not_true, Bool.false_eq_true, if_false, hr]

/-- C14 at concrete inputs, with break-before registered for `x.y`. On a
terminal the user types a line the menu does not know, then ` Q `, then `c`.
From a pipe one read delivers the text of four lines, the second being `Q`
after a no-break space and before a blank and a carriage return. Both checks
end with the user abort. -/
theorem C14_witness :
    (tryDelayAndStepByStepAndBreakBefore (exLib []) exCli (exSession [] ["x", " Q ", "c"]) exStep
        false false false).2 = .abortByUser ∧
    (tryDelayAndStepByStepAndBreakBefore (exLib []) exCli
        (exPiped [] "x\n\u00a0Q \r\nc\nrest") exStep false false false).2 = .abortByUser :=
  ⟨(C14_quit_aborts (exLib []) exCli (exSession [] ["x", " Q ", "c"]) exStep false false false
      ["x"] " Q " ["x\n", " Q \n"] ["c\n"] [] (by decide) (by decide) (by decide) (by decide)
      (by decide)).1 (by decide) (by decide) (by decide),
    (C14_quit_aborts (exLib []) exCli (exPiped [] "x\n\u00a0Q \r\nc\nrest") exStep false false
      false ["x"] "\u00a0Q \r" ["x\n\u00a0Q \r\nc\nrest"] [] "c\nrest".data (by decide) (by decide)
      (by decide) (by decide) (by decide)).1 (by decide) (by decide) (by decide)⟩

/-! ## Input that the menu does not show -/

/-- C15, the code at the failing input: break-at-end is set and the user types
`s`. The menu of the end-of-run pause shows c, i and q, yet the line `s` is
accepted, because the actions handed to `readUserBPAChoice` are all of
`getAllBPAs`: the pause resolves to Skip and `tryBreakAtEnd` panics with its
"should never happen". At the after-step pause of `x.y` the same line resolves
the pause to Skip. -/
theorem C15_undisplayed_choice_accepted :
    ((tryBreakAtEnd (exLib []) (exEndSession ["s"])).1.pauses.map Pause.choices) =
      [["c", "i", "q"]] ∧
    (tryBreakAtEnd (exLib []) (exEndSession ["s"])).2 =
      .panic "[tryBreakAtEnd] should never happen" ∧
    (tryBreakAtEnd (exLib []) (exEndSession ["s"])).1.screen =
      ["[actions] paused by 'break-point: at main-thread end', choose one and press enter:\n",
        "c: continue\n", "i: interactive mode\n", "q: quit executing\n"] ∧
    ((tryDelayAndBreakAfter (exLib []) exCli (exEndSession ["s"]) exStep false).1.pauses.map
      Pause.choices) = [["c", "i", "q"]] ∧
    (tryDelayAndBreakAfter (exLib []) exCli (exEndSession ["s"]) exStep false).2 =
      .action BPASkip := by
  decide

/-! ## The session environment file -/

theorem lookup_filter_ne (a k : String) (ps : List (String × String)) (h : k ≠ a) :
    (ps.filter fun p => p.1 != a).lookup k = ps.lookup k := by
  induction ps with
  | nil => rfl
  | cons q qs ih =>
    obtain ⟨x, y⟩ := q
    rw [List.filter_cons]
    by_cases hx : x = a
    · have hk : (k == x) = false := by simpa [hx] using h
      simp only [hx, bne_self_eq_false, Bool.false_eq_true, if_false, List.lookup]
      rw [← hx, hk, hx]
      exact ih
    · have h1 : (x != a) = true := by simpa using hx
      simp only [h1, if_true, List.lookup]
      cases hkx : k == x
      · exact ih
      · rfl

theorem setPair_lookup_ne (a b k : String) (ps : List (String × String)) (h : k ≠ a) :
    (setPair a b ps).lookup k = ps.lookup k := by
  have hk : (k == a) = false := by simpa using h
  simp only [setPair, List.lookup, hk]
  exact lookup_filter_ne a k ps h

theorem delPair_lookup_ne (a k : String) (ps : List (String × String)) (h : k ≠ a) :
    (delPair a ps).lookup k = ps.lookup k :=
  lookup_filter_ne a k ps h

theorem tmp_ne (path : String) : path ≠ path ++ ".tmp" := by
  intro h
  have := congrArg String.length h
  simp [String.length_append] at this
  have h4 : (".tmp" : String).length = 4 := by decide
  omega

/-- A writing loop that ends without an error has written the lines of its keys. -/
theorem envOutputLoop_text (env : Env) (sep : String) (ks : List String) (w : Writer)
    (h : (envOutputLoop env sep ks w).2 = none) :
    (envOutputLoop env sep ks w).1.text = w.text ++ envLines env sep ks := by
  induction ks generalizing w with
  | nil => simp [envOutputLoop, envLines]
  | cons k ks ih =>
    simp only [envOutputLoop] at h ⊢
    split
    · rename_i hf
      simp [hf] at h
    · rename_i hf
      simp only [hf, if_false] at h
      rw [ih _ h]
      have ht : (w.Fprint (k ++ sep ++ env.GetRaw k ++ "\n")).1.text =
          w.text ++ (k ++ sep ++ env.GetRaw k ++ "\n") := by
        unfold Writer.Fprint at hf ⊢
        split
        · rfl
        · rename_i h0
          simp [h0] at hf
        · rfl
      rw [ht]
      simp only [envLines, String.append_assoc]

/-- A writer that never fails writes the lines of all keys. -/
theorem envOutputLoop_noFault (env : Env) (sep : String) (ks : List String) (w : Writer)
    (hw : w.okWrites = none) : (envOutputLoop env sep ks w).2 = none := by
  induction ks generalizing w with
  | nil => rfl
  | cons k ks ih =>
    have hf : w.Fprint (k ++ sep ++ env.GetRaw k ++ "\n") =
        ({ w with text := w.text ++ (k ++ sep ++ env.GetRaw k ++ "\n") }, false) := by
      unfold Writer.Fprint
      simp [hw]
    simp only [envOutputLoop, hf, Bool.false_eq_true, if_false]
    exact ih _ hw

theorem envOutput_text (env : Env) (sep : String) :
    EnvOutput env ⟨"", none, 0⟩ sep = (⟨envLines env sep (envOutputKeys env), none, 0⟩, none) := by
  have h1 := envOutputLoop_noFault env sep (envOutputKeys env) ⟨"", none, 0⟩ rfl
  have h2 := envOutputLoop_text env sep (envOutputKeys env) ⟨"", none, 0⟩ h1
  have h3 : ∀ (ks : List String) (w : Writer), w.okWrites = none →
      (envOutputLoop env sep ks w).1.okWrites = none ∧
        (envOutputLoop env sep ks w).1.partialLen = w.partialLen := by
    intro ks
    induction ks with
    | nil => intro w hw; exact ⟨hw, rfl⟩
    | cons k ks ih =>
      intro w hw
      have hf : w.Fprint (k ++ sep ++ env.GetRaw k ++ "\n") =
          ({ w with text := w.text ++ (k ++ sep ++ env.GetRaw k ++ "\n") }, false) := by
        unfold Writer.Fprint
        simp [hw]
      simp only [envOutputLoop, hf, Bool.false_eq_true, if_false]
      exact ih _ hw
  unfold EnvOutput at *
  have h4 := h3 (envOutputKeys env) ⟨"", none, 0⟩ rfl
  generalize envOutputLoop env sep (envOutputKeys env) ⟨"", none, 0⟩ = r at *
  obtain ⟨⟨t, o, p⟩, e⟩ := r
  simp only at h1 h2 h4
  simp only [String.empty_append] at h2
  obtain ⟨h5, h6⟩ := h4
  subst h1; subst h2; subst h5; subst h6
  rfl

/-- C18: `SaveEnvToFile` over an explicit file system, with every way a save
can fail (opening the temporary file, any write, with any part of the failing
write reaching the file, the renaming). When the save fails, the file at `path`
and every file other than `path ++ ".tmp"` are as they were before. When the
save completes, the file at `path` holds exactly the text `EnvOutput` produces,
and every file other than `path` and `path ++ ".tmp"` is as it was before. -/
theorem C18_save_is_atomic (env : Env) (path sep : String) (fs : Files) (ft : Faults) :
    ((SaveEnvToFile env path sep fs ft).2 ≠ none →
      (SaveEnvToFile env path sep fs ft).1.lookup path = fs.lookup path ∧
      ∀ q, q ≠ path ++ ".tmp" → (SaveEnvToFile env path sep fs ft).1.lookup q = fs.lookup q) ∧
    ((SaveEnvToFile env path sep fs ft).2 = none →
      (SaveEnvToFile env path sep fs ft).1.lookup path =
        some (EnvOutput env ⟨"", none, 0⟩ sep).1.text ∧
      ∀ q, q ≠ path → q ≠ path ++ ".tmp" →
        (SaveEnvToFile env path sep fs ft).1.lookup q = fs.lookup q) := by
  cases ho : ft.openFails
  · cases hw : (EnvOutput env ⟨"", ft.okWrites, ft.partialLen⟩ sep).2 with
    | some err =>
      simp only [SaveEnvToFile, ho, hw, Bool.false_eq_true, if_false, ne_eq, not_false_eq_true,
        reduceCtorEq, false_implies, and_true, true_implies]
      exact ⟨setPair_lookup_ne _ _ _ _ (tmp_ne path), fun q hq => setPair_lookup_ne _ _ _ _ hq⟩
    | none =>
      cases hr : ft.renameFails
      · simp only [SaveEnvToFile, ho, hw, hr, Bool.false_eq_true, if_false, ne_eq,
          not_true_eq_false, false_implies, true_and, true_implies]
        refine ⟨?_, ?_⟩
        · rw [setPair_lookup]
          have ht := envOutputLoop_text env sep (envOutputKeys env)
            ⟨"", ft.okWrites, ft.partialLen⟩ hw
          rw [envOutput_text]
          unfold EnvOutput
          rw [ht]
          simp
        · intro q hq1 hq2
          rw [setPair_lookup_ne _ _ _ _ hq1, delPair_lookup_ne _ _ _ hq2,
            setPair_lookup_ne _ _ _ _ hq2]
      · simp only [SaveEnvToFile, ho, hw, hr, Bool.false_eq_true, if_false, if_true, ne_eq,
          not_false_eq_true, reduceCtorEq, false_implies, and_true, true_implies]
        exact ⟨setPair_lookup_ne _ _ _ _ (tmp_ne path), fun q hq => setPair_lookup_ne _ _ _ _ hq⟩
  · simp only [SaveEnvToFile, ho, if_true, ne_eq, not_false_eq_true, reduceCtorEq, false_implies,
      and_true, true_implies, implies_true, and_self]

/-! ## Writing and reading back -/

theorem foldr_setPair_lookup (k : String) (ps acc : List (String × String)) :
    (ps.foldr (fun kv acc2 => setPair kv.1 kv.2 acc2) acc).lookup k =
      match ps.lookup k with
      | some v => some v
      | none => acc.lookup k := by
  induction ps with
  | nil => rfl
  | cons q qs ih =>
    obtain ⟨a, b⟩ := q
    simp only [List.foldr_cons]
    by_cases h : k = a
    · subst h
      simp [setPair_lookup, List.lookup]
    · have hk : (k == a) = false := by simpa using h
      rw [setPair_lookup_ne _ _ _ _ h, ih]
      simp only [List.lookup, hk]

/-- The merge of `Flatten` answers a key like the merged read. -/
theorem merge_lookup (k : String) (ls : List EnvLayer) :
    (ls.foldr (fun l acc => l.pairs.foldr (fun kv acc2 => setPair kv.1 kv.2 acc2) acc) []).lookup k =
      ls.findSome? fun l => l.pairs.lookup k := by
  induction ls with
  | nil => rfl
  | cons l ls ih =>
    simp only [List.foldr_cons, List.findSome?]
    rw [foldr_setPair_lookup, ih]
    cases l.pairs.lookup k <;> rfl

/-- The pairs of a merge are its answers: no key occurs twice. -/
theorem setPair_functional (a b : String) (acc : List (String × String))
    (h : ∀ k v, (k, v) ∈ acc ↔ acc.lookup k = some v) :
    ∀ k v, (k, v) ∈ setPair a b acc ↔ (setPair a b acc).lookup k = some v := by
  intro k v
  by_cases hk : k = a
  · subst hk
    rw [setPair_lookup]
    simp [setPair]
    exact eq_comm
  · rw [setPair_lookup_ne _ _ _ _ hk, ← h]
    simp [setPair, hk]

theorem foldr_setPair_functional (ps acc : List (String × String))
    (h : ∀ k v, (k, v) ∈ acc ↔ acc.lookup k = some v) :
    ∀ k v, (k, v) ∈ ps.foldr (fun kv acc2 => setPair kv.1 kv.2 acc2) acc ↔
      (ps.foldr (fun kv acc2 => setPair kv.1 kv.2 acc2) acc).lookup k = some v := by
  induction ps with
  | nil => exact h
  | cons q qs ih => exact setPair_functional _ _ _ ih

theorem merge_functional (ls : List EnvLayer) :
    ∀ k v, (k, v) ∈ ls.foldr
        (fun l acc => l.pairs.foldr (fun kv acc2 => setPair kv.1 kv.2 acc2) acc) [] ↔
      (ls.foldr (fun l acc => l.pairs.foldr (fun kv acc2 => setPair kv.1 kv.2 acc2) acc) []).lookup
        k = some v := by
  induction ls with
  | nil => intro k v; simp
  | cons l ls ih => exact foldr_setPair_functional _ _ ih

theorem mem_insertSorted (k x : String) (l : List String) :
    x ∈ insertSorted k l ↔ x = k ∨ x ∈ l := by
  induction l with
  | nil => simp [insertSorted]
  | cons y ys ih =>
    unfold insertSorted
    split
    · simp only [List.mem_cons, ih]
      tauto
    · simp only [List.mem_cons]

theorem mem_sortStrings (x : String) (l : List String) : x ∈ sortStrings l ↔ x ∈ l := by
  induction l with
  | nil => simp [sortStrings]
  | cons y ys ih =>
    unfold sortStrings at ih ⊢
    simp only [List.foldr_cons, mem_insertSorted, ih, List.mem_cons]

/-- The keys `EnvOutput` writes: the keys with a merged value that are not
filtered and whose value is not the raw value of the Default layer. -/
theorem mem_envOutputKeys (env : Env) (k : String) :
    k ∈ envOutputKeys env ↔
      ∃ v, env.GetEx k = some v ∧ isFiltered k = false ∧ defaultRaw env k ≠ v := by
  unfold envOutputKeys Env.Flatten Env.GetEx isFiltered
  simp only [Bool.true_or, Bool.not_true, Bool.or_false, Bool.false_eq_true, if_false,
    mem_sortStrings, List.mem_map, List.mem_filter, Prod.exists, exists_and_right,
    exists_eq_right, Bool.not_eq_true', beq_eq_false_iff_ne, ne_eq, Bool.not_eq_true]
  constructor
  · rintro ⟨v, ⟨hm, hf⟩, hd⟩
    exact ⟨v, by rw [← merge_lookup]; exact (merge_functional _ k v).mp hm, hf, hd⟩
  · rintro ⟨v, hg, hf, hd⟩
    exact ⟨v, ⟨(merge_functional _ k v).mpr (by rw [merge_lookup]; exact hg), hf⟩, hd⟩

/-- The flattened mapping without exclusions answers a key like the merged read. -/
theorem flatten_lookup (e : Env) (k : String) :
    (e.Flatten true [] false).lookup k = e.GetEx k := by
  unfold Env.Flatten Env.GetEx
  simp only [Bool.true_or, Bool.not_true, Bool.or_false, Bool.false_eq_true, if_false,
    List.any_nil, Bool.not_false, List.filter_true]
  exact merge_lookup k e.layers

theorem rawLines_line (line rest : List Char) (h : '\n' ∉ line) :
    rawLines (line ++ '\n' :: rest) = (line, true) :: rawLines rest := by
  induction line with
  | nil => simp [rawLines]
  | cons c cs ih =>
    have hc : c ≠ '\n' := fun e => h (by simp [e])
    have hcs : '\n' ∉ cs := fun e => h (List.mem_cons_of_mem _ e)
    show rawLines (c :: (cs ++ '\n' :: rest)) = _
    rw [rawLines]
    simp only [hc, if_false]
    rw [ih hcs]

theorem strIndex_single (c : Char) (k v : List Char) (h : c ∉ k) :
    strIndex [c] (k ++ c :: v) = some k.length := by
  induction k with
  | nil => simp [strIndex, List.isPrefixOf]
  | cons x xs ih =>
    have hx : x ≠ c := fun e => h (by simp [e])
    have hxs : c ∉ xs := fun e => h (List.mem_cons_of_mem _ e)
    have hb : (c == x) = false := by simpa using fun e => hx e.symm
    show strIndex [c] (x :: (xs ++ c :: v)) = _
    rw [strIndex]
    simp only [List.isPrefixOf, hb, Bool.false_and, Bool.false_eq_true, if_false]
    rw [ih hxs]
    rfl

/-- One line that reads back: the loop of `EnvInput` sets its key to its value. -/
theorem envInputLoop_line (c : Char) (sep k v : String) (more : List (List Char)) (env : Env)
    (hsep : sep.data = [c]) (hk : c ∉ k.data) (hn : '\n' ∉ k.data ++ c :: v.data) :
    envInputLoop sep ((k.data ++ c :: v.data) :: more) env =
      envInputLoop sep more (env.Set k v) := by
  have hl : ¬ (k.data ++ c :: v.data).getLast? = some '\n' := by
    intro e
    exact hn (List.mem_of_getLast?_eq_some e)
  have hd : (k.data ++ c :: v.data).drop (k.data.length + 1) = v.data := by
    have : k.data ++ c :: v.data = (k.data ++ [c]) ++ v.data := by simp
    rw [this]
    exact List.drop_left' (by simp)
  have ht : (k.data ++ c :: v.data).take k.data.length = k.data := List.take_left' rfl
  have h1 : ¬ ((k.data ++ c :: v.data).length < k.data.length + 1) := by
    simp only [List.length_append, List.length_cons]
    omega
  simp only [envInputLoop, hl, if_false, hsep, strIndex_single c k.data v.data hk, h1, hd, ht]

/-- The text `EnvOutput` writes for keys whose lines read back, read by
`EnvInput`: every key is set to its value, in the order of the lines. -/
theorem envInput_envLines (c : Char) (sep : String) (src : Env) (hsep : sep.data = [c])
    (keys : List String) (hok : ∀ k ∈ keys, readsBack c k (src.GetRaw k) = true) (env : Env) :
    EnvInput env (envLines src sep keys) sep =
      (keys.foldl (fun e k => e.Set k (src.GetRaw k)) env, .ok) := by
  unfold EnvInput
  induction keys generalizing env with
  | nil => simp [envLines, rawLines, scanTokens, envInputLoop]
  | cons k ks ih =>
    have h := hok k (List.mem_cons_self _ _)
    unfold readsBack at h
    simp only [Bool.and_eq_true, Bool.not_eq_true', List.contains_eq_any_beq, List.any_eq_false,
      beq_iff_eq, bne_iff_ne, ne_eq, decide_eq_true_eq] at h
    obtain ⟨⟨⟨hk, hn⟩, hr⟩, hlen⟩ := h
    have hk2 : c ∉ k.data := fun e => hk c e rfl
    have hn2 : '\n' ∉ k.data ++ c :: (src.GetRaw k).data := fun e => hn _ e rfl
    have hd : (envLines src sep (k :: ks)).data =
        (k.data ++ c :: (src.GetRaw k).data) ++ '\n' :: (envLines src sep ks).data := by
      simp [envLines, String.data_append, hsep]
    rw [hd, rawLines_line _ _ hn2]
    have hs : ¬ MaxScanTokenSize ≤ byteLen (k.data ++ c :: (src.GetRaw k).data) := by omega
    simp only [scanTokens, hs, if_false, dropCR, hr]
    rw [envInputLoop_line c sep k (src.GetRaw k) _ env hsep hk2 hn2]
    simp only [List.foldl_cons]
    exact ih (fun x hx => hok x (List.mem_cons_of_mem _ hx)) _

theorem foldl_set_lookup (f : String → String) (keys : List String) (env : Env) (k : String) :
    ((keys.foldl (fun e x => e.Set x (f x)) env).top.pairs).lookup k =
      if k ∈ keys then some (f k) else env.top.pairs.lookup k := by
  induction keys generalizing env with
  | nil => simp
  | cons x xs ih =>
    simp only [List.foldl_cons, ih, List.mem_cons]
    by_cases hx : k ∈ xs
    · simp [hx]
    · simp only [hx, if_false, or_false]
      by_cases hkx : k = x
      · subst hkx
        simp [Env.Set, setPair_lookup]
      · simp only [hkx, if_false, Env.Set]
        exact setPair_lookup_ne _ _ _ _ hkx

theorem foldl_set_parents (f : String → String) (keys : List String) (env : Env) :
    (keys.foldl (fun e x => e.Set x (f x)) env).parents = env.parents := by
  induction keys generalizing env with
  | nil => rfl
  | cons x xs ih => simp only [List.foldl_cons, ih]; rfl

/-- C16 (as amended): for a separator of one byte `c` and an environment in
which every line `EnvOutput` writes reads back (the key does not contain the
separator, the line has no newline, does not end in a carriage return and is
shorter than 64 KiB): writing the environment with `EnvOutput` and reading the
text with `EnvInput` into a fresh environment succeeds, and the flattened
mapping of the result is the flattened mapping of the original cut down to
what `EnvOutput` writes: the keys that do not start with a filtered prefix and
whose value is not the raw value of the Default layer. -/
theorem C16_round_trip (env : Env) (sep : String) (c : Char) (hsep : sep.data = [c])
    (hbyte : c.toNat < 128)
    (hok : ∀ k ∈ envOutputKeys env, readsBack c k (env.GetRaw k) = true) :
    (EnvInput NewEnv (EnvOutput env ⟨"", none, 0⟩ sep).1.text sep).2 = .ok ∧
    ∀ k, ((EnvInput NewEnv (EnvOutput env ⟨"", none, 0⟩ sep).1.text sep).1.Flatten true []
        false).lookup k =
      ((env.Flatten true [] false).lookup k).filter
        fun v => !isFiltered k && !(defaultRaw env k == v) := by
  have _ := hbyte
  rw [envOutput_text, envInput_envLines c sep env hsep (envOutputKeys env) hok NewEnv]
  refine ⟨rfl, fun k => ?_⟩
  rw [flatten_lookup, flatten_lookup]
  have hg : (List.foldl (fun e k => e.Set k (env.GetRaw k)) NewEnv (envOutputKeys env)).GetEx k =
      if k ∈ envOutputKeys env then some (env.GetRaw k) else none := by
    unfold Env.GetEx Env.layers
    rw [foldl_set_parents]
    simp only [NewEnv, List.findSome?, foldl_set_lookup]
    by_cases hm : k ∈ envOutputKeys env <;> simp [hm]
  rw [hg]
  by_cases hm : k ∈ envOutputKeys env
  · obtain ⟨v, hv, hf, hd⟩ := (mem_envOutputKeys env k).mp hm
    have hd2 : (defaultRaw env k == v) = false := by simpa using hd
    simp [hm, hv, Env.GetRaw, Option.filter, hf, hd2]
  · simp only [hm, if_false]
    cases hv : env.GetEx k with
    | none => rfl
    | some v =>
      have hn : ¬ (isFiltered k = false ∧ defaultRaw env k ≠ v) := fun ⟨hf, hd⟩ =>
        hm ((mem_envOutputKeys env k).mpr ⟨v, hv, hf, hd⟩)
      simp only [Option.filter]
      split
      · rename_i hc
        simp only [Bool.and_eq_true, Bool.not_eq_true', beq_eq_false_iff_ne, ne_eq] at hc
        exact absurd hc hn
      · rfl

/-- C16, counterexample to the claim as stated: the session layer holds the
session directory under the key `session` and the entry `a.b`; the separator is
`=`. `EnvOutput` leaves the key `session` out, so the environment read back
holds `a.b` alone. -/
theorem C16_counterexample :
    exWithSession.Flatten true [] false = [("session", "/tmp/s1"), ("a.b", "1")] ∧
    (EnvOutput exWithSession ⟨"", none, 0⟩ "=").1.text = "a.b=1\n" ∧
    (EnvInput NewEnv (EnvOutput exWithSession ⟨"", none, 0⟩ "=").1.text "=").1.Flatten true []
      false = [("a.b", "1")] := by
  decide

/-- C16 at the spec's instance: the entries `a.b` = `1` and `c` = `x y`, the
separator `=`. -/
theorem C16_witness :
    (EnvInput NewEnv (EnvOutput exSaved ⟨"", none, 0⟩ "=").1.text "=").2 = .ok ∧
    ((EnvInput NewEnv (EnvOutput exSaved ⟨"", none, 0⟩ "=").1.text "=").1.Flatten true []
        false).lookup "c" =
      ((exSaved.Flatten true [] false).lookup "c").filter
        fun v => !isFiltered "c" && !(defaultRaw exSaved "c" == v) :=
  have h := C16_round_trip exSaved "=" '=' rfl (by decide) (by decide)
  ⟨h.1, h.2 "c"⟩

/-- C17, the code at the failing input: the separator `::` and the line
`a::1`. `EnvInput` finds the separator at index 1 and takes the value from
index 2 on, `text[i+1:]`, so the key `a` is set to `:1`, not to `1`. -/
theorem C17_two_byte_separator :
    (EnvInput NewEnv "a::1" "::").2 = .ok ∧
    (EnvInput NewEnv "a::1" "::").1.GetEx "a" = some ":1" ∧
    (EnvInput NewEnv "a::1" "::").1.Flatten true [] false = [("a", ":1")] := by
  decide

/-! ## Executing a command file -/

theorem missingDepend_some (sys : Sys) (deps : List Depend)
    (h : ∃ dep ∈ deps, (sys.LookPath dep.OsCmd).isSome = true) :
    ∃ err, missingDepend sys deps = some err ∧ ∃ dep ∈ deps, sys.LookPath dep.OsCmd = some err := by
  induction deps with
  | nil => simp at h
  | cons d ds ih =>
    unfold missingDepend
    cases hd : sys.LookPath d.OsCmd with
    | some err => exact ⟨err, rfl, d, List.mem_cons_self _ _, hd⟩
    | none =>
      obtain ⟨dep, hmem, hsome⟩ := h
      rcases List.mem_cons.mp hmem with e | e
      · subst e
        rw [hd] at hsome
        simp at hsome
      · obtain ⟨err, h1, dep2, h2, h3⟩ := ih ⟨dep, e, hsome⟩
        exact ⟨err, h1, dep2, List.mem_cons_of_mem _ h2, h3⟩

/-- The dependency loop of `executeFile` stops at the first dependency that
`exec.LookPath` does not find. -/
theorem missingDepend_first (sys : Sys) (deps : List Depend)
    (h : ∃ dep ∈ deps, (sys.LookPath dep.OsCmd).isSome = true) :
    ∃ found dep later err, deps = found ++ dep :: later ∧
      (∀ d ∈ found, sys.LookPath d.OsCmd = none) ∧ sys.LookPath dep.OsCmd = some err ∧
      missingDepend sys deps = some err := by
  induction deps with
  | nil => simp at h
  | cons d ds ih =>
    cases hd : sys.LookPath d.OsCmd with
    | some err =>
      exact ⟨[], d, ds, err, rfl, by simp, hd, by simp only [missingDepend, hd]⟩
    | none =>
      obtain ⟨dep, hmem, hsome⟩ := h
      rcases List.mem_cons.mp hmem with e | e
      · subst e
        rw [hd] at hsome
        simp at hsome
      · obtain ⟨found, dep2, later, err, h1, h2, h3, h4⟩ := ih ⟨dep, e, hsome⟩
        refine ⟨d :: found, dep2, later, err, by rw [h1]; rfl, ?_, h3, ?_⟩
        · intro x hx
          rcases List.mem_cons.mp hx with e2 | e2
          · rw [e2]; exact hd
          · exact h2 x e2
        · simp only [missingDepend, hd, h4]

/-- C19 (as amended): for every File or DirWithCommand command. With a
non-empty file path and at least one declared dependency that `exec.LookPath`
does not find, `Execute` panics with the lookup error of the first such
dependency in the order of declaration (every dependency declared before it is
found); the files, the record of spawned processes, the screen and the
environment are as before: no success is reported, the session environment
file is not written and no process is spawned. Without a file path `Execute`
returns success with everything as before, whatever the dependencies. -/
theorem C19_missing_dependency (sys : Sys) (self : Cmd) (owner : CmdTree) (argv : ArgVals)
    (cc : Cli) (env : Env) (flow : ParsedCmds) (currCmdIdx : Nat) (w : World) (ft : Faults)
    (hty : self.ty = CmdTypeFile ∨ self.ty = CmdTypeDirWithCmd) :
    (self.cmdLine.length ≠ 0 →
      (∃ dep ∈ self.depends, (sys.LookPath dep.OsCmd).isSome = true) →
      ∃ found dep later err, self.depends = found ++ dep :: later ∧
        (∀ d ∈ found, sys.LookPath d.OsCmd = none) ∧ sys.LookPath dep.OsCmd = some err ∧
        Cmd.Execute sys self owner argv cc env flow currCmdIdx w ft =
          (w, env, .panic (.plain ("[Cmd.executeFile] " ++ err)))) ∧
    (self.cmdLine.length = 0 →
      Cmd.Execute sys self owner argv cc env flow currCmdIdx w ft =
        (w, env, .returned currCmdIdx true)) := by
  have hp : ¬ self.ty = CmdTypePower := by
    rcases hty with h | h <;> rw [h] <;> decide
  have hn : ¬ self.ty = CmdTypeNormal := by
    rcases hty with h | h <;> rw [h] <;> decide
  constructor
  · intro hline hdep
    obtain ⟨found, dep, later, err, h1, h2, h3, h4⟩ := missingDepend_first sys self.depends hdep
    refine ⟨found, dep, later, err, h1, h2, h3, ?_⟩
    have hl : (self.cmdLine.length == 0) = false := by simpa using hline
    unfold Cmd.Execute executeFile
    simp only [hp, hn, hty, if_false, if_true, hl, Bool.false_eq_true, h4]
  · intro hline
    have hl : (self.cmdLine.length == 0) = true := by simpa using hline
    unfold Cmd.Execute executeFile
    simp only [hp, hn, hty, if_false, if_true, hl]

/-- C19, counterexample to the claim as stated: a File command without a file
path that declares the dependency `nosuch`, which is not on the search path.
`Execute` returns success. -/
theorem C19_counterexample :
    (exSys.LookPath "nosuch").isSome = true ∧
    Cmd.Execute exSys (exFileCmd "" [⟨"nosuch", "needed"⟩]) (exNormalNode "run") [] exCli
        (exRunEnv []) (exParse [] []) 0 exWorld noFaults =
      (exWorld, exRunEnv [], .returned 0 true) := by
  decide

/-- C19 at concrete inputs: the file `/x/run.py` with the dependencies `bash`,
which is found, `nosuch` and `nosuch2`, which are not: `Execute` panics with
the lookup error of the first missing dependency, which is that of `nosuch`;
and the same dependencies without a file path: success. -/
theorem C19_witness :
    (∃ found dep later err,
      (exFileCmd "/x/run.py"
          [⟨"bash", "the shell"⟩, ⟨"nosuch", "needed"⟩, ⟨"nosuch2", "too"⟩]).depends =
        found ++ dep :: later ∧
      (∀ d ∈ found, exSys.LookPath d.OsCmd = none) ∧ exSys.LookPath dep.OsCmd = some err ∧
      Cmd.Execute exSys
          (exFileCmd "/x/run.py" [⟨"bash", "the shell"⟩, ⟨"nosuch", "needed"⟩, ⟨"nosuch2", "too"⟩])
          (exNormalNode "run") [] exCli (exRunEnv []) (exParse [] []) 0 exWorld noFaults =
        (exWorld, exRunEnv [], .panic (.plain ("[Cmd.executeFile] " ++ err)))) ∧
    Cmd.Execute exSys
        (exFileCmd "/x/run.py" [⟨"bash", "the shell"⟩, ⟨"nosuch", "needed"⟩, ⟨"nosuch2", "too"⟩])
        (exNormalNode "run") [] exCli (exRunEnv []) (exParse [] []) 0 exWorld noFaults =
      (exWorld, exRunEnv [], .panic (.plain
        "[Cmd.executeFile] exec: \"nosuch\": executable file not found in $PATH")) ∧
    Cmd.Execute exSys
        (exFileCmd "" [⟨"bash", "the shell"⟩, ⟨"nosuch", "needed"⟩, ⟨"nosuch2", "too"⟩])
        (exNormalNode "run") [] exCli (exRunEnv []) (exParse [] []) 0 exWorld noFaults =
      (exWorld, exRunEnv [], .returned 0 true) :=
  ⟨(C19_missing_dependency exSys
      (exFileCmd "/x/run.py" [⟨"bash", "the shell"⟩, ⟨"nosuch", "needed"⟩, ⟨"nosuch2", "too"⟩])
      (exNormalNode "run") [] exCli (exRunEnv []) (exParse [] []) 0 exWorld noFaults
      (Or.inl rfl)).1 (by decide) ⟨⟨"nosuch", "needed"⟩, by decide, by decide⟩,
    by decide,
    (C19_missing_dependency exSys
      (exFileCmd "" [⟨"bash", "the shell"⟩, ⟨"nosuch", "needed"⟩, ⟨"nosuch2", "too"⟩])
      (exNormalNode "run") [] exCli (exRunEnv []) (exParse [] []) 0 exWorld noFaults
      (Or.inl rfl)).2 (by decide)⟩

/-- C20, the code at the failing inputs: the file `/x/run.py` and the key
`sys.ext.exec.py`. Configured as a blank, the value is not empty and has no
field, and `fields[0]` is a run-time error: nothing is spawned. Configured as
` python3`, the value has one field and is taken as it stands: the program
spawned is ` python3`, with the blank, not the field `python3`. -/
theorem C20_interpreter_of_blank_value :
    Cmd.Execute exSys (exFileCmd "/x/run.py" []) (exNormalNode "run") [] exCli
        (exRunEnv [("sys.ext.exec.py", " ")]) (exParse [] []) 0 exWorld noFaults =
      (exWorld, exRunEnv [("sys.ext.exec.py", " ")],
        .panic (.runtime "index out of range [0] with length 0")) ∧
    Fields " python3" = ["python3"] ∧
    (Cmd.Execute exSys (exFileCmd "/x/run.py" []) (exNormalNode "run") [] exCli
        (exRunEnv [("sys.ext.exec.py", " python3")]) (exParse [] []) 0 exWorld
        noFaults).1.spawned = [(" python3", ["/x/run.py", "/tmp/s1"])] := by
  decide

/-! ## A parse error ends the description -/

theorem NoErr.of_noParse (lib : Collab) (d : List Event)
    (h : ∀ j toks, Event.parse j toks ∉ d) : NoErr lib d := by
  intro j toks hm
  exact absurd hm (h j toks)

theorem AbortsOn.of_noErr {lib : Collab} {d : List Event} (h : NoErr lib d) (out : Outcome) :
    AbortsOn lib d out := by
  intro j toks err hm he
  rw [h j toks hm] at he
  exact absurd he (by simp)

theorem AbortsOn.noErr {lib : Collab} {d : List Event} {b : Bool} (h : AbortsOn lib d (.done b)) :
    NoErr lib d := by
  intro j toks hm
  cases he : (lib.Parse toks).FirstErr with
  | none => rfl
  | some err => exact absurd (h j toks err hm he).1 (by simp)

/-- A run that recorded only events without a parse error. -/
theorem RunAborts.of_trace {lib : Collab} {s : DumpState} (r : Run) (d1 : List Event)
    (h1 : r.st.trace = s.trace ++ d1) (hn : NoErr lib d1) : RunAborts lib s r :=
  ⟨d1, h1, AbortsOn.of_noErr hn r.out⟩

/-- The panic at a parse error. -/
theorem RunAborts.of_panic {lib : Collab} {s : DumpState} (r : Run) (d1 : List Event) (j : Int)
    (toks : List String) (err : ParseResult)
    (h1 : r.st.trace = s.trace ++ (d1 ++ [.parse j toks])) (hn : NoErr lib d1)
    (he : (lib.Parse toks).FirstErr = some err) (ho : r.out = .panic (err.Error.getD "")) :
    RunAborts lib s r := by
  refine ⟨d1 ++ [.parse j toks], h1, ?_⟩
  intro j2 toks2 err2 hm he2
  rcases List.mem_append.mp hm with h | h
  · rw [hn j2 toks2 h] at he2
    exact absurd he2 (by simp)
  · simp only [List.mem_singleton, Event.parse.injEq] at h
    obtain ⟨hj, ht⟩ := h
    subst hj; subst ht
    rw [he] at he2
    have := Option.some.inj he2
    subst this
    exact ⟨ho, by simp⟩

/-- Events without a parse error, then a run that aborts on a parse error,
then steps that record nothing and change the outcome only after a return. -/
theorem RunAborts.of_rec {lib : Collab} {s s2 : DumpState} (r r0 : Run) (d1 : List Event)
    (h1 : s2.trace = s.trace ++ d1) (hn : NoErr lib d1) (h2 : RunAborts lib s2 r0)
    (ht : r.st.trace = r0.st.trace) (ho : r.out = r0.out ∨ ∃ b, r0.out = .done b) :
    RunAborts lib s r := by
  obtain ⟨d2, e2, a2⟩ := h2
  refine ⟨d1 ++ d2, by rw [ht, e2, h1, List.append_assoc], ?_⟩
  have hcase : AbortsOn lib d2 r.out := by
    rcases ho with ho | ⟨b, hb⟩
    · rw [ho]; exact a2
    · rw [hb] at a2
      exact AbortsOn.of_noErr a2.noErr _
  intro j toks err hm he
  rcases List.mem_append.mp hm with h | h
  · rw [hn j toks h] at he
    exact absurd he (by simp)
  · obtain ⟨ho2, hl⟩ := hcase j toks err h he
    refine ⟨ho2, ?_⟩
    have hne : d2 ≠ [] := by
      intro hd; rw [hd] at h; simp at h
    rw [List.getLast?_append_of_ne_nil _ hne]
    exact hl

theorem folded_aborts (dumpFlowRec : RecCall) (lib : Collab) (cc : Cli) (flow : ParsedCmds)
    (idx : Nat) (parsedCmd : ParsedCmd) (cmd : CmdTree) (cic : Cmd) (cmdLayer : EnvLayer)
    (argv : ArgVals) (maxDepth trivial indentAdjust : Int)
    (st : DumpState) (hrec : RecAborts lib dumpFlowRec) :
    RunAborts lib st (dumpFlowCmdFolded dumpFlowRec lib cc flow idx parsedCmd cmd cic cmdLayer argv
      none maxDepth trivial indentAdjust st) := by
  unfold dumpFlowCmdFolded
  simp only [log_env, Option.bind]
  generalize lib.Flow cic argv (lib.TryExeEnvOpCmds argv (st.env.Push cmdLayer) flow idx) true = R
  split
  · split
    · rename_i err he
      refine RunAborts.of_panic _
        [.folded indentAdjust (strJoin parsedCmd.Path cmd.Strs.PathSep),
          .render indentAdjust (strJoin parsedCmd.Path cmd.Strs.PathSep) R.1 R.2]
        indentAdjust R.1 err ?_ ?_ he rfl
      · simp [DumpState.log]
      · exact NoErr.of_noParse _ _ (by simp)
    · rename_i he
      refine RunAborts.of_rec _ _
        [.folded indentAdjust (strJoin parsedCmd.Path cmd.Strs.PathSep),
          .render indentAdjust (strJoin parsedCmd.Path cmd.Strs.PathSep) R.1 R.2,
          .parse indentAdjust R.1] ?_ ?_ (hrec _ _ _ _ _) rfl (Or.inl rfl)
      · simp [DumpState.log]
      · intro j toks hm
        simp only [List.mem_cons, List.mem_singleton, List.not_mem_nil, or_false,
          reduceCtorEq, false_or, Event.parse.injEq] at hm
        rw [hm.2]
        exact he
  · refine RunAborts.of_trace _
      [.folded indentAdjust (strJoin parsedCmd.Path cmd.Strs.PathSep),
        .render indentAdjust (strJoin parsedCmd.Path cmd.Strs.PathSep) R.1 R.2] ?_ ?_
    · simp [DumpState.log]
    · exact NoErr.of_noParse _ _ (by simp)

theorem sub_aborts (dumpFlowRec : RecCall) (lib : Collab) (cc : Cli) (args : DumpFlowArgs)
    (flow : ParsedCmds) (idx : Nat) (parsedCmd : ParsedCmd) (cmd : CmdTree) (cic : Cmd)
    (cmdLayer : EnvLayer) (argv : ArgVals) (maxDepth trivial indentAdjust : Int) (metFlow : Bool)
    (st : DumpState) (hrec : RecAborts lib dumpFlowRec) :
    RunAborts lib st (dumpFlowCmdSub dumpFlowRec lib cc args flow idx parsedCmd cmd cic cmdLayer
      argv none maxDepth trivial indentAdjust metFlow st) := by
  unfold dumpFlowCmdSub
  simp only [log_env, Option.bind]
  generalize lib.Flow cic argv (st.env.Push cmdLayer) true = R
  have hq : ∀ r : Run,
      r.st.trace = st.trace ++
        [.render indentAdjust (strJoin parsedCmd.Path cmd.Strs.PathSep) R.1 R.2] →
      RunAborts lib st r := fun r h =>
    RunAborts.of_trace r _ h (NoErr.of_noParse _ _ (by simp))
  split
  · split
    · split
      · split
        · rename_i err he
          refine RunAborts.of_panic _
            [.render indentAdjust (strJoin parsedCmd.Path cmd.Strs.PathSep) R.1 R.2]
            indentAdjust R.1 err ?_ ?_ he rfl
          · simp only [log_trace, apply_ite DumpState.trace, prt_trace, ite_self,
              List.append_assoc]
          · exact NoErr.of_noParse _ _ (by simp)
        · rename_i he
          have hsub := hrec
            { (((if (execFailed none || decide (maxDepth > 1)) = true then
                    prt lib args indentAdjust
                      (st.log (.render indentAdjust (strJoin parsedCmd.Path cmd.Strs.PathSep)
                        R.1 R.2)) 2 (lib.Color .Flowing "--->>>" st.env)
                  else st.log (.render indentAdjust (strJoin parsedCmd.Path cmd.Strs.PathSep)
                        R.1 R.2)) : DumpState).log (.parse indentAdjust R.1)) with
              env := (lib.Parse R.1).GlobalEnv.WriteNotArgTo st.env
                cc.Cmds.Strs.EnvValDelAllMark }
            (lib.Parse R.1) (if execOk none = true then maxDepth - 1 else maxDepth) trivial
            (indentAdjust + 2)
          simp only [apply_ite DumpState.env, prt_env, log_env, ite_self] at hsub ⊢
          refine RunAborts.of_rec _ _
            [.render indentAdjust (strJoin parsedCmd.Path cmd.Strs.PathSep) R.1 R.2,
              .parse indentAdjust R.1] ?_ ?_ hsub ?_ ?_
          · simp only [log_trace, apply_ite DumpState.trace, prt_trace, ite_self,
              List.append_assoc, List.singleton_append]
          · intro j toks hm
            simp only [List.mem_cons, List.mem_singleton, List.not_mem_nil, or_false,
              reduceCtorEq, false_or, Event.parse.injEq] at hm
            rw [hm.2]
            exact he
          · split
            · unfold dumpFlowCmdEnd
              simp only [apply_ite DumpState.trace, prt_trace, ite_self]
            · rfl
            · rfl
          · split
            · rename_i hout
              exact Or.inr ⟨true, hout⟩
            · rename_i hout
              exact Or.inl hout.symm
            · exact Or.inl rfl
      · exact hq _ (by unfold dumpFlowCmdEnd; simp only [log_trace])
    · exact hq _ (by unfold dumpFlowCmdEnd; simp only [log_trace])
  · exact RunAborts.of_trace _ [] (by unfold dumpFlowCmdEnd; simp) (NoErr.of_noParse _ _ (by simp))

theorem expanded_aborts (dumpFlowRec : RecCall) (lib : Collab) (cc : Cli) (args : DumpFlowArgs)
    (flow : ParsedCmds) (idx : Nat) (parsedCmd : ParsedCmd) (cmd : CmdTree) (cic : Cmd)
    (originEnv : Env) (cmdLayer : EnvLayer) (argv : ArgVals)
    (maxDepth trivial indentAdjust : Int) (metFlows : List String) (st : DumpState)
    (hrec : RecAborts lib dumpFlowRec) :
    RunAborts lib st (dumpFlowCmdExpanded dumpFlowRec lib cc args flow idx parsedCmd cmd cic
      originEnv cmdLayer argv none maxDepth trivial indentAdjust metFlows st).1 := by
  unfold dumpFlowCmdExpanded
  simp only []
  split
  · refine RunAborts.of_rec _ _ [] ?_ (NoErr.of_noParse _ _ (by simp))
      (sub_aborts dumpFlowRec lib cc args flow idx parsedCmd cmd cic cmdLayer argv maxDepth trivial
        indentAdjust _ _ hrec) rfl (Or.inl rfl)
    rw [(flowLines_frame _ _ _ _ _ _ _ _ _ _).2.1, (body_frame _ _ _ _ _ _ _ _ _ _ _ _).2]
    simp
  · refine RunAborts.of_trace _ [] ?_ (NoErr.of_noParse _ _ (by simp))
    rw [(end_frame _ _ _ _ _ _ _).1, (body_frame _ _ _ _ _ _ _ _ _ _ _ _).2]
    simp

theorem dumpFlowCmd_aborts (dumpFlowRec : RecCall) (lib : Collab) (cc : Cli) (st : DumpState)
    (flow : ParsedCmds) (idx : Nat) (args : DumpFlowArgs) (running : Bool)
    (maxDepth maxTrivial indentAdjust : Int) (metFlows : List String)
    (hrec : RecAborts lib dumpFlowRec) :
    RunAborts lib st (dumpFlowCmd dumpFlowRec lib cc st flow idx args none running maxDepth
      maxTrivial indentAdjust metFlows).1 := by
  cases hcmd : (flow.Cmds.getD idx default).Last.Matched.Cmd with
  | none =>
    unfold dumpFlowCmd
    simp only [hcmd]
    exact RunAborts.of_trace _ [] (by simp) (NoErr.of_noParse _ _ (by simp))
  | some cmd =>
    cases hcic : cmd.cmd with
    | none =>
      unfold dumpFlowCmd
      simp only [hcmd, hcic]
      exact RunAborts.of_trace _ [] (by simp) (NoErr.of_noParse _ _ (by simp))
    | some cic =>
      rw [dumpFlowCmd_desc dumpFlowRec lib cc st flow idx args running maxDepth maxTrivial
        indentAdjust metFlows cmd cic hcmd hcic]
      have hn : NoErr lib (if 0 < maxTrivial ∧ 0 < maxDepth then
          [Event.shown indentAdjust (strJoin (flow.Cmds.getD idx default).Path cmd.Strs.PathSep)]
          else []) := by
        apply NoErr.of_noParse
        intro j toks
        split <;> simp
      have hpre := (descPre_frame lib cc args (flow.Cmds.getD idx default) cmd cic running
        maxDepth maxTrivial indentAdjust st).2.2
      split
      · exact RunAborts.of_rec _ _ _ hpre hn
          (folded_aborts dumpFlowRec lib cc flow idx _ cmd cic _ _ maxDepth _ indentAdjust _ hrec)
          rfl (Or.inl rfl)
      · exact RunAborts.of_rec _ _ _ hpre hn
          (expanded_aborts dumpFlowRec lib cc args flow idx _ cmd cic _ _ _ maxDepth _
            indentAdjust metFlows _ hrec) rfl (Or.inl rfl)

theorem dumpFlowLoop_aborts (dumpFlowRec : RecCall) (lib : Collab) (cc : Cli) (flow : ParsedCmds)
    (fromCmdIdx : Nat) (args : DumpFlowArgs) (running : Bool)
    (maxDepth maxTrivial indentAdjust : Int) (hrec : RecAborts lib dumpFlowRec)
    (cmds : List ParsedCmd) :
    ∀ (i : Nat) (st : DumpState) (metFlows : List String),
      RunAborts lib st
        (dumpFlowLoop dumpFlowRec lib cc flow fromCmdIdx args none running maxDepth
          maxTrivial indentAdjust cmds i st metFlows).1 := by
  induction cmds with
  | nil =>
    intro i st metFlows
    exact RunAborts.of_trace _ [] (by simp [dumpFlowLoop]) (NoErr.of_noParse _ _ (by simp))
  | cons c rest ih =>
    intro i st metFlows
    unfold dumpFlowLoop
    split
    · exact ih _ _ _
    · have h1 := dumpFlowCmd_aborts dumpFlowRec lib cc st flow (fromCmdIdx + i) args running
        maxDepth maxTrivial indentAdjust metFlows hrec
      simp only []
      split
      · rename_i hout
        obtain ⟨d, hd, ha⟩ := h1
        rw [hout] at ha
        exact RunAborts.of_rec _ _ d hd ha.noErr (ih _ _ _) rfl (Or.inl rfl)
      · rename_i hout
        exact RunAborts.of_rec _ _ [] (by simp) (NoErr.of_noParse _ _ (by simp)) h1 rfl
          (Or.inl hout.symm)
      · exact RunAborts.of_rec _ _ [] (by simp) (NoErr.of_noParse _ _ (by simp)) h1 rfl
          (Or.inl rfl)

/-- A description by `dumpFlow` ends at the first parser call that returns a
parse error, with that error. -/
theorem dumpFlow_aborts (lib : Collab) (cc : Cli) (args : DumpFlowArgs) (running : Bool)
    (fuel : Nat) :
    ∀ (st : DumpState) (flow : ParsedCmds) (fromCmdIdx : Nat) (d t i : Int),
      RunAborts lib st (dumpFlow lib cc args running fuel st flow fromCmdIdx none d t i) := by
  induction fuel with
  | zero =>
    intro st flow fromCmdIdx d t i
    exact RunAborts.of_trace _ [] (by simp [dumpFlow]) (NoErr.of_noParse _ _ (by simp))
  | succ n ih =>
    intro st flow fromCmdIdx d t i
    unfold dumpFlow
    exact dumpFlowLoop_aborts _ lib cc flow fromCmdIdx args running d t i
      (fun s f d2 t2 i2 => ih s f 0 d2 t2 i2) _ 0 st []

/-! ## Rendering and parsing of a sub-flow -/

theorem events_of_rec {lib : Collab} (r r0 : Run) {s s2 : DumpState} (e p : Event)
    (G : Prop) (h1 : s2.trace = s.trace ++ [e, p]) (h2 : RunAborts lib s2 r0)
    (ht : r.st.trace = r0.st.trace) :
    ∃ rest, r.st.trace = s.trace ++ (e :: rest) ∧ (G → ∃ rest2, rest = p :: rest2) := by
  obtain ⟨d2, hd2, _⟩ := h2
  refine ⟨p :: d2, ?_, fun _ => ⟨d2, rfl⟩⟩
  rw [ht, hd2, h1]
  simp

/-- The events of the folding branch: `folded`, the rendering, and, when the
sub-flow rendered, the parsing. -/
theorem folded_events (dumpFlowRec : RecCall) (lib : Collab) (cc : Cli) (flow : ParsedCmds)
    (idx : Nat) (parsedCmd : ParsedCmd) (cmd : CmdTree) (cic : Cmd) (cmdLayer : EnvLayer)
    (argv : ArgVals) (maxDepth trivial indentAdjust : Int)
    (st : DumpState) (hrec : RecAborts lib dumpFlowRec) :
    ∃ rest, (dumpFlowCmdFolded dumpFlowRec lib cc flow idx parsedCmd cmd cic cmdLayer argv
        none maxDepth trivial indentAdjust st).st.trace =
        st.trace ++ (.folded indentAdjust (strJoin parsedCmd.Path cmd.Strs.PathSep) ::
          .render indentAdjust (strJoin parsedCmd.Path cmd.Strs.PathSep)
            (lib.Flow cic argv (lib.TryExeEnvOpCmds argv (st.env.Push cmdLayer) flow idx) true).1
            (lib.Flow cic argv (lib.TryExeEnvOpCmds argv (st.env.Push cmdLayer) flow idx) true).2
          :: rest) ∧
      ((lib.Flow cic argv (lib.TryExeEnvOpCmds argv (st.env.Push cmdLayer) flow idx) true).2 =
          true →
        ∃ rest2, rest = .parse indentAdjust
          (lib.Flow cic argv (lib.TryExeEnvOpCmds argv (st.env.Push cmdLayer) flow idx) true).1
            :: rest2) := by
  unfold dumpFlowCmdFolded
  simp only [log_env, Option.bind]
  generalize lib.Flow cic argv (lib.TryExeEnvOpCmds argv (st.env.Push cmdLayer) flow idx) true = R
  split
  · split
    · exact ⟨[.parse indentAdjust R.1], by simp [DumpState.log], fun _ => ⟨[], rfl⟩⟩
    · obtain ⟨d2, hd2, _⟩ := hrec
        { ((st.log (.folded indentAdjust (strJoin parsedCmd.Path cmd.Strs.PathSep))).log
              (.render indentAdjust (strJoin parsedCmd.Path cmd.Strs.PathSep) R.1 R.2)).log
            (.parse indentAdjust R.1) with
          env := (lib.Parse R.1).GlobalEnv.WriteNotArgTo
            (lib.TryExeEnvOpCmds argv (st.env.Push cmdLayer) flow idx).Parent
            cc.Cmds.Strs.EnvValDelAllMark }
        (lib.Parse R.1) (maxDepth - 1) trivial (indentAdjust + 2)
      refine ⟨.parse indentAdjust R.1 :: d2, ?_, fun _ => ⟨d2, rfl⟩⟩
      simp only [DumpState.log] at hd2 ⊢
      rw [hd2]
      simp
  · rename_i hr
    exact ⟨[], by simp [DumpState.log], fun h => absurd h hr⟩

/-- The events of the recursion part of the expanding branch, for a flow
command: the rendering, and, when the sub-flow rendered to a non-empty token
list and is no duplicate, the parsing. -/
theorem sub_events (dumpFlowRec : RecCall) (lib : Collab) (cc : Cli) (args : DumpFlowArgs)
    (flow : ParsedCmds) (idx : Nat) (parsedCmd : ParsedCmd) (cmd : CmdTree) (cic : Cmd)
    (cmdLayer : EnvLayer) (argv : ArgVals) (maxDepth trivial indentAdjust : Int) (metFlow : Bool)
    (st : DumpState) (hrec : RecAborts lib dumpFlowRec) (hty : isFlowTy lib cic = true) :
    ∃ rest, (dumpFlowCmdSub dumpFlowRec lib cc args flow idx parsedCmd cmd cic cmdLayer
        argv none maxDepth trivial indentAdjust metFlow st).st.trace =
        st.trace ++ (.render indentAdjust (strJoin parsedCmd.Path cmd.Strs.PathSep)
            (lib.Flow cic argv (st.env.Push cmdLayer) true).1
            (lib.Flow cic argv (st.env.Push cmdLayer) true).2 :: rest) ∧
      (((lib.Flow cic argv (st.env.Push cmdLayer) true).2 = true ∧
          (lib.Flow cic argv (st.env.Push cmdLayer) true).1 ≠ [] ∧ metFlow = false) →
        ∃ rest2, rest = .parse indentAdjust (lib.Flow cic argv (st.env.Push cmdLayer) true).1
          :: rest2) := by
  unfold dumpFlowCmdSub
  simp only [log_env, Option.bind, hty, if_true]
  generalize lib.Flow cic argv (st.env.Push cmdLayer) true = R
  split
  · split
    · split
      · refine ⟨[.parse indentAdjust R.1], ?_, fun _ => ⟨[], rfl⟩⟩
        simp only [log_trace, apply_ite DumpState.trace, prt_trace, ite_self, List.append_assoc,
          List.singleton_append]
      · have hsub := hrec
          { (((if (execFailed none || decide (maxDepth > 1)) = true then
                  prt lib args indentAdjust
                    (st.log (.render indentAdjust (strJoin parsedCmd.Path cmd.Strs.PathSep)
                      R.1 R.2)) 2 (lib.Color .Flowing "--->>>" st.env)
                else st.log (.render indentAdjust (strJoin parsedCmd.Path cmd.Strs.PathSep)
                      R.1 R.2)) : DumpState).log (.parse indentAdjust R.1)) with
            env := (lib.Parse R.1).GlobalEnv.WriteNotArgTo st.env
              cc.Cmds.Strs.EnvValDelAllMark }
          (lib.Parse R.1) (if execOk none = true then maxDepth - 1 else maxDepth) trivial
          (indentAdjust + 2)
        simp only [apply_ite DumpState.env, prt_env, log_env, ite_self] at hsub ⊢
        refine events_of_rec _ _ _ _ _ ?_ hsub ?_
        · simp only [log_trace, apply_ite DumpState.trace, prt_trace, ite_self, List.append_assoc,
            List.singleton_append]
        · split
          · unfold dumpFlowCmdEnd
            simp only [apply_ite DumpState.trace, prt_trace, ite_self]
          · rfl
          · rfl
    · rename_i hc hm
      refine ⟨[], by unfold dumpFlowCmdEnd; simp only [log_trace], fun h => ?_⟩
      rw [h.2.2] at hm
      simp [execOk] at hm
  · rename_i hc
    refine ⟨[], by unfold dumpFlowCmdEnd; simp only [log_trace], fun h => ?_⟩
    exfalso
    apply hc
    simp [h.1, h.2.1]

/-- A description by `DumpFlow` that meets a parse error at a parser call ends
there: the outcome is the panic with that error and the call is the last event. -/
theorem dumpFlowEx_aborts (lib : Collab) (cc : Cli) (fuel : Nat) (heap : Heap)
    (screen : List String) (env : Nat) (flow : ParsedCmds) (fromCmdIdx : Nat)
    (args : DumpFlowArgs) :
    AbortsOn lib (DumpFlow lib cc fuel heap screen env flow fromCmdIdx args).trace
      (DumpFlow lib cc fuel heap screen env flow fromCmdIdx args).out := by
  unfold DumpFlow DumpFlowEx
  split
  · exact AbortsOn.of_noErr (NoErr.of_noParse _ _ (by simp)) _
  · have h0 : ∀ (ls : List String) (s : DumpState),
        (ls.foldl DumpState.print s).trace = s.trace := by
      intro ls
      induction ls with
      | nil => intro s; rfl
      | cons x xs ih => intro s; simp only [List.foldl_cons, ih, print_trace]
    have key : ∀ st2 : DumpState, st2.trace = [] →
        AbortsOn lib
          (match (dumpFlow lib cc args false fuel st2 flow fromCmdIdx none args.MaxDepth
              args.MaxTrivial 0).out with
            | .done true =>
              (dumpFlow lib cc args false fuel st2 flow fromCmdIdx none args.MaxDepth
                args.MaxTrivial 0).st.print
                (lib.Color .Flowing "<<<---"
                  (dumpFlow lib cc args false fuel st2 flow fromCmdIdx none args.MaxDepth
                    args.MaxTrivial 0).st.env ++ "\n")
            | _ =>
              (dumpFlow lib cc args false fuel st2 flow fromCmdIdx none args.MaxDepth
                args.MaxTrivial 0).st).trace
          (dumpFlow lib cc args false fuel st2 flow fromCmdIdx none args.MaxDepth
            args.MaxTrivial 0).out := by
      intro st2 h2
      obtain ⟨d, hd, ha⟩ := dumpFlow_aborts lib cc args false fuel st2 flow fromCmdIdx
        args.MaxDepth args.MaxTrivial 0
      rw [h2, List.nil_append] at hd
      have ht : (match (dumpFlow lib cc args false fuel st2 flow fromCmdIdx none args.MaxDepth
              args.MaxTrivial 0).out with
            | .done true =>
              (dumpFlow lib cc args false fuel st2 flow fromCmdIdx none args.MaxDepth
                args.MaxTrivial 0).st.print
                (lib.Color .Flowing "<<<---"
                  (dumpFlow lib cc args false fuel st2 flow fromCmdIdx none args.MaxDepth
                    args.MaxTrivial 0).st.env ++ "\n")
            | _ =>
              (dumpFlow lib cc args false fuel st2 flow fromCmdIdx none args.MaxDepth
                args.MaxTrivial 0).st).trace = d := by
        split <;> simpa using hd
      rw [ht]
      exact ha
    exact key _ (by simp only [print_trace, h0])

/-- C3 (as amended): in a description pass, for every step that resolves to a
command. When the step is folded, its sub-flow is rendered after the step's
`folded` mark, and when it rendered it is parsed next. When the step is not
folded and its command is a flow command with text, its sub-flow is rendered,
and it is parsed next when it rendered to a non-empty token list and its text
was not met before in the scope. The step, and every description by
`DumpFlow`, ends at the first parser call that returns a parse error: the
outcome is the panic with that error and the call is the last event recorded. -/
theorem C3_sub_flow_checked (dumpFlowRec : RecCall) (lib : Collab) (cc : Cli) (st : DumpState)
    (flow : ParsedCmds) (idx : Nat) (args : DumpFlowArgs) (running : Bool)
    (maxDepth maxTrivial indentAdjust : Int) (metFlows : List String) (cmd : CmdTree) (cic : Cmd)
    (hcmd : (flow.Cmds.getD idx default).Last.Matched.Cmd = some cmd) (hcic : cmd.cmd = some cic)
    (hrec : RecAborts lib dumpFlowRec) :
    (foldCond maxDepth maxTrivial (flow.Cmds.getD idx default) cmd →
      ∃ pre rest,
        (dumpFlowCmd dumpFlowRec lib cc st flow idx args none running maxDepth maxTrivial
            indentAdjust metFlows).1.st.trace =
          st.trace ++ pre ++
            (.render indentAdjust (strJoin (flow.Cmds.getD idx default).Path cmd.Strs.PathSep)
              (foldRender lib cc st flow idx (flow.Cmds.getD idx default) cmd cic).1
              (foldRender lib cc st flow idx (flow.Cmds.getD idx default) cmd cic).2 :: rest) ∧
        ((foldRender lib cc st flow idx (flow.Cmds.getD idx default) cmd cic).2 = true →
          ∃ rest2, rest = .parse indentAdjust
            (foldRender lib cc st flow idx (flow.Cmds.getD idx default) cmd cic).1 :: rest2)) ∧
    (¬ foldCond maxDepth maxTrivial (flow.Cmds.getD idx default) cmd →
      hasFlowText lib cic = true →
      ∃ pre rest,
        (dumpFlowCmd dumpFlowRec lib cc st flow idx args none running maxDepth maxTrivial
            indentAdjust metFlows).1.st.trace =
          st.trace ++ pre ++
            (.render indentAdjust (strJoin (flow.Cmds.getD idx default).Path cmd.Strs.PathSep)
              (subRender lib cc st (flow.Cmds.getD idx default) cmd cic).1
              (subRender lib cc st (flow.Cmds.getD idx default) cmd cic).2 :: rest) ∧
        (((subRender lib cc st (flow.Cmds.getD idx default) cmd cic).2 = true ∧
            (subRender lib cc st (flow.Cmds.getD idx default) cmd cic).1 ≠ [] ∧
            metFlows.contains (subText lib cc st (flow.Cmds.getD idx default) cmd cic) = false) →
          ∃ rest2, rest = .parse indentAdjust
            (subRender lib cc st (flow.Cmds.getD idx default) cmd cic).1 :: rest2)) ∧
    RunAborts lib st
      (dumpFlowCmd dumpFlowRec lib cc st flow idx args none running maxDepth maxTrivial
        indentAdjust metFlows).1 ∧
    (∀ (fuel : Nat) (heap : Heap) (screen : List String) (env : Nat) (flow0 : ParsedCmds)
        (fromCmdIdx : Nat) (args0 : DumpFlowArgs),
      AbortsOn lib (DumpFlow lib cc fuel heap screen env flow0 fromCmdIdx args0).trace
        (DumpFlow lib cc fuel heap screen env flow0 fromCmdIdx args0).out) := by
  have hpre := descPre_frame lib cc args (flow.Cmds.getD idx default) cmd cic running maxDepth
    maxTrivial indentAdjust st
  refine ⟨?_, ?_, dumpFlowCmd_aborts dumpFlowRec lib cc st flow idx args running maxDepth
    maxTrivial indentAdjust metFlows hrec, fun fuel heap screen env flow0 fromCmdIdx args0 =>
      dumpFlowEx_aborts lib cc fuel heap screen env flow0 fromCmdIdx args0⟩
  · intro hf
    unfold foldCond at hf
    rw [dumpFlowCmd_desc dumpFlowRec lib cc st flow idx args running maxDepth maxTrivial
      indentAdjust metFlows cmd cic hcmd hcic]
    simp only [hf, if_true]
    obtain ⟨rest, h1, h2⟩ := folded_events dumpFlowRec lib cc flow idx
      (flow.Cmds.getD idx default) cmd cic (stepLayer lib cc st (flow.Cmds.getD idx default) cmd)
      (stepArgv lib cc st (flow.Cmds.getD idx default) cmd) maxDepth
      (maxTrivial - (cmd.trivial + (flow.Cmds.getD idx default).TrivialLvl)) indentAdjust
      (descPre lib cc args (flow.Cmds.getD idx default) cmd cic running maxDepth maxTrivial
        indentAdjust st) hrec
    rw [hpre.1] at h1 h2
    refine ⟨(if 0 < maxTrivial ∧ 0 < maxDepth then
        [Event.shown indentAdjust (strJoin (flow.Cmds.getD idx default).Path cmd.Strs.PathSep)]
        else []) ++
      [Event.folded indentAdjust (strJoin (flow.Cmds.getD idx default).Path cmd.Strs.PathSep)],
      rest, ?_, h2⟩
    unfold stepLayer stepArgv at h1
    rw [h1, hpre.2.2]
    unfold foldRender stepLayer stepArgv
    simp only [List.append_assoc, List.singleton_append]
  · intro hf hft
    unfold foldCond at hf
    rw [dumpFlowCmd_desc dumpFlowRec lib cc st flow idx args running maxDepth maxTrivial
      indentAdjust metFlows cmd cic hcmd hcic]
    simp only [hf, if_false]
    rw [expanded_flow dumpFlowRec lib cc args flow idx (flow.Cmds.getD idx default) cmd cic
      st.env _ _ maxDepth _ indentAdjust metFlows _ hft]
    have hty : isFlowTy lib cic = true := by
      unfold hasFlowText at hft
      simp only [Bool.and_eq_true] at hft
      exact hft.2
    have hx := expandPre_frame lib cc args flow (flow.Cmds.getD idx default) cmd cic st.env
      (stepLayer lib cc st (flow.Cmds.getD idx default) cmd)
      (stepArgv lib cc st (flow.Cmds.getD idx default) cmd) maxDepth indentAdjust metFlows
      (descPre lib cc args (flow.Cmds.getD idx default) cmd cic running maxDepth maxTrivial
        indentAdjust st)
    obtain ⟨rest, h1, h2⟩ := sub_events dumpFlowRec lib cc args flow idx
      (flow.Cmds.getD idx default) cmd cic (stepLayer lib cc st (flow.Cmds.getD idx default) cmd)
      (stepArgv lib cc st (flow.Cmds.getD idx default) cmd) maxDepth
      (maxTrivial - (cmd.trivial + (flow.Cmds.getD idx default).TrivialLvl)) indentAdjust
      (metFlows.contains (subText lib cc st (flow.Cmds.getD idx default) cmd cic))
      (expandPre lib cc args flow (flow.Cmds.getD idx default) cmd cic st.env
        (stepLayer lib cc st (flow.Cmds.getD idx default) cmd)
        (stepArgv lib cc st (flow.Cmds.getD idx default) cmd) maxDepth indentAdjust metFlows
        (descPre lib cc args (flow.Cmds.getD idx default) cmd cic running maxDepth maxTrivial
          indentAdjust st)) hrec hty
    rw [hx.1, hpre.1] at h1 h2
    refine ⟨(if 0 < maxTrivial ∧ 0 < maxDepth then
        [Event.shown indentAdjust (strJoin (flow.Cmds.getD idx default).Path cmd.Strs.PathSep)]
        else []), rest, ?_, h2⟩
    rw [hx.2, hpre.2.2] at h1
    simp only [hpre.1]
    unfold subText stepLayer stepArgv at h1
    unfold subRender stepLayer stepArgv
    exact h1

/-- C3, counterexample to the claim as stated: the flow `x y`, two visible
flow commands with the same sub-flow text `leaf`, described with the default
budgets. The step `y` is reached and its sub-flow is rendered, but it is marked
as a duplicate and not parsed: the record ends with the rendering of `y`. -/
theorem C3_counterexample :
    (DumpFlow (exLib dupTable) exCli 3 [exEnv] [] 0 (exParse dupTable ["x", "y"]) 0
        NewDumpFlowArgs).trace =
      [.shown 0 "x", .render 0 "x" ["leaf"] true, .parse 0 ["leaf"], .shown 2 "leaf",
        .shown 0 "y", .render 0 "y" ["leaf"] true] ∧
    (DumpFlow (exLib dupTable) exCli 3 [exEnv] [] 0 (exParse dupTable ["x", "y"]) 0
        NewDumpFlowArgs).out = .done true := by
  decide

/-- C3 at a concrete input: the flow `x x` where the flow of `x` names an
unknown command, described with depth budget 0, so that `x` is folded: the
description ends with the panic of the parse error at the first parser call. -/
theorem C3_witness :
    AbortsOn (exLib [exFlowNode "x" ["nope"]])
      (DumpFlow (exLib [exFlowNode "x" ["nope"]]) exCli 3 [exEnv] [] 0
        (exParse [exFlowNode "x" ["nope"]] ["x", "x"]) 0 (NewDumpFlowArgs.SetMaxDepth 0)).trace
      (DumpFlow (exLib [exFlowNode "x" ["nope"]]) exCli 3 [exEnv] [] 0
        (exParse [exFlowNode "x" ["nope"]] ["x", "x"]) 0 (NewDumpFlowArgs.SetMaxDepth 0)).out :=
  (C3_sub_flow_checked
    (fun s f e d t i =>
      dumpFlow (exLib [exFlowNode "x" ["nope"]]) exCli NewDumpFlowArgs false 2 s f 0 e d t i)
    (exLib [exFlowNode "x" ["nope"]]) exCli exState
    (exParse [exFlowNode "x" ["nope"]] ["x", "x"]) 0 NewDumpFlowArgs false 0 1 0 []
    (exFlowNode "x" ["nope"]) (exCmd CmdTypeFlow ["nope"]) (by decide) (by decide)
    (fun s f d t i =>
      dumpFlow_aborts (exLib [exFlowNode "x" ["nope"]]) exCli NewDumpFlowArgs false 2 s f 0 d t
        i)).2.2.2 3 [exEnv] [] 0 (exParse [exFlowNode "x" ["nope"]] ["x", "x"]) 0
    (NewDumpFlowArgs.SetMaxDepth 0)

/-! ## The write-back of a sub-flow's global environment -/

theorem writeNotArg_parents (G : ParsedEnv) (e : Env) (m : String) :
    (G.WriteNotArgTo e m).parents = e.parents := by
  unfold ParsedEnv.WriteNotArgTo
  induction G generalizing e with
  | nil => rfl
  | cons kv rest ih =>
    simp only [List.foldl_cons]
    rw [ih]
    split <;> rfl

/-- Keys without a non-argument entry are not written. -/
theorem writeNotArg_skips (G : ParsedEnv) (e : Env) (m k : String)
    (h : ∀ kv ∈ G, kv.1 = k → kv.2.IsArg = true) :
    (G.WriteNotArgTo e m).top.pairs.lookup k = e.top.pairs.lookup k := by
  unfold ParsedEnv.WriteNotArgTo
  induction G generalizing e with
  | nil => rfl
  | cons kv rest ih =>
    simp only [List.foldl_cons]
    rw [ih _ (fun x hx => h x (List.mem_cons_of_mem _ hx))]
    by_cases ha : kv.2.IsArg = true
    · simp only [ha, if_true]
    · simp only [ha, Bool.false_eq_true, if_false, Env.Set]
      have hk : k ≠ kv.1 := by
        intro hk
        exact ha (h kv (List.mem_cons_self _ _) hk.symm)
      exact setPair_lookup_ne _ _ _ _ hk

/-- A key with a non-argument entry is written with the value of the entry. -/
theorem writeNotArg_writes (G : ParsedEnv) (m k v : String)
    (hv : ∀ kv ∈ G, kv.1 = k → kv.2.IsArg = false → kv.2.Val = v) (e : Env)
    (h : (∃ kv ∈ G, kv.1 = k ∧ kv.2.IsArg = false) ∨ e.top.pairs.lookup k = some v) :
    (G.WriteNotArgTo e m).top.pairs.lookup k = some v := by
  unfold ParsedEnv.WriteNotArgTo
  induction G generalizing e with
  | nil =>
    rcases h with ⟨kv, hkv, _⟩ | h
    · simp at hkv
    · exact h
  | cons kv rest ih =>
    simp only [List.foldl_cons]
    apply ih (fun x hx => hv x (List.mem_cons_of_mem _ hx))
    by_cases ha : kv.2.IsArg = true
    · simp only [ha, if_true]
      rcases h with ⟨x, hx, hxk, hxa⟩ | h
      · rcases List.mem_cons.mp hx with e1 | e1
        · subst e1
          rw [ha] at hxa
          exact absurd hxa (by simp)
        · exact Or.inl ⟨x, e1, hxk, hxa⟩
      · exact Or.inr h
    · have ha2 : kv.2.IsArg = false := by simpa using ha
      simp only [ha, Bool.false_eq_true, if_false, Env.Set]
      by_cases hk : kv.1 = k
      · right
        rw [hk, setPair_lookup, hv kv (List.mem_cons_self _ _) hk ha2]
      · rcases h with ⟨x, hx, hxk, hxa⟩ | h
        · rcases List.mem_cons.mp hx with e1 | e1
          · subst e1
            exact absurd hxk hk
          · exact Or.inl ⟨x, e1, hxk, hxa⟩
        · right
          rw [setPair_lookup_ne _ _ _ _ (fun e1 => hk e1.symm)]
          exact h

theorem getEx_of_top (e : Env) (k v : String) (h : e.top.pairs.lookup k = some v) :
    e.GetEx k = some v := by
  simp [Env.GetEx, Env.layers, List.findSome?, h]

theorem getEx_congr (e e2 : Env) (k : String) (h1 : e2.top.pairs.lookup k = e.top.pairs.lookup k)
    (h2 : e2.parents = e.parents) : e2.GetEx k = e.GetEx k := by
  simp [Env.GetEx, Env.layers, List.findSome?, h1, h2]

/-- In a parsed environment without a repeated key, the entry of a key is the
only entry of the key. -/
theorem nodup_entry (G : ParsedEnv) (h : (G.map Prod.fst).Nodup) (k : String) (pv : ParsedEnvVal)
    (hm : (k, pv) ∈ G) : ∀ kv ∈ G, kv.1 = k → kv.2 = pv := by
  induction G with
  | nil => simp at hm
  | cons x rest ih =>
    simp only [List.map_cons, List.nodup_cons, List.mem_map, not_exists, not_and] at h
    intro kv hkv hk
    rcases List.mem_cons.mp hm with e1 | e1
    · rcases List.mem_cons.mp hkv with e2 | e2
      · rw [e2, ← e1]
      · exfalso
        apply h.1 kv e2
        rw [hk, ← e1]
    · rcases List.mem_cons.mp hkv with e2 | e2
      · exfalso
        apply h.1 (k, pv) e1
        rw [← hk, e2]
      · exact ih h.2 e1 kv e2 hk

/-- What `WriteNotArgTo` writes: of a parsed environment without a repeated
key, every entry that is not an argument binding is readable afterwards, and
the key of an argument binding reads as before. -/
theorem writeNotArg_entry (G : ParsedEnv) (h : (G.map Prod.fst).Nodup) (e : Env) (m k : String)
    (pv : ParsedEnvVal) (hm : (k, pv) ∈ G) :
    (pv.IsArg = false → (G.WriteNotArgTo e m).GetEx k = some pv.Val) ∧
    (pv.IsArg = true → (G.WriteNotArgTo e m).GetEx k = e.GetEx k) := by
  have hu := nodup_entry G h k pv hm
  refine ⟨fun ha => ?_, fun ha => ?_⟩
  · apply getEx_of_top
    apply writeNotArg_writes G m k pv.Val
    · intro kv hkv hk _
      rw [hu kv hkv hk]
    · exact Or.inl ⟨(k, pv), hm, rfl, ha⟩
  · apply getEx_congr
    · apply writeNotArg_skips
      intro kv hkv hk
      rw [hu kv hkv hk]
      exact ha
    · exact writeNotArg_parents G e m

/-- The loop of `dumpFlow` hands the state and the `metFlows` a step leaves to
the next step. -/
theorem dumpFlowLoop_next (dumpFlowRec : RecCall) (lib : Collab) (cc : Cli) (flow : ParsedCmds)
    (fromCmdIdx : Nat) (args : DumpFlowArgs) (running : Bool)
    (maxDepth maxTrivial indentAdjust : Int) (a : ParsedCmd) (rest : List ParsedCmd) (k : Nat)
    (st : DumpState) (metFlows : List String) (ha : a.IsEmpty = false)
    (hok : (dumpFlowCmd dumpFlowRec lib cc st flow (fromCmdIdx + k) args none running maxDepth
      maxTrivial indentAdjust metFlows).1.out = .done true) :
    dumpFlowLoop dumpFlowRec lib cc flow fromCmdIdx args none running maxDepth maxTrivial
        indentAdjust (a :: rest) k st metFlows =
      dumpFlowLoop dumpFlowRec lib cc flow fromCmdIdx args none running maxDepth maxTrivial
        indentAdjust rest (k + 1)
        (dumpFlowCmd dumpFlowRec lib cc st flow (fromCmdIdx + k) args none running maxDepth
          maxTrivial indentAdjust metFlows).1.st
        (dumpFlowCmd dumpFlowRec lib cc st flow (fromCmdIdx + k) args none running maxDepth
          maxTrivial indentAdjust metFlows).2 := by
  rw [dumpFlowLoop]
  simp only [ha, Bool.false_eq_true, if_false, hok]

theorem subFinish_getEx (lib : Collab) (args : DumpFlowArgs) (flow : ParsedCmds) (idx : Nat)
    (cic : Cmd) (cmdLayer : EnvLayer) (argv : ArgVals) (maxDepth indentAdjust : Int) (sub : Run)
    (k : String)
    (hhook : ∀ e : Env, (lib.TryExeEnvOpCmds argv (e.Push cmdLayer) flow idx).Parent.GetEx k =
      e.GetEx k) :
    (subFinish lib args flow idx cic cmdLayer argv maxDepth indentAdjust sub).st.env.GetEx k =
      sub.st.env.GetEx k := by
  unfold subFinish
  split
  · unfold dumpFlowCmdEnd
    simp only [apply_ite DumpState.env, prt_env, ite_self]
    exact hhook _
  · rfl
  · rfl

/-- C5: in a description pass, for a step A that resolves to a command and
whose sub-flow is parsed (A is folded and its sub-flow renders, or A is a flow
command with text that is not folded and whose sub-flow renders to a non-empty
token list and was not met before in the scope), the parse carrying no error
and the global environment of the parsed sub-flow holding no key twice; `k` is
a key of that global environment and `pv` its entry. The description of A's
sub-flow starts in an environment in which `k` reads as the value of `pv` when
`pv` is not an argument binding, and reads as before the write-back when it is
one. When nothing in the description of the sub-flow, nor the environment
operations of A, changes the reading of `k`, this is how `k` reads in the state
A leaves. And the loop of `dumpFlow` describes the next sibling B in the state
A leaves. -/
theorem C5_write_back (dumpFlowRec : RecCall) (lib : Collab) (cc : Cli) (st : DumpState)
    (flow : ParsedCmds) (idx : Nat) (args : DumpFlowArgs) (running : Bool)
    (maxDepth maxTrivial indentAdjust : Int) (metFlows : List String) (cmd : CmdTree) (cic : Cmd)
    (hcmd : (flow.Cmds.getD idx default).Last.Matched.Cmd = some cmd) (hcic : cmd.cmd = some cic)
    (k : String) (pv : ParsedEnvVal) :
    (foldCond maxDepth maxTrivial (flow.Cmds.getD idx default) cmd →
      (foldRender lib cc st flow idx (flow.Cmds.getD idx default) cmd cic).2 = true →
      (lib.Parse (foldRender lib cc st flow idx (flow.Cmds.getD idx default) cmd
        cic).1).FirstErr = none →
      ((lib.Parse (foldRender lib cc st flow idx (flow.Cmds.getD idx default) cmd
        cic).1).GlobalEnv.map Prod.fst).Nodup →
      (k, pv) ∈ (lib.Parse (foldRender lib cc st flow idx (flow.Cmds.getD idx default) cmd
        cic).1).GlobalEnv →
      (dumpFlowCmd dumpFlowRec lib cc st flow idx args none running maxDepth maxTrivial
          indentAdjust metFlows).1 =
        dumpFlowRec
          (foldEntry lib cc flow idx (flow.Cmds.getD idx default) cmd cic
            (stepLayer lib cc st (flow.Cmds.getD idx default) cmd)
            (stepArgv lib cc st (flow.Cmds.getD idx default) cmd) indentAdjust
            (descPre lib cc args (flow.Cmds.getD idx default) cmd cic running maxDepth maxTrivial
              indentAdjust st))
          (lib.Parse (foldRender lib cc st flow idx (flow.Cmds.getD idx default) cmd cic).1) none
          (maxDepth - 1) (maxTrivial - (cmd.trivial + (flow.Cmds.getD idx default).TrivialLvl))
          (indentAdjust + 2) ∧
      (pv.IsArg = false →
        (foldEntry lib cc flow idx (flow.Cmds.getD idx default) cmd cic
          (stepLayer lib cc st (flow.Cmds.getD idx default) cmd)
          (stepArgv lib cc st (flow.Cmds.getD idx default) cmd) indentAdjust
          (descPre lib cc args (flow.Cmds.getD idx default) cmd cic running maxDepth maxTrivial
            indentAdjust st)).env.GetEx k = some pv.Val) ∧
      (pv.IsArg = true →
        (foldEntry lib cc flow idx (flow.Cmds.getD idx default) cmd cic
          (stepLayer lib cc st (flow.Cmds.getD idx default) cmd)
          (stepArgv lib cc st (flow.Cmds.getD idx default) cmd) indentAdjust
          (descPre lib cc args (flow.Cmds.getD idx default) cmd cic running maxDepth maxTrivial
            indentAdjust st)).env.GetEx k =
          (lib.TryExeEnvOpCmds (stepArgv lib cc st (flow.Cmds.getD idx default) cmd)
            (st.env.Push (stepLayer lib cc st (flow.Cmds.getD idx default) cmd)) flow
            idx).Parent.GetEx k) ∧
      ((∀ s f e d t i, (dumpFlowRec s f e d t i).st.env.GetEx k = s.env.GetEx k) →
        (pv.IsArg = false →
          (dumpFlowCmd dumpFlowRec lib cc st flow idx args none running maxDepth maxTrivial
            indentAdjust metFlows).1.st.env.GetEx k = some pv.Val) ∧
        (pv.IsArg = true →
          (dumpFlowCmd dumpFlowRec lib cc st flow idx args none running maxDepth maxTrivial
            indentAdjust metFlows).1.st.env.GetEx k =
            (lib.TryExeEnvOpCmds (stepArgv lib cc st (flow.Cmds.getD idx default) cmd)
              (st.env.Push (stepLayer lib cc st (flow.Cmds.getD idx default) cmd)) flow
              idx).Parent.GetEx k))) ∧
    (¬ foldCond maxDepth maxTrivial (flow.Cmds.getD idx default) cmd →
      hasFlowText lib cic = true →
      (subRender lib cc st (flow.Cmds.getD idx default) cmd cic).2 = true →
      (subRender lib cc st (flow.Cmds.getD idx default) cmd cic).1 ≠ [] →
      metFlows.contains (subText lib cc st (flow.Cmds.getD idx default) cmd cic) = false →
      (lib.Parse (subRender lib cc st (flow.Cmds.getD idx default) cmd cic).1).FirstErr = none →
      ((lib.Parse (subRender lib cc st (flow.Cmds.getD idx default) cmd
        cic).1).GlobalEnv.map Prod.fst).Nodup →
      (k, pv) ∈ (lib.Parse (subRender lib cc st (flow.Cmds.getD idx default) cmd
        cic).1).GlobalEnv →
      (dumpFlowCmd dumpFlowRec lib cc st flow idx args none running maxDepth maxTrivial
          indentAdjust metFlows).1 =
        subFinish lib args flow idx cic (stepLayer lib cc st (flow.Cmds.getD idx default) cmd)
          (stepArgv lib cc st (flow.Cmds.getD idx default) cmd) maxDepth indentAdjust
          (dumpFlowRec
            (subEntry lib cc args (flow.Cmds.getD idx default) cmd cic
              (stepLayer lib cc st (flow.Cmds.getD idx default) cmd)
              (stepArgv lib cc st (flow.Cmds.getD idx default) cmd) maxDepth indentAdjust
              (expandPre lib cc args flow (flow.Cmds.getD idx default) cmd cic st.env
                (stepLayer lib cc st (flow.Cmds.getD idx default) cmd)
                (stepArgv lib cc st (flow.Cmds.getD idx default) cmd) maxDepth indentAdjust
                metFlows
                (descPre lib cc args (flow.Cmds.getD idx default) cmd cic running maxDepth
                  maxTrivial indentAdjust st)))
            (lib.Parse (subRender lib cc st (flow.Cmds.getD idx default) cmd cic).1) none
            (maxDepth - 1) (maxTrivial - (cmd.trivial + (flow.Cmds.getD idx default).TrivialLvl))
            (indentAdjust + 2)) ∧
      (pv.IsArg = false →
        (subEntry lib cc args (flow.Cmds.getD idx default) cmd cic
          (stepLayer lib cc st (flow.Cmds.getD idx default) cmd)
          (stepArgv lib cc st (flow.Cmds.getD idx default) cmd) maxDepth indentAdjust
          (expandPre lib cc args flow (flow.Cmds.getD idx default) cmd cic st.env
            (stepLayer lib cc st (flow.Cmds.getD idx default) cmd)
            (stepArgv lib cc st (flow.Cmds.getD idx default) cmd) maxDepth indentAdjust metFlows
            (descPre lib cc args (flow.Cmds.getD idx default) cmd cic running maxDepth
              maxTrivial indentAdjust st))).env.GetEx k = some pv.Val) ∧
      (pv.IsArg = true →
        (subEntry lib cc args (flow.Cmds.getD idx default) cmd cic
          (stepLayer lib cc st (flow.Cmds.getD idx default) cmd)
          (stepArgv lib cc st (flow.Cmds.getD idx default) cmd) maxDepth indentAdjust
          (expandPre lib cc args flow (flow.Cmds.getD idx default) cmd cic st.env
            (stepLayer lib cc st (flow.Cmds.getD idx default) cmd)
            (stepArgv lib cc st (flow.Cmds.getD idx default) cmd) maxDepth indentAdjust metFlows
            (descPre lib cc args (flow.Cmds.getD idx default) cmd cic running maxDepth
              maxTrivial indentAdjust st))).env.GetEx k = st.env.GetEx k) ∧
      ((∀ s f e d t i, (dumpFlowRec s f e d t i).st.env.GetEx k = s.env.GetEx k) →
        (∀ e : Env,
          (lib.TryExeEnvOpCmds (stepArgv lib cc st (flow.Cmds.getD idx default) cmd)
            (e.Push (stepLayer lib cc st (flow.Cmds.getD idx default) cmd)) flow
            idx).Parent.GetEx k = e.GetEx k) →
        (pv.IsArg = false →
          (dumpFlowCmd dumpFlowRec lib cc st flow idx args none running maxDepth maxTrivial
            indentAdjust metFlows).1.st.env.GetEx k = some pv.Val) ∧
        (pv.IsArg = true →
          (dumpFlowCmd dumpFlowRec lib cc st flow idx args none running maxDepth maxTrivial
            indentAdjust metFlows).1.st.env.GetEx k = st.env.GetEx k))) ∧
    (∀ (fromCmdIdx j : Nat) (a : ParsedCmd) (rest : List ParsedCmd) (st0 : DumpState)
        (met0 : List String),
      a.IsEmpty = false →
      (dumpFlowCmd dumpFlowRec lib cc st0 flow (fromCmdIdx + j) args none running maxDepth
        maxTrivial indentAdjust met0).1.out = .done true →
      dumpFlowLoop dumpFlowRec lib cc flow fromCmdIdx args none running maxDepth maxTrivial
          indentAdjust (a :: rest) j st0 met0 =
        dumpFlowLoop dumpFlowRec lib cc flow fromCmdIdx args none running maxDepth maxTrivial
          indentAdjust rest (j + 1)
          (dumpFlowCmd dumpFlowRec lib cc st0 flow (fromCmdIdx + j) args none running maxDepth
            maxTrivial indentAdjust met0).1.st
          (dumpFlowCmd dumpFlowRec lib cc st0 flow (fromCmdIdx + j) args none running maxDepth
            maxTrivial indentAdjust met0).2) := by
  have hpre := descPre_frame lib cc args (flow.Cmds.getD idx default) cmd cic running maxDepth
    maxTrivial indentAdjust st
  refine ⟨?_, ?_, fun fromCmdIdx j a rest st0 met0 ha hok =>
    dumpFlowLoop_next dumpFlowRec lib cc flow fromCmdIdx args running maxDepth maxTrivial
      indentAdjust a rest j st0 met0 ha hok⟩
  · intro hf hr he hnd hm
    unfold foldCond at hf
    unfold foldRender stepLayer stepArgv at hr he hnd hm
    have hstep : (dumpFlowCmd dumpFlowRec lib cc st flow idx args none running maxDepth maxTrivial
          indentAdjust metFlows).1 =
        dumpFlowRec
          (foldEntry lib cc flow idx (flow.Cmds.getD idx default) cmd cic
            (stepLayer lib cc st (flow.Cmds.getD idx default) cmd)
            (stepArgv lib cc st (flow.Cmds.getD idx default) cmd) indentAdjust
            (descPre lib cc args (flow.Cmds.getD idx default) cmd cic running maxDepth maxTrivial
              indentAdjust st))
          (lib.Parse (foldRender lib cc st flow idx (flow.Cmds.getD idx default) cmd cic).1) none
          (maxDepth - 1) (maxTrivial - (cmd.trivial + (flow.Cmds.getD idx default).TrivialLvl))
          (indentAdjust + 2) := by
      rw [dumpFlowCmd_desc dumpFlowRec lib cc st flow idx args running maxDepth maxTrivial
        indentAdjust metFlows cmd cic hcmd hcic]
      simp only [hf, if_true]
      unfold foldRender stepLayer stepArgv
      rw [folded_eq dumpFlowRec lib cc flow idx _ cmd cic _ _ none maxDepth _ indentAdjust _
        (by rw [hpre.1]; exact hr) (by rw [hpre.1]; exact he), hpre.1]
      rfl
    have hentry : (foldEntry lib cc flow idx (flow.Cmds.getD idx default) cmd cic
          (stepLayer lib cc st (flow.Cmds.getD idx default) cmd)
          (stepArgv lib cc st (flow.Cmds.getD idx default) cmd) indentAdjust
          (descPre lib cc args (flow.Cmds.getD idx default) cmd cic running maxDepth maxTrivial
            indentAdjust st)).env =
        (lib.Parse (lib.Flow cic
          (lib.ApplyMappingGenEnvAndArgv (flow.Cmds.getD idx default) st.env
            cc.Cmds.Strs.EnvValDelAllMark cmd.Strs.PathSep).2
          (lib.TryExeEnvOpCmds
            (lib.ApplyMappingGenEnvAndArgv (flow.Cmds.getD idx default) st.env
              cc.Cmds.Strs.EnvValDelAllMark cmd.Strs.PathSep).2
            (st.env.Push (lib.ApplyMappingGenEnvAndArgv (flow.Cmds.getD idx default) st.env
              cc.Cmds.Strs.EnvValDelAllMark cmd.Strs.PathSep).1) flow idx)
          true).1).GlobalEnv.WriteNotArgTo
          (lib.TryExeEnvOpCmds
            (lib.ApplyMappingGenEnvAndArgv (flow.Cmds.getD idx default) st.env
              cc.Cmds.Strs.EnvValDelAllMark cmd.Strs.PathSep).2
            (st.env.Push (lib.ApplyMappingGenEnvAndArgv (flow.Cmds.getD idx default) st.env
              cc.Cmds.Strs.EnvValDelAllMark cmd.Strs.PathSep).1) flow idx).Parent
          cc.Cmds.Strs.EnvValDelAllMark := by
      unfold foldEntry stepLayer stepArgv
      simp only [hpre.1]
    have hw := writeNotArg_entry _ hnd
      (lib.TryExeEnvOpCmds
        (lib.ApplyMappingGenEnvAndArgv (flow.Cmds.getD idx default) st.env
          cc.Cmds.Strs.EnvValDelAllMark cmd.Strs.PathSep).2
        (st.env.Push (lib.ApplyMappingGenEnvAndArgv (flow.Cmds.getD idx default) st.env
          cc.Cmds.Strs.EnvValDelAllMark cmd.Strs.PathSep).1) flow idx).Parent
      cc.Cmds.Strs.EnvValDelAllMark k pv hm
    refine ⟨hstep, ?_, ?_, ?_⟩
    · intro ha; rw [hentry]; exact hw.1 ha
    · intro ha; rw [hentry]; exact hw.2 ha
    · intro hk
      rw [hstep, hk, hentry]
      exact ⟨hw.1, hw.2⟩
  · intro hf hft hr hne hnew he hnd hm
    unfold foldCond at hf
    unfold subRender stepLayer stepArgv at hr hne he hnd hm
    unfold subText stepLayer stepArgv at hnew
    have hx := expandPre_frame lib cc args flow (flow.Cmds.getD idx default) cmd cic st.env
      (stepLayer lib cc st (flow.Cmds.getD idx default) cmd)
      (stepArgv lib cc st (flow.Cmds.getD idx default) cmd) maxDepth indentAdjust metFlows
      (descPre lib cc args (flow.Cmds.getD idx default) cmd cic running maxDepth maxTrivial
        indentAdjust st)
    have hstep : (dumpFlowCmd dumpFlowRec lib cc st flow idx args none running maxDepth
          maxTrivial indentAdjust metFlows).1 =
        subFinish lib args flow idx cic (stepLayer lib cc st (flow.Cmds.getD idx default) cmd)
          (stepArgv lib cc st (flow.Cmds.getD idx default) cmd) maxDepth indentAdjust
          (dumpFlowRec
            (subEntry lib cc args (flow.Cmds.getD idx default) cmd cic
              (stepLayer lib cc st (flow.Cmds.getD idx default) cmd)
              (stepArgv lib cc st (flow.Cmds.getD idx default) cmd) maxDepth indentAdjust
              (expandPre lib cc args flow (flow.Cmds.getD idx default) cmd cic st.env
                (stepLayer lib cc st (flow.Cmds.getD idx default) cmd)
                (stepArgv lib cc st (flow.Cmds.getD idx default) cmd) maxDepth indentAdjust
                metFlows
                (descPre lib cc args (flow.Cmds.getD idx default) cmd cic running maxDepth
                  maxTrivial indentAdjust st)))
            (lib.Parse (subRender lib cc st (flow.Cmds.getD idx default) cmd cic).1) none
            (maxDepth - 1) (maxTrivial - (cmd.trivial + (flow.Cmds.getD idx default).TrivialLvl))
            (indentAdjust + 2)) := by
      rw [dumpFlowCmd_desc dumpFlowRec lib cc st flow idx args running maxDepth maxTrivial
        indentAdjust metFlows cmd cic hcmd hcic]
      simp only [hf, if_false]
      unfold subRender stepLayer stepArgv
      rw [expanded_recurses dumpFlowRec lib cc args flow idx _ cmd cic st.env _ _ maxDepth _
        indentAdjust metFlows _ hft (by rw [hpre.1]; exact hnew) (by rw [hpre.1]; exact hr)
        (by rw [hpre.1]; exact hne) (by rw [hpre.1]; exact he), hpre.1]
    have hentry : (subEntry lib cc args (flow.Cmds.getD idx default) cmd cic
          (stepLayer lib cc st (flow.Cmds.getD idx default) cmd)
          (stepArgv lib cc st (flow.Cmds.getD idx default) cmd) maxDepth indentAdjust
          (expandPre lib cc args flow (flow.Cmds.getD idx default) cmd cic st.env
            (stepLayer lib cc st (flow.Cmds.getD idx default) cmd)
            (stepArgv lib cc st (flow.Cmds.getD idx default) cmd) maxDepth indentAdjust metFlows
            (descPre lib cc args (flow.Cmds.getD idx default) cmd cic running maxDepth
              maxTrivial indentAdjust st))).env =
        (lib.Parse (lib.Flow cic
          (lib.ApplyMappingGenEnvAndArgv (flow.Cmds.getD idx default) st.env
            cc.Cmds.Strs.EnvValDelAllMark cmd.Strs.PathSep).2
          (st.env.Push (lib.ApplyMappingGenEnvAndArgv (flow.Cmds.getD idx default) st.env
            cc.Cmds.Strs.EnvValDelAllMark cmd.Strs.PathSep).1)
          true).1).GlobalEnv.WriteNotArgTo st.env cc.Cmds.Strs.EnvValDelAllMark := by
      unfold subEntry
      simp only [hx.1, hpre.1]
      rfl
    have hw := writeNotArg_entry _ hnd st.env cc.Cmds.Strs.EnvValDelAllMark k pv hm
    refine ⟨hstep, ?_, ?_, ?_⟩
    · intro ha; rw [hentry]; exact hw.1 ha
    · intro ha; rw [hentry]; exact hw.2 ha
    · intro hk hhook
      rw [hstep, subFinish_getEx _ _ _ _ _ _ _ _ _ _ _ hhook, hk, hentry]
      exact ⟨hw.1, hw.2⟩

/-- C5 at a concrete input: the flow `x leaf`, where the sub-flow of `x`
carries the global entry `g` and the argument binding `a`, described with the
default budgets. The description of the sub-flow of `x` starts with `g`
readable, and the environment the whole description leaves, in which the
sibling `leaf` was described, reads `g` and does not read `a`. -/
theorem C5_witness :
    (subEntry exLibG exCli NewDumpFlowArgs ((exParseG ["x", "leaf"]).Cmds.getD 0 default)
        (exFlowNode "x" ["leaf"]) (exCmd CmdTypeFlow ["leaf"])
        (stepLayer exLibG exCli exState ((exParseG ["x", "leaf"]).Cmds.getD 0 default)
          (exFlowNode "x" ["leaf"]))
        (stepArgv exLibG exCli exState ((exParseG ["x", "leaf"]).Cmds.getD 0 default)
          (exFlowNode "x" ["leaf"])) 32 0
        (expandPre exLibG exCli NewDumpFlowArgs (exParseG ["x", "leaf"])
          ((exParseG ["x", "leaf"]).Cmds.getD 0 default) (exFlowNode "x" ["leaf"])
          (exCmd CmdTypeFlow ["leaf"]) exState.env
          (stepLayer exLibG exCli exState ((exParseG ["x", "leaf"]).Cmds.getD 0 default)
            (exFlowNode "x" ["leaf"]))
          (stepArgv exLibG exCli exState ((exParseG ["x", "leaf"]).Cmds.getD 0 default)
            (exFlowNode "x" ["leaf"])) 32 0 []
          (descPre exLibG exCli NewDumpFlowArgs ((exParseG ["x", "leaf"]).Cmds.getD 0 default)
            (exFlowNode "x" ["leaf"]) (exCmd CmdTypeFlow ["leaf"]) false 32 1 0
            exState))).env.GetEx "g" = some "1" ∧
    ((DumpFlow exLibG exCli 3 [exEnv] [] 0 (exParseG ["x", "leaf"]) 0 NewDumpFlowArgs).heap.getD 1
      default).GetEx "g" = some "1" ∧
    ((DumpFlow exLibG exCli 3 [exEnv] [] 0 (exParseG ["x", "leaf"]) 0 NewDumpFlowArgs).heap.getD 1
      default).GetEx "a" = none :=
  ⟨((C5_write_back
      (fun s f e d t i => dumpFlow exLibG exCli NewDumpFlowArgs false 2 s f 0 e d t i)
      exLibG exCli exState (exParseG ["x", "leaf"]) 0 NewDumpFlowArgs false 32 1 0 []
      (exFlowNode "x" ["leaf"]) (exCmd CmdTypeFlow ["leaf"]) (by decide) (by decide) "g"
      ⟨"1", false, []⟩).2.1 (by decide) (by decide) (by decide) (by decide) (by decide)
      (by decide) (by decide) (by decide)).2.1 rfl,
    by decide, by decide⟩

/-! ## Duplicate sub-flows of a scope -/

theorem prtAll_screen_mem (lib : Collab) (args : DumpFlowArgs) (i l : Int) (ms : List String)
    (st : DumpState) (x : String) (h : x ∈ st.screen) : x ∈ (prtAll lib args i st l ms).screen := by
  unfold prtAll
  induction ms generalizing st with
  | nil => exact h
  | cons m ms ih =>
    simp only [List.foldl_cons]
    apply ih
    simp [prt, DumpState.print, h]

/-- The duplicate mark is on the screen after the lines about the sub-flow
text, when the text was met before. -/
theorem flowLines_dup_mark (lib : Collab) (args : DumpFlowArgs) (cic : Cmd) (cmdLayer : EnvLayer)
    (argv : ArgVals) (maxDepth indentAdjust : Int) (metFlows : List String) (st : DumpState)
    (hty : isFlowTy lib cic = true)
    (hm : metFlows.contains (strJoin (lib.RenderedFlowStrs cic argv (st.env.Push cmdLayer) true).1
      " ") = true) :
    dupMark lib args indentAdjust st.env ∈
      (dumpFlowCmdFlowLines lib args cic cmdLayer argv none maxDepth indentAdjust metFlows
        st).1.screen := by
  unfold dumpFlowCmdFlowLines dupMark
  simp only [hty, if_true, execOk, Bool.true_and, hm]
  by_cases hs : args.Skeleton = true
  · simp [hs, prt, DumpState.print]
  · have hs2 : args.Skeleton = false := by simpa using hs
    simp only [hs2, Bool.not_false, if_true]
    apply prtAll_screen_mem
    simp [prt, DumpState.print]

/-- The recursion part of the expanding branch for a duplicate: the callee is
not called and nothing is printed. -/
theorem sub_dup (dumpFlowRec rec2 : RecCall) (lib : Collab) (cc : Cli) (args : DumpFlowArgs)
    (flow : ParsedCmds) (idx : Nat) (parsedCmd : ParsedCmd) (cmd : CmdTree) (cic : Cmd)
    (cmdLayer : EnvLayer) (argv : ArgVals) (maxDepth trivial indentAdjust : Int)
    (st : DumpState) :
    dumpFlowCmdSub dumpFlowRec lib cc args flow idx parsedCmd cmd cic cmdLayer argv none maxDepth
        trivial indentAdjust true st =
      dumpFlowCmdSub rec2 lib cc args flow idx parsedCmd cmd cic cmdLayer argv none maxDepth
        trivial indentAdjust true st ∧
    (dumpFlowCmdSub dumpFlowRec lib cc args flow idx parsedCmd cmd cic cmdLayer argv none maxDepth
        trivial indentAdjust true st).st.screen = st.screen ∧
    (dumpFlowCmdSub dumpFlowRec lib cc args flow idx parsedCmd cmd cic cmdLayer argv none maxDepth
        trivial indentAdjust true st).out = .done true := by
  unfold dumpFlowCmdSub dumpFlowCmdEnd
  simp only [execOk, Bool.and_self, Bool.not_true, Bool.false_eq_true, if_false, ite_self]
  refine ⟨True.intro, ?_, ?_⟩
  · split <;> rfl
  · split <;> rfl

/-- A description step keeps the texts met so far. -/
theorem dumpFlowCmd_met_mono (dumpFlowRec : RecCall) (lib : Collab) (cc : Cli) (st : DumpState)
    (flow : ParsedCmds) (idx : Nat) (args : DumpFlowArgs) (running : Bool)
    (maxDepth maxTrivial indentAdjust : Int) (metFlows : List String) :
    ∀ x ∈ metFlows, x ∈ (dumpFlowCmd dumpFlowRec lib cc st flow idx args none running maxDepth
      maxTrivial indentAdjust metFlows).2 := by
  intro x hx
  cases hcmd : (flow.Cmds.getD idx default).Last.Matched.Cmd with
  | none => unfold dumpFlowCmd; simp only [hcmd]; exact hx
  | some cmd =>
    cases hcic : cmd.cmd with
    | none => unfold dumpFlowCmd; simp only [hcmd, hcic]; exact hx
    | some cic =>
      rw [dumpFlowCmd_desc dumpFlowRec lib cc st flow idx args running maxDepth maxTrivial
        indentAdjust metFlows cmd cic hcmd hcic]
      split
      · exact hx
      · unfold dumpFlowCmdExpanded
        simp only []
        split
        · unfold dumpFlowCmdFlowLines
          simp only []
          split
          · simp only [apply_ite Prod.snd, apply_ite Prod.fst, ite_self]
            repeat' split
            all_goals first
              | exact hx
              | exact List.mem_append_left _ hx
          · split <;> exact hx
        · exact hx

theorem dumpFlowLoop_met_mono (dumpFlowRec : RecCall) (lib : Collab) (cc : Cli)
    (flow : ParsedCmds) (fromCmdIdx : Nat) (args : DumpFlowArgs) (running : Bool)
    (maxDepth maxTrivial indentAdjust : Int) (cmds : List ParsedCmd) :
    ∀ (i : Nat) (st : DumpState) (metFlows : List String), ∀ x ∈ metFlows,
      x ∈ (dumpFlowLoop dumpFlowRec lib cc flow fromCmdIdx args none running maxDepth maxTrivial
        indentAdjust cmds i st metFlows).2 := by
  induction cmds with
  | nil => intro i st metFlows x hx; exact hx
  | cons c rest ih =>
    intro i st metFlows x hx
    unfold dumpFlowLoop
    have h1 := dumpFlowCmd_met_mono dumpFlowRec lib cc st flow (fromCmdIdx + i) args running
      maxDepth maxTrivial indentAdjust metFlows x hx
    split
    · exact ih _ _ _ x hx
    · simp only []
      split
      · exact ih _ _ _ x h1
      · exact h1
      · exact h1

/-- The loop of `dumpFlow` over a list in two parts: the second part starts
where the first one ended, if the first one ended well. -/
theorem dumpFlowLoop_append (dumpFlowRec : RecCall) (lib : Collab) (cc : Cli) (flow : ParsedCmds)
    (fromCmdIdx : Nat) (args : DumpFlowArgs) (running : Bool)
    (maxDepth maxTrivial indentAdjust : Int) (xs ys : List ParsedCmd) :
    ∀ (i : Nat) (st : DumpState) (metFlows : List String),
      dumpFlowLoop dumpFlowRec lib cc flow fromCmdIdx args none running maxDepth maxTrivial
          indentAdjust (xs ++ ys) i st metFlows =
        if (dumpFlowLoop dumpFlowRec lib cc flow fromCmdIdx args none running maxDepth maxTrivial
            indentAdjust xs i st metFlows).1.out = .done true then
          dumpFlowLoop dumpFlowRec lib cc flow fromCmdIdx args none running maxDepth maxTrivial
            indentAdjust ys (i + xs.length)
            (dumpFlowLoop dumpFlowRec lib cc flow fromCmdIdx args none running maxDepth maxTrivial
              indentAdjust xs i st metFlows).1.st
            (dumpFlowLoop dumpFlowRec lib cc flow fromCmdIdx args none running maxDepth maxTrivial
              indentAdjust xs i st metFlows).2
        else
          dumpFlowLoop dumpFlowRec lib cc flow fromCmdIdx args none running maxDepth maxTrivial
            indentAdjust xs i st metFlows := by
  induction xs with
  | nil =>
    intro i st metFlows
    simp [dumpFlowLoop]
  | cons c rest ih =>
    intro i st metFlows
    have hlen : i + (c :: rest).length = i + 1 + rest.length := by
      simp only [List.length_cons]; omega
    rw [List.cons_append, dumpFlowLoop, dumpFlowLoop, hlen]
    split
    · exact ih _ _ _
    · simp only []
      split
      · exact ih _ _ _
      · simp
      · rename_i hother _
        have : ¬ (dumpFlowCmd dumpFlowRec lib cc st flow (fromCmdIdx + i) args none running
            maxDepth maxTrivial indentAdjust metFlows).1.out = .done true := by
          intro h; exact hother h
        simp [this]

theorem dumpFlowLoop_prefix (dumpFlowRec : RecCall) (lib : Collab) (cc : Cli) (flow : ParsedCmds)
    (fromCmdIdx : Nat) (args : DumpFlowArgs) (running : Bool)
    (maxDepth maxTrivial indentAdjust : Int) (xs ys : List ParsedCmd) (i : Nat) (st : DumpState)
    (metFlows : List String)
    (hok : (dumpFlowLoop dumpFlowRec lib cc flow fromCmdIdx args none running maxDepth maxTrivial
      indentAdjust (xs ++ ys) i st metFlows).1.out = .done true) :
    (dumpFlowLoop dumpFlowRec lib cc flow fromCmdIdx args none running maxDepth maxTrivial
      indentAdjust xs i st metFlows).1.out = .done true ∧
    dumpFlowLoop dumpFlowRec lib cc flow fromCmdIdx args none running maxDepth maxTrivial
        indentAdjust (xs ++ ys) i st metFlows =
      dumpFlowLoop dumpFlowRec lib cc flow fromCmdIdx args none running maxDepth maxTrivial
        indentAdjust ys (i + xs.length)
        (dumpFlowLoop dumpFlowRec lib cc flow fromCmdIdx args none running maxDepth maxTrivial
          indentAdjust xs i st metFlows).1.st
        (dumpFlowLoop dumpFlowRec lib cc flow fromCmdIdx args none running maxDepth maxTrivial
          indentAdjust xs i st metFlows).2 := by
  rw [dumpFlowLoop_append] at hok ⊢
  by_cases h : (dumpFlowLoop dumpFlowRec lib cc flow fromCmdIdx args none running maxDepth
      maxTrivial indentAdjust xs i st metFlows).1.out = .done true
  · simp only [h, if_true]
    exact ⟨True.intro, True.intro⟩
  · simp only [h, if_false] at hok

/-- The loop over one command that is not empty is the step of the command. -/
theorem dumpFlowLoop_single (dumpFlowRec : RecCall) (lib : Collab) (cc : Cli) (flow : ParsedCmds)
    (fromCmdIdx : Nat) (args : DumpFlowArgs) (running : Bool)
    (maxDepth maxTrivial indentAdjust : Int) (c : ParsedCmd) (i : Nat) (st : DumpState)
    (metFlows : List String) (hc : c.IsEmpty = false) :
    (dumpFlowLoop dumpFlowRec lib cc flow fromCmdIdx args none running maxDepth maxTrivial
        indentAdjust [c] i st metFlows).2 =
      (dumpFlowCmd dumpFlowRec lib cc st flow (fromCmdIdx + i) args none running maxDepth
        maxTrivial indentAdjust metFlows).2 := by
  rw [dumpFlowLoop]
  simp only [hc, Bool.false_eq_true, if_false]
  split <;> rfl

theorem isEmpty_of_cmd (pc : ParsedCmd) (cmd : CmdTree) (h : pc.Last.Matched.Cmd = some cmd) :
    pc.IsEmpty = false := by
  unfold ParsedCmd.IsEmpty
  unfold ParsedCmd.Last at h
  cases hs : pc.Segments with
  | nil => rw [hs] at h; simp at h
  | cons a as => rfl

/-- The text of a visible flow step is among the texts met after the step. -/
theorem dumpFlowCmd_met_text (dumpFlowRec : RecCall) (lib : Collab) (cc : Cli) (st : DumpState)
    (flow : ParsedCmds) (idx : Nat) (args : DumpFlowArgs) (running : Bool)
    (maxDepth maxTrivial indentAdjust : Int) (metFlows : List String) (cmd : CmdTree) (cic : Cmd)
    (hcmd : (flow.Cmds.getD idx default).Last.Matched.Cmd = some cmd) (hcic : cmd.cmd = some cic)
    (hvis : ¬ foldCond maxDepth maxTrivial (flow.Cmds.getD idx default) cmd)
    (hft : hasFlowText lib cic = true) :
    (dumpFlowCmd dumpFlowRec lib cc st flow idx args none running maxDepth maxTrivial indentAdjust
        metFlows).2 =
      (if metFlows.contains (subText lib cc st (flow.Cmds.getD idx default) cmd cic) then metFlows
        else metFlows ++ [subText lib cc st (flow.Cmds.getD idx default) cmd cic]) ∧
    subText lib cc st (flow.Cmds.getD idx default) cmd cic ∈
      (dumpFlowCmd dumpFlowRec lib cc st flow idx args none running maxDepth maxTrivial
        indentAdjust metFlows).2 := by
  unfold foldCond at hvis
  have hpre := descPre_frame lib cc args (flow.Cmds.getD idx default) cmd cic running maxDepth
    maxTrivial indentAdjust st
  have h1 : (dumpFlowCmd dumpFlowRec lib cc st flow idx args none running maxDepth maxTrivial
        indentAdjust metFlows).2 =
      (if metFlows.contains (subText lib cc st (flow.Cmds.getD idx default) cmd cic) then metFlows
        else metFlows ++ [subText lib cc st (flow.Cmds.getD idx default) cmd cic]) := by
    rw [dumpFlowCmd_desc dumpFlowRec lib cc st flow idx args running maxDepth maxTrivial
      indentAdjust metFlows cmd cic hcmd hcic]
    simp only [hvis, if_false]
    rw [expanded_flow dumpFlowRec lib cc args flow idx (flow.Cmds.getD idx default) cmd cic
      st.env _ _ maxDepth _ indentAdjust metFlows _ hft]
    simp only [hpre.1]
    rfl
  refine ⟨h1, ?_⟩
  rw [h1]
  by_cases hc : metFlows.contains (subText lib cc st (flow.Cmds.getD idx default) cmd cic) = true
  · simp only [hc, if_true]
    simpa using hc
  · simp only [hc, if_false]
    simp

/-- In a scope that reaches the sibling at position `k`, the description
reached every earlier sibling, and the texts met when the sibling at `j < k`
had been described are still met at `k`. -/
theorem scope_step (dumpFlowRec : RecCall) (lib : Collab) (cc : Cli) (flow : ParsedCmds)
    (fromCmdIdx : Nat) (args : DumpFlowArgs) (running : Bool)
    (maxDepth maxTrivial indentAdjust : Int) (st : DumpState) (j k : Nat) (hjk : j < k)
    (hk : fromCmdIdx + k < flow.Cmds.length) (cmd : CmdTree)
    (hcmd : (flow.Cmds.getD (fromCmdIdx + j) default).Last.Matched.Cmd = some cmd)
    (hok : (scopeUpTo dumpFlowRec lib cc flow fromCmdIdx args running maxDepth maxTrivial
      indentAdjust st k).1.out = .done true) :
    ∀ x ∈ (dumpFlowCmd dumpFlowRec lib cc
        (scopeUpTo dumpFlowRec lib cc flow fromCmdIdx args running maxDepth maxTrivial
          indentAdjust st j).1.st flow (fromCmdIdx + j) args none running maxDepth maxTrivial
        indentAdjust
        (scopeUpTo dumpFlowRec lib cc flow fromCmdIdx args running maxDepth maxTrivial
          indentAdjust st j).2).2,
      x ∈ (scopeUpTo dumpFlowRec lib cc flow fromCmdIdx args running maxDepth maxTrivial
        indentAdjust st k).2 := by
  unfold scopeUpTo at hok ⊢
  have hlen : j < (flow.Cmds.drop fromCmdIdx).length := by
    simp only [List.length_drop]; omega
  have hsplit : (flow.Cmds.drop fromCmdIdx).take k =
      ((flow.Cmds.drop fromCmdIdx).take j ++ [flow.Cmds.getD (fromCmdIdx + j) default]) ++
        ((flow.Cmds.drop fromCmdIdx).take k).drop (j + 1) := by
    have h1 : ((flow.Cmds.drop fromCmdIdx).take k).take (j + 1) =
        (flow.Cmds.drop fromCmdIdx).take (j + 1) := by
      rw [List.take_take]
      congr 1
      omega
    have h2 : (flow.Cmds.drop fromCmdIdx).take (j + 1) =
        (flow.Cmds.drop fromCmdIdx).take j ++ [flow.Cmds.getD (fromCmdIdx + j) default] := by
      rw [List.take_succ]
      congr 1
      have h3 : (flow.Cmds.drop fromCmdIdx)[j]? = some (flow.Cmds.getD (fromCmdIdx + j) default) := by
        rw [List.getElem?_drop, List.getD_eq_getElem?_getD]
        have h4 : fromCmdIdx + j < flow.Cmds.length := by omega
        rw [List.getElem?_eq_getElem h4]
        rfl
      rw [h3]
      rfl
    rw [← h2, ← h1, List.take_append_drop]
  rw [hsplit] at hok ⊢
  obtain ⟨hok1, heq1⟩ := dumpFlowLoop_prefix _ _ _ _ _ _ _ _ _ _ _ _ _ _ _ hok
  rw [heq1]
  obtain ⟨hok2, heq2⟩ := dumpFlowLoop_prefix _ _ _ _ _ _ _ _ _ _ _ _ _ _ _ hok1
  intro x hx
  apply dumpFlowLoop_met_mono
  rw [heq2, dumpFlowLoop_single _ _ _ _ _ _ _ _ _ _ _ _ _ _ (isEmpty_of_cmd _ cmd hcmd)]
  have hl : (List.take j (List.drop fromCmdIdx flow.Cmds)).length = j := by
    rw [List.length_take]
    omega
  rw [hl, Nat.zero_add]
  exact hx

/-- A visible flow step whose sub-flow text was met before in the scope: the
step keeps `metFlows`, prints the duplicate mark, succeeds, and does not call
the recursion. -/
theorem dumpFlowCmd_duplicate (dumpFlowRec : RecCall) (lib : Collab) (cc : Cli) (st : DumpState)
    (flow : ParsedCmds) (idx : Nat) (args : DumpFlowArgs) (running : Bool)
    (maxDepth maxTrivial indentAdjust : Int) (metFlows : List String) (cmd : CmdTree) (cic : Cmd)
    (hcmd : (flow.Cmds.getD idx default).Last.Matched.Cmd = some cmd) (hcic : cmd.cmd = some cic)
    (hvis : ¬ foldCond maxDepth maxTrivial (flow.Cmds.getD idx default) cmd)
    (hft : hasFlowText lib cic = true)
    (hmet : subText lib cc st (flow.Cmds.getD idx default) cmd cic ∈ metFlows) :
    (dumpFlowCmd dumpFlowRec lib cc st flow idx args none running maxDepth maxTrivial indentAdjust
      metFlows).2 = metFlows ∧
    dupMark lib args indentAdjust st.env ∈
      (dumpFlowCmd dumpFlowRec lib cc st flow idx args none running maxDepth maxTrivial
        indentAdjust metFlows).1.st.screen ∧
    (dumpFlowCmd dumpFlowRec lib cc st flow idx args none running maxDepth maxTrivial indentAdjust
      metFlows).1.out = .done true ∧
    ∀ rec2 : RecCall,
      dumpFlowCmd rec2 lib cc st flow idx args none running maxDepth maxTrivial indentAdjust
          metFlows =
        dumpFlowCmd dumpFlowRec lib cc st flow idx args none running maxDepth maxTrivial
          indentAdjust metFlows := by
  unfold foldCond at hvis
  have hpre := descPre_frame lib cc args (flow.Cmds.getD idx default) cmd cic running maxDepth
    maxTrivial indentAdjust st
  have hty : isFlowTy lib cic = true := by
    unfold hasFlowText at hft
    simp only [Bool.and_eq_true] at hft
    exact hft.2
  have hc : metFlows.contains (strJoin (lib.RenderedFlowStrs cic
      (lib.ApplyMappingGenEnvAndArgv (flow.Cmds.getD idx default) st.env
        cc.Cmds.Strs.EnvValDelAllMark cmd.Strs.PathSep).2
      ((descPre lib cc args (flow.Cmds.getD idx default) cmd cic running maxDepth maxTrivial
        indentAdjust st).env.Push
        (lib.ApplyMappingGenEnvAndArgv (flow.Cmds.getD idx default) st.env
          cc.Cmds.Strs.EnvValDelAllMark cmd.Strs.PathSep).1) true).1 " ") = true := by
    rw [hpre.1]
    unfold subText stepLayer stepArgv at hmet
    simpa using hmet
  have hstep : ∀ r : RecCall,
      dumpFlowCmd r lib cc st flow idx args none running maxDepth maxTrivial indentAdjust
          metFlows =
        (dumpFlowCmdSub r lib cc args flow idx (flow.Cmds.getD idx default) cmd cic
          (lib.ApplyMappingGenEnvAndArgv (flow.Cmds.getD idx default) st.env
            cc.Cmds.Strs.EnvValDelAllMark cmd.Strs.PathSep).1
          (lib.ApplyMappingGenEnvAndArgv (flow.Cmds.getD idx default) st.env
            cc.Cmds.Strs.EnvValDelAllMark cmd.Strs.PathSep).2 none maxDepth
          (maxTrivial - (cmd.trivial + (flow.Cmds.getD idx default).TrivialLvl)) indentAdjust true
          (expandPre lib cc args flow (flow.Cmds.getD idx default) cmd cic st.env
            (lib.ApplyMappingGenEnvAndArgv (flow.Cmds.getD idx default) st.env
              cc.Cmds.Strs.EnvValDelAllMark cmd.Strs.PathSep).1
            (lib.ApplyMappingGenEnvAndArgv (flow.Cmds.getD idx default) st.env
              cc.Cmds.Strs.EnvValDelAllMark cmd.Strs.PathSep).2 maxDepth indentAdjust metFlows
            (descPre lib cc args (flow.Cmds.getD idx default) cmd cic running maxDepth maxTrivial
              indentAdjust st)), metFlows) := by
    intro r
    rw [dumpFlowCmd_desc r lib cc st flow idx args running maxDepth maxTrivial
      indentAdjust metFlows cmd cic hcmd hcic]
    simp only [hvis, if_false]
    rw [expanded_flow r lib cc args flow idx (flow.Cmds.getD idx default) cmd cic
      st.env _ _ maxDepth _ indentAdjust metFlows _ hft, hc]
    simp only [if_true]
  have hd := sub_dup dumpFlowRec dumpFlowRec lib cc args flow idx (flow.Cmds.getD idx default) cmd
    cic (lib.ApplyMappingGenEnvAndArgv (flow.Cmds.getD idx default) st.env
      cc.Cmds.Strs.EnvValDelAllMark cmd.Strs.PathSep).1
    (lib.ApplyMappingGenEnvAndArgv (flow.Cmds.getD idx default) st.env
      cc.Cmds.Strs.EnvValDelAllMark cmd.Strs.PathSep).2 maxDepth
    (maxTrivial - (cmd.trivial + (flow.Cmds.getD idx default).TrivialLvl)) indentAdjust
    (expandPre lib cc args flow (flow.Cmds.getD idx default) cmd cic st.env
      (lib.ApplyMappingGenEnvAndArgv (flow.Cmds.getD idx default) st.env
        cc.Cmds.Strs.EnvValDelAllMark cmd.Strs.PathSep).1
      (lib.ApplyMappingGenEnvAndArgv (flow.Cmds.getD idx default) st.env
        cc.Cmds.Strs.EnvValDelAllMark cmd.Strs.PathSep).2 maxDepth indentAdjust metFlows
      (descPre lib cc args (flow.Cmds.getD idx default) cmd cic running maxDepth maxTrivial
        indentAdjust st))
  refine ⟨by rw [hstep], ?_, by rw [hstep]; exact hd.2.2, ?_⟩
  · rw [hstep]
    simp only []
    rw [hd.2.1]
    unfold expandPre
    have hb := body_frame lib cc args flow (flow.Cmds.getD idx default) cmd cic st.env
      (lib.ApplyMappingGenEnvAndArgv (flow.Cmds.getD idx default) st.env
        cc.Cmds.Strs.EnvValDelAllMark cmd.Strs.PathSep).1
      (lib.ApplyMappingGenEnvAndArgv (flow.Cmds.getD idx default) st.env
        cc.Cmds.Strs.EnvValDelAllMark cmd.Strs.PathSep).2 indentAdjust
      (descPre lib cc args (flow.Cmds.getD idx default) cmd cic running maxDepth maxTrivial
        indentAdjust st)
    have hm := flowLines_dup_mark lib args cic
      (lib.ApplyMappingGenEnvAndArgv (flow.Cmds.getD idx default) st.env
        cc.Cmds.Strs.EnvValDelAllMark cmd.Strs.PathSep).1
      (lib.ApplyMappingGenEnvAndArgv (flow.Cmds.getD idx default) st.env
        cc.Cmds.Strs.EnvValDelAllMark cmd.Strs.PathSep).2 maxDepth indentAdjust metFlows
      (dumpFlowCmdBody lib cc args flow (flow.Cmds.getD idx default) cmd cic st.env
        (lib.ApplyMappingGenEnvAndArgv (flow.Cmds.getD idx default) st.env
          cc.Cmds.Strs.EnvValDelAllMark cmd.Strs.PathSep).1
        (lib.ApplyMappingGenEnvAndArgv (flow.Cmds.getD idx default) st.env
          cc.Cmds.Strs.EnvValDelAllMark cmd.Strs.PathSep).2 indentAdjust
        (descPre lib cc args (flow.Cmds.getD idx default) cmd cic running maxDepth maxTrivial
          indentAdjust st)) hty (by rw [hb.1]; exact hc)
    rw [hb.1, hpre.1] at hm
    exact hm
  · intro rec2
    rw [hstep, hstep, (sub_dup rec2 dumpFlowRec lib cc args flow idx _ cmd cic _ _ maxDepth _
      indentAdjust _).1]

/-- C4: in one scope of `dumpFlow` (a description pass, started with an empty
`metFlows`), for two visible flow steps with text at the positions `j < k`
whose sub-flow texts are the same, the scope reaching the position `k`. The
step at `k` is a duplicate: it leaves `metFlows` as it is, prints the
duplicate mark, succeeds, and does not call the recursion, whatever the callee
is. The step at `j`, when its text was not met before in the scope and its
sub-flow renders to a non-empty token list that parses without error, adds the
text to `metFlows` and is the recursion into the sub-flow. And every call of
`dumpFlow` runs its loop from an empty `metFlows`. -/
theorem C4_duplicate_siblings (dumpFlowRec : RecCall) (lib : Collab) (cc : Cli)
    (flow : ParsedCmds) (fromCmdIdx : Nat) (args : DumpFlowArgs) (running : Bool)
    (maxDepth maxTrivial indentAdjust : Int) (st : DumpState) (j k : Nat)
    (cmdj cmdk : CmdTree) (cicj cick : Cmd) (Lj Lk : Run × List String)
    (hjk : j < k) (hk : fromCmdIdx + k < flow.Cmds.length)
    (hLj : Lj = scopeUpTo dumpFlowRec lib cc flow fromCmdIdx args running maxDepth maxTrivial
      indentAdjust st j)
    (hLk : Lk = scopeUpTo dumpFlowRec lib cc flow fromCmdIdx args running maxDepth maxTrivial
      indentAdjust st k)
    (hok : Lk.1.out = .done true)
    (hcmdj : (flow.Cmds.getD (fromCmdIdx + j) default).Last.Matched.Cmd = some cmdj)
    (hcicj : cmdj.cmd = some cicj)
    (hcmdk : (flow.Cmds.getD (fromCmdIdx + k) default).Last.Matched.Cmd = some cmdk)
    (hcick : cmdk.cmd = some cick)
    (hvisj : ¬ foldCond maxDepth maxTrivial (flow.Cmds.getD (fromCmdIdx + j) default) cmdj)
    (hftj : hasFlowText lib cicj = true)
    (hvisk : ¬ foldCond maxDepth maxTrivial (flow.Cmds.getD (fromCmdIdx + k) default) cmdk)
    (hftk : hasFlowText lib cick = true)
    (hsame : subText lib cc Lj.1.st (flow.Cmds.getD (fromCmdIdx + j) default) cmdj cicj =
      subText lib cc Lk.1.st (flow.Cmds.getD (fromCmdIdx + k) default) cmdk cick) :
    ((dumpFlowCmd dumpFlowRec lib cc Lk.1.st flow (fromCmdIdx + k) args none running maxDepth
        maxTrivial indentAdjust Lk.2).2 = Lk.2 ∧
      dupMark lib args indentAdjust Lk.1.st.env ∈
        (dumpFlowCmd dumpFlowRec lib cc Lk.1.st flow (fromCmdIdx + k) args none running maxDepth
          maxTrivial indentAdjust Lk.2).1.st.screen ∧
      (dumpFlowCmd dumpFlowRec lib cc Lk.1.st flow (fromCmdIdx + k) args none running maxDepth
        maxTrivial indentAdjust Lk.2).1.out = .done true ∧
      ∀ rec2 : RecCall,
        dumpFlowCmd rec2 lib cc Lk.1.st flow (fromCmdIdx + k) args none running maxDepth
            maxTrivial indentAdjust Lk.2 =
          dumpFlowCmd dumpFlowRec lib cc Lk.1.st flow (fromCmdIdx + k) args none running maxDepth
            maxTrivial indentAdjust Lk.2) ∧
    (Lj.2.contains (subText lib cc Lj.1.st (flow.Cmds.getD (fromCmdIdx + j) default) cmdj cicj) =
        false →
      (subRender lib cc Lj.1.st (flow.Cmds.getD (fromCmdIdx + j) default) cmdj cicj).2 = true →
      (subRender lib cc Lj.1.st (flow.Cmds.getD (fromCmdIdx + j) default) cmdj cicj).1 ≠ [] →
      (lib.Parse (subRender lib cc Lj.1.st (flow.Cmds.getD (fromCmdIdx + j) default) cmdj
        cicj).1).FirstErr = none →
      dumpFlowCmd dumpFlowRec lib cc Lj.1.st flow (fromCmdIdx + j) args none running maxDepth
          maxTrivial indentAdjust Lj.2 =
        (subFinish lib args flow (fromCmdIdx + j) cicj
          (stepLayer lib cc Lj.1.st (flow.Cmds.getD (fromCmdIdx + j) default) cmdj)
          (stepArgv lib cc Lj.1.st (flow.Cmds.getD (fromCmdIdx + j) default) cmdj) maxDepth
          indentAdjust
          (dumpFlowRec
            (subEntry lib cc args (flow.Cmds.getD (fromCmdIdx + j) default) cmdj cicj
              (stepLayer lib cc Lj.1.st (flow.Cmds.getD (fromCmdIdx + j) default) cmdj)
              (stepArgv lib cc Lj.1.st (flow.Cmds.getD (fromCmdIdx + j) default) cmdj) maxDepth
              indentAdjust
              (expandPre lib cc args flow (flow.Cmds.getD (fromCmdIdx + j) default) cmdj cicj
                Lj.1.st.env
                (stepLayer lib cc Lj.1.st (flow.Cmds.getD (fromCmdIdx + j) default) cmdj)
                (stepArgv lib cc Lj.1.st (flow.Cmds.getD (fromCmdIdx + j) default) cmdj) maxDepth
                indentAdjust Lj.2
                (descPre lib cc args (flow.Cmds.getD (fromCmdIdx + j) default) cmdj cicj running
                  maxDepth maxTrivial indentAdjust Lj.1.st)))
            (lib.Parse (subRender lib cc Lj.1.st (flow.Cmds.getD (fromCmdIdx + j) default) cmdj
              cicj).1) none (maxDepth - 1)
            (maxTrivial - (cmdj.trivial + (flow.Cmds.getD (fromCmdIdx + j) default).TrivialLvl))
            (indentAdjust + 2)),
          Lj.2 ++ [subText lib cc Lj.1.st (flow.Cmds.getD (fromCmdIdx + j) default) cmdj cicj])) ∧
    (∀ (fuel : Nat) (s : DumpState) (f : ParsedCmds) (from0 : Nat) (e : Option ExecutedFlow)
        (d0 t0 i0 : Int),
      dumpFlow lib cc args running (fuel + 1) s f from0 e d0 t0 i0 =
        (dumpFlowLoop
          (fun st2 flow2 ef2 d2 t2 i2 =>
            dumpFlow lib cc args running fuel st2 flow2 0 ef2 d2 t2 i2)
          lib cc f from0 args e running d0 t0 i0 (f.Cmds.drop from0) 0 s []).1) := by
  refine ⟨?_, ?_, fun fuel s f from0 e d0 t0 i0 => rfl⟩
  · apply dumpFlowCmd_duplicate dumpFlowRec lib cc Lk.1.st flow (fromCmdIdx + k) args running
      maxDepth maxTrivial indentAdjust Lk.2 cmdk cick hcmdk hcick hvisk hftk
    rw [← hsame, hLk]
    apply scope_step dumpFlowRec lib cc flow fromCmdIdx args running maxDepth maxTrivial
      indentAdjust st j k hjk hk cmdj hcmdj (by rw [← hLk]; exact hok)
    rw [← hLj]
    exact (dumpFlowCmd_met_text dumpFlowRec lib cc Lj.1.st flow (fromCmdIdx + j) args running
      maxDepth maxTrivial indentAdjust Lj.2 cmdj cicj hcmdj hcicj hvisj hftj).2
  · intro hnew hr hne he
    unfold foldCond at hvisj
    unfold subRender stepLayer stepArgv at hr hne he
    unfold subText stepLayer stepArgv at hnew
    have hpre := descPre_frame lib cc args (flow.Cmds.getD (fromCmdIdx + j) default) cmdj cicj
      running maxDepth maxTrivial indentAdjust Lj.1.st
    rw [dumpFlowCmd_desc dumpFlowRec lib cc Lj.1.st flow (fromCmdIdx + j) args running maxDepth
      maxTrivial indentAdjust Lj.2 cmdj cicj hcmdj hcicj]
    simp only [hvisj, if_false]
    unfold subRender subText stepLayer stepArgv
    rw [expanded_recurses dumpFlowRec lib cc args flow (fromCmdIdx + j) _ cmdj cicj Lj.1.st.env _ _
      maxDepth _ indentAdjust Lj.2 _ hftj (by rw [hpre.1]; exact hnew) (by rw [hpre.1]; exact hr)
      (by rw [hpre.1]; exact hne) (by rw [hpre.1]; exact he), hpre.1]

/-- C4 at a concrete input: the flow `x y` of two flow commands with the
sub-flow text `leaf`, described with the default budgets by the real
recursion: the step `y` leaves `metFlows` as it is and prints the duplicate
mark. -/
theorem C4_witness :
    (dumpFlowCmd
        (fun s f e d t i => dumpFlow (exLib dupTable) exCli NewDumpFlowArgs false 2 s f 0 e d t i)
        (exLib dupTable) exCli
        (scopeUpTo
          (fun s f e d t i =>
            dumpFlow (exLib dupTable) exCli NewDumpFlowArgs false 2 s f 0 e d t i)
          (exLib dupTable) exCli (exParse dupTable ["x", "y"]) 0 NewDumpFlowArgs false 32 1 0
          exState 1).1.st (exParse dupTable ["x", "y"]) (0 + 1) NewDumpFlowArgs none false 32 1 0
        (scopeUpTo
          (fun s f e d t i =>
            dumpFlow (exLib dupTable) exCli NewDumpFlowArgs false 2 s f 0 e d t i)
          (exLib dupTable) exCli (exParse dupTable ["x", "y"]) 0 NewDumpFlowArgs false 32 1 0
          exState 1).2).2 =
      (scopeUpTo
        (fun s f e d t i => dumpFlow (exLib dupTable) exCli NewDumpFlowArgs false 2 s f 0 e d t i)
        (exLib dupTable) exCli (exParse dupTable ["x", "y"]) 0 NewDumpFlowArgs false 32 1 0
        exState 1).2 ∧
    (scopeUpTo
        (fun s f e d t i => dumpFlow (exLib dupTable) exCli NewDumpFlowArgs false 2 s f 0 e d t i)
        (exLib dupTable) exCli (exParse dupTable ["x", "y"]) 0 NewDumpFlowArgs false 32 1 0
        exState 1).2 = ["leaf"] :=
  ⟨(C4_duplicate_siblings
      (fun s f e d t i => dumpFlow (exLib dupTable) exCli NewDumpFlowArgs false 2 s f 0 e d t i)
      (exLib dupTable) exCli (exParse dupTable ["x", "y"]) 0 NewDumpFlowArgs false 32 1 0 exState
      0 1 (exFlowNode "x" ["leaf"]) (exFlowNode "y" ["leaf"]) (exCmd CmdTypeFlow ["leaf"])
      (exCmd CmdTypeFlow ["leaf"]) _ _ (by decide) (by decide) rfl rfl (by decide) (by decide)
      (by decide) (by decide) (by decide) (by decide) (by decide) (by decide) (by decide)
      (by decide)).1.1,
    by decide⟩

/-! ## The session directory and the name of the session file -/

theorem getRaw_of_missing (env : Env) (k : String)
    (h : ∀ v, env.GetEx k = some v → v = "") : env.GetRaw k = "" := by
  unfold Env.GetRaw
  cases hg : env.GetEx k with
  | none => rfl
  | some v => simp only [Option.getD_some]; exact h v hg

theorem missingDepend_none (sys : Sys) (deps : List Depend)
    (h : ∀ dep ∈ deps, sys.LookPath dep.OsCmd = none) : missingDepend sys deps = none := by
  induction deps with
  | nil => rfl
  | cons d ds ih =>
    simp only [missingDepend, h d (List.mem_cons_self _ _)]
    exact ih fun dep hd => h dep (List.mem_cons_of_mem _ hd)

/-- C21: for a command with a file path whose dependencies are all found, in an
environment where the key `session` or the key `strs.session-env-file` is
missing or empty (no layer holds it, or the merged read is the empty string),
`executeFile` ends with a panic and `saveEnvToSessionFile` ends with a panic;
both leave the files as they are and `executeFile` leaves the record of the
spawned processes as it is: the world and the environment are returned
unchanged. -/
theorem C21_session_keys_required (sys : Sys) (self : Cmd) (owner : CmdTree) (argv : ArgVals)
    (cc : Cli) (env : Env) (w : World) (ft : Faults) (parsedCmd : ParsedCmd)
    (hline : self.cmdLine.length ≠ 0)
    (hdeps : ∀ dep ∈ self.depends, sys.LookPath dep.OsCmd = none)
    (hmiss : (∀ v, env.GetEx "session" = some v → v = "") ∨
      (∀ v, env.GetEx "strs.session-env-file" = some v → v = "")) :
    (∃ p, executeFile sys self owner argv cc env w ft = (w, env, .error p)) ∧
    (∃ p, saveEnvToSessionFile sys cc env parsedCmd w.fs ft = (w.fs, .error p)) := by
  have hl : (self.cmdLine.length == 0) = false := by simpa using hline
  have hraw : (env.GetRaw "session").length = 0 ∨
      (env.GetRaw "strs.session-env-file").length = 0 := by
    rcases hmiss with h | h
    · left; rw [getRaw_of_missing env _ h]; rfl
    · right; rw [getRaw_of_missing env _ h]; rfl
  constructor
  · simp only [executeFile, hl, missingDepend_none sys self.depends hdeps]
    cases hr : resolveRunner env self.cmdLine with
    | error p => exact ⟨p, rfl⟩
    | ok ba =>
      by_cases h1 : (env.GetRaw "session").length = 0
      · simp only [h1, beq_self_eq_true, if_true, Bool.false_eq_true, if_false]
        exact ⟨_, rfl⟩
      · have h2 : (env.GetRaw "strs.session-env-file").length = 0 := by
          rcases hraw with h | h
          · exact absurd h h1
          · exact h
        have h1b : ((env.GetRaw "session").length == 0) = false := by simpa using h1
        simp only [h1b, h2, beq_self_eq_true, if_true, Bool.false_eq_true, if_false]
        exact ⟨_, rfl⟩
  · by_cases h1 : (env.GetRaw "session").length = 0
    · simp only [saveEnvToSessionFile, h1, beq_self_eq_true, if_true]
      exact ⟨_, rfl⟩
    · have h2 : (env.GetRaw "strs.session-env-file").length = 0 := by
        rcases hraw with h | h
        · exact absurd h h1
        · exact h
      have h1b : ((env.GetRaw "session").length == 0) = false := by simpa using h1
      simp only [saveEnvToSessionFile, h1b, h2, beq_self_eq_true, if_true, Bool.false_eq_true,
        if_false]
      exact ⟨_, rfl⟩

/-- C21 at a concrete input: the file `/x/run.sh` with the dependency `bash`
in an environment that holds neither key. -/
theorem C21_witness :
    (∃ p, executeFile exSys (exFileCmd "/x/run.sh" [⟨"bash", "the shell"⟩]) (exNormalNode "run")
        [] exCli exSaved exWorld noFaults = (exWorld, exSaved, .error p)) ∧
    (∃ p, saveEnvToSessionFile exSys exCli exSaved (exInvoke (exNormalNode "run")) exWorld.fs
        noFaults = (exWorld.fs, .error p)) :=
  C21_session_keys_required exSys (exFileCmd "/x/run.sh" [⟨"bash", "the shell"⟩])
    (exNormalNode "run") [] exCli exSaved exWorld noFaults (exInvoke (exNormalNode "run"))
    (by decide) (by decide)
    (Or.inl fun v h => absurd h (by
      rw [show exSaved.GetEx "session" = none from by decide]; exact fun h2 => nomatch h2))

/-! ## The error value of a configuration error -/

theorem resolveRunner_error (env : Env) (cmdLine : String) (p : PanicValue)
    (h : resolveRunner env cmdLine = .error p) : p.isCmdError = false := by
  unfold resolveRunner at h
  simp only at h
  split at h
  · split at h
    · exact absurd h (by simp)
    · split at h
      · cases h; rfl
      · exact absurd h (by simp)
  · exact absurd h (by simp)

theorem executeFile_error (sys : Sys) (self : Cmd) (owner : CmdTree) (argv : ArgVals) (cc : Cli)
    (env : Env) (w : World) (ft : Faults) (p : PanicValue)
    (h : (executeFile sys self owner argv cc env w ft).2.2 = .error p) :
    p.isCmdError = false := by
  unfold executeFile at h
  simp only at h
  split at h
  · exact absurd h (by simp)
  · split at h
    · cases h; rfl
    · split at h
      · rename_i q hq
        cases h
        exact resolveRunner_error _ _ _ hq
      · split at h
        · cases h; rfl
        · split at h
          · cases h; rfl
          · split at h
            · cases h; rfl
            · split at h
              · exact absurd h (by simp)
              · split at h
                · cases h; rfl
                · exact absurd h (by simp)

theorem cmdFlow_error (sys : Sys) (self : Cmd) (p : PanicValue)
    (h : self.Flow sys = .error p) : p.isCmdError = false := by
  unfold Cmd.Flow at h
  split at h
  · cases h; rfl
  · exact absurd h (by simp)

/-- C22, the code at the failing inputs. A file command executed in an
environment without the key `session`, and in one with the session directory
and without the key `strs.session-env-file`, panics with a plain error value
made by `fmt.Errorf`, not with a `*CmdError`; so does a command whose type is
none of the six. The helper `saveEnvToSessionFile` makes the same two checks
with the same messages and panics with a `*CmdError` that carries the command.
And on every input, a panic that `Cmd.Execute` raises itself (the callbacks
being taken as returning) is never a `*CmdError`. -/
theorem C22_untagged_configuration_error :
    Cmd.Execute exSys (exFileCmd "/x/run.sh" []) (exNormalNode "run") [] exCli exSaved
        (exParse [exNormalNode "run"] ["run"]) 0 exWorld noFaults =
      (exWorld, exSaved, .panic (.plain "[Cmd.executeFile] session dir not found in env")) ∧
    Cmd.Execute exSys (exFileCmd "/x/run.sh" []) (exNormalNode "run") [] exCli exNoFileName
        (exParse [exNormalNode "run"] ["run"]) 0 exWorld noFaults =
      (exWorld, exNoFileName,
        .panic (.plain "[Cmd.executeFile] session env file name not found in env")) ∧
    Cmd.Execute exSys (exCmd "weird" []) (exNormalNode "run") [] exCli (exRunEnv [])
        (exParse [exNormalNode "run"] ["run"]) 0 exWorld noFaults =
      (exWorld, exRunEnv [],
        .panic (.plain "[Cmd.Execute] unknown cmd executable type: weird")) ∧
    saveEnvToSessionFile exSys exCli exSaved (exInvoke (exNormalNode "run")) [] noFaults =
      ([], .error (.cmdError (exInvoke (exNormalNode "run"))
        "[Cmd.executeFile] session dir not found in env")) ∧
    saveEnvToSessionFile exSys exCli exNoFileName (exInvoke (exNormalNode "run")) [] noFaults =
      ([], .error (.cmdError (exInvoke (exNormalNode "run"))
        "[Cmd.executeFile] session env file name not found in env")) ∧
    ∀ (sys : Sys) (self : Cmd) (owner : CmdTree) (argv : ArgVals) (cc : Cli) (env : Env)
      (flow : ParsedCmds) (currCmdIdx : Nat) (w : World) (ft : Faults) (p : PanicValue),
      (Cmd.Execute sys self owner argv cc env flow currCmdIdx w ft).2.2 = .panic p →
      p.isCmdError = false := by
  refine ⟨by decide, by decide, by decide, rfl, rfl, ?_⟩
  intro sys self owner argv cc env flow currCmdIdx w ft p h
  unfold Cmd.Execute at h
  simp only at h
  split at h
  · exact absurd h (by simp)
  · split at h
    · split at h
      · cases h; rfl
      · exact absurd h (by simp)
    · split at h
      · split at h
        · exact absurd h (by simp)
        · rename_i q hq
          cases h
          exact executeFile_error _ _ _ _ _ _ _ _ _ hq
      · split at h
        · exact absurd h (by simp)
        · split at h
          · split at h
            · rename_i q hq
              cases h
              exact cmdFlow_error _ _ _ hq
            · exact absurd h (by simp)
          · cases h; rfl

/-! ## Saving a flow -/

theorem put_text (t s : String) : (⟨t, none, 0⟩ : Writer).put s = ⟨t ++ s, none, 0⟩ := rfl

theorem foldl_put_marks (n : Nat) (mark t : String) :
    (List.replicate n mark).foldl Writer.put ⟨t, none, 0⟩ = ⟨t ++ marks n mark, none, 0⟩ := by
  induction n generalizing t with
  | zero => simp only [List.replicate, List.foldl_nil, marks, String.append_empty]
  | succ n ih =>
    simp only [List.replicate, List.foldl_cons, put_text, ih, marks, String.append_assoc]

theorem intercalate_go (sep : String) (l : List String) (acc : String) :
    String.intercalate.go acc sep l = acc ++ joinAfter sep l := by
  induction l generalizing acc with
  | nil => simp only [String.intercalate.go, joinAfter, String.append_empty]
  | cons a as ih => simp only [String.intercalate.go, ih, joinAfter, String.append_assoc]

theorem strJoin_cons (sep a : String) (l : List String) :
    strJoin (a :: l) sep = a ++ joinAfter sep l := by
  simp only [strJoin, String.intercalate, intercalate_go]

theorem saveFlowEnvKvs_ok (quote : String → String) (prefixPath : List String)
    (pathSep envKeyValSep pfx : String) (env : ParsedEnv)
    (hin : ∀ kv ∈ env, prefixPath.length ≤ kv.2.MatchedPath.length) :
    ∃ kvs, saveFlowEnvKvs quote prefixPath pathSep envKeyValSep pfx env = .ok kvs := by
  induction env with
  | nil => exact ⟨[], rfl⟩
  | cons kv more ih =>
    obtain ⟨kvs, hk⟩ := ih fun x hx => hin x (List.mem_cons_of_mem _ hx)
    have h0 : ¬ kv.2.MatchedPath.length < prefixPath.length :=
      Nat.not_lt.mpr (hin kv (List.mem_cons_self _ _))
    have hkey : ∃ k, saveFlowEnvKey prefixPath pathSep pfx kv.1 kv.2 = .ok k := by
      unfold saveFlowEnvKey
      by_cases hc : (startsWith kv.1 pfx && byteLen kv.1.data != byteLen pfx.data) = true
      · simp only [hc, if_true, h0, if_false]; exact ⟨_, rfl⟩
      · simp only [hc, if_false]; exact ⟨_, rfl⟩
    obtain ⟨k, hk2⟩ := hkey
    exact ⟨(k ++ envKeyValSep ++ quote kv.2.Val) :: kvs, by simp only [saveFlowEnvKvs, hk2, hk]⟩

/-- With the matched paths in range, `saveFlowEnv` returns, and what it appends
and answers does not depend on the text written so far. -/
theorem saveFlowEnv_ok (quote : String → String) (env : ParsedEnv) (prefixPath : List String)
    (pathSep bracketLeft bracketRight envKeyValSep : String) (useArgsFmt : Bool)
    (hin : ∀ kv ∈ env, prefixPath.length ≤ kv.2.MatchedPath.length) :
    ∃ x b, ∀ t, saveFlowEnv quote ⟨t, none, 0⟩ env prefixPath pathSep bracketLeft bracketRight
      envKeyValSep useArgsFmt = .ok (⟨t ++ x, none, 0⟩, b) := by
  unfold saveFlowEnv
  by_cases he : (env.length == 0) = true
  · exact ⟨"", false, fun t => by simp only [he, if_true, String.append_empty]⟩
  · obtain ⟨kvs, hk⟩ := saveFlowEnvKvs_ok quote prefixPath pathSep envKeyValSep
      (strJoin prefixPath pathSep ++ pathSep) env hin
    simp only [he, if_false, hk]
    by_cases ha : ((env.all fun kv => kv.2.IsArg) && useArgsFmt) = true
    · exact ⟨" " ++ strJoin kvs " ", true, fun t => by
        simp only [ha, if_true, put_text, Bool.false_eq_true, if_false]⟩
    · exact ⟨bracketLeft ++ strJoin kvs " " ++ bracketRight, true, fun t => by
        simp only [ha, if_false, put_text, Bool.false_eq_true]⟩

/-- With the matched paths in range, the loop over the segments returns, and
what it appends does not depend on the text written so far. -/
theorem saveFlowSegs_ok (quote : String → String) (n : Nat)
    (cmdPathSep envPathSep bracketLeft bracketRight envKeyValSep : String)
    (segs : List ParsedCmdSeg) :
    ∀ (j : Nat) (path : List String) (lastSegHasNoCmd cmdHasEnv : Bool),
      path.length = j → segsInRange segs j = true →
      ∃ x, ∀ t, saveFlowSegs quote n cmdPathSep envPathSep bracketLeft bracketRight envKeyValSep
        segs j path lastSegHasNoCmd cmdHasEnv ⟨t, none, 0⟩ = .ok ⟨t ++ x, none, 0⟩ := by
  induction segs with
  | nil =>
    intro j path l c _ _
    exact ⟨"", fun t => by simp only [saveFlowSegs, String.append_empty]⟩
  | cons seg more ih =>
    intro j path l c hp hr
    simp only [segsInRange, Bool.and_eq_true, List.all_eq_true, decide_eq_true_eq] at hr
    have hp1 : (path ++ [match seg.Matched.Cmd with
        | some node => node.name
        | none => seg.Matched.Name]).length = j + 1 := by
      simp only [List.length_append, List.length_cons, List.length_nil, hp]
    have hw1 : ∃ a, ∀ t, (if (decide (n > 1) && j != 0 && !l) = true
        then (⟨t ++ cmdPathSep, none, 0⟩ : Writer) else ⟨t, none, 0⟩) = ⟨t ++ a, none, 0⟩ := by
      by_cases hc : (decide (n > 1) && j != 0 && !l) = true
      · exact ⟨cmdPathSep, fun t => by simp only [hc, if_true]⟩
      · exact ⟨"", fun t => by simp only [hc, if_false, String.append_empty, Bool.false_eq_true]⟩
    obtain ⟨a, ha⟩ := hw1
    cases c with
    | true =>
      obtain ⟨x, hx⟩ := ih (j + 1) _ seg.Matched.Cmd.isNone true hp1 hr.2
      refine ⟨a ++ seg.Matched.Name ++ x, fun t => ?_⟩
      simp only [saveFlowSegs, ha, put_text, if_true, hx, String.append_assoc]
    | false =>
      obtain ⟨y, b, hy⟩ := saveFlowEnv_ok quote seg.Env
        (path ++ [match seg.Matched.Cmd with
          | some node => node.name
          | none => seg.Matched.Name]) envPathSep bracketLeft bracketRight envKeyValSep
        (!false && decide ((j : Int) = (n : Int) - 1))
        (fun kv hkv => by rw [hp1]; exact hr.1 kv hkv)
      obtain ⟨x, hx⟩ := ih (j + 1) _ seg.Matched.Cmd.isNone b hp1 hr.2
      refine ⟨a ++ seg.Matched.Name ++ y ++ x, fun t => ?_⟩
      simp only [saveFlowSegs, ha, put_text, Bool.false_eq_true, if_false, hy, hx,
        String.append_assoc]

/-- The text of one command does not depend on the text written before it. -/
theorem saveFlowCmd_text (quote : String → String) (cmdPathSep trivialMark : String) (env : Env)
    (cmd : ParsedCmd) (hwf : cmd.ParseResult.Error = none → segsInRange cmd.Segments 0 = true)
    (t : String) :
    saveFlowCmd quote cmd cmdPathSep trivialMark (env.GetRaw "strs.env-path-sep")
        (env.GetRaw "strs.env-bracket-left") (env.GetRaw "strs.env-bracket-right")
        (env.GetRaw "strs.env-kv-sep") ⟨t, none, 0⟩ =
      .ok ⟨t ++ savedCmdText quote cmdPathSep trivialMark env cmd, none, 0⟩ := by
  have key : ∃ x, ∀ t, saveFlowCmd quote cmd cmdPathSep trivialMark
      (env.GetRaw "strs.env-path-sep") (env.GetRaw "strs.env-bracket-left")
      (env.GetRaw "strs.env-bracket-right") (env.GetRaw "strs.env-kv-sep") ⟨t, none, 0⟩ =
        .ok ⟨t ++ x, none, 0⟩ := by
    cases he : cmd.ParseResult.Error with
    | some e =>
      exact ⟨strJoin cmd.ParseResult.Input " ", fun t => by
        simp only [saveFlowCmd, he, Option.isSome_some, if_true, put_text]⟩
    | none =>
      obtain ⟨x, hx⟩ := saveFlowSegs_ok quote cmd.Segments.length cmdPathSep
        (env.GetRaw "strs.env-path-sep") (env.GetRaw "strs.env-bracket-left")
        (env.GetRaw "strs.env-bracket-right") (env.GetRaw "strs.env-kv-sep") cmd.Segments 0 []
        false false rfl (hwf he)
      refine ⟨marks cmd.TrivialLvl.toNat trivialMark ++ x, fun t => ?_⟩
      simp only [saveFlowCmd, he, Option.isSome_none, Bool.false_eq_true, if_false,
        foldl_put_marks, hx, String.append_assoc]
  obtain ⟨x, hx⟩ := key
  have hx0 : savedCmdText quote cmdPathSep trivialMark env cmd = x := by
    simp only [savedCmdText, hx, writtenBy, String.empty_append]
  rw [hx0]
  exact hx t

/-- The loop of `saveFlow` from the second command on, in a flow of more than
one command: every command after the separator. -/
theorem saveFlowLoop_tail (quote : String → String) (flow : ParsedCmds)
    (cmdPathSep trivialMark : String) (env : Env) (hn : 1 < flow.Cmds.length)
    (cmds : List ParsedCmd)
    (hwf : ∀ cmd ∈ cmds, cmd.ParseResult.Error = none → segsInRange cmd.Segments 0 = true) :
    ∀ (i : Nat) (t : String), i ≠ 0 →
      saveFlowLoop quote flow cmdPathSep trivialMark (env.GetRaw "strs.env-path-sep")
          (env.GetRaw "strs.env-bracket-left") (env.GetRaw "strs.env-bracket-right")
          (env.GetRaw "strs.env-kv-sep") (env.GetRaw "strs.seq-sep") cmds i ⟨t, none, 0⟩ =
        .ok ⟨t ++ joinAfter (" " ++ env.GetRaw "strs.seq-sep" ++ " ")
          (cmds.map (savedCmdText quote cmdPathSep trivialMark env)), none, 0⟩ := by
  induction cmds with
  | nil =>
    intro i t _
    simp only [saveFlowLoop, List.map_nil, joinAfter, String.append_empty]
  | cons cmd more ih =>
    intro i t hi
    have hi0 : (i == 0) = false := by simpa using hi
    have hgt : flow.Cmds.length > 1 := hn
    simp only [saveFlowLoop, hgt, if_true, hi0, Bool.false_eq_true, if_false, put_text,
      saveFlowCmd_text quote cmdPathSep trivialMark env cmd
        (hwf cmd (List.mem_cons_self _ _)),
      ih (fun c hc => hwf c (List.mem_cons_of_mem _ hc)) (i + 1) _ (Nat.succ_ne_zero i),
      List.map_cons, joinAfter, String.append_assoc]

/-- C23: for a parsed flow, with the five predefined strings non-empty in the
environment and the matched path of every entry of a segment reaching that
segment (so that `saveFlowEnv` slices it in range), on a writer that takes
what is written. `saveFlow` returns, and the text it has appended is the texts
of the commands in order, joined by the sequence separator between blanks,
after the sequence separator and a blank exactly when the flow has more than
one command and `GlobalCmdIdx < 0`. The text of a command with a parse error is
its raw input tokens joined by single blanks; the text of any other command is
`TrivialLvl` copies of the trivial mark followed by the text of its segments. -/
theorem C23_saved_flow_text (quote : String → String) (flow : ParsedCmds) (currCmdIdx : Nat)
    (cmdPathSep trivialMark : String) (env : Env) (t0 : String)
    (h1 : (env.GetRaw "strs.env-path-sep").length ≠ 0)
    (h2 : (env.GetRaw "strs.env-bracket-left").length ≠ 0)
    (h3 : (env.GetRaw "strs.env-bracket-right").length ≠ 0)
    (h4 : (env.GetRaw "strs.env-kv-sep").length ≠ 0)
    (h5 : (env.GetRaw "strs.seq-sep").length ≠ 0)
    (hwf : ∀ cmd ∈ flow.Cmds, cmd.ParseResult.Error = none →
      segsInRange cmd.Segments 0 = true) :
    saveFlow quote ⟨t0, none, 0⟩ flow currCmdIdx cmdPathSep trivialMark env =
      .ok ⟨t0 ++
        (if 1 < flow.Cmds.length ∧ flow.GlobalCmdIdx < 0 then env.GetRaw "strs.seq-sep" ++ " "
          else "") ++
        strJoin (flow.Cmds.map (savedCmdText quote cmdPathSep trivialMark env))
          (" " ++ env.GetRaw "strs.seq-sep" ++ " "), none, 0⟩ ∧
    (∀ cmd ∈ flow.Cmds, cmd.ParseResult.Error ≠ none →
      savedCmdText quote cmdPathSep trivialMark env cmd = strJoin cmd.ParseResult.Input " ") ∧
    (∀ cmd ∈ flow.Cmds, cmd.ParseResult.Error = none →
      ∃ rest, savedCmdText quote cmdPathSep trivialMark env cmd =
          marks cmd.TrivialLvl.toNat trivialMark ++ rest ∧
        saveFlowSegs quote cmd.Segments.length cmdPathSep (env.GetRaw "strs.env-path-sep")
          (env.GetRaw "strs.env-bracket-left") (env.GetRaw "strs.env-bracket-right")
          (env.GetRaw "strs.env-kv-sep") cmd.Segments 0 [] false false ⟨"", none, 0⟩ =
          .ok ⟨rest, none, 0⟩) := by
  have e1 : ((env.GetRaw "strs.env-path-sep").length == 0) = false := by simpa using h1
  have e2 : ((env.GetRaw "strs.env-bracket-left").length == 0) = false := by simpa using h2
  have e3 : ((env.GetRaw "strs.env-bracket-right").length == 0) = false := by simpa using h3
  have e4 : ((env.GetRaw "strs.env-kv-sep").length == 0) = false := by simpa using h4
  have e5 : ((env.GetRaw "strs.seq-sep").length == 0) = false := by simpa using h5
  refine ⟨?_, ?_, ?_⟩
  · simp only [saveFlow, e1, e2, e3, e4, e5, Bool.or_self, Bool.false_eq_true, if_false]
    cases hc : flow.Cmds with
    | nil =>
      simp only [saveFlowLoop, List.length_nil, Nat.not_lt_zero, false_and, if_false,
        List.map_nil, strJoin, String.intercalate, String.append_empty]
    | cons c more =>
      have hwc := saveFlowCmd_text quote cmdPathSep trivialMark env c
        (hwf c (by rw [hc]; exact List.mem_cons_self _ _))
      cases more with
      | nil =>
        have hl : ¬ flow.Cmds.length > 1 := by rw [hc]; simp
        simp only [saveFlowLoop, hl, if_false, hwc, List.length_cons, List.length_nil,
          Nat.lt_irrefl, false_and, List.map_cons, List.map_nil, strJoin_cons, joinAfter,
          String.append_empty, Nat.zero_add]
      | cons c2 rest =>
        have hl : flow.Cmds.length > 1 := by rw [hc]; simp
        have hl2 : 1 < (c :: c2 :: rest).length := by simp
        have htail := saveFlowLoop_tail quote flow cmdPathSep trivialMark env hl (c2 :: rest)
          (fun x hx => hwf x (by rw [hc]; exact List.mem_cons_of_mem _ hx)) 1
        rw [saveFlowLoop]
        by_cases hg : flow.GlobalCmdIdx < 0
        · simp only [hl, hl2, hg, if_true, beq_self_eq_true, put_text, hwc,
            Nat.zero_add, htail _ Nat.one_ne_zero, and_self, strJoin_cons, String.append_assoc,
            List.map_cons]
        · simp only [hl, hl2, hg, if_true, if_false, beq_self_eq_true, hwc,
            Nat.zero_add, htail _ Nat.one_ne_zero, and_false, strJoin_cons, String.append_assoc,
            List.map_cons, String.empty_append]
  · intro cmd _ he
    cases hE : cmd.ParseResult.Error with
    | none => exact absurd hE he
    | some e =>
      simp only [savedCmdText, saveFlowCmd, hE, Option.isSome_some, if_true, put_text, writtenBy,
        String.empty_append]
  · intro cmd hm he
    obtain ⟨x, hx⟩ := saveFlowSegs_ok quote cmd.Segments.length cmdPathSep
      (env.GetRaw "strs.env-path-sep") (env.GetRaw "strs.env-bracket-left")
      (env.GetRaw "strs.env-bracket-right") (env.GetRaw "strs.env-kv-sep") cmd.Segments 0 []
      false false rfl (hwf cmd hm he)
    refine ⟨x, ?_, ?_⟩
    · simp only [savedCmdText, saveFlowCmd, he, Option.isSome_none, Bool.false_eq_true, if_false,
        foldl_put_marks, hx, writtenBy, String.empty_append]
    · rw [hx ""]; simp only [String.empty_append]

/-- C23 at a concrete input: the flow of the trivial command `a.b` with the
entry `x=1`, a command with a parse error and the raw input `no`, the empty
token and `such`, and the command `c`, with no global-environment command. -/
theorem C23_witness :
    saveFlow id ⟨"", none, 0⟩ exSavedFlow 0 "." "^" exStrsEnv =
      .ok ⟨": ^a.b\x7bx=1\x7d : no  such : c", none, 0⟩ ∧
    (exSavedFlow.Cmds.map (savedCmdText id "." "^" exStrsEnv)) = ["^a.b\x7bx=1\x7d", "no  such", "c"] :=
  ⟨(C23_saved_flow_text id exSavedFlow 0 "." "^" exStrsEnv "" (by decide) (by decide)
      (by decide) (by decide) (by decide) (by decide)).1.trans rfl, by decide⟩

/-! ## The lines of the session environment file -/

theorem char_toNat_inj (a b : Char) (h : a.toNat = b.toNat) : a = b :=
  Char.eq_of_val_eq (UInt32.ext h)

theorem strLt_irrefl : ∀ a : List Char, strLt a a = false
  | [] => rfl
  | c :: cs => by simp [strLt, strLt_irrefl cs]

theorem strLt_trans : ∀ a b c : List Char,
    strLt a b = true → strLt b c = true → strLt a c = true
  | _, _, [], _, h2 => by simp [strLt] at h2
  | _, [], _ :: _, h1, _ => by simp [strLt] at h1
  | [], _ :: _, _ :: _, _, _ => by simp [strLt]
  | x :: xs, y :: ys, z :: zs, h1, h2 => by
    simp only [strLt, Bool.or_eq_true, decide_eq_true_eq, Bool.and_eq_true, beq_iff_eq] at h1 h2 ⊢
    rcases h1 with h1 | ⟨e1, l1⟩
    · rcases h2 with h2 | ⟨e2, _⟩
      · left; omega
      · left; omega
    · rcases h2 with h2 | ⟨e2, l2⟩
      · left; omega
      · right; exact ⟨by omega, strLt_trans xs ys zs l1 l2⟩

theorem strLt_total : ∀ a b : List Char, strLt a b = false → a ≠ b → strLt b a = true
  | [], [], _, hne => absurd rfl hne
  | [], _ :: _, h, _ => by simp [strLt] at h
  | _ :: _, [], _, _ => by simp [strLt]
  | x :: xs, y :: ys, h, hne => by
    simp only [strLt, Bool.or_eq_false_iff, decide_eq_false_iff_not, Bool.and_eq_false_imp,
      beq_iff_eq] at h
    simp only [strLt, Bool.or_eq_true, decide_eq_true_eq, Bool.and_eq_true, beq_iff_eq]
    by_cases hlt : y.toNat < x.toNat
    · left; exact hlt
    · right
      have he : x.toNat = y.toNat := by omega
      have hxy : x = y := char_toNat_inj x y he
      refine ⟨he.symm, strLt_total xs ys (h.2 he) ?_⟩
      intro hh
      exact hne (by rw [hxy, hh])

theorem insertSorted_pairwise (k : String) (l : List String)
    (hs : l.Pairwise fun a b => strLt a.data b.data = true) (hk : k ∉ l) :
    (insertSorted k l).Pairwise fun a b => strLt a.data b.data = true := by
  induction l with
  | nil => simp [insertSorted]
  | cons x xs ih =>
    rw [List.pairwise_cons] at hs
    have hkx : k ≠ x := fun h => hk (by rw [h]; exact List.mem_cons_self _ _)
    have hkxs : k ∉ xs := fun h => hk (List.mem_cons_of_mem _ h)
    by_cases hlt : strLt x.data k.data = true
    · simp only [insertSorted, hlt, if_true, List.pairwise_cons]
      refine ⟨fun y hy => ?_, ih hs.2 hkxs⟩
      rcases (mem_insertSorted k y xs).1 hy with h | h
      · rw [h]; exact hlt
      · exact hs.1 y h
    · simp only [insertSorted, hlt, if_false, List.pairwise_cons, Bool.false_eq_true]
      have hkx2 : strLt k.data x.data = true :=
        strLt_total x.data k.data (by simpa using hlt) fun h => hkx (String.ext h.symm)
      refine ⟨fun y hy => ?_, hs.1, hs.2⟩
      rcases List.mem_cons.1 hy with h | h
      · rw [h]; exact hkx2
      · exact strLt_trans _ _ _ hkx2 (hs.1 y h)

/-- The keys `sort.Strings` returns are in strictly ascending order when no
key occurs twice. -/
theorem sortStrings_pairwise (l : List String) (hn : l.Nodup) :
    (sortStrings l).Pairwise fun a b => strLt a.data b.data = true := by
  induction l with
  | nil => simp [sortStrings]
  | cons a as ih =>
    rw [List.nodup_cons] at hn
    have h : sortStrings (a :: as) = insertSorted a (sortStrings as) := rfl
    rw [h]
    exact insertSorted_pairwise a _ (ih hn.2) fun hm => hn.1 ((mem_sortStrings a as).1 hm)

theorem setPair_keys_nodup (k v : String) (acc : List (String × String))
    (h : (acc.map Prod.fst).Nodup) : ((setPair k v acc).map Prod.fst).Nodup := by
  simp only [setPair, List.map_cons, List.nodup_cons]
  constructor
  · intro hm
    obtain ⟨p, hp, hpk⟩ := List.mem_map.1 hm
    have := (List.mem_filter.1 hp).2
    simp [hpk] at this
  · exact List.Nodup.sublist ((List.filter_sublist _).map _) h

theorem foldr_setPair_keys_nodup (ps acc : List (String × String))
    (h : (acc.map Prod.fst).Nodup) :
    ((ps.foldr (fun kv acc2 => setPair kv.1 kv.2 acc2) acc).map Prod.fst).Nodup := by
  induction ps with
  | nil => exact h
  | cons p ps ih => exact setPair_keys_nodup _ _ _ ih

theorem merge_keys_nodup (ls : List EnvLayer) :
    ((ls.foldr (fun l acc => l.pairs.foldr (fun kv acc2 => setPair kv.1 kv.2 acc2) acc)
      []).map Prod.fst).Nodup := by
  induction ls with
  | nil => exact List.nodup_nil
  | cons l ls ih => exact foldr_setPair_keys_nodup _ _ ih

/-- The keys `EnvOutput` writes are in strictly ascending order. -/
theorem envOutputKeys_pairwise (env : Env) :
    (envOutputKeys env).Pairwise fun a b => strLt a.data b.data = true := by
  unfold envOutputKeys
  apply sortStrings_pairwise
  refine List.Nodup.sublist ((List.filter_sublist _).map _) ?_
  unfold Env.Flatten
  refine List.Nodup.sublist ((List.filter_sublist _).map _) ?_
  exact merge_keys_nodup _

/-- Two lists in strictly ascending order with the same elements are the same list. -/
theorem ascending_unique (l1 l2 : List String)
    (h1 : l1.Pairwise fun a b => strLt a.data b.data = true)
    (h2 : l2.Pairwise fun a b => strLt a.data b.data = true)
    (hm : ∀ x, x ∈ l1 ↔ x ∈ l2) : l1 = l2 := by
  have hne : ∀ a b : String, strLt a.data b.data = true → a ≠ b := by
    intro a b hab he
    rw [he, strLt_irrefl] at hab
    exact absurd hab (by simp)
  haveI : IsAntisymm String fun a b => strLt a.data b.data = true :=
    ⟨fun a b hab hba => absurd (strLt_trans _ _ _ hab hba) (by rw [strLt_irrefl]; simp)⟩
  have n1 : l1.Nodup := h1.imp fun {a b} h => hne a b h
  have n2 : l2.Nodup := h2.imp fun {a b} h => hne a b h
  exact List.eq_of_perm_of_sorted ((List.perm_ext_iff_of_nodup n1 n2).2 hm) h1 h2

theorem envOutputLoop_congr (env env2 : Env) (sep : String)
    (h : ∀ k, env.GetRaw k = env2.GetRaw k) (ks : List String) :
    ∀ w, envOutputLoop env sep ks w = envOutputLoop env2 sep ks w := by
  induction ks with
  | nil => intro w; rfl
  | cons k ks ih => intro w; simp only [envOutputLoop, h k, ih]

/-- On a writer that takes what is written the writing loop appends the lines
of its keys and returns no error. -/
theorem envOutputLoop_lines (env : Env) (sep : String) (ks : List String) :
    ∀ t, envOutputLoop env sep ks ⟨t, none, 0⟩ = (⟨t ++ envLines env sep ks, none, 0⟩, none) := by
  induction ks with
  | nil => intro t; simp only [envOutputLoop, envLines, String.append_empty]
  | cons k ks ih =>
    intro t
    have hf : (⟨t, none, 0⟩ : Writer).Fprint (k ++ sep ++ env.GetRaw k ++ "\n") =
        (⟨t ++ (k ++ sep ++ env.GetRaw k ++ "\n"), none, 0⟩, false) := rfl
    simp only [envOutputLoop, hf, Bool.false_eq_true, if_false, ih, envLines]
    simp only [String.append_assoc]

/-- C24: for every environment and separator, on a writer that takes what is
written. `EnvOutput` returns without an error and appends the lines
`key ++ sep ++ value ++ "\n"` of the keys `envOutputKeys`, one line for each
and nothing else. A key is one of them exactly when the merged flattened
environment holds it, it starts with none of the filtered prefixes and its
value is not the raw value of the Default layer for it; the value written is
the value of the flattened environment. The keys are in strictly ascending
order, so no key has two lines, and the output is the same for two
environments with the same merged values and the same values of the Default
layer. -/
theorem C24_env_output_lines (env : Env) (sep t0 : String) :
    EnvOutput env ⟨t0, none, 0⟩ sep =
      (⟨t0 ++ envLines env sep (envOutputKeys env), none, 0⟩, none) ∧
    (∀ k, k ∈ envOutputKeys env ↔
      ∃ v, (env.Flatten true [] false).lookup k = some v ∧ isFiltered k = false ∧
        defaultRaw env k ≠ v) ∧
    (∀ k v, (env.Flatten true [] false).lookup k = some v → env.GetRaw k = v) ∧
    (envOutputKeys env).Pairwise (fun a b => strLt a.data b.data = true) ∧
    (envOutputKeys env).Nodup ∧
    (∀ env2 : Env,
      (∀ k, (env2.Flatten true [] false).lookup k = (env.Flatten true [] false).lookup k) →
      (∀ k, defaultRaw env2 k = defaultRaw env k) →
      EnvOutput env2 ⟨t0, none, 0⟩ sep = EnvOutput env ⟨t0, none, 0⟩ sep) := by
  have hkeys : ∀ (e : Env) k, k ∈ envOutputKeys e ↔
      ∃ v, (e.Flatten true [] false).lookup k = some v ∧ isFiltered k = false ∧
        defaultRaw e k ≠ v := by
    intro e k
    rw [mem_envOutputKeys]
    simp only [flatten_lookup]
  have hne : ∀ a b : String, strLt a.data b.data = true → a ≠ b := by
    intro a b hab he
    rw [he, strLt_irrefl] at hab
    exact absurd hab (by simp)
  refine ⟨?_, hkeys env, ?_, envOutputKeys_pairwise env,
    (envOutputKeys_pairwise env).imp (fun {a b} h => hne a b h), ?_⟩
  · exact envOutputLoop_lines env sep (envOutputKeys env) t0
  · intro k v h
    rw [flatten_lookup] at h
    simp only [Env.GetRaw, h, Option.getD_some]
  · intro env2 hf hd
    have hraw : ∀ k, env2.GetRaw k = env.GetRaw k := by
      intro k
      have := hf k
      simp only [flatten_lookup] at this
      simp only [Env.GetRaw, this]
    have hk : envOutputKeys env2 = envOutputKeys env := by
      apply ascending_unique _ _ (envOutputKeys_pairwise env2) (envOutputKeys_pairwise env)
      intro x
      rw [hkeys env2 x, hkeys env x]
      simp only [hf, hd]
    simp only [EnvOutput, hk]
    exact envOutputLoop_congr env2 env sep hraw _ _

/-! ## The depth budget -/

theorem getD_of_drop (l : List ParsedCmd) (n : Nat) (pc : ParsedCmd) (rest : List ParsedCmd)
    (h : l.drop n = pc :: rest) : l.getD n default = pc ∧ l.drop (n + 1) = rest := by
  induction n generalizing l with
  | zero =>
    cases l with
    | nil => simp at h
    | cons a l2 =>
      simp only [List.drop_zero, List.cons.injEq] at h
      simp [h.1, h.2]
  | succ n ih =>
    cases l with
    | nil => simp at h
    | cons a l2 =>
      simp only [List.drop_succ_cons] at h
      have := ih l2 h
      constructor
      · rw [List.getD_cons_succ]; exact this.1
      · rw [List.drop_succ_cons]; exact this.2

theorem shownOf_append (a b : List Event) : shownOf (a ++ b) = shownOf a ++ shownOf b := by
  simp only [shownOf, List.filterMap_append]

theorem rendersOf_append (a b : List Event) : rendersOf (a ++ b) = rendersOf a ++ rendersOf b := by
  simp only [rendersOf, List.filterMap_append]

theorem Described.start (s : DumpState) (hidden : Prop) : Described s ⟨s, .done true⟩ [] []
    hidden :=
  ⟨rfl, by simp, by simp, fun _ => rfl⟩

theorem Described.then {s : DumpState} {r r2 : Run} {a b a2 b2 : List (Int × String)}
    {hidden : Prop} (h1 : Described s r a b hidden) (h2 : Described r.st r2 a2 b2 hidden) :
    Described s r2 (a ++ a2) (b ++ b2) hidden :=
  ⟨h2.1, by rw [h2.2.1, h1.2.1, List.append_assoc], by rw [h2.2.2.1, h1.2.2.1, List.append_assoc],
    fun h => by rw [h2.2.2.2 h, h1.2.2.2 h]⟩

/-- A step below the depth budget prints nothing before the folding decision. -/
theorem descPre_hidden (lib : Collab) (cc : Cli) (args : DumpFlowArgs) (parsedCmd : ParsedCmd)
    (cmd : CmdTree) (cic : Cmd) (running : Bool) (maxDepth maxTrivial indentAdjust : Int)
    (st : DumpState) (h : maxDepth ≤ 0) :
    (descPre lib cc args parsedCmd cmd cic running maxDepth maxTrivial indentAdjust st).screen =
      st.screen := by
  have h2 : (decide (maxTrivial > 0) && decide (maxDepth > 0)) = false := by
    simp only [Bool.and_eq_false_imp, decide_eq_true_eq, decide_eq_false_iff_not]
    intro _; omega
  simp only [descPre, dumpFlowCmdHead, dumpFlowCmdArgs, execFailed, Bool.false_or, h2,
    Bool.false_eq_true, if_false]

theorem end_described (lib : Collab) (flow : ParsedCmds) (idx : Nat) (cmdLayer : EnvLayer)
    (argv : ArgVals) (st : DumpState) :
    (dumpFlowCmdEnd lib flow idx cmdLayer argv none st).out = .done true ∧
    (dumpFlowCmdEnd lib flow idx cmdLayer argv none st).st.trace = st.trace ∧
    (dumpFlowCmdEnd lib flow idx cmdLayer argv none st).st.screen = st.screen :=
  ⟨rfl, rfl, rfl⟩

/-- The expanding branch of a description step whose command is not a flow
command with text: the step succeeds, makes no event and leaves `metFlows`. -/
theorem expanded_plain (dumpFlowRec : RecCall) (lib : Collab) (cc : Cli) (args : DumpFlowArgs)
    (flow : ParsedCmds) (idx : Nat) (parsedCmd : ParsedCmd) (cmd : CmdTree) (cic : Cmd)
    (originEnv : Env) (cmdLayer : EnvLayer) (argv : ArgVals)
    (maxDepth trivial indentAdjust : Int) (metFlows : List String) (st : DumpState)
    (hft : hasFlowText lib cic = false) :
    (dumpFlowCmdExpanded dumpFlowRec lib cc args flow idx parsedCmd cmd cic originEnv cmdLayer argv
        none maxDepth trivial indentAdjust metFlows st).1.out = .done true ∧
    (dumpFlowCmdExpanded dumpFlowRec lib cc args flow idx parsedCmd cmd cic originEnv cmdLayer argv
        none maxDepth trivial indentAdjust metFlows st).1.st.trace = st.trace ∧
    (dumpFlowCmdExpanded dumpFlowRec lib cc args flow idx parsedCmd cmd cic originEnv cmdLayer argv
        none maxDepth trivial indentAdjust metFlows st).2 = metFlows := by
  unfold dumpFlowCmdExpanded
  by_cases hc : ((cic.cmdLine.length != 0 || cic.flow.length != 0) &&
      cic.ty != CmdTypeNormal && cic.ty != CmdTypePower) = true
  · have hty : isFlowTy lib cic = false := by
      unfold hasFlowText at hft
      rw [hc] at hft
      simpa using hft
    simp only [hc, if_true, dumpFlowCmdSub, hty, Bool.false_eq_true, if_false, end_described,
      (flowLines_frame lib args cic cmdLayer argv none maxDepth indentAdjust metFlows _).2.1,
      (body_frame lib cc args flow parsedCmd cmd cic originEnv cmdLayer argv indentAdjust st).2,
      true_and]
    simp only [dumpFlowCmdFlowLines, hty, Bool.false_eq_true, if_false, apply_ite Prod.snd,
      apply_ite Prod.fst, ite_self]
  · simp only [hc, if_false, end_described, Bool.false_eq_true,
      (body_frame lib cc args flow parsedCmd cmd cic originEnv cmdLayer argv indentAdjust st).2,
      and_self]

/-- The folding branch of a description step whose sub-flow does not render:
the step succeeds and prints nothing. -/
theorem folded_unrendered (dumpFlowRec : RecCall) (lib : Collab) (cc : Cli) (flow : ParsedCmds)
    (idx : Nat) (parsedCmd : ParsedCmd) (cmd : CmdTree) (cic : Cmd) (cmdLayer : EnvLayer)
    (argv : ArgVals) (maxDepth trivial indentAdjust : Int) (st : DumpState)
    (hr : (lib.Flow cic argv (lib.TryExeEnvOpCmds argv (st.env.Push cmdLayer) flow idx) true).2 =
      false) :
    (dumpFlowCmdFolded dumpFlowRec lib cc flow idx parsedCmd cmd cic cmdLayer argv none
        maxDepth trivial indentAdjust st).out = .done true ∧
    (dumpFlowCmdFolded dumpFlowRec lib cc flow idx parsedCmd cmd cic cmdLayer argv none
        maxDepth trivial indentAdjust st).st.trace =
      st.trace ++ [.folded indentAdjust (strJoin parsedCmd.Path cmd.Strs.PathSep),
        .render indentAdjust (strJoin parsedCmd.Path cmd.Strs.PathSep)
          (lib.Flow cic argv (lib.TryExeEnvOpCmds argv (st.env.Push cmdLayer) flow idx) true).1
          false] ∧
    (dumpFlowCmdFolded dumpFlowRec lib cc flow idx parsedCmd cmd cic cmdLayer argv none
        maxDepth trivial indentAdjust st).st.screen = st.screen := by
  simp only [dumpFlowCmdFolded, DumpState.log, hr, Bool.false_eq_true, if_false, execOk,
    List.append_assoc, List.singleton_append, and_self]

theorem toNat_pos_iff (d : Int) : 0 < d.toNat ↔ 0 < d := by omega

/-- A plain step of a description, with no trivial mark: above the depth budget
its head line is printed and nothing is rendered; below it nothing is printed
and the step is rendered once. -/
theorem step_plain (dumpFlowRec : RecCall) (lib : Collab) (cc : Cli) (st : DumpState)
    (flow : ParsedCmds) (idx : Nat) (args : DumpFlowArgs) (running : Bool) (d t ind : Int)
    (met : List String) (node : CmdTree) (cic : Cmd)
    (hnode : (flow.Cmds.getD idx default).Last.Matched.Cmd = some node)
    (hcic : node.cmd = some cic)
    (htriv : node.trivial + (flow.Cmds.getD idx default).TrivialLvl = 0) (ht : 1 ≤ t)
    (hplain : hasFlowText lib cic = false)
    (hflow : ∀ argv env, (lib.Flow cic argv env true).2 = false ∨
      ((lib.Flow cic argv env true).1 = [] ∧ (lib.Parse []).FirstErr = none ∧
        (lib.Parse []).Cmds = []))
    (hrec : ∀ s f dd tt ii, f.Cmds = [] → dumpFlowRec s f none dd tt ii = ⟨s, .done true⟩) :
    Described st
      (dumpFlowCmd dumpFlowRec lib cc st flow idx args none running d t ind met).1
      (if 0 < d.toNat then
        [(ind, strJoin (flow.Cmds.getD idx default).Path node.Strs.PathSep)] else [])
      (if 0 < d.toNat then []
        else [(ind, strJoin (flow.Cmds.getD idx default).Path node.Strs.PathSep)])
      (d ≤ 0) ∧
    (dumpFlowCmd dumpFlowRec lib cc st flow idx args none running d t ind met).2 = met := by
  rw [dumpFlowCmd_desc dumpFlowRec lib cc st flow idx args running d t ind met node cic hnode hcic]
  have hpre := descPre_frame lib cc args (flow.Cmds.getD idx default) node cic running d t ind st
  by_cases hd : d ≤ 0
  · have hz : ¬ 0 < d.toNat := by omega
    have hnd : ¬ (0 < t ∧ 0 < d) := by omega
    simp only [hnd, if_false, List.append_nil] at hpre
    have hscr := descPre_hidden lib cc args (flow.Cmds.getD idx default) node cic running d t ind
      st hd
    rw [if_pos (Or.inr hd)]
    refine ⟨?_, rfl⟩
    simp only [hz, if_false]
    cases hr : (lib.Flow cic
        (lib.ApplyMappingGenEnvAndArgv (flow.Cmds.getD idx default) st.env
          cc.Cmds.Strs.EnvValDelAllMark node.Strs.PathSep).2
        (lib.TryExeEnvOpCmds
          (lib.ApplyMappingGenEnvAndArgv (flow.Cmds.getD idx default) st.env
            cc.Cmds.Strs.EnvValDelAllMark node.Strs.PathSep).2
          ((descPre lib cc args (flow.Cmds.getD idx default) node cic running d t ind st).env.Push
            (lib.ApplyMappingGenEnvAndArgv (flow.Cmds.getD idx default) st.env
              cc.Cmds.Strs.EnvValDelAllMark node.Strs.PathSep).1) flow idx) true).2 with
    | false =>
      obtain ⟨h1, h2, h3⟩ := folded_unrendered dumpFlowRec lib cc flow idx
        (flow.Cmds.getD idx default) node cic _ _ d
        (t - (node.trivial + (flow.Cmds.getD idx default).TrivialLvl)) ind _ hr
      refine ⟨h1, ?_, ?_, fun _ => by rw [h3, hscr]⟩
      · rw [h2, hpre.2.2]; simp [shownOf]
      · rw [h2, hpre.2.2]; simp [rendersOf]
    | true =>
      rcases hflow _ _ with hf | ⟨hf1, hf2, hf3⟩
      · rw [hr] at hf; exact absurd hf (by simp)
      · have hfe := folded_eq dumpFlowRec lib cc flow idx (flow.Cmds.getD idx default) node cic _ _
          none d (t - (node.trivial + (flow.Cmds.getD idx default).TrivialLvl)) ind _ hr
          (by rw [hf1]; exact hf2)
        simp only [Option.none_bind] at hfe
        rw [hfe, hrec _ _ _ _ _ (by rw [hf1]; exact hf3)]
        refine ⟨rfl, ?_, ?_, fun _ => ?_⟩
        · simp only [foldEntry, hpre.2.2]; simp [shownOf]
        · simp only [foldEntry, hpre.2.2]; simp [rendersOf]
        · simp only [foldEntry, hscr]
  · have hz : 0 < d.toNat := by omega
    have hnd : (0 < t ∧ 0 < d) := by omega
    simp only [hnd, and_self, if_true] at hpre
    have hcond : ¬ (t - (node.trivial + (flow.Cmds.getD idx default).TrivialLvl) ≤ 0 ∨ d ≤ 0) := by
      rw [htriv]; omega
    rw [if_neg hcond]
    obtain ⟨h1, h2, h3⟩ := expanded_plain dumpFlowRec lib cc args flow idx
      (flow.Cmds.getD idx default) node cic st.env
      (lib.ApplyMappingGenEnvAndArgv (flow.Cmds.getD idx default) st.env
        cc.Cmds.Strs.EnvValDelAllMark node.Strs.PathSep).1
      (lib.ApplyMappingGenEnvAndArgv (flow.Cmds.getD idx default) st.env
        cc.Cmds.Strs.EnvValDelAllMark node.Strs.PathSep).2 d
      (t - (node.trivial + (flow.Cmds.getD idx default).TrivialLvl)) ind met
      (descPre lib cc args (flow.Cmds.getD idx default) node cic running d t ind st) hplain
    refine ⟨?_, h3⟩
    simp only [hz, if_true]
    refine ⟨h1, ?_, ?_, fun h => absurd h hd⟩
    · rw [h2, hpre.2.2]; simp [shownOf]
    · rw [h2, hpre.2.2]; simp [rendersOf]

theorem subFinish_done (lib : Collab) (args : DumpFlowArgs) (flow : ParsedCmds) (idx : Nat)
    (cic : Cmd) (cmdLayer : EnvLayer) (argv : ArgVals) (maxDepth indentAdjust : Int) (sub : Run)
    (h : sub.out = .done true) :
    (subFinish lib args flow idx cic cmdLayer argv maxDepth indentAdjust sub).out = .done true ∧
    (subFinish lib args flow idx cic cmdLayer argv maxDepth indentAdjust sub).st.trace =
      sub.st.trace := by
  simp only [subFinish, h, end_described, apply_ite DumpState.trace, prt_trace, ite_self,
    and_self]

/-- A step with a sub-flow, with no trivial mark and a text not met before in
the scope: above the depth budget its head line is printed, below it nothing
is; in both cases the sub-flow is rendered once and described with the depth
budget reduced by one. -/
theorem step_sub (dumpFlowRec : RecCall) (lib : Collab) (cc : Cli) (st : DumpState)
    (flow : ParsedCmds) (idx : Nat) (args : DumpFlowArgs) (running : Bool) (d t ind : Int)
    (met : List String) (node : CmdTree) (cic : Cmd) (toks : List String) (text : String)
    (A B : List (Int × String))
    (hnode : (flow.Cmds.getD idx default).Last.Matched.Cmd = some node)
    (hcic : node.cmd = some cic)
    (htriv : node.trivial + (flow.Cmds.getD idx default).TrivialLvl = 0) (ht : 1 ≤ t)
    (hft : hasFlowText lib cic = true)
    (hflow : ∀ argv env, lib.Flow cic argv env true = (toks, true))
    (hne : toks ≠ [])
    (htext : ∀ argv env, strJoin (lib.RenderedFlowStrs cic argv env true).1 " " = text)
    (hnew : text ∉ met)
    (herr : (lib.Parse toks).FirstErr = none)
    (hrec : ∀ s, Described s (dumpFlowRec s (lib.Parse toks) none (d - 1) t (ind + 2)) A B
      (d - 1 ≤ 0)) :
    Described st
      (dumpFlowCmd dumpFlowRec lib cc st flow idx args none running d t ind met).1
      ((if 0 < d.toNat then
        [(ind, strJoin (flow.Cmds.getD idx default).Path node.Strs.PathSep)] else []) ++ A)
      ((ind, strJoin (flow.Cmds.getD idx default).Path node.Strs.PathSep) :: B)
      (d ≤ 0) ∧
    (∀ x ∈ (dumpFlowCmd dumpFlowRec lib cc st flow idx args none running d t ind met).2,
      x = text ∨ x ∈ met) := by
  rw [dumpFlowCmd_desc dumpFlowRec lib cc st flow idx args running d t ind met node cic hnode hcic]
  have hpre := descPre_frame lib cc args (flow.Cmds.getD idx default) node cic running d t ind st
  have ht0 : t - (node.trivial + (flow.Cmds.getD idx default).TrivialLvl) = t := by
    rw [htriv]; omega
  by_cases hd : d ≤ 0
  · have hz : ¬ 0 < d.toNat := by omega
    have hnd : ¬ (0 < t ∧ 0 < d) := by omega
    simp only [hnd, if_false, List.append_nil] at hpre
    have hscr := descPre_hidden lib cc args (flow.Cmds.getD idx default) node cic running d t ind
      st hd
    rw [if_pos (Or.inr hd)]
    refine ⟨?_, fun x hx => Or.inr hx⟩
    simp only [hz, if_false, List.nil_append]
    have hfe := folded_eq dumpFlowRec lib cc flow idx (flow.Cmds.getD idx default) node cic
      (lib.ApplyMappingGenEnvAndArgv (flow.Cmds.getD idx default) st.env
        cc.Cmds.Strs.EnvValDelAllMark node.Strs.PathSep).1
      (lib.ApplyMappingGenEnvAndArgv (flow.Cmds.getD idx default) st.env
        cc.Cmds.Strs.EnvValDelAllMark node.Strs.PathSep).2
      none d (t - (node.trivial + (flow.Cmds.getD idx default).TrivialLvl)) ind
      (descPre lib cc args (flow.Cmds.getD idx default) node cic running d t ind st)
      (by rw [hflow]) (by rw [hflow]; exact herr)
    simp only [Option.none_bind, hflow, ht0] at hfe
    rw [ht0, hfe]
    obtain ⟨h1, h2, h3, h4⟩ := hrec (foldEntry lib cc flow idx (flow.Cmds.getD idx default) node
      cic (lib.ApplyMappingGenEnvAndArgv (flow.Cmds.getD idx default) st.env
        cc.Cmds.Strs.EnvValDelAllMark node.Strs.PathSep).1
      (lib.ApplyMappingGenEnvAndArgv (flow.Cmds.getD idx default) st.env
        cc.Cmds.Strs.EnvValDelAllMark node.Strs.PathSep).2 ind
      (descPre lib cc args (flow.Cmds.getD idx default) node cic running d t ind st))
    refine ⟨h1, ?_, ?_, fun _ => ?_⟩
    · rw [h2]; simp only [foldEntry, hpre.2.2]; simp [shownOf]
    · rw [h3]; simp only [foldEntry, hpre.2.2, hflow]; simp [rendersOf]
    · rw [h4 (by omega)]; simp only [foldEntry, hscr]
  · have hz : 0 < d.toNat := by omega
    have hnd : (0 < t ∧ 0 < d) := by omega
    simp only [hnd, and_self, if_true] at hpre
    have hcond : ¬ (t - (node.trivial + (flow.Cmds.getD idx default).TrivialLvl) ≤ 0 ∨ d ≤ 0) := by
      rw [htriv]; omega
    rw [if_neg hcond]
    have hmet : met.contains text = false := by
      simpa using hnew
    have hex := expanded_recurses dumpFlowRec lib cc args flow idx (flow.Cmds.getD idx default)
      node cic st.env
      (lib.ApplyMappingGenEnvAndArgv (flow.Cmds.getD idx default) st.env
        cc.Cmds.Strs.EnvValDelAllMark node.Strs.PathSep).1
      (lib.ApplyMappingGenEnvAndArgv (flow.Cmds.getD idx default) st.env
        cc.Cmds.Strs.EnvValDelAllMark node.Strs.PathSep).2 d
      (t - (node.trivial + (flow.Cmds.getD idx default).TrivialLvl)) ind met
      (descPre lib cc args (flow.Cmds.getD idx default) node cic running d t ind st) hft
      (by rw [htext]; exact hmet) (by rw [hflow]) (by rw [hflow]; exact hne)
      (by rw [hflow]; exact herr)
    simp only [hflow, htext, ht0] at hex
    rw [ht0, hex]
    refine ⟨?_, fun x hx => ?_⟩
    · obtain ⟨h1, h2, h3, _⟩ := hrec (subEntry lib cc args (flow.Cmds.getD idx default) node cic
        (lib.ApplyMappingGenEnvAndArgv (flow.Cmds.getD idx default) st.env
          cc.Cmds.Strs.EnvValDelAllMark node.Strs.PathSep).1
        (lib.ApplyMappingGenEnvAndArgv (flow.Cmds.getD idx default) st.env
          cc.Cmds.Strs.EnvValDelAllMark node.Strs.PathSep).2 d ind
        (expandPre lib cc args flow (flow.Cmds.getD idx default) node cic st.env
          (lib.ApplyMappingGenEnvAndArgv (flow.Cmds.getD idx default) st.env
            cc.Cmds.Strs.EnvValDelAllMark node.Strs.PathSep).1
          (lib.ApplyMappingGenEnvAndArgv (flow.Cmds.getD idx default) st.env
            cc.Cmds.Strs.EnvValDelAllMark node.Strs.PathSep).2 d ind met
          (descPre lib cc args (flow.Cmds.getD idx default) node cic running d t ind st)))
      obtain ⟨f1, f2⟩ := subFinish_done lib args flow idx cic
        (lib.ApplyMappingGenEnvAndArgv (flow.Cmds.getD idx default) st.env
          cc.Cmds.Strs.EnvValDelAllMark node.Strs.PathSep).1
        (lib.ApplyMappingGenEnvAndArgv (flow.Cmds.getD idx default) st.env
          cc.Cmds.Strs.EnvValDelAllMark node.Strs.PathSep).2 d ind _ h1
      have hep := (expandPre_frame lib cc args flow (flow.Cmds.getD idx default) node cic st.env
        (lib.ApplyMappingGenEnvAndArgv (flow.Cmds.getD idx default) st.env
          cc.Cmds.Strs.EnvValDelAllMark node.Strs.PathSep).1
        (lib.ApplyMappingGenEnvAndArgv (flow.Cmds.getD idx default) st.env
          cc.Cmds.Strs.EnvValDelAllMark node.Strs.PathSep).2 d ind met
        (descPre lib cc args (flow.Cmds.getD idx default) node cic running d t ind st)).2
      simp only [hz, if_true]
      refine ⟨f1, ?_, ?_, fun h => absurd h hd⟩
      · rw [f2, h2]; simp only [subEntry, hep, hpre.2.2]; simp [shownOf]
      · rw [f2, h3]; simp only [subEntry, hep, hpre.2.2, hflow]; simp [rendersOf]
    · simp only [List.mem_append, List.mem_singleton] at hx
      rcases hx with h | h
      · exact Or.inr h
      · exact Or.inl h

theorem step_none (dumpFlowRec : RecCall) (lib : Collab) (cc : Cli) (st : DumpState)
    (flow : ParsedCmds) (idx : Nat) (args : DumpFlowArgs) (running : Bool) (d t ind : Int)
    (met : List String) (h : (flow.Cmds.getD idx default).LastCmd = none) :
    dumpFlowCmd dumpFlowRec lib cc st flow idx args none running d t ind met =
      (⟨st, .done true⟩, met) := by
  unfold dumpFlowCmd
  simp only [ParsedCmd.LastCmd, ParsedCmd.LastCmdNode] at h
  cases hn : (flow.Cmds.getD idx default).Last.Matched.Cmd with
  | none => simp only [hn]
  | some node =>
    rw [hn] at h
    simp only [Option.some_bind] at h
    simp only [hn, h]

theorem recCall_empty (lib : Collab) (cc : Cli) (args : DumpFlowArgs) (running : Bool)
    (fuel : Nat) (s : DumpState) (f : ParsedCmds) (dd tt ii : Int) (h : f.Cmds = []) :
    recCall lib cc args running (fuel + 1) s f none dd tt ii = ⟨s, .done true⟩ := by
  simp only [recCall, dumpFlow, h, List.drop_nil, dumpFlowLoop]

theorem recCall_succ (lib : Collab) (cc : Cli) (args : DumpFlowArgs) (running : Bool)
    (fuel : Nat) (s : DumpState) (f : ParsedCmds) (dd tt ii : Int) :
    recCall lib cc args running (fuel + 1) s f none dd tt ii =
      (dumpFlowLoop (recCall lib cc args running fuel) lib cc f 0 args none running dd tt ii
        (f.Cmds.drop 0) 0 s []).1 := rfl

/-- The loop of `dumpFlow` over commands of a known shape, with a call stack
that reaches the nesting of the shape: the steps of the first `maxDepth` levels
are shown, every step below is rendered once, and with a depth budget of zero
or less nothing is printed. -/
theorem nested_loop (lib : Collab) (cc : Cli) (args : DumpFlowArgs) (running : Bool)
    (seen : List String) (cmds : List ParsedCmd) (shape : FlowShape)
    (h : Nested lib seen cmds shape) :
    ∀ (fuel : Nat), shape.nesting ≤ fuel →
    ∀ (flow : ParsedCmds) (fromCmdIdx i : Nat) (st : DumpState) (met : List String)
      (d t ind : Int),
      1 ≤ t → flow.Cmds.drop (fromCmdIdx + i) = cmds → (∀ x ∈ met, x ∈ seen) →
      Described st
        (dumpFlowLoop (recCall lib cc args running fuel) lib cc flow fromCmdIdx args none running
          d t ind cmds i st met).1
        (shape.levels d.toNat ind) (shape.renders d.toNat ind) (d ≤ 0) := by
  induction h with
  | done seen =>
    intro fuel _ flow fromCmdIdx i st met d t ind _ _ _
    exact Described.start st _
  | skip seen pc rest shape hnone hrest ih =>
    intro fuel hf flow fromCmdIdx i st met d t ind ht hdrop hmet
    obtain ⟨hget, hdr⟩ := getD_of_drop flow.Cmds (fromCmdIdx + i) pc rest hdrop
    have hstep := step_none (recCall lib cc args running fuel) lib cc st flow (fromCmdIdx + i)
      args running d t ind met (by rw [hget]; exact hnone)
    have hnext : dumpFlowLoop (recCall lib cc args running fuel) lib cc flow fromCmdIdx args none
        running d t ind (pc :: rest) i st met =
        dumpFlowLoop (recCall lib cc args running fuel) lib cc flow fromCmdIdx args none
          running d t ind rest (i + 1) st met := by
      by_cases he : pc.IsEmpty = true
      · simp only [dumpFlowLoop, he, if_true]
      · simp only [dumpFlowLoop, he, if_false, hstep, Bool.false_eq_true]
    rw [hnext]
    exact ih fuel hf flow fromCmdIdx (i + 1) st met d t ind ht hdr hmet
  | leaf seen pc rest shape node cic hnode hcic htriv hplain hflow hrest ih =>
    intro fuel hf flow fromCmdIdx i st met d t ind ht hdrop hmet
    obtain ⟨hget, hdr⟩ := getD_of_drop flow.Cmds (fromCmdIdx + i) pc rest hdrop
    simp only [FlowShape.nesting] at hf
    obtain ⟨k, hk⟩ : ∃ k, fuel = k + 1 := ⟨fuel - 1, by omega⟩
    have hstep := step_plain (recCall lib cc args running fuel) lib cc st flow (fromCmdIdx + i)
      args running d t ind met node cic (by rw [hget]; exact hnode) hcic
      (by rw [hget]; exact htriv) ht hplain hflow
      (fun s f dd tt ii hfc => by rw [hk]; exact recCall_empty lib cc args running k s f dd tt ii hfc)
    rw [hget] at hstep
    rw [dumpFlowLoop_next (recCall lib cc args running fuel) lib cc flow fromCmdIdx args running
      d t ind pc rest i st met (isEmpty_of_cmd pc node hnode) hstep.1.1, hstep.2]
    have hrest2 := ih fuel (by omega) flow fromCmdIdx (i + 1)
      (dumpFlowCmd (recCall lib cc args running fuel) lib cc st flow (fromCmdIdx + i) args none
        running d t ind met).1.st met d t ind ht hdr hmet
    have := hstep.1.then hrest2
    simpa only [FlowShape.levels, FlowShape.renders] using this
  | sub seen pc rest inner shape node cic toks text hnode hcic htriv hft hflow hne htext hnew herr
      hinner hrest ihin ihrest =>
    intro fuel hf flow fromCmdIdx i st met d t ind ht hdrop hmet
    obtain ⟨hget, hdr⟩ := getD_of_drop flow.Cmds (fromCmdIdx + i) pc rest hdrop
    simp only [FlowShape.nesting] at hf
    obtain ⟨k, hk⟩ : ∃ k, fuel = k + 1 := ⟨fuel - 1, by omega⟩
    have hrec : ∀ s, Described s
        (recCall lib cc args running fuel s (lib.Parse toks) none (d - 1) t (ind + 2))
        (inner.levels (d.toNat - 1) (ind + 2)) (inner.renders (d.toNat - 1) (ind + 2))
        (d - 1 ≤ 0) := by
      intro s
      rw [hk, recCall_succ]
      have h1 := ihin k (by omega) (lib.Parse toks) 0 0 s [] (d - 1) t (ind + 2) ht
        (by simp) (by simp)
      have e : (d - 1).toNat = d.toNat - 1 := by omega
      rw [e] at h1
      simpa using h1
    have hstep := step_sub (recCall lib cc args running fuel) lib cc st flow (fromCmdIdx + i)
      args running d t ind met node cic toks text _ _ (by rw [hget]; exact hnode) hcic
      (by rw [hget]; exact htriv) ht hft hflow hne htext (fun hm => hnew (hmet _ hm)) herr hrec
    rw [hget] at hstep
    rw [dumpFlowLoop_next (recCall lib cc args running fuel) lib cc flow fromCmdIdx args running
      d t ind pc rest i st met (isEmpty_of_cmd pc node hnode) hstep.1.1]
    have hrest2 := ihrest fuel (by omega) flow fromCmdIdx (i + 1)
      (dumpFlowCmd (recCall lib cc args running fuel) lib cc st flow (fromCmdIdx + i) args none
        running d t ind met).1.st
      (dumpFlowCmd (recCall lib cc args running fuel) lib cc st flow (fromCmdIdx + i) args none
        running d t ind met).2 d t ind ht hdr
      (fun x hx => by
        rcases hstep.2 x hx with h | h
        · rw [h]; exact List.mem_cons_self _ _
        · exact List.mem_cons_of_mem _ (hmet x h))
    have := hstep.1.then hrest2
    simpa only [FlowShape.levels, FlowShape.renders, List.cons_append] using this

/-- The steps of the first `k` levels are those of the first `min k n` levels
of a flow nested `n` levels deep. -/
theorem levels_min (shape : FlowShape) :
    ∀ (k : Nat) (ind : Int), shape.levels k ind = shape.levels (min k shape.nesting) ind := by
  induction shape with
  | done => intro k ind; rfl
  | leaf name rest ih =>
    intro k ind
    have h1 : (0 < min k (max 1 rest.nesting)) ↔ 0 < k := by omega
    have h2 : min (min k (max 1 rest.nesting)) rest.nesting = min k rest.nesting := by omega
    simp only [FlowShape.levels, FlowShape.nesting, h1]
    rw [ih k ind, ih (min k (max 1 rest.nesting)) ind, h2]
  | sub name inner rest ih1 ih2 =>
    intro k ind
    have h1 : (0 < min k (max (inner.nesting + 1) rest.nesting)) ↔ 0 < k := by omega
    have h2 : min (min k (max (inner.nesting + 1) rest.nesting)) rest.nesting =
        min k rest.nesting := by omega
    have h3 : min (min k (max (inner.nesting + 1) rest.nesting) - 1) inner.nesting =
        min (k - 1) inner.nesting := by omega
    simp only [FlowShape.levels, FlowShape.nesting, h1]
    rw [ih1 (k - 1) (ind + 2), ih1 (min k (max (inner.nesting + 1) rest.nesting) - 1) (ind + 2),
      h3, ih2 k ind, ih2 (min k (max (inner.nesting + 1) rest.nesting)) ind, h2]

theorem foldl_print (ls : List String) :
    ∀ s : DumpState, (ls.foldl DumpState.print s).trace = s.trace ∧
      (ls.foldl DumpState.print s).screen = s.screen ++ ls ∧
      (ls.foldl DumpState.print s).env = s.env := by
  induction ls with
  | nil => intro s; simp
  | cons x xs ih =>
    intro s
    simp only [List.foldl_cons, ih, DumpState.print, List.append_assoc, List.singleton_append,
      and_self]

/-- C2: for a flow whose commands from `fromCmdIdx` on have the shape `shape`
(no trivial marks, no duplicate sub-flows), nested `n = shape.nesting` levels
deep, described by `DumpFlowEx` without an executed record, with
`maxTrivial >= 1` and the depth budget `maxDepth = d` (a negative budget acts
as zero), on a call stack deeper than the nesting. The description returns with
success; the steps whose head line it prints are exactly the steps of the
first `min d n` levels, in order; every step with a sub-flow, and every plain
step below the level `d`, is rendered exactly once; with `d = 0` nothing is
printed but the title, the opening arrow and the closing arrow; and the
recursion into a sub-flow of a known shape with a depth budget of zero or less,
which is how the levels below `d` are described, prints nothing at all. -/
theorem C2_depth_budget (lib : Collab) (cc : Cli) (fuel : Nat) (heap : Heap)
    (screen : List String) (env : Nat) (flow : ParsedCmds) (fromCmdIdx : Nat)
    (args : DumpFlowArgs) (running : Bool) (shape : FlowShape)
    (hn : Nested lib [] (flow.Cmds.drop fromCmdIdx) shape) (hfuel : shape.nesting < fuel)
    (ht : 1 ≤ args.MaxTrivial) :
    (DumpFlowEx lib cc fuel heap screen env flow fromCmdIdx args none running).out = .done true ∧
    shownOf (DumpFlowEx lib cc fuel heap screen env flow fromCmdIdx args none running).trace =
      shape.levels (min args.MaxDepth.toNat shape.nesting) 0 ∧
    rendersOf (DumpFlowEx lib cc fuel heap screen env flow fromCmdIdx args none running).trace =
      shape.renders args.MaxDepth.toNat 0 ∧
    (args.MaxDepth ≤ 0 → flow.Cmds ≠ [] → ∃ e,
      (DumpFlowEx lib cc fuel heap screen env flow fromCmdIdx args none running).screen =
        screen ++ lib.PrintTipTitle (heap.getD env default) "flow executing description:" ++
          [lib.Color .Flowing "--->>>" (heap.getD env default) ++ "\n",
            lib.Color .Flowing "<<<---" e ++ "\n"]) ∧
    (∀ (fuel2 : Nat) (st2 : DumpState) (flow2 : ParsedCmds) (shape2 : FlowShape)
      (d2 t2 ind2 : Int), Nested lib [] flow2.Cmds shape2 → shape2.nesting < fuel2 → d2 ≤ 0 →
      1 ≤ t2 →
      (dumpFlow lib cc args running fuel2 st2 flow2 0 none d2 t2 ind2).out = .done true ∧
      (dumpFlow lib cc args running fuel2 st2 flow2 0 none d2 t2 ind2).st.screen =
        st2.screen) := by
  rw [← levels_min, ← and_assoc, ← and_assoc, ← and_assoc]
  refine ⟨?_, fun fuel2 st2 flow2 shape2 d2 t2 ind2 hn2 hf2 hd2 ht2 => ?_⟩
  swap
  · obtain ⟨k, hk⟩ : ∃ k, fuel2 = k + 1 := ⟨fuel2 - 1, by omega⟩
    subst hk
    have h := nested_loop lib cc args running [] _ shape2 hn2 k (by omega) flow2 0 0 st2 []
      d2 t2 ind2 ht2 rfl (by simp)
    exact ⟨h.1, h.2.2.2 hd2⟩
  rw [and_assoc, and_assoc]
  by_cases hlen : flow.Cmds.length = 0
  · have hnil : flow.Cmds = [] := List.length_eq_zero.mp hlen
    have hsh : shape = .done := by
      rw [hnil, List.drop_nil] at hn
      cases hn
      rfl
    subst hsh
    simp only [DumpFlowEx, hlen, if_true, shownOf, rendersOf, List.filterMap_nil,
      FlowShape.levels, FlowShape.renders, true_and]
    intro _ hne
    exact absurd hnil hne
  · obtain ⟨k, hk⟩ : ∃ k, fuel = k + 1 := ⟨fuel - 1, by omega⟩
    subst hk
    have hcl : (heap ++ [heap.getD env default]).getD heap.length default =
        heap.getD env default := by
      simp [List.getD_eq_getElem?_getD]
    have key : ∀ st2 : DumpState, st2.trace = [] →
        Described st2 (dumpFlow lib cc args running (k + 1) st2 flow fromCmdIdx none args.MaxDepth
          args.MaxTrivial 0) (shape.levels args.MaxDepth.toNat 0)
          (shape.renders args.MaxDepth.toNat 0) (args.MaxDepth ≤ 0) := by
      intro st2 _
      exact nested_loop lib cc args running [] _ shape hn k (by omega) flow fromCmdIdx 0 st2 []
        args.MaxDepth args.MaxTrivial 0 ht rfl (by simp)
    have hp := foldl_print (lib.PrintTipTitle (heap.getD env default)
      "flow executing description:") ⟨heap.getD env default, [], screen, []⟩
    simp only [DumpFlowEx, hlen, if_false, hcl]
    generalize (lib.PrintTipTitle (heap.getD env default) "flow executing description:").foldl
      DumpState.print ⟨heap.getD env default, [], screen, []⟩ = S1 at hp ⊢
    obtain ⟨p1, p2, p3⟩ := hp
    simp only at p1 p2 p3
    obtain ⟨h1, h2, h3, h4⟩ := key (S1.print (lib.Color .Flowing "--->>>" S1.env ++ "\n"))
      (by simp only [print_trace, p1])
    generalize dumpFlow lib cc args running (k + 1)
      (S1.print (lib.Color .Flowing "--->>>" S1.env ++ "\n")) flow fromCmdIdx none args.MaxDepth
      args.MaxTrivial 0 = R at h1 h2 h3 h4 ⊢
    obtain ⟨rst, rout⟩ := R
    simp only at h1 h2 h3 h4
    subst h1
    simp only [print_trace, p1, shownOf, rendersOf, List.filterMap_nil, List.nil_append] at h2 h3
    simp only [print_trace, true_and]
    refine ⟨h2, h3, fun h0 _ => ⟨rst.env, ?_⟩⟩
    simp only [DumpState.print, h4 h0, p2, p3, List.append_assoc, List.singleton_append]

/-- C2 at the spec's instance: the flow `l2`, nested 3 levels deep (`l2` runs
`l3`, `l3` runs `leaf`). With `maxDepth = 2` the steps `l2` and `l3` of the
first two levels are shown and the step `leaf` of the third is not; with
`maxDepth = 0` no step is shown; in both cases each of the three steps is
rendered once. -/
theorem C2_witness :
    nest3.nesting = 3 ∧
    (DumpFlowEx (exLib nestTable) exCli 4 [exEnv] [] 0 (exParse nestTable ["l2"]) 0
      (NewDumpFlowArgs.SetMaxDepth 2) none false).out = .done true ∧
    shownOf (DumpFlowEx (exLib nestTable) exCli 4 [exEnv] [] 0 (exParse nestTable ["l2"]) 0
      (NewDumpFlowArgs.SetMaxDepth 2) none false).trace = [(0, "l2"), (2, "l3")] ∧
    rendersOf (DumpFlowEx (exLib nestTable) exCli 4 [exEnv] [] 0 (exParse nestTable ["l2"]) 0
      (NewDumpFlowArgs.SetMaxDepth 2) none false).trace = [(0, "l2"), (2, "l3"), (4, "leaf")] ∧
    shownOf (DumpFlowEx (exLib nestTable) exCli 4 [exEnv] [] 0 (exParse nestTable ["l2"]) 0
      (NewDumpFlowArgs.SetMaxDepth 0) none false).trace = [] ∧
    rendersOf (DumpFlowEx (exLib nestTable) exCli 4 [exEnv] [] 0 (exParse nestTable ["l2"]) 0
      (NewDumpFlowArgs.SetMaxDepth 0) none false).trace = [(0, "l2"), (2, "l3"), (4, "leaf")] := by
  have hleaf : Nested (exLib nestTable) [] [exInvoke (exNormalNode "leaf")]
      (.leaf "leaf" .done) :=
    Nested.leaf [] (exInvoke (exNormalNode "leaf")) [] .done (exNormalNode "leaf")
      (exCmd CmdTypeNormal []) rfl rfl (by decide) (by decide)
      (fun _ _ => Or.inr ⟨rfl, by decide, by decide⟩) (Nested.done [])
  have h3 : Nested (exLib nestTable) [] [exInvoke (exFlowNode "l3" ["leaf"])]
      (.sub "l3" (.leaf "leaf" .done) .done) :=
    Nested.sub [] (exInvoke (exFlowNode "l3" ["leaf"])) [] (.leaf "leaf" .done) .done
      (exFlowNode "l3" ["leaf"]) (exCmd CmdTypeFlow ["leaf"]) ["leaf"] "leaf" rfl rfl (by decide)
      (by decide) (fun _ _ => rfl) (by decide) (fun _ _ => rfl) (by decide) (by decide)
      hleaf (Nested.done _)
  have h2 : Nested (exLib nestTable) [] ((exParse nestTable ["l2"]).Cmds.drop 0) nest3 :=
    Nested.sub [] (exInvoke (exFlowNode "l2" ["l3"])) [] (.sub "l3" (.leaf "leaf" .done) .done)
      .done (exFlowNode "l2" ["l3"]) (exCmd CmdTypeFlow ["l3"]) ["l3"] "l3" rfl rfl (by decide)
      (by decide) (fun _ _ => rfl) (by decide) (fun _ _ => rfl) (by decide) (by decide)
      h3 (Nested.done _)
  have hA := C2_depth_budget (exLib nestTable) exCli 4 [exEnv] [] 0 (exParse nestTable ["l2"]) 0
    (NewDumpFlowArgs.SetMaxDepth 2) false nest3 h2 (by decide) (by decide)
  have hB := C2_depth_budget (exLib nestTable) exCli 4 [exEnv] [] 0 (exParse nestTable ["l2"]) 0
    (NewDumpFlowArgs.SetMaxDepth 0) false nest3 h2 (by decide) (by decide)
  exact ⟨by decide, hA.1, hA.2.1.trans (by decide), hA.2.2.1.trans (by decide),
    hB.2.1.trans (by decide), hB.2.2.1.trans (by decide)⟩

end Ticat
